import Mathlib

/-!
ModelFitGUI neural-network core: embedding and verified properties.

A shallow embedding of `NNetUnit`, `NNetWeightedConnect`, `NeuralNet` and
`NNetTrainer` (src/ModelFitGUI).  A C++ `double` is an element of a linearly
ordered field `α` (the reals for the calculus statements, the rationals when a
definition is evaluated); a C++ `int` is an `Int`; a `std::vector` is a `List`.
An out-of-range vector index, a thrown library exception or the use of an
unset member has no defined result and is `none`.
-/

/-! ## NNetUnit.h / NNetUnit.cpp -/

/-- ActiveT: the activation kinds, in declaration order (integer codes 0..13). -/
inductive ActiveT where
  | kThreshold | kUnipolar | kBipolar | kTanh | kGauss | kArctan | kSin
  | kCos | kSinC | kElliot | kLinear | kISRU | kSoftSign | kSoftPlus
  deriving DecidableEq, Repr

/-- The functions of `<math.h>` that the activation code calls
(`fabs` is the absolute value of the ordered field). -/
structure Libm (α : Type) where
  exp : α → α
  tanh : α → α
  atan : α → α
  sin : α → α
  cos : α → α
  sqrt : α → α
  log : α → α

/-- The data members of a NNetUnit. -/
structure NNetUnit (α : Type) where
  mActivationType : ActiveT
  mInput : α
  mSlope : α
  mAmplify : α

section Unit

variable {α : Type} [LinearOrderedField α]

/-- NNetUnit::NNetUnit(): the default unit settings. -/
def NNetUnit.new : NNetUnit α :=
  { mActivationType := ActiveT.kThreshold, mInput := -1, mSlope := 1, mAmplify := 1 }

/-- NNetUnit::NNetUnit(activationMode, slope, amplify): a non-positive slope or
amplify is ignored, which leaves that member unset; the unit is then unusable
and the result is `none`. -/
def NNetUnit.construct (activationMode : ActiveT) (slope amplify : α) : Option (NNetUnit α) :=
  if 0 < slope ∧ 0 < amplify then
    some { mActivationType := activationMode, mInput := -1, mSlope := slope, mAmplify := amplify }
  else none

/-- NNetUnit::setActivationType. -/
def NNetUnit.setActivationType (u : NNetUnit α) (activationType : ActiveT) : NNetUnit α :=
  { u with mActivationType := activationType }

/-- NNetUnit::setInput. -/
def NNetUnit.setInput (u : NNetUnit α) (input : α) : NNetUnit α :=
  { u with mInput := input }

/-- NNetUnit::setSlope: invalid values are ignored. -/
def NNetUnit.setSlope (u : NNetUnit α) (slope : α) : NNetUnit α :=
  if 0 < slope then { u with mSlope := slope } else u

/-- NNetUnit::setAmplify: invalid values are ignored. -/
def NNetUnit.setAmplify (u : NNetUnit α) (amplify : α) : NNetUnit α :=
  if 0 < amplify then { u with mAmplify := amplify } else u

/-- NNetUnit::getActivation: `activation` starts at 0, the switch on the kind
assigns it, and the result is `mAmplify * activation`. -/
def NNetUnit.getActivation (m : Libm α) (u : NNetUnit α) : α :=
  let activation : α :=
    match u.mActivationType with
    | ActiveT.kThreshold => if u.mInput ≥ 0 then 1 * u.mSlope else 0
    | ActiveT.kUnipolar => 1.0 / (1.0 + m.exp (-u.mSlope * u.mInput))
    | ActiveT.kBipolar => (2.0 / (1.0 + m.exp (-u.mSlope * u.mInput))) - 1
    | ActiveT.kTanh => m.tanh (u.mSlope * u.mInput)
    | ActiveT.kGauss => m.exp (-u.mSlope * u.mInput * u.mInput)
    | ActiveT.kArctan => m.atan (u.mSlope * u.mInput)
    | ActiveT.kSin => m.sin (u.mSlope * u.mInput)
    | ActiveT.kCos => m.cos (u.mSlope * u.mInput)
    | ActiveT.kSinC =>
        if |u.mInput| < 0.00001 then 1.0
        else m.sin (u.mSlope * u.mInput) / (u.mSlope * u.mInput)
    | ActiveT.kElliot => ((u.mSlope * u.mInput) / 2) / (1 + |u.mSlope * u.mInput|) + 0.5
    | ActiveT.kLinear => u.mSlope * u.mInput
    | ActiveT.kISRU => u.mInput / m.sqrt (1 + u.mSlope * u.mInput * u.mInput)
    | ActiveT.kSoftSign => (u.mSlope * u.mInput) / (1 + |u.mSlope * u.mInput|)
    | ActiveT.kSoftPlus => m.log (1 + m.exp (u.mSlope * u.mInput))
  u.mAmplify * activation

/-- NNetTrainer::getGradient: `gradient` starts at 0, the switch on the kind
assigns it, and the result is `amplify * gradient`. -/
def getGradient (m : Libm α) (unitType : ActiveT) (slope amplify x : α) : α :=
  let gradient : α :=
    match unitType with
    | ActiveT.kThreshold => if x = 0 then slope else 0
    | ActiveT.kUnipolar =>
        let expMX := m.exp (-slope * x)
        let expMX1 := 1 + expMX
        (slope * expMX) / (expMX1 * expMX1)
    | ActiveT.kBipolar =>
        let expMX := m.exp (-slope * x)
        let expMX1 := 1 + expMX
        (2 * slope * expMX) / (expMX1 * expMX1)
    | ActiveT.kTanh =>
        let tanMX := m.tanh (slope * x)
        slope * (1 - (tanMX * tanMX))
    | ActiveT.kGauss => -2 * slope * x * m.exp (-slope * x * x)
    | ActiveT.kArctan => slope / (1 + slope * slope * x * x)
    | ActiveT.kSin => slope * m.cos (slope * x)
    | ActiveT.kCos => -slope * m.sin (slope * x)
    | ActiveT.kSinC =>
        if |x| < 0.00001 then 0
        else (slope * x * m.cos (slope * x) - m.sin (slope * x)) / (slope * x * x)
    | ActiveT.kElliot =>
        let absMX1 := 1 + |slope * x|
        (0.5 * slope) / (absMX1 * absMX1)
    | ActiveT.kLinear => slope
    | ActiveT.kISRU =>
        let grad := 1 / m.sqrt (1 + slope * x * x)
        grad * grad * grad
    | ActiveT.kSoftSign =>
        let absMX1 := 1 + |slope * x|
        slope / (absMX1 * absMX1)
    | ActiveT.kSoftPlus =>
        let expMX := m.exp (slope * x)
        (slope * expMX) / (1 + expMX)
  amplify * gradient

/-- The activation of a unit of the given kind and settings at input `x`:
`forward(kind, slope, amplify, x)`. -/
def forward (m : Libm α) (kind : ActiveT) (slope amplify x : α) : α :=
  NNetUnit.getActivation m
    { mActivationType := kind, mInput := x, mSlope := slope, mAmplify := amplify }

end Unit

/-- The real-number reading of `<math.h>`. -/
noncomputable def realLibm : Libm ℝ :=
  { exp := Real.exp, tanh := Real.tanh, atan := Real.arctan, sin := Real.sin,
    cos := Real.cos, sqrt := Real.sqrt, log := Real.log }

/-! ## The C library generator and vector primitives -/

/-- The state of the `<cstdlib>` generator: the platform constant RAND_MAX and
the raw values from which the coming calls of rand() are drawn. -/
structure RandState where
  RAND_MAX : Nat
  stream : Nat → Nat

/-- A call of rand(): a value in 0..RAND_MAX and the advanced state. -/
def rand (g : RandState) : Nat × RandState :=
  (g.stream 0 % (g.RAND_MAX + 1), { g with stream := fun n => g.stream (n + 1) })

section Vector

variable {β : Type}

/-- The element `v[i]` of a vector for a C++ `int` index; an index outside the
vector has no defined result. -/
def vecAt (v : List β) (i : Int) : Option β :=
  if 0 ≤ i then v[i.toNat]? else none

/-- The assignment `v[i] = x` for a C++ `int` index; an index outside the
vector has no defined result. -/
def vecAssign (v : List β) (i : Int) (x : β) : Option (List β) :=
  if 0 ≤ i ∧ i < v.length then some (v.set i.toNat x) else none

/-- The call `v.resize(n)` with value-initialised new elements; a negative
`int` converts to a size beyond max_size and the call throws. -/
def vecResize (zero : β) (v : List β) (n : Int) : Option (List β) :=
  if n < 0 then none
  else some (v.take n.toNat ++ List.replicate (n.toNat - v.length) zero)

/-- The call `copy(src.begin(), src.end(), dst.begin())`: writing past the end
of the destination has no defined result. -/
def vecCopy (src dst : List β) : Option (List β) :=
  if src.length ≤ dst.length then some (src ++ dst.drop src.length) else none

end Vector

/-! ## NNetWeightedConnect.h / NNetWeightedConnect.cpp -/

/-- The data members of a NNetWeightedConnect. -/
structure NNetWeightedConnect (α : Type) where
  mNumInNodes : Int
  mNumOutNodes : Int
  mInputs : List α
  mOutputs : List α
  mWeights : List (List α)

section Connect

variable {α : Type} [LinearOrderedField α]

/-- NNetWeightedConnect::NNetWeightedConnect(): the default connection settings. -/
def NNetWeightedConnect.new : NNetWeightedConnect α :=
  { mNumInNodes := -1, mNumOutNodes := -1, mInputs := [], mOutputs := [], mWeights := [] }

/-- The component `initRange * (rand() / RAND_MAX) - (initRange / 2)` computed
from the generator value `r`. -/
def initVal (RAND_MAX : Nat) (initRange : α) (r : Nat) : α :=
  initRange * ((r : α) / (RAND_MAX : α)) - (initRange / 2)

/-- The inner loop of initialiseWeights: one weight vector of `n` random
components. -/
def initVec (initRange : α) : Nat → RandState → List α × RandState
  | 0, g => ([], g)
  | n + 1, g =>
    (initVal g.RAND_MAX initRange (rand g).1 :: (initVec initRange n (rand g).2).1,
      (initVec initRange n (rand g).2).2)

/-- The outer loop of initialiseWeights: `rows` weight vectors of `n`
components each. -/
def initRows (initRange : α) (n : Nat) : Nat → RandState → List (List α) × RandState
  | 0, g => ([], g)
  | rows + 1, g =>
    ((initVec initRange n g).1 :: (initRows initRange n rows (initVec initRange n g).2).1,
      (initRows initRange n rows (initVec initRange n g).2).2)

/-- NNetWeightedConnect::initialiseWeights: a weight vector for each output
node is pushed onto mWeights. -/
def NNetWeightedConnect.initialiseWeights (c : NNetWeightedConnect α) (initRange : α)
    (g : RandState) : NNetWeightedConnect α × RandState :=
  ({ c with mWeights :=
      c.mWeights ++ (initRows initRange c.mNumInNodes.toNat c.mNumOutNodes.toNat g).1 },
    (initRows initRange c.mNumInNodes.toNat c.mNumOutNodes.toNat g).2)

/-- NNetWeightedConnect::NNetWeightedConnect(numInNodes, numOutNodes): invalid
data is ignored, which leaves the node counts unset; the connection is then
unusable and the result is `none`.  The weights use the default range 2.0. -/
def NNetWeightedConnect.construct (numInNodes numOutNodes : Int) (g : RandState) :
    Option (NNetWeightedConnect α × RandState) :=
  if 0 < numInNodes ∧ 0 < numOutNodes then
    some (NNetWeightedConnect.initialiseWeights
      { mNumInNodes := numInNodes, mNumOutNodes := numOutNodes, mInputs := [], mOutputs := [],
        mWeights := [] } 2.0 g)
  else none

/-- NNetWeightedConnect::setNumNodes: invalid data is ignored. -/
def NNetWeightedConnect.setNumNodes (c : NNetWeightedConnect α) (numInNodes numOutNodes : Int)
    (initRange : α) (g : RandState) : NNetWeightedConnect α × RandState :=
  if 0 < numInNodes ∧ 0 < numOutNodes ∧ 0 < initRange then
    NNetWeightedConnect.initialiseWeights
      { c with mNumInNodes := numInNodes, mNumOutNodes := numOutNodes } initRange g
  else (c, g)

/-- NNetWeightedConnect::setInputs: a vector whose size is not the number of
input nodes is ignored; otherwise mInputs is sized if empty and overwritten. -/
def NNetWeightedConnect.setInputs (c : NNetWeightedConnect α) (inputs : List α) :
    Option (NNetWeightedConnect α) :=
  if (inputs.length : Int) = c.mNumInNodes then do
    let sized ← if c.mInputs.isEmpty then vecResize 0 c.mInputs c.mNumInNodes else some c.mInputs
    let copied ← vecCopy inputs sized
    pure { c with mInputs := copied }
  else some c

/-- NNetWeightedConnect::getNodeValue: the weighted sum for one output node,
accumulated from 0 in index order. -/
def NNetWeightedConnect.getNodeValue (c : NNetWeightedConnect α) (node : Int) : Option α := do
  let nodeVec ← vecAt c.mWeights node
  if c.mNumInNodes = (nodeVec.length : Int) then
    (List.range c.mNumInNodes.toNat).foldlM
      (fun value (i : Nat) => do
        let w ← vecAt nodeVec (i : Int)
        let x ← vecAt c.mInputs (i : Int)
        pure (value + w * x)) (0 : α)
  else pure 0

/-- NNetWeightedConnect::calculateOutput: mOutputs is emptied and refilled with
the value of every output node. -/
def NNetWeightedConnect.calculateOutput (c : NNetWeightedConnect α) :
    Option (NNetWeightedConnect α) := do
  let outs ← (List.range c.mNumOutNodes.toNat).mapM (fun (i : Nat) => c.getNodeValue (i : Int))
  pure { c with mOutputs := outs }

/-- NNetWeightedConnect::getOutputs: the caller's vector is resized to the
number of output nodes if needed, the outputs are recalculated and copied
into it.  The result is the connection and the caller's vector. -/
def NNetWeightedConnect.getOutputs (c : NNetWeightedConnect α) (outputs : List α) :
    Option (NNetWeightedConnect α × List α) := do
  let resized ←
    if (outputs.length : Int) ≠ c.mNumOutNodes then vecResize 0 outputs c.mNumOutNodes
    else some outputs
  let c1 ← c.calculateOutput
  let copied ← vecCopy c1.mOutputs resized
  pure (c1, copied)

/-- NNetWeightedConnect::getWeightVector: the caller's vector becomes the
weight vector of the node; a node index out of range leaves it as it is. -/
def NNetWeightedConnect.getWeightVector (c : NNetWeightedConnect α) (node : Int)
    (weights : List α) : List α :=
  if node < (c.mWeights.length : Int) ∧ 0 ≤ node then
    match c.mWeights[node.toNat]? with
    | some vecWeights => vecWeights
    | none => weights
  else weights

/-- NNetWeightedConnect::setWeightVector: the weight vector of the node is
overwritten when the index is in range and the sizes agree. -/
def NNetWeightedConnect.setWeightVector (c : NNetWeightedConnect α) (node : Int)
    (weights : List α) : NNetWeightedConnect α :=
  if node < (c.mWeights.length : Int) ∧ 0 ≤ node then
    match c.mWeights[node.toNat]? with
    | some row =>
      if row.length = weights.length then
        { c with mWeights := c.mWeights.set node.toNat weights }
      else c
    | none => c
  else c

end Connect

/-! ## NeuralNet.h / NeuralNet.cpp -/

/-- The data members of a NeuralNet. -/
structure NeuralNet (α : Type) where
  mNumInputs : Int
  mNumOutputs : Int
  mNumLayers : Int
  mOutUnitType : ActiveT
  mOutUnitSlope : α
  mOutUnitAmplify : α
  mLayers : List (NNetWeightedConnect α)
  mActivations : List (List α)
  mUnitInputs : List (List α)
  mActiveUnits : List ActiveT
  mActiveSlope : List α
  mActiveAmplify : List α

/-- The locals of getResponse that live across its layer loop, with the two
caches being rebuilt. -/
structure ResponseState (α : Type) where
  unit : NNetUnit α
  inputVec : List α
  outputVec : List α
  mUnitInputs : List (List α)
  mActivations : List (List α)

section Net

variable {α : Type} [LinearOrderedField α]

/-- NeuralNet::NeuralNet(): the empty network with the default output unit
settings. -/
def NeuralNet.new : NeuralNet α :=
  { mNumInputs := 0, mNumOutputs := 0, mNumLayers := 0,
    mOutUnitType := ActiveT.kThreshold, mOutUnitSlope := 1.0, mOutUnitAmplify := 1.0,
    mLayers := [], mActivations := [], mUnitInputs := [],
    mActiveUnits := [], mActiveSlope := [], mActiveAmplify := [] }

/-- NeuralNet::clearNeuralNetwork. -/
def NeuralNet.clearNeuralNetwork (_net : NeuralNet α) : NeuralNet α :=
  { mNumInputs := 0, mNumOutputs := 0, mNumLayers := 0,
    mOutUnitType := ActiveT.kThreshold, mOutUnitSlope := 1, mOutUnitAmplify := 1,
    mLayers := [], mActivations := [], mUnitInputs := [],
    mActiveUnits := [], mActiveSlope := [], mActiveAmplify := [] }

/-- NeuralNet::setNumInputs: invalid values are ignored. -/
def NeuralNet.setNumInputs (net : NeuralNet α) (numInputs : Int) : NeuralNet α :=
  if 0 < numInputs then { net with mNumInputs := numInputs } else net

/-- NeuralNet::setNumOutputs: invalid values are ignored. -/
def NeuralNet.setNumOutputs (net : NeuralNet α) (numOutputs : Int) : NeuralNet α :=
  if 0 < numOutputs then { net with mNumOutputs := numOutputs } else net

/-- NeuralNet::setOutputUnitType. -/
def NeuralNet.setOutputUnitType (net : NeuralNet α) (unitType : ActiveT) : NeuralNet α :=
  { net with mOutUnitType := unitType }

/-- NeuralNet::setOutputUnitSlope: invalid values are ignored. -/
def NeuralNet.setOutputUnitSlope (net : NeuralNet α) (slope : α) : NeuralNet α :=
  if 0 < slope then { net with mOutUnitSlope := slope } else net

/-- NeuralNet::setOutputUnitAmplify: invalid values are ignored. -/
def NeuralNet.setOutputUnitAmplify (net : NeuralNet α) (amplify : α) : NeuralNet α :=
  if 0 < amplify then { net with mOutUnitAmplify := amplify } else net

/-- The part of addLayer shared by both branches once `connect` is sized:
the layer details are stored and the layer count is incremented. -/
def NeuralNet.storeLayer (net : NeuralNet α) (unitType : ActiveT) (slope amplify : α) :
    NeuralNet α :=
  { net with
    mActiveUnits := net.mActiveUnits ++ [unitType],
    mActiveSlope := net.mActiveSlope ++ [slope],
    mActiveAmplify := net.mActiveAmplify ++ [amplify],
    mNumLayers := net.mNumLayers + 1 }

/-- The tail of addLayer, "connect the last hidden layer to the output layer":
`connect` overwrites the old output connections (or is pushed for the first
layer), then the new output connections are sized and pushed; returns 0. -/
def NeuralNet.connectOutput (net : NeuralNet α) (connect : NNetWeightedConnect α)
    (numUnits : Int) (initRange : α) (g : RandState) :
    Option (Int × NeuralNet α × RandState) := do
  let layers ←
    if 1 < net.mNumLayers then vecAssign net.mLayers (net.mNumLayers - 1) connect
    else some (net.mLayers ++ [connect])
  let output := NNetWeightedConnect.setNumNodes NNetWeightedConnect.new numUnits
    net.mNumOutputs initRange g
  pure (0, { net with mLayers := layers ++ [output.1] }, output.2)

/-- NeuralNet::addLayer: the return value (0 or -1), the network and the
generator state afterwards. -/
def NeuralNet.addLayer (net : NeuralNet α) (numUnits : Int) (unitType : ActiveT)
    (initRange slope amplify : α) (g : RandState) :
    Option (Int × NeuralNet α × RandState) :=
  if 0 < numUnits ∧ 0 < initRange ∧ 0 < slope ∧ 0 < amplify then
    if net.mNumLayers = 0 then
      if 0 < net.mNumInputs then
        let connect := NNetWeightedConnect.setNumNodes NNetWeightedConnect.new
          net.mNumInputs numUnits initRange g
        NeuralNet.connectOutput (net.storeLayer unitType slope amplify) connect.1
          numUnits initRange connect.2
      else some (-1, net, g)
    else
      if 0 < net.mNumLayers then do
        let last ← vecAt net.mLayers (net.mNumLayers - 1)
        let nInputs := last.mNumOutNodes
        let connect := NNetWeightedConnect.setNumNodes NNetWeightedConnect.new
          nInputs numUnits initRange g
        NeuralNet.connectOutput (net.storeLayer unitType slope amplify) connect.1
          numUnits initRange connect.2
      else some (-1, net, g)
  else some (-1, net, g)

/-- NeuralNet::getLayerDetails: the three reference parameters afterwards;
an index that is not a hidden layer leaves them as they are. -/
def NeuralNet.getLayerDetails (net : NeuralNet α) (n : Int) (cur : ActiveT × α × α) :
    Option (ActiveT × α × α) :=
  if 0 ≤ n ∧ n < net.mNumLayers then do
    let unitType ← vecAt net.mActiveUnits n
    let slope ← vecAt net.mActiveSlope n
    let amplify ← vecAt net.mActiveAmplify n
    pure (unitType, slope, amplify)
  else some cur

/-- The loop "activate the net units": each unit input is set on the unit and
its activation is pushed onto the (cleared) input vector. -/
def activateUnits (m : Libm α) : NNetUnit α → List α → NNetUnit α × List α
  | unit, [] => (unit, [])
  | unit, x :: rest =>
    ((activateUnits m (unit.setInput x) rest).1,
      (unit.setInput x).getActivation m :: (activateUnits m (unit.setInput x) rest).2)

/-- The branch inside the layer loop of getResponse that sets the unit type,
slope and amplification: those of hidden layer `i` when `i < mNumLayers`,
those of the output layer otherwise. -/
def NeuralNet.configureUnit (net : NeuralNet α) (unit : NNetUnit α) (i : Nat) :
    Option (NNetUnit α) :=
  if (i : Int) < net.mNumLayers then do
    let unitType ← vecAt net.mActiveUnits (i : Int)
    let slope ← vecAt net.mActiveSlope (i : Int)
    let amplify ← vecAt net.mActiveAmplify (i : Int)
    pure (((unit.setActivationType unitType).setSlope slope).setAmplify amplify)
  else
    pure (((unit.setActivationType net.mOutUnitType).setSlope net.mOutUnitSlope).setAmplify
      net.mOutUnitAmplify)

/-- One pass of the loop of getResponse over the layers i = 1 .. mNumLayers. -/
def NeuralNet.propagateLayer (m : Libm α) (net : NeuralNet α) (st : ResponseState α)
    (i : Nat) : Option (ResponseState α) := do
  let connect ← vecAt net.mLayers (i : Int)
  let connect ← connect.setInputs st.inputVec
  let applied ← connect.getOutputs []
  let outputVec := applied.2
  let unit ← net.configureUnit st.unit i
  let activated := activateUnits m unit outputVec
  pure { unit := activated.1, inputVec := activated.2, outputVec := outputVec,
         mUnitInputs := st.mUnitInputs ++ [outputVec],
         mActivations := st.mActivations ++ [activated.2] }

/-- NeuralNet::getResponse: the network (with its caches) and the caller's
output vector afterwards. -/
def NeuralNet.getResponse (m : Libm α) (net : NeuralNet α) (inputs outputs : List α) :
    Option (NeuralNet α × List α) :=
  if net.mNumInputs ≤ (inputs.length : Int) ∧ 0 < net.mNumLayers then do
    let inputVec ← (List.range net.mNumInputs.toNat).mapM (fun (i : Nat) => vecAt inputs (i : Int))
    let connect ← vecAt net.mLayers 0
    let connect ← connect.setInputs inputVec
    let applied ← connect.getOutputs []
    let outputVec := applied.2
    let unitType ← vecAt net.mActiveUnits 0
    let slope ← vecAt net.mActiveSlope 0
    let amplify ← vecAt net.mActiveAmplify 0
    let unit ← NNetUnit.construct unitType slope amplify
    let activated := activateUnits m unit outputVec
    let st ← (List.range' 1 net.mNumLayers.toNat).foldlM (NeuralNet.propagateLayer m net)
      { unit := activated.1, inputVec := activated.2, outputVec := outputVec,
        mUnitInputs := [outputVec], mActivations := [activated.2] }
    pure ({ net with mActivations := st.mActivations, mUnitInputs := st.mUnitInputs },
      st.inputVec)
  else some (net, outputs)

/-- NeuralNet::getActivations: a layer index outside the cache leaves the
caller's vector as it is. -/
def NeuralNet.getActivations (net : NeuralNet α) (activations : List α) (layer : Int) : List α :=
  if 0 ≤ layer ∧ layer < (net.mActivations.length : Int) then
    (net.mActivations[layer.toNat]?).getD activations
  else activations

/-- NeuralNet::getUnitInputs: a layer index outside the cache leaves the
caller's vector as it is. -/
def NeuralNet.getUnitInputs (net : NeuralNet α) (inputs : List α) (layer : Int) : List α :=
  if 0 ≤ layer ∧ layer < (net.mUnitInputs.length : Int) then
    (net.mUnitInputs[layer.toNat]?).getD inputs
  else inputs

/-- NeuralNet::getWeightedConnect: a layer index outside mLayers leaves the
caller's connection as it is. -/
def NeuralNet.getWeightedConnect (net : NeuralNet α) (wtConnect : NNetWeightedConnect α)
    (layer : Int) : NNetWeightedConnect α :=
  if 0 ≤ layer ∧ layer < (net.mLayers.length : Int) then
    (net.mLayers[layer.toNat]?).getD wtConnect
  else wtConnect

/-- NeuralNet::setWeightedConnect: a layer index outside mLayers is ignored. -/
def NeuralNet.setWeightedConnect (net : NeuralNet α) (wtConnect : NNetWeightedConnect α)
    (layer : Int) : NeuralNet α :=
  if 0 ≤ layer ∧ layer < (net.mLayers.length : Int) then
    { net with mLayers := net.mLayers.set layer.toNat wtConnect }
  else net

end Net

/-! ## State predicates and reference functions used by the statements -/

section Predicates

variable {α : Type} [LinearOrderedField α]

/-- The bookkeeping of a network kept by the constructor, the setters and
addLayer: a non-negative layer count, no connection before the first layer and
one more connection than hidden layers afterwards, one entry of layer details
per hidden layer, and set node counts on every connection into a hidden layer. -/
structure NeuralNet.Consistent (net : NeuralNet α) : Prop where
  layersNonneg : 0 ≤ net.mNumLayers
  numConnect : net.mLayers.length = if net.mNumLayers = 0 then 0 else net.mNumLayers.toNat + 1
  numUnits : net.mActiveUnits.length = net.mNumLayers.toNat
  numSlopes : net.mActiveSlope.length = net.mNumLayers.toNat
  numAmplifies : net.mActiveAmplify.length = net.mNumLayers.toNat
  hidden : ∀ (i : Nat) (c : NNetWeightedConnect α), i < net.mNumLayers.toNat →
    net.mLayers[i]? = some c → 0 < c.mNumInNodes ∧ 0 < c.mNumOutNodes

/-- The generator used in the evaluated examples: RAND_MAX = 32767 and the raw
values 0, 1, 2, ... -/
def exampleRand : RandState := { RAND_MAX := 32767, stream := fun n => n }

end Predicates

section Reference

variable {α : Type} [LinearOrderedField α]

/-- The unit count of hidden layer `i`: the number of output nodes of the
connection into it (0 if there is no such connection). -/
def NeuralNet.layerUnits (net : NeuralNet α) (i : Nat) : Int :=
  match net.mLayers[i]? with
  | some c => c.mNumOutNodes
  | none => 0

/-- The fan-in of the next hidden layer: the input width if it is the first
hidden layer, else the unit count of the previous hidden layer. -/
def NeuralNet.fanIn (net : NeuralNet α) : Int :=
  if net.mNumLayers = 0 then net.mNumInputs else net.layerUnits (net.mNumLayers.toNat - 1)

end Reference

section Shapes

variable {α : Type} [LinearOrderedField α]

/-- A usable connection: set node counts, one weight row per output node, one
weight per input node in each row, and stored inputs (if any) that cover the
input nodes. -/
structure NNetWeightedConnect.Sized (c : NNetWeightedConnect α) : Prop where
  inPos : 0 < c.mNumInNodes
  outPos : 0 < c.mNumOutNodes
  rows : (c.mWeights.length : Int) = c.mNumOutNodes
  cols : ∀ row ∈ c.mWeights, (row.length : Int) = c.mNumInNodes
  inputs : c.mInputs = [] ∨ c.mNumInNodes ≤ (c.mInputs.length : Int)

/-- A well-formed network: positive input and output widths, L >= 1 hidden
layers with L+1 usable connections that chain from the input width through the
hidden layers to the output width, and positive slope and amplify for every
hidden layer and for the output layer. -/
structure NeuralNet.WellFormed (net : NeuralNet α) : Prop where
  inputsPos : 0 < net.mNumInputs
  outputsPos : 0 < net.mNumOutputs
  layersPos : 0 < net.mNumLayers
  numConnect : net.mLayers.length = net.mNumLayers.toNat + 1
  numUnits : net.mActiveUnits.length = net.mNumLayers.toNat
  numSlopes : net.mActiveSlope.length = net.mNumLayers.toNat
  numAmplifies : net.mActiveAmplify.length = net.mNumLayers.toNat
  slopePos : ∀ s ∈ net.mActiveSlope, 0 < s
  amplifyPos : ∀ a ∈ net.mActiveAmplify, 0 < a
  outSlopePos : 0 < net.mOutUnitSlope
  outAmplifyPos : 0 < net.mOutUnitAmplify
  sized : ∀ c ∈ net.mLayers, c.Sized
  first : ∀ c, net.mLayers[0]? = some c → c.mNumInNodes = net.mNumInputs
  chain : ∀ (i : Nat) (c d : NNetWeightedConnect α), net.mLayers[i]? = some c →
    net.mLayers[i + 1]? = some d → d.mNumInNodes = c.mNumOutNodes
  last : ∀ c, net.mLayers[net.mNumLayers.toNat]? = some c → c.mNumOutNodes = net.mNumOutputs

/-- A network serialize can write: a non-negative hidden-layer count L, L+1
connections each holding one weight row per output node with one weight per
input node, and at least L entries in each of the per-layer arrays. -/
structure NeuralNet.Storable (net : NeuralNet α) : Prop where
  layersNonneg : 0 ≤ net.mNumLayers
  numConnect : net.mLayers.length = net.mNumLayers.toNat + 1
  numUnits : net.mNumLayers.toNat ≤ net.mActiveUnits.length
  numSlopes : net.mNumLayers.toNat ≤ net.mActiveSlope.length
  numAmplifies : net.mNumLayers.toNat ≤ net.mActiveAmplify.length
  rows : ∀ c ∈ net.mLayers, (c.mWeights.length : Int) = c.mNumOutNodes
  cols : ∀ c ∈ net.mLayers, ∀ row ∈ c.mWeights, (row.length : Int) = c.mNumInNodes

/-- The state kept by addLayer on a network whose widths were set first:
as `WellFormed`, but the hidden-layer count may still be 0, in which case the
connection list is empty. -/
structure NeuralNet.Built (net : NeuralNet α) : Prop where
  inputsPos : 0 < net.mNumInputs
  outputsPos : 0 < net.mNumOutputs
  layersNonneg : 0 ≤ net.mNumLayers
  numConnect : net.mLayers.length = if net.mNumLayers = 0 then 0 else net.mNumLayers.toNat + 1
  numUnits : net.mActiveUnits.length = net.mNumLayers.toNat
  numSlopes : net.mActiveSlope.length = net.mNumLayers.toNat
  numAmplifies : net.mActiveAmplify.length = net.mNumLayers.toNat
  slopePos : ∀ s ∈ net.mActiveSlope, 0 < s
  amplifyPos : ∀ a ∈ net.mActiveAmplify, 0 < a
  outSlopePos : 0 < net.mOutUnitSlope
  outAmplifyPos : 0 < net.mOutUnitAmplify
  sized : ∀ c ∈ net.mLayers, c.Sized
  first : ∀ c, net.mLayers[0]? = some c → c.mNumInNodes = net.mNumInputs
  chain : ∀ (i : Nat) (c d : NNetWeightedConnect α), net.mLayers[i]? = some c →
    net.mLayers[i + 1]? = some d → d.mNumInNodes = c.mNumOutNodes
  last : ∀ c, net.mLayers[net.mNumLayers.toNat]? = some c → c.mNumOutNodes = net.mNumOutputs

/-- The weighted sum `sum_j row[j] * x[j]`. -/
def dot (row x : List α) : α := (List.zipWith (fun w v => w * v) row x).sum

/-- The pre-activation vector of a connection stage: entry i is
`sum_j W[i][j] * x[j]`. -/
def preActivation (c : NNetWeightedConnect α) (x : List α) : List α :=
  c.mWeights.map (fun row => dot row x)

/-- The metadata (kind, slope, amplify) of connection stage `s`: that of hidden
layer `s` for `s < L`, the output-layer metadata for the last stage. -/
def NeuralNet.stageDetails (net : NeuralNet α) (s : Nat) : ActiveT × α × α :=
  if (s : Int) < net.mNumLayers then
    (net.mActiveUnits.getD s ActiveT.kThreshold, net.mActiveSlope.getD s 0,
      net.mActiveAmplify.getD s 0)
  else (net.mOutUnitType, net.mOutUnitSlope, net.mOutUnitAmplify)

/-- The post-activation vector of stage `s` on the stage input `x`:
`x_(s+1)[i] = forward(kind_s, slope_s, amplify_s, pre_s[i])`. -/
def NeuralNet.stageOutput (m : Libm α) (net : NeuralNet α) (s : Nat)
    (c : NNetWeightedConnect α) (x : List α) : List α :=
  (preActivation c x).map (fun p =>
    forward m (net.stageDetails s).1 (net.stageDetails s).2.1 (net.stageDetails s).2.2 p)

/-- The stages `s, s+1, ...` applied in order to the stage input `x`. -/
def NeuralNet.stagesFrom (m : Libm α) (net : NeuralNet α) :
    Nat → List (NNetWeightedConnect α) → List α → List α
  | _, [], x => x
  | s, c :: cs, x => NeuralNet.stagesFrom m net (s + 1) cs (net.stageOutput m s c x)

/-- The pre-activation and post-activation vectors of the stages `s, s+1, ...`
applied in order to the stage input `x`. -/
def NeuralNet.tracesFrom (m : Libm α) (net : NeuralNet α) :
    Nat → List (NNetWeightedConnect α) → List α → List (List α × List α)
  | _, [], _ => []
  | s, c :: cs, x =>
    (preActivation c x, net.stageOutput m s c x) ::
      NeuralNet.tracesFrom m net (s + 1) cs (net.stageOutput m s c x)

/-- The response the specification describes: x_0 is the first n input values
and the stages 0..L are applied in order. -/
def NeuralNet.responseSpec (m : Libm α) (net : NeuralNet α) (inputs : List α) : List α :=
  net.stagesFrom m 0 net.mLayers (inputs.take net.mNumInputs.toNat)

end Shapes

/-! ## A small network used for evaluated examples -/

/-- A math library for evaluations over the rationals that call none of its
functions (Threshold and Linear units only). -/
def exampleLibm : Libm ℚ :=
  { exp := id, tanh := id, atan := id, sin := id, cos := id, sqrt := id, log := id }

/-- A network over the rationals with 2 inputs, one hidden layer of 2 Linear
units (slope 1, amplify 2) and 1 Linear output unit (slope 3, amplify 1). -/
def exampleNet : NeuralNet ℚ :=
  { mNumInputs := 2, mNumOutputs := 1, mNumLayers := 1,
    mOutUnitType := ActiveT.kLinear, mOutUnitSlope := 3, mOutUnitAmplify := 1,
    mLayers :=
      [{ mNumInNodes := 2, mNumOutNodes := 2, mInputs := [], mOutputs := [],
         mWeights := [[1, 2], [3, 4]] },
       { mNumInNodes := 2, mNumOutNodes := 1, mInputs := [], mOutputs := [],
         mWeights := [[1, -1]] }],
    mActivations := [], mUnitInputs := [],
    mActiveUnits := [ActiveT.kLinear], mActiveSlope := [1], mActiveAmplify := [2] }

/-! ## NNetTrainer.h / NNetTrainer.cpp -/

/-- The data members of a NNetTrainer. -/
structure NNetTrainer (α : Type) where
  mNetError : α
  mLearnConst : α
  mMomentum : α
  mPrevOutWt : List α
  mPrevHidWt : List α
  mTrainInput : List (List α)
  mTrainTarget : List (List α)

/-- The locals of the weight-adjustment loops: the weight vector being
adjusted, the history of previous weightings and the running index into it. -/
structure AdjustState (α : Type) where
  weights : List α
  prevWt : List α
  prevIdx : Nat

/-- The locals of the loop over output nodes in the weight-adjustment routines:
the connection being adjusted, the history and the running index into it. -/
structure ConnectAdjust (α : Type) where
  wtConnect : NNetWeightedConnect α
  prevWt : List α
  prevIdx : Nat

/-- The locals of the layer loop of calcHiddenWtAdjust together with the
network being updated. -/
structure HiddenAdjust (α : Type) where
  nNet : NeuralNet α
  xVec : List α
  prevWt : List α
  prevIdx : Nat

section Trainer

variable {α : Type} [LinearOrderedField α]

/-- NNetTrainer::NNetTrainer(): zero error, learning constant 0.5, momentum 0. -/
def NNetTrainer.new : NNetTrainer α :=
  { mNetError := 0, mLearnConst := 0.5, mMomentum := 0, mPrevOutWt := [], mPrevHidWt := [],
    mTrainInput := [], mTrainTarget := [] }

/-- NNetTrainer::setLearningConstant: invalid values are ignored. -/
def NNetTrainer.setLearningConstant (tr : NNetTrainer α) (learnConst : α) : NNetTrainer α :=
  if 0 < learnConst then { tr with mLearnConst := learnConst } else tr

/-- NNetTrainer::setMomentum: invalid values are ignored. -/
def NNetTrainer.setMomentum (tr : NNetTrainer α) (momentum : α) : NNetTrainer α :=
  if 0 < momentum then { tr with mMomentum := momentum } else tr

/-- NNetTrainer::getNetError. -/
def NNetTrainer.getNetError (tr : NNetTrainer α) : α := tr.mNetError

/-- NNetTrainer::resetNetError. -/
def NNetTrainer.resetNetError (tr : NNetTrainer α) : NNetTrainer α :=
  { tr with mNetError := 0 }

/-- NNetTrainer::addToTrainingSet. -/
def NNetTrainer.addToTrainingSet (tr : NNetTrainer α) (inVec outVec : List α) : NNetTrainer α :=
  { tr with mTrainInput := tr.mTrainInput ++ [inVec], mTrainTarget := tr.mTrainTarget ++ [outVec] }

/-- NNetTrainer::addNewTrainingSet. -/
def NNetTrainer.addNewTrainingSet (tr : NNetTrainer α) (inVecs outVecs : List (List α)) :
    NNetTrainer α :=
  { tr with mTrainInput := inVecs, mTrainTarget := outVecs }

/-- NNetTrainer::calcNetworkError: `0.5 * pow(target[i] - response[i], 2)`
accumulated from 0 over the response. -/
def NNetTrainer.calcNetworkError (tr : NNetTrainer α) (response : List α) (nTarget : Int) :
    Option α := do
  let targetVec ← vecAt tr.mTrainTarget nTarget
  (List.range response.length).foldlM
    (fun error (i : Nat) => do
      let t ← vecAt targetVec (i : Int)
      let r ← vecAt response (i : Int)
      pure (error + 0.5 * (t - r) ^ 2)) (0 : α)

/-- NNetTrainer::calcOutputError: the error signal of every output unit is
pushed onto `outErr`. -/
def NNetTrainer.calcOutputError (m : Libm α) (tr : NNetTrainer α) (nNet : NeuralNet α)
    (outErr response : List α) (nTarget : Int) : Option (List α) := do
  let targetVec ← vecAt tr.mTrainTarget nTarget
  let outType := nNet.mOutUnitType
  let outSlope := nNet.mOutUnitSlope
  let outAmplify := nNet.mOutUnitAmplify
  let unitInputs := nNet.getUnitInputs [] nNet.mNumLayers
  let errs ← (List.range response.length).mapM
    (fun (i : Nat) => do
      let yi ← vecAt response (i : Int)
      let xi ← vecAt unitInputs (i : Int)
      let t ← vecAt targetVec (i : Int)
      pure ((t - yi) * getGradient m outType outSlope outAmplify xi))
  pure (outErr ++ errs)

/-- The innermost loop of calcHiddenError: the error of hidden unit `j`,
accumulated from 0 over the nodes `k` the unit connects to. -/
def hiddenUnitError (m : Libm α) (wtConnect : NNetWeightedConnect α) (details : ActiveT × α × α)
    (prevErr : List α) (xj : α) (j : Nat) : Option α :=
  (List.range wtConnect.mNumOutNodes.toNat).foldlM
    (fun error (k : Nat) => do
      let weights := wtConnect.getWeightVector (k : Int) []
      let e ← vecAt prevErr (k : Int)
      let w ← vecAt weights (j : Int)
      pure (error + getGradient m details.1 details.2.1 details.2.2 xj * e * w)) (0 : α)

/-- One pass of the layer loop of calcHiddenError for the connection index
`i` (from the last hidden layer back to the first): the state is the list of
layer errors so far and the previous layer error.  The three detail locals are
assigned by getLayerDetails, whose index i - 1 is a hidden layer on every
pass, so the value they hold before the call is never read. -/
def NNetTrainer.hiddenLayerError (m : Libm α) (nNet : NeuralNet α)
    (st : List (List α) × List α) (i : Nat) : Option (List (List α) × List α) := do
  let wtConnect := nNet.getWeightedConnect NNetWeightedConnect.new (i : Int)
  let nUnits := wtConnect.mNumInNodes
  let details ← nNet.getLayerDetails ((i : Int) - 1) (ActiveT.kThreshold, 0, 0)
  let unitInputs := nNet.getUnitInputs [] ((i : Int) - 1)
  let layerErr ← (List.range nUnits.toNat).mapM
    (fun (j : Nat) => do
      let xj ← vecAt unitInputs (j : Int)
      hiddenUnitError m wtConnect details st.2 xj j)
  pure (st.1 ++ [layerErr], layerErr)

/-- NNetTrainer::calcHiddenError: the layer errors are pushed onto `hidErr`,
last hidden layer first. -/
def NNetTrainer.calcHiddenError (m : Libm α) (hidErr : List (List α)) (outErr : List α)
    (nNet : NeuralNet α) : Option (List (List α)) := do
  let nHidden := nNet.mNumLayers
  let st ← ((List.range' 1 nHidden.toNat).reverse).foldlM
    (NNetTrainer.hiddenLayerError m nNet) (hidErr, outErr)
  pure st.1

/-- The body of the loop "calculate the total weight adjustment" (the same in
calcOutputWtAdjust and calcHiddenWtAdjust) for input node `j`. -/
def adjustWeight (learnConst momentum ei : α) (xVec : List α) (st : AdjustState α) (j : Nat) :
    Option (AdjustState α) := do
  let x ← vecAt xVec (j : Int)
  let dW := learnConst * ei * x
  let weighted ←
    if 0 < momentum then
      if st.prevIdx < st.prevWt.length then do
        let dWPrev ← vecAt st.prevWt (st.prevIdx : Int)
        let dW1 := dW + momentum * dWPrev
        let prev ← vecAssign st.prevWt (st.prevIdx : Int) dW1
        pure (dW1, prev)
      else pure (dW, st.prevWt ++ [dW])
    else pure (dW, st.prevWt)
  let w ← vecAt st.weights (j : Int)
  let weights ← vecAssign st.weights (j : Int) (w + weighted.1)
  pure { weights := weights, prevWt := weighted.2, prevIdx := st.prevIdx + 1 }

/-- The body of the loop "calculate the weight adjustments for each weighted
connection output unit" (the same in both routines) for output node `i`. -/
def adjustNode (learnConst momentum : α) (outErr xVec : List α) (st : ConnectAdjust α) (i : Nat) :
    Option (ConnectAdjust α) := do
  let ei ← vecAt outErr (i : Int)
  let weights := st.wtConnect.getWeightVector (i : Int) []
  let adjusted ← (List.range xVec.length).foldlM (adjustWeight learnConst momentum ei xVec)
    { weights := weights, prevWt := st.prevWt, prevIdx := st.prevIdx }
  pure { wtConnect := st.wtConnect.setWeightVector (i : Int) adjusted.weights,
         prevWt := adjusted.prevWt, prevIdx := adjusted.prevIdx }

/-- NNetTrainer::calcOutputWtAdjust: the trainer (its output history) and the
network afterwards. -/
def NNetTrainer.calcOutputWtAdjust (tr : NNetTrainer α) (outErr : List α) (nNet : NeuralNet α) :
    Option (NNetTrainer α × NeuralNet α) := do
  let n := nNet.mNumLayers
  let wtConnect := nNet.getWeightedConnect NNetWeightedConnect.new n
  let xVec := nNet.getActivations [] (n - 1)
  let nOut := wtConnect.mNumOutNodes
  let st ← (List.range nOut.toNat).foldlM (adjustNode tr.mLearnConst tr.mMomentum outErr xVec)
    { wtConnect := wtConnect, prevWt := tr.mPrevOutWt, prevIdx := 0 }
  pure ({ tr with mPrevOutWt := st.prevWt }, nNet.setWeightedConnect st.wtConnect n)

/-- One pass of the layer loop of calcHiddenWtAdjust for the connection index
`n` (from the last hidden layer back to the first). -/
def NNetTrainer.hiddenLayerAdjust (tr : NNetTrainer α) (hidErrSig : List (List α))
    (inputVec : List α) (maxHidLayIdx : Int) (st : HiddenAdjust α) (n : Nat) :
    Option (HiddenAdjust α) := do
  let wtConnect := st.nNet.getWeightedConnect NNetWeightedConnect.new (n : Int)
  let outErr ← vecAt hidErrSig (maxHidLayIdx - (n : Int))
  let xVec := if n = 0 then inputVec else st.nNet.getActivations st.xVec ((n : Int) - 1)
  let nOut := wtConnect.mNumOutNodes
  let adjusted ← (List.range nOut.toNat).foldlM
    (adjustNode tr.mLearnConst tr.mMomentum outErr xVec)
    { wtConnect := wtConnect, prevWt := st.prevWt, prevIdx := st.prevIdx }
  pure { nNet := st.nNet.setWeightedConnect adjusted.wtConnect (n : Int), xVec := xVec,
         prevWt := adjusted.prevWt, prevIdx := adjusted.prevIdx }

/-- NNetTrainer::calcHiddenWtAdjust: the trainer (its hidden history) and the
network afterwards. -/
def NNetTrainer.calcHiddenWtAdjust (tr : NNetTrainer α) (hidErrSig : List (List α))
    (inputVec : List α) (nNet : NeuralNet α) : Option (NNetTrainer α × NeuralNet α) := do
  let maxHidLayIdx := nNet.mNumLayers - 1
  let st ← ((List.range (maxHidLayIdx + 1).toNat).reverse).foldlM
    (NNetTrainer.hiddenLayerAdjust tr hidErrSig inputVec maxHidLayIdx)
    { nNet := nNet, xVec := [], prevWt := tr.mPrevHidWt, prevIdx := 0 }
  pure ({ tr with mPrevHidWt := st.prevWt }, st.nNet)

/-- The exchange of the elements at positions `i` and `j` of a vector. -/
def iterSwap (v : List Nat) (i j : Nat) : List Nat :=
  (v.set i (v.getD j 0)).set j (v.getD i 0)

/-- A model of std::random_shuffle driven by rand(): every position i >= 1 in
turn is exchanged with a position drawn from 0..i.  (Which exchanges the
library makes is implementation-defined; the result is a reordering.) -/
def randomShuffle : Nat → Nat → List Nat → RandState → List Nat × RandState
  | 0, _, v, g => (v, g)
  | steps + 1, i, v, g => randomShuffle steps (i + 1) (iterSwap v i ((rand g).1 % (i + 1))) (rand g).2

/-- The call `std::random_shuffle(idx.begin(), idx.end())`. -/
def random_shuffle (idx : List Nat) (g : RandState) : List Nat × RandState :=
  randomShuffle (idx.length - 1) 1 idx g

/-- The body of the loop of trainNeuralNet over the shuffled index list, for
the training-set index `index`. -/
def NNetTrainer.trainExample (m : Libm α) (st : NNetTrainer α × NeuralNet α) (index : Nat) :
    Option (NNetTrainer α × NeuralNet α) := do
  let trainVec ← vecAt st.1.mTrainInput (index : Int)
  let responded ← st.2.getResponse m trainVec []
  let outVec := responded.2
  let err ← st.1.calcNetworkError outVec (index : Int)
  let tr1 : NNetTrainer α := { st.1 with mNetError := st.1.mNetError + err }
  let outErrSig ← tr1.calcOutputError m responded.1 [] outVec (index : Int)
  let hidErrSig ← NNetTrainer.calcHiddenError m [] outErrSig responded.1
  let adjustedOut ← tr1.calcOutputWtAdjust outErrSig responded.1
  adjustedOut.1.calcHiddenWtAdjust hidErrSig trainVec adjustedOut.2

/-- NNetTrainer::trainNeuralNet: the trainer, the network and the generator
state afterwards. -/
def NNetTrainer.trainNeuralNet (m : Libm α) (tr : NNetTrainer α) (nNet : NeuralNet α)
    (g : RandState) : Option (NNetTrainer α × NeuralNet α × RandState) :=
  let nTrain := tr.mTrainInput.length
  let idx := List.range nTrain
  if 0 < nTrain then do
    let shuffled := random_shuffle idx g
    let st ← shuffled.1.foldlM (NNetTrainer.trainExample m) (tr, nNet)
    pure (st.1, st.2, shuffled.2)
  else some (tr, nNet, g)

end Trainer

/-! ## Reference functions for the training step -/

section TrainReference

variable {α : Type} [LinearOrderedField α]

/-- The weight matrix `W_s` of connection stage `s`. -/
def NeuralNet.weightsAt (net : NeuralNet α) (s : Nat) : List (List α) :=
  match net.mLayers[s]? with
  | some c => c.mWeights
  | none => []

/-- The pre-activation vector of stage `s` in the forward pass on `x`. -/
def NeuralNet.preAt (m : Libm α) (net : NeuralNet α) (x : List α) (s : Nat) : List α :=
  match (net.tracesFrom m 0 net.mLayers (x.take net.mNumInputs.toNat))[s]? with
  | some tr => tr.1
  | none => []

/-- The post-activation vector of stage `s` in the forward pass on `x`. -/
def NeuralNet.postAt (m : Libm α) (net : NeuralNet α) (x : List α) (s : Nat) : List α :=
  match (net.tracesFrom m 0 net.mLayers (x.take net.mNumInputs.toNat))[s]? with
  | some tr => tr.2
  | none => []

/-- The caches of `net` are those a forward pass on `x` leaves. -/
def NeuralNet.CachesOf (m : Libm α) (net : NeuralNet α) (x : List α) : Prop :=
  net.mUnitInputs
    = (net.tracesFrom m 0 net.mLayers (x.take net.mNumInputs.toNat)).map Prod.fst ∧
  net.mActivations
    = (net.tracesFrom m 0 net.mLayers (x.take net.mNumInputs.toNat)).map Prod.snd

/-- The vector feeding connection stage `s`: the raw training input for the
first connection, else the post-activation vector of hidden layer `s - 1`. -/
def NeuralNet.stageInput (m : Libm α) (net : NeuralNet α) (x : List α) (s : Nat) : List α :=
  if s = 0 then x else net.postAt m x (s - 1)

/-- The output-layer error signal:
`(target_i - response_i) * gradient(outputKind, outputSlope, outputAmplify, pre_i)`. -/
def outputDelta (m : Libm α) (details : ActiveT × α × α) (target response pre : List α) :
    List α :=
  (List.range response.length).map (fun i =>
    (target.getD i 0 - response.getD i 0) *
      getGradient m details.1 details.2.1 details.2.2 (pre.getD i 0))

/-- The back-propagated sum `sum_k delta[k] * W[k][j]`. -/
def backSum (W : List (List α)) (delta : List α) (j : Nat) : α :=
  ((List.range W.length).map (fun k => delta.getD k 0 * (W.getD k []).getD j 0)).sum

/-- The hidden-layer error signal:
`gradient(kind, slope, amplify, pre_j) * sum_k deltaNext[k] * W[k][j]`, where
`W` is the connection from this layer to the next. -/
def hiddenDelta (m : Libm α) (details : ActiveT × α × α) (W : List (List α))
    (deltaNext pre : List α) : List α :=
  (List.range pre.length).map (fun j =>
    getGradient m details.1 details.2.1 details.2.2 (pre.getD j 0) * backSum W deltaNext j)

/-- The error signal of the layer `k` steps before the output layer (k = 0 is
the output layer, k = L is the first hidden layer), for the example with
input `x` and target `t`, from the weights of `net`. -/
def NeuralNet.errorSignal (m : Libm α) (net : NeuralNet α) (x t : List α) : Nat → List α
  | 0 =>
    outputDelta m (net.mOutUnitType, net.mOutUnitSlope, net.mOutUnitAmplify) t
      (net.postAt m x net.mNumLayers.toNat) (net.preAt m x net.mNumLayers.toNat)
  | k + 1 =>
    hiddenDelta m (net.stageDetails (net.mNumLayers.toNat - (k + 1)))
      (net.weightsAt (net.mNumLayers.toNat - k)) (NeuralNet.errorSignal m net x t k)
      (net.preAt m x (net.mNumLayers.toNat - (k + 1)))

/-- The error signal `delta_s` of the layer that connection stage `s` feeds. -/
def NeuralNet.delta (m : Libm α) (net : NeuralNet α) (x t : List α) (s : Nat) : List α :=
  net.errorSignal m x t (net.mNumLayers.toNat - s)

/-- The adjusted weight row: `row[j] + learnConst * d * xin[j]` for every
input node `j`. -/
def adjustedRow (learnConst d : α) (row xin : List α) : List α :=
  (List.range row.length).map (fun j => row.getD j 0 + learnConst * d * xin.getD j 0)

/-- The adjusted weight matrix: `W[i][j] + learnConst * delta[i] * xin[j]` for
every output node `i` and input node `j`. -/
def adjustedWeights (learnConst : α) (W : List (List α)) (delta xin : List α) :
    List (List α) :=
  (List.range W.length).map (fun i => adjustedRow learnConst (delta.getD i 0) (W.getD i []) xin)

/-- The error `sum_i 0.5 * (target_i - response_i)^2` over the output units. -/
def halfSquaredError (target response : List α) : α :=
  ((List.range response.length).map
    (fun i => 0.5 * (target.getD i 0 - response.getD i 0) ^ 2)).sum

/-- The error of the training example `index` on the network as it is before
the update for that example. -/
def NNetTrainer.exampleError (m : Libm α) (st : NNetTrainer α × NeuralNet α) (index : Nat) : α :=
  halfSquaredError (st.1.mTrainTarget.getD index [])
    (st.2.responseSpec m (st.1.mTrainInput.getD index []))

/-- The sum of the example errors over the examples presented in `order`,
each on the network left by the updates for the examples before it. -/
def NNetTrainer.epochError (m : Libm α) : NNetTrainer α × NeuralNet α → List Nat → α
  | _, [] => 0
  | st, index :: rest =>
    NNetTrainer.exampleError m st index +
      (match NNetTrainer.trainExample m st index with
       | some st' => NNetTrainer.epochError m st' rest
       | none => 0)

/-- The order in which a call of trainNeuralNet presents the examples. -/
def NNetTrainer.presented (tr : NNetTrainer α) (g : RandState) : List Nat :=
  (random_shuffle (List.range tr.mTrainInput.length) g).1

/-- The result of `k` successive calls of trainNeuralNet. -/
def NNetTrainer.trainCalls (m : Libm α) :
    Nat → NNetTrainer α × NeuralNet α × RandState → Option (NNetTrainer α × NeuralNet α × RandState)
  | 0, st => some st
  | k + 1, st => do
    let st' ← NNetTrainer.trainNeuralNet m st.1 st.2.1 st.2.2
    NNetTrainer.trainCalls m k st'

/-- The sum of the epoch errors of `k` successive calls of trainNeuralNet. -/
def NNetTrainer.callsError (m : Libm α) : Nat → NNetTrainer α × NeuralNet α × RandState → α
  | 0, _ => 0
  | k + 1, st =>
    NNetTrainer.epochError m (st.1, st.2.1) (st.1.presented st.2.2) +
      (match NNetTrainer.trainNeuralNet m st.1 st.2.1 st.2.2 with
       | some st' => NNetTrainer.callsError m k st'
       | none => 0)

/-- A training set that fits the network: as many targets as inputs, every
input vector with exactly inputWidth values and every target vector with at
least outputWidth values. -/
structure NNetTrainer.Fits (tr : NNetTrainer α) (net : NeuralNet α) : Prop where
  paired : tr.mTrainTarget.length = tr.mTrainInput.length
  inputs : ∀ x ∈ tr.mTrainInput, (x.length : Int) = net.mNumInputs
  targets : ∀ t ∈ tr.mTrainTarget, net.mNumOutputs ≤ (t.length : Int)

end TrainReference

section AdjustReference

variable {α : Type} [LinearOrderedField α]

/-- The input values for the weighted connections `n` as calcHiddenWtAdjust
picks them: the training input for the first connection, else the cached
activations of hidden layer `n - 1`. -/
def NeuralNet.adjustInput (net : NeuralNet α) (inputVec : List α) (n : Nat) : List α :=
  if n = 0 then inputVec else net.getActivations [] ((n : Int) - 1)

/-- Connection `c'` is connection `c` with a weight matrix of the same shape:
as many rows, each with one weight per input node. -/
def SameShape (c c' : NNetWeightedConnect α) : Prop :=
  ∃ W, c' = { c with mWeights := W } ∧ W.length = c.mWeights.length ∧
    ∀ row ∈ W, (row.length : Int) = c.mNumInNodes

end AdjustReference

/-- A trainer over the rationals with the default settings (learning constant
0.5, no momentum) holding the single example input (1, 1), target (0). -/
def exampleTrainer : NNetTrainer ℚ :=
  (NNetTrainer.new : NNetTrainer ℚ).addToTrainingSet [1, 1] [0]

/-! ## Serialization (NeuralNet::serialize / NeuralNet::deserialize)

The model text is a sequence of whitespace-delimited tokens.  Every number is
taken to be printed and re-read exactly, so a token is the value it denotes. -/

/-- A token of the model text: a printed `int`, a printed `double` or a single
non-blank character. -/
inductive Token (α : Type) where
  | int : Int → Token α
  | real : α → Token α
  | char : Char → Token α

/-- An input string stream: the tokens not yet read and the fail state. -/
structure IStream (α : Type) where
  toks : List (Token α)
  fail : Bool

/-- The locals of serialize that live across its loops: the text written so
far and the weight vector last fetched. -/
structure WriteState (α : Type) where
  out : List (Token α)
  weights : List α

/-- The state of the layer loop of deserialize: the network being filled, the
stream and the generator. -/
structure ReadState (α : Type) where
  net : NeuralNet α
  stream : IStream α
  rand : RandState

/-- The outcome of deserialize: whether "Error deserializing!" was reported,
the network and the generator state afterwards. -/
structure Deserialized (α : Type) where
  reported : Bool
  net : NeuralNet α
  rand : RandState

/-- The integer code of an activation kind, as `<<` prints the enumeration. -/
def ActiveT.toInt : ActiveT → Int
  | ActiveT.kThreshold => 0
  | ActiveT.kUnipolar => 1
  | ActiveT.kBipolar => 2
  | ActiveT.kTanh => 3
  | ActiveT.kGauss => 4
  | ActiveT.kArctan => 5
  | ActiveT.kSin => 6
  | ActiveT.kCos => 7
  | ActiveT.kSinC => 8
  | ActiveT.kElliot => 9
  | ActiveT.kLinear => 10
  | ActiveT.kISRU => 11
  | ActiveT.kSoftSign => 12
  | ActiveT.kSoftPlus => 13

/-- The cast `(ActiveT)code` for the codes 0..13 of the enumerators.  The C++
cast keeps every other code as it is and deserialize goes on with it; such a
code has no kind in this model, so a model text carrying one has no result
here. -/
def ActiveT.ofInt (code : Int) : Option ActiveT :=
  if code < 0 then none
  else
    match code.toNat with
    | 0 => some ActiveT.kThreshold
    | 1 => some ActiveT.kUnipolar
    | 2 => some ActiveT.kBipolar
    | 3 => some ActiveT.kTanh
    | 4 => some ActiveT.kGauss
    | 5 => some ActiveT.kArctan
    | 6 => some ActiveT.kSin
    | 7 => some ActiveT.kCos
    | 8 => some ActiveT.kSinC
    | 9 => some ActiveT.kElliot
    | 10 => some ActiveT.kLinear
    | 11 => some ActiveT.kISRU
    | 12 => some ActiveT.kSoftSign
    | 13 => some ActiveT.kSoftPlus
    | _ => none

section Serial

variable {α : Type} [LinearOrderedField α]

/-- The extraction `inStream >> value` for an `int`; `cur` is what the variable
holds before (`none` if it is unset).  A failed stream and the end of the text
leave the variable as it is; a token that is not an integer makes the
extraction fail and zero is written. -/
def IStream.extractInt (s : IStream α) (cur : Option Int) : Option Int × IStream α :=
  if s.fail then (cur, s)
  else
    match s.toks with
    | [] => (cur, { s with fail := true })
    | Token.int i :: rest => (some i, { toks := rest, fail := false })
    | _ :: _ => (some 0, { s with fail := true })

/-- The extraction `inStream >> value` for a `double`; an integer token reads
as the same number. -/
def IStream.extractDouble (s : IStream α) (cur : Option α) : Option α × IStream α :=
  if s.fail then (cur, s)
  else
    match s.toks with
    | [] => (cur, { s with fail := true })
    | Token.real x :: rest => (some x, { toks := rest, fail := false })
    | Token.int i :: rest => (some (i : α), { toks := rest, fail := false })
    | Token.char _ :: _ => (some 0, { s with fail := true })

/-- The extraction `inStream >> delim` for a `char` whose value is never used.
Reading a character out of a number token is outside this model (`none`). -/
def IStream.extractChar (s : IStream α) : Option (IStream α) :=
  if s.fail then some s
  else
    match s.toks with
    | [] => some { s with fail := true }
    | Token.char _ :: rest => some { toks := rest, fail := false }
    | _ :: _ => none

/-- The innermost loop of serialize: the weights 0 .. nIn-1 of the fetched
weight vector are written. -/
def serializeRow (nIn : Int) (weights : List α) : Option (List (Token α)) :=
  (List.range nIn.toNat).mapM (fun (k : Nat) => do
    let w ← vecAt weights (k : Int)
    pure (Token.real w))

/-- The loop of serialize over the output nodes of a connection, for node `j`. -/
def serializeNode (connect : NNetWeightedConnect α) (st : WriteState α) (j : Nat) :
    Option (WriteState α) := do
  let weights := connect.getWeightVector (j : Int) st.weights
  let row ← serializeRow connect.mNumInNodes weights
  pure { out := st.out ++ row, weights := weights }

/-- The loop of serialize over the layers, for the layer index `i`. -/
def NeuralNet.serializeLayer (net : NeuralNet α) (st : WriteState α) (i : Nat) :
    Option (WriteState α) := do
  let connect ← vecAt net.mLayers (i : Int)
  let nIn := connect.mNumInNodes
  let nOut := connect.mNumOutNodes
  let nUnit ← if (i : Int) < net.mNumLayers then
      (vecAt net.mActiveUnits (i : Int)).map ActiveT.toInt else some 0
  let sUnit ← if (i : Int) < net.mNumLayers then vecAt net.mActiveSlope (i : Int) else some 0.0
  let aUnit ← if (i : Int) < net.mNumLayers then vecAt net.mActiveAmplify (i : Int) else some 0.0
  let header : List (Token α) :=
    [Token.char 'L', Token.int nIn, Token.int nOut, Token.int nUnit, Token.real sUnit,
      Token.real aUnit]
  (List.range nOut.toNat).foldlM (serializeNode connect)
    { out := st.out ++ header, weights := st.weights }

/-- NeuralNet::serialize: the tokens of the string representation. -/
def NeuralNet.serialize (net : NeuralNet α) : Option (List (Token α)) := do
  let main : List (Token α) :=
    [Token.int net.mNumInputs, Token.int net.mNumOutputs, Token.int net.mNumLayers,
      Token.int net.mOutUnitType.toInt, Token.real net.mOutUnitSlope,
      Token.real net.mOutUnitAmplify]
  let st ← (List.range (net.mNumLayers + 1).toNat).foldlM net.serializeLayer
    { out := main, weights := [] }
  pure st.out

/-- The innermost loop of deserialize: `n` weights are extracted into the
unset local `wgt` and pushed onto the weight vector. -/
def deserializeRow : Nat → IStream α → Option (List α × IStream α)
  | 0, s => some ([], s)
  | n + 1, s => do
    let wgt ← (s.extractDouble none).1
    let rest ← deserializeRow n (s.extractDouble none).2
    pure (wgt :: rest.1, rest.2)

/-- The loop of deserialize over the output nodes of a connection, for node
`j`. -/
def deserializeNode (nIn : Int) (st : NNetWeightedConnect α × IStream α) (j : Nat) :
    Option (NNetWeightedConnect α × IStream α) := do
  let row ← deserializeRow nIn.toNat st.2
  pure (st.1.setWeightVector (j : Int) row.1, row.2)

/-- The loop of deserialize over the layers, for one layer: the six fields are
extracted into unset locals, the connection is constructed and filled, and the
connection and the layer details are pushed. -/
def deserializeLayer (st : ReadState α) (_i : Nat) : Option (ReadState α) := do
  let s1 ← st.stream.extractChar
  let rIn := s1.extractInt none
  let rOut := rIn.2.extractInt none
  let rUnit := rOut.2.extractInt none
  let rS := rUnit.2.extractDouble none
  let rA := rS.2.extractDouble none
  let nIn ← rIn.1
  let nOut ← rOut.1
  let nUnit ← rUnit.1
  let sUnit ← rS.1
  let aUnit ← rA.1
  let built ← NNetWeightedConnect.construct nIn nOut st.rand
  let filled ← (List.range nOut.toNat).foldlM (deserializeNode nIn) (built.1, rA.2)
  let unitType ← ActiveT.ofInt nUnit
  pure { net := { st.net with
                  mLayers := st.net.mLayers ++ [filled.1],
                  mActiveUnits := st.net.mActiveUnits ++ [unitType],
                  mActiveSlope := st.net.mActiveSlope ++ [sUnit],
                  mActiveAmplify := st.net.mActiveAmplify ++ [aUnit] },
         stream := filled.2, rand := built.2 }

/-- NeuralNet::deserialize applied to the network `net`. -/
def NeuralNet.deserialize (net : NeuralNet α) (inData : List (Token α)) (g : RandState) :
    Option (Deserialized α) :=
  let inStream : IStream α := { toks := inData, fail := false }
  if inStream.fail then some { reported := true, net := net, rand := g }
  else do
    let r1 := inStream.extractInt (some net.mNumInputs)
    let r2 := r1.2.extractInt (some net.mNumOutputs)
    let r3 := r2.2.extractInt (some net.mNumLayers)
    let r4 := r3.2.extractInt none
    let r5 := r4.2.extractDouble (some net.mOutUnitSlope)
    let r6 := r5.2.extractDouble (some net.mOutUnitAmplify)
    let numInputs ← r1.1
    let numOutputs ← r2.1
    let numLayers ← r3.1
    let outUnitType ← r4.1
    let outUnitSlope ← r5.1
    let outUnitAmplify ← r6.1
    let unitType ← ActiveT.ofInt outUnitType
    let st ← (List.range (numLayers + 1).toNat).foldlM deserializeLayer
      { net := { net with
                 mNumInputs := numInputs, mNumOutputs := numOutputs, mNumLayers := numLayers,
                 mOutUnitType := unitType, mOutUnitSlope := outUnitSlope,
                 mOutUnitAmplify := outUnitAmplify },
        stream := r6.2, rand := g }
    pure { reported := false, net := st.net, rand := st.rand }

/-- The tokens of one connection with its layer details: the literal L, the
node counts, the kind code, slope and amplify, then the weights row by row. -/
def layerText (c : NNetWeightedConnect α) (details : ActiveT × α × α) (hidden : Bool) :
    List (Token α) :=
  [Token.char 'L', Token.int c.mNumInNodes, Token.int c.mNumOutNodes,
    Token.int (if hidden then details.1.toInt else 0),
    Token.real (if hidden then details.2.1 else 0),
    Token.real (if hidden then details.2.2 else 0)] ++
  (c.mWeights.map (fun row => row.map Token.real)).flatten

/-- The tokens of the connections `i, i+1, ...` in order; a connection below
the hidden-layer count carries the details of its hidden layer, the last one
carries 0, 0, 0. -/
def NeuralNet.layersText (net : NeuralNet α) : Nat → List (NNetWeightedConnect α) → List (Token α)
  | _, [] => []
  | i, c :: cs =>
    layerText c (net.stageDetails i) (decide ((i : Int) < net.mNumLayers)) ++
      NeuralNet.layersText net (i + 1) cs

/-- The token sequence of the serialization format: the six main fields, then
every connection in order. -/
def NeuralNet.modelText (net : NeuralNet α) : List (Token α) :=
  [Token.int net.mNumInputs, Token.int net.mNumOutputs, Token.int net.mNumLayers,
    Token.int net.mOutUnitType.toInt, Token.real net.mOutUnitSlope,
    Token.real net.mOutUnitAmplify] ++ net.layersText 0 net.mLayers

/-- A connection as deserialize rebuilds it: the node counts and the weights,
with no stored inputs or outputs. -/
def NNetWeightedConnect.reread (c : NNetWeightedConnect α) : NNetWeightedConnect α :=
  { c with mInputs := [], mOutputs := [] }

/-- The network deserialize builds in a fresh network from the serialization
of `net`: the widths, the layer count, the output-layer details and the
connections of `net`, and its layer details followed by one more entry
(Threshold, 0, 0) read from the output-facing connection. -/
def NeuralNet.reread (net : NeuralNet α) : NeuralNet α :=
  { mNumInputs := net.mNumInputs, mNumOutputs := net.mNumOutputs, mNumLayers := net.mNumLayers,
    mOutUnitType := net.mOutUnitType, mOutUnitSlope := net.mOutUnitSlope,
    mOutUnitAmplify := net.mOutUnitAmplify,
    mLayers := net.mLayers.map NNetWeightedConnect.reread,
    mActivations := [], mUnitInputs := [],
    mActiveUnits := net.mActiveUnits ++ [ActiveT.kThreshold],
    mActiveSlope := net.mActiveSlope ++ [0],
    mActiveAmplify := net.mActiveAmplify ++ [0] }

end Serial

/-! ## Sequences of building calls on a network -/

/-- A call of one of the public building methods of NeuralNet, with its
arguments. -/
inductive NetCall (α : Type) where
  | setNumInputs (numInputs : Int)
  | setNumOutputs (numOutputs : Int)
  | setOutputUnitType (unitType : ActiveT)
  | setOutputUnitSlope (slope : α)
  | setOutputUnitAmplify (amplify : α)
  | addLayer (numUnits : Int) (unitType : ActiveT) (initRange slope amplify : α)
  | clearNeuralNetwork

section Calls

variable {α : Type} [LinearOrderedField α]

/-- The network and the generator after one building call (the return value of
addLayer is dropped). -/
def NeuralNet.perform (st : NeuralNet α × RandState) :
    NetCall α → Option (NeuralNet α × RandState)
  | NetCall.setNumInputs n => some (st.1.setNumInputs n, st.2)
  | NetCall.setNumOutputs n => some (st.1.setNumOutputs n, st.2)
  | NetCall.setOutputUnitType k => some (st.1.setOutputUnitType k, st.2)
  | NetCall.setOutputUnitSlope s => some (st.1.setOutputUnitSlope s, st.2)
  | NetCall.setOutputUnitAmplify a => some (st.1.setOutputUnitAmplify a, st.2)
  | NetCall.addLayer n k r s a => (st.1.addLayer n k r s a st.2).map (fun res => res.2)
  | NetCall.clearNeuralNetwork => some (st.1.clearNeuralNetwork, st.2)

/-- The network and the generator after a sequence of building calls. -/
def NeuralNet.performAll (st : NeuralNet α × RandState) (calls : List (NetCall α)) :
    Option (NeuralNet α × RandState) :=
  calls.foldlM NeuralNet.perform st

end Calls

/-! ## Sequences of calls on a weighted connection -/

/-- A call of one of the public methods of NNetWeightedConnect that change its
state, with its arguments. -/
inductive ConnectCall (α : Type) where
  | setNumNodes (numInNodes numOutNodes : Int) (initRange : α)
  | setInputs (inputs : List α)
  | getOutputs (outputs : List α)
  | setWeightVector (node : Int) (weights : List α)

section ConnectCalls

variable {α : Type} [LinearOrderedField α]

/-- The connection and the generator after one call (the vector getOutputs
fills is dropped). -/
def NNetWeightedConnect.perform (st : NNetWeightedConnect α × RandState) :
    ConnectCall α → Option (NNetWeightedConnect α × RandState)
  | ConnectCall.setNumNodes nIn nOut r => some (st.1.setNumNodes nIn nOut r st.2)
  | ConnectCall.setInputs v => (st.1.setInputs v).map (fun c => (c, st.2))
  | ConnectCall.getOutputs o => (st.1.getOutputs o).map (fun res => (res.1, st.2))
  | ConnectCall.setWeightVector node w => some (st.1.setWeightVector node w, st.2)

/-- The connection and the generator after a sequence of calls. -/
def NNetWeightedConnect.performAll (st : NNetWeightedConnect α × RandState)
    (calls : List (ConnectCall α)) : Option (NNetWeightedConnect α × RandState) :=
  calls.foldlM NNetWeightedConnect.perform st

/-- What holds of a connection in every state its public methods lead to from
the default constructor: either it is unsized (node counts -1, no weight row),
or its node counts are positive, it has at least one row per output node and a
row with one weight per input node; and stored inputs, if any, have the length
of some row. -/
structure NNetWeightedConnect.Reached (c : NNetWeightedConnect α) : Prop where
  counts : (c.mNumInNodes = -1 ∧ c.mNumOutNodes = -1 ∧ c.mWeights = []) ∨
    (0 < c.mNumInNodes ∧ 0 < c.mNumOutNodes ∧ c.mNumOutNodes ≤ (c.mWeights.length : Int) ∧
      c.mNumInNodes.toNat ∈ c.mWeights.map List.length)
  inputs : c.mInputs = [] ∨ c.mInputs.length ∈ c.mWeights.map List.length

end ConnectCalls

/-! ## Sequences of training-set calls on a trainer -/

/-- A call of one of the two public methods of NNetTrainer that store training
data, with its arguments. -/
inductive TrainerCall (α : Type) where
  | addToTrainingSet (inVec outVec : List α)
  | addNewTrainingSet (inVecs outVecs : List (List α))

section TrainerCalls

variable {α : Type} [LinearOrderedField α]

/-- The trainer after one training-set call. -/
def NNetTrainer.perform (tr : NNetTrainer α) : TrainerCall α → NNetTrainer α
  | TrainerCall.addToTrainingSet inVec outVec => tr.addToTrainingSet inVec outVec
  | TrainerCall.addNewTrainingSet inVecs outVecs => tr.addNewTrainingSet inVecs outVecs

/-- The trainer after a sequence of training-set calls. -/
def NNetTrainer.performAll (tr : NNetTrainer α) (calls : List (TrainerCall α)) :
    NNetTrainer α :=
  calls.foldl NNetTrainer.perform tr

/-- A call that supplies as many target vectors as input vectors: every
addToTrainingSet call, and an addNewTrainingSet call whose two sequences have
the same length. -/
def TrainerCall.Paired : TrainerCall α → Prop
  | TrainerCall.addToTrainingSet _ _ => True
  | TrainerCall.addNewTrainingSet inVecs outVecs => inVecs.length = outVecs.length

end TrainerCalls

/-! ## Model texts with other characters in place of the delimiter -/

section Retag

variable {α : Type}

/-- A token with its character (if it is one) replaced through `f`; numbers
stay as they are. -/
def Token.retag (f : Char → Char) : Token α → Token α
  | Token.char ch => Token.char (f ch)
  | t => t

/-- A stream with every character token replaced through `f`. -/
def IStream.retag (f : Char → Char) (s : IStream α) : IStream α :=
  { toks := s.toks.map (Token.retag f), fail := s.fail }

end Retag

/-! ## The data table and its numeric aliases -/

/-- The three outcomes of `std::stod`: a converted value, the exception
`std::invalid_argument` (no conversion could be performed) and the exception
`std::out_of_range`. -/
inductive StodResult (α : Type) where
  | value (x : α)
  | invalidArgument
  | outOfRange

/-- The string conversions of the standard library that the table calls:
`std::stod` and `std::to_string(long double)`. -/
structure StrLib (α : Type) where
  stod : String → StodResult α
  to_string : α → String

/-- The members of DbaseTable that the numeric reads use. `m_Aliases` is the
`std::map<string, string>`, kept as a list of key-value pairs in which no key
occurs twice. The header flag, the column names and the column-name index play
no part in these methods and are left out. -/
structure DbaseTable (α : Type) where
  m_Rows : Int
  m_Cols : Int
  m_RawData : List (List String)
  m_AliasVec : List α
  m_Aliases : List (String × String)

/-- The call `find` of the map: the value stored under a key, if any. -/
def mapFind (m : List (String × String)) (k : String) : Option String :=
  List.lookup k m

/-- The call `insert` of the map: a pair whose key is already present is not
stored. -/
def mapInsert (m : List (String × String)) (k v : String) : List (String × String) :=
  match mapFind m k with
  | some _ => m
  | none => m ++ [(k, v)]

/-- The assignment `it->second = v` at the entry found under `k`. -/
def mapAssign (m : List (String × String)) (k v : String) : List (String × String) :=
  m.map (fun p => if p.1 = k then (p.1, v) else p)

section Dbase

variable {α : Type} [LinearOrderedField α]

/-- The default constructor. -/
def DbaseTable.new : DbaseTable α :=
  { m_Rows := 0, m_Cols := 0, m_RawData := [], m_AliasVec := [], m_Aliases := [] }

/-- The alias key of a value in a column: the value, a blank and the column
index printed as a `long double`. -/
def aliasKey (lib : StrLib α) (sVal : String) (i : Int) : String :=
  sVal ++ " " ++ lib.to_string (i : α)

/-- The method `setAlias`: replaces the alias stored under the key or stores a
new one. -/
def DbaseTable.setAlias (lib : StrLib α) (t : DbaseTable α) (sValue : String) (dAlias : α)
    (nCol : Int) : DbaseTable α :=
  let sAlias := lib.to_string dAlias
  let sKey := aliasKey lib sValue nCol
  match mapFind t.m_Aliases sKey with
  | some _ => { t with m_Aliases := mapAssign t.m_Aliases sKey sAlias }
  | none => { t with m_Aliases := mapInsert t.m_Aliases sKey sAlias }

/-- The counts and widths of the table agree: `m_Rows` rows, each of `m_Cols`
strings, and one alias counter per column. -/
structure DbaseTable.Consistent (t : DbaseTable α) : Prop where
  rows : (t.m_RawData.length : Int) = t.m_Rows
  widths : ∀ rawRow ∈ t.m_RawData, (rawRow.length : Int) = t.m_Cols
  counters : (t.m_AliasVec.length : Int) = t.m_Cols

/-- Appends to `seen` the strings of `vs` not yet in it, in order. -/
def extendSeen (seen vs : List String) : List String :=
  vs.foldl (fun s v => if v ∈ s then s else s ++ [v]) seen

end Dbase

/-- The example trainer (input (1, 1), target (0), learning constant 1/2)
with momentum 1/2 and empty histories. -/
def momentumTrainer : NNetTrainer ℚ := exampleTrainer.setMomentum (1 / 2)

/-- A trainer with the default settings holding the single example input
(1, 1, 7), target (0): one value more than the example network has inputs. -/
def longTrainer : NNetTrainer ℚ :=
  (NNetTrainer.new : NNetTrainer ℚ).addToTrainingSet [1, 1, 7] [0]

/-! ## Sequences of calls on a trainer, training included -/

/-- A call of one of the public methods of NNetTrainer that change the
trainer, with its arguments; trainNeuralNet carries the network it is given
and the state of the generator at the call. -/
inductive TrainerOp (α : Type) where
  | setLearningConstant (learnConst : α)
  | setMomentum (momentum : α)
  | resetNetError
  | addToTrainingSet (inVec outVec : List α)
  | addNewTrainingSet (inVecs outVecs : List (List α))
  | trainNeuralNet (nNet : NeuralNet α) (g : RandState)

section TrainerOps

variable {α : Type} [LinearOrderedField α]

/-- The trainer after one call (the network and the generator a training call
leaves are dropped). -/
def NNetTrainer.run (m : Libm α) (tr : NNetTrainer α) : TrainerOp α → Option (NNetTrainer α)
  | TrainerOp.setLearningConstant learnConst => some (tr.setLearningConstant learnConst)
  | TrainerOp.setMomentum momentum => some (tr.setMomentum momentum)
  | TrainerOp.resetNetError => some tr.resetNetError
  | TrainerOp.addToTrainingSet inVec outVec => some (tr.addToTrainingSet inVec outVec)
  | TrainerOp.addNewTrainingSet inVecs outVecs => some (tr.addNewTrainingSet inVecs outVecs)
  | TrainerOp.trainNeuralNet nNet g => (tr.trainNeuralNet m nNet g).map (fun res => res.1)

/-- The trainer after a sequence of calls. -/
def NNetTrainer.runAll (m : Libm α) (tr : NNetTrainer α) (ops : List (TrainerOp α)) :
    Option (NNetTrainer α) :=
  ops.foldlM (NNetTrainer.run m) tr

end TrainerOps

/-! ## Successive addLayer calls -/

/-- The arguments of one addLayer call. -/
structure LayerSpec (α : Type) where
  numUnits : Int
  unitType : ActiveT
  initRange : α
  slope : α
  amplify : α

section AddLayers

variable {α : Type} [LinearOrderedField α]

/-- The addLayer calls with the given arguments made one after the other: the
return values in order, and the network and the generator afterwards. -/
def NeuralNet.addLayers :
    List (LayerSpec α) → NeuralNet α × RandState → Option (List Int × NeuralNet α × RandState)
  | [], st => some ([], st.1, st.2)
  | sp :: rest, st => do
      let r ← st.1.addLayer sp.numUnits sp.unitType sp.initRange sp.slope sp.amplify st.2
      let more ← NeuralNet.addLayers rest (r.2.1, r.2.2)
      pure (r.1 :: more.1, more.2.1, more.2.2)

end AddLayers

/-- The arguments of two addLayer calls: 3 Linear units, then 2 Tanh units,
each with initialisation range 2, slope 1 and amplify 1. -/
def exampleSpecs : List (LayerSpec ℚ) :=
  [{ numUnits := 3, unitType := ActiveT.kLinear, initRange := 2, slope := 1, amplify := 1 },
   { numUnits := 2, unitType := ActiveT.kTanh, initRange := 2, slope := 1, amplify := 1 }]

/-! ## What training leaves of a network -/

section Frame

variable {α : Type} [LinearOrderedField α]

/-- Connection `c'` is connection `c` with other weight values: the same node
counts and stored vectors, as many weight rows, and every row as long as
before. -/
def NNetWeightedConnect.Reweighted (c c' : NNetWeightedConnect α) : Prop :=
  c'.mNumInNodes = c.mNumInNodes ∧ c'.mNumOutNodes = c.mNumOutNodes ∧
    c'.mInputs = c.mInputs ∧ c'.mOutputs = c.mOutputs ∧
    c'.mWeights.map List.length = c.mWeights.map List.length

/-- Network `net'` is network `net` with other weight values and caches: the
same widths, layer count, output-layer and hidden-layer details, as many
connections, and every connection reweighted. -/
structure NeuralNet.Retrained (net net' : NeuralNet α) : Prop where
  numInputs : net'.mNumInputs = net.mNumInputs
  numOutputs : net'.mNumOutputs = net.mNumOutputs
  numLayers : net'.mNumLayers = net.mNumLayers
  outUnitType : net'.mOutUnitType = net.mOutUnitType
  outUnitSlope : net'.mOutUnitSlope = net.mOutUnitSlope
  outUnitAmplify : net'.mOutUnitAmplify = net.mOutUnitAmplify
  activeUnits : net'.mActiveUnits = net.mActiveUnits
  activeSlope : net'.mActiveSlope = net.mActiveSlope
  activeAmplify : net'.mActiveAmplify = net.mActiveAmplify
  numConnect : net'.mLayers.length = net.mLayers.length
  connects : ∀ (s : Nat) (c c' : NNetWeightedConnect α), net.mLayers[s]? = some c →
    net'.mLayers[s]? = some c' → c.Reweighted c'

end Frame

/-! ## The network after a forward pass -/

section Responded

variable {α : Type} [LinearOrderedField α]

/-- The network as a forward pass on `x` leaves it: the two caches hold the
pre-activation and post-activation vectors of the stages. -/
def NeuralNet.responded (m : Libm α) (net : NeuralNet α) (x : List α) : NeuralNet α :=
  { net with
    mActivations := (net.tracesFrom m 0 net.mLayers (x.take net.mNumInputs.toNat)).map Prod.snd,
    mUnitInputs := (net.tracesFrom m 0 net.mLayers (x.take net.mNumInputs.toNat)).map Prod.fst }

end Responded

/-! ## Reference functions for the momentum term -/

section MomentumReference

variable {α : Type} [LinearOrderedField α]

/-- The delta applied to a weight when momentum is on:
`learnConst * e * x` when the history holds no delta for the position yet,
`learnConst * e * x + momentum * stored` when it holds `stored`. -/
def momentumDelta (learnConst momentum e x : α) : Option α → α
  | none => learnConst * e * x
  | some stored => learnConst * e * x + momentum * stored

/-- The number of weights of connection stage `s`. -/
def NeuralNet.weightCount (net : NeuralNet α) (s : Nat) : Nat :=
  ((net.weightsAt s).map List.length).sum

/-- The sum of the counts `cnt s + cnt (s+1) + ... + cnt (L-1)`. -/
def flatOffset (cnt : Nat → Nat) (L s : Nat) : Nat :=
  ((List.range' s (L - s)).map cnt).sum

/-- The number of weights of the hidden connection stages `s, s+1, ..., L-1`
together: the value of the flat counter of calcHiddenWtAdjust, which runs from
the last hidden connection back to the first, when it has passed connection
`s`; the weights of connection `s - 1` start at this position. -/
def NeuralNet.hiddenOffset (net : NeuralNet α) (s : Nat) : Nat :=
  flatOffset net.weightCount net.mNumLayers.toNat s

end MomentumReference

/-! ## Activation functions and their gradients over the reals -/

section Calculus

theorem lit_one : (1.0 : ℝ) = 1 := by norm_num

theorem lit_two : (2.0 : ℝ) = 2 := by norm_num

theorem lit_half : (0.5 : ℝ) = 1 / 2 := by norm_num

theorem hasDerivAt_linear_arg (s x : ℝ) : HasDerivAt (fun t : ℝ => s * t) s x := by
  simpa using (hasDerivAt_id x).const_mul s

theorem hasDerivAt_real_tanh (y : ℝ) :
    HasDerivAt Real.tanh (1 - Real.tanh y * Real.tanh y) y := by
  have hc : Real.cosh y ≠ 0 := (Real.cosh_pos y).ne'
  have h := (Real.hasDerivAt_sinh y).div (Real.hasDerivAt_cosh y) hc
  have e : Real.tanh = fun t => Real.sinh t / Real.cosh t := by
    funext t; exact Real.tanh_eq_sinh_div_cosh t
  rw [e]
  convert h using 1
  beta_reduce
  rw [div_mul_div_comm, sq, sub_div, div_self (mul_ne_zero hc hc)]

theorem unipolar_hasDerivAt (s a x : ℝ) :
    HasDerivAt (fun t => forward realLibm ActiveT.kUnipolar s a t)
      (getGradient realLibm ActiveT.kUnipolar s a x) x := by
  have h1 := hasDerivAt_linear_arg (-s) x
  have h3 := (h1.exp).const_add 1
  have hne : 1 + Real.exp (-s * x) ≠ 0 := by positivity
  have h5 := ((hasDerivAt_const x (1:ℝ)).div h3 hne).const_mul a
  simp only [forward, NNetUnit.getActivation, getGradient, realLibm, lit_one]
  convert h5 using 1
  ring

theorem bipolar_hasDerivAt (s a x : ℝ) :
    HasDerivAt (fun t => forward realLibm ActiveT.kBipolar s a t)
      (getGradient realLibm ActiveT.kBipolar s a x) x := by
  have h1 := hasDerivAt_linear_arg (-s) x
  have h3 := (h1.exp).const_add 1
  have hne : 1 + Real.exp (-s * x) ≠ 0 := by positivity
  have h5 := (((hasDerivAt_const x (2:ℝ)).div h3 hne).sub_const 1).const_mul a
  simp only [forward, NNetUnit.getActivation, getGradient, realLibm, lit_one, lit_two]
  convert h5 using 1
  ring

theorem tanh_hasDerivAt (s a x : ℝ) :
    HasDerivAt (fun t => forward realLibm ActiveT.kTanh s a t)
      (getGradient realLibm ActiveT.kTanh s a x) x := by
  have h1 := hasDerivAt_linear_arg s x
  have h2 := ((hasDerivAt_real_tanh (s * x)).comp x h1).const_mul a
  simp only [forward, NNetUnit.getActivation, getGradient, realLibm]
  convert h2 using 1
  ring

theorem gauss_hasDerivAt (s a x : ℝ) :
    HasDerivAt (fun t => forward realLibm ActiveT.kGauss s a t)
      (getGradient realLibm ActiveT.kGauss s a x) x := by
  have h1 : HasDerivAt (fun t : ℝ => -s * t * t) (-s * x + -s * x) x := by
    have := (hasDerivAt_linear_arg (-s) x).mul (hasDerivAt_id x)
    simpa [mul_comm] using this
  have h2 := (h1.exp).const_mul a
  simp only [forward, NNetUnit.getActivation, getGradient, realLibm]
  convert h2 using 1
  ring

theorem arctan_hasDerivAt (s a x : ℝ) :
    HasDerivAt (fun t => forward realLibm ActiveT.kArctan s a t)
      (getGradient realLibm ActiveT.kArctan s a x) x := by
  have h2 := ((hasDerivAt_linear_arg s x).arctan).const_mul a
  simp only [forward, NNetUnit.getActivation, getGradient, realLibm]
  convert h2 using 1
  have e : (1 : ℝ) + s * s * x * x = 1 + (s * x) ^ 2 := by ring
  rw [e]
  ring

theorem sin_hasDerivAt (s a x : ℝ) :
    HasDerivAt (fun t => forward realLibm ActiveT.kSin s a t)
      (getGradient realLibm ActiveT.kSin s a x) x := by
  have h2 := ((hasDerivAt_linear_arg s x).sin).const_mul a
  simp only [forward, NNetUnit.getActivation, getGradient, realLibm]
  convert h2 using 1
  ring

theorem cos_hasDerivAt (s a x : ℝ) :
    HasDerivAt (fun t => forward realLibm ActiveT.kCos s a t)
      (getGradient realLibm ActiveT.kCos s a x) x := by
  have h2 := ((hasDerivAt_linear_arg s x).cos).const_mul a
  simp only [forward, NNetUnit.getActivation, getGradient, realLibm]
  convert h2 using 1
  ring

theorem linear_hasDerivAt (s a x : ℝ) :
    HasDerivAt (fun t => forward realLibm ActiveT.kLinear s a t)
      (getGradient realLibm ActiveT.kLinear s a x) x := by
  have h2 := (hasDerivAt_linear_arg s x).const_mul a
  simpa only [forward, NNetUnit.getActivation, getGradient, realLibm] using h2

theorem isru_hasDerivAt (s a x : ℝ) (hs : 0 < s) :
    HasDerivAt (fun t => forward realLibm ActiveT.kISRU s a t)
      (getGradient realLibm ActiveT.kISRU s a x) x := by
  have hpos : 0 < 1 + s * x * x := by
    have : 0 ≤ s * x * x := by
      rw [mul_assoc]; exact mul_nonneg hs.le (mul_self_nonneg x)
    linarith
  have h1 : HasDerivAt (fun t : ℝ => 1 + s * t * t) (s * x + s * x) x := by
    have := ((hasDerivAt_linear_arg s x).mul (hasDerivAt_id x)).const_add 1
    simpa [mul_comm] using this
  have hsq := h1.sqrt hpos.ne'
  have hne : Real.sqrt (1 + s * x * x) ≠ 0 := (Real.sqrt_pos.mpr hpos).ne'
  have h2 := ((hasDerivAt_id x).div hsq hne).const_mul a
  simp only [forward, NNetUnit.getActivation, getGradient, realLibm]
  convert h2 using 1
  have hsq2 : Real.sqrt (1 + s * x * x) ^ 2 = 1 + s * x * x := Real.sq_sqrt hpos.le
  simp only [id]
  generalize Real.sqrt (1 + s * x * x) = r at hne hsq2 ⊢
  have key : 1 * r - x * ((s * x + s * x) / (2 * r)) = 1 / r := by
    have e1 : 1 * r - x * ((s * x + s * x) / (2 * r)) = (r ^ 2 - s * x * x) / r := by
      field_simp
      ring
    rw [e1, hsq2]
    ring_nf
  rw [key]
  congr 1
  field_simp
  ring

theorem softplus_hasDerivAt (s a x : ℝ) :
    HasDerivAt (fun t => forward realLibm ActiveT.kSoftPlus s a t)
      (getGradient realLibm ActiveT.kSoftPlus s a x) x := by
  have h1 := ((hasDerivAt_linear_arg s x).exp).const_add 1
  have hne : 1 + Real.exp (s * x) ≠ 0 := by positivity
  have h2 := (h1.log hne).const_mul a
  simp only [forward, NNetUnit.getActivation, getGradient, realLibm]
  convert h2 using 1
  ring

end Calculus

section AbsKinds

open Filter Topology

theorem hasDerivAt_div_one_add_abs (u : ℝ) :
    HasDerivAt (fun t : ℝ => t / (1 + |t|)) (1 / ((1 + |u|) * (1 + |u|))) u := by
  have hne : (1 : ℝ) + |u| ≠ 0 := by positivity
  rcases lt_trichotomy u 0 with h | h | h
  · have habs := (hasDerivAt_abs_neg h).const_add 1
    have hd := (hasDerivAt_id u).div habs hne
    convert hd using 1
    rw [abs_of_neg h, id]
    ring
  · subst h
    rw [hasDerivAt_iff_tendsto_slope]
    have hcont : Tendsto (fun t : ℝ => 1 / (1 + |t|)) (𝓝[≠] 0) (𝓝 (1 / (1 + |(0:ℝ)|))) := by
      apply Tendsto.mono_left _ nhdsWithin_le_nhds
      apply ContinuousAt.tendsto
      apply ContinuousAt.div continuousAt_const
      · exact (continuous_const.add continuous_abs).continuousAt
      · positivity
    have hval : (1 : ℝ) / ((1 + |(0:ℝ)|) * (1 + |(0:ℝ)|)) = 1 / (1 + |(0:ℝ)|) := by simp
    rw [hval]
    refine hcont.congr' ?_
    filter_upwards [self_mem_nhdsWithin] with t ht
    have ht0 : t ≠ 0 := ht
    simp only [slope, vsub_eq_sub, sub_zero, abs_zero, add_zero, zero_div, smul_eq_mul]
    field_simp
  · have habs := (hasDerivAt_abs_pos h).const_add 1
    have hd := (hasDerivAt_id u).div habs hne
    convert hd using 1
    rw [abs_of_pos h, id]
    ring

theorem softsign_hasDerivAt (s a x : ℝ) :
    HasDerivAt (fun t => forward realLibm ActiveT.kSoftSign s a t)
      (getGradient realLibm ActiveT.kSoftSign s a x) x := by
  have h1 := hasDerivAt_linear_arg s x
  have h2 := ((hasDerivAt_div_one_add_abs (s * x)).comp x h1).const_mul a
  simp only [forward, NNetUnit.getActivation, getGradient, realLibm]
  convert h2 using 1
  ring

theorem elliot_hasDerivAt (s a x : ℝ) :
    HasDerivAt (fun t => forward realLibm ActiveT.kElliot s a t)
      (getGradient realLibm ActiveT.kElliot s a x) x := by
  have h1 := hasDerivAt_linear_arg s x
  have h2 := (((((hasDerivAt_div_one_add_abs (s * x)).comp x h1).const_mul (1 / 2 : ℝ)).add_const
    (1 / 2 : ℝ))).const_mul a
  simp only [forward, NNetUnit.getActivation, getGradient, realLibm, lit_half]
  convert h2 using 1
  · funext t
    simp only [Function.comp]
    ring
  · ring

theorem sinc_outer_hasDerivAt (s a x : ℝ) (hs : s ≠ 0) (hx : x ≠ 0) :
    HasDerivAt (fun t : ℝ => a * (Real.sin (s * t) / (s * t)))
      (a * ((s * x * Real.cos (s * x) - Real.sin (s * x)) / (s * x * x))) x := by
  have h1 := hasDerivAt_linear_arg s x
  have hne : s * x ≠ 0 := mul_ne_zero hs hx
  have h2 := ((h1.sin).div h1 hne).const_mul a
  convert h2 using 1
  congr 1
  field_simp
  ring

end AbsKinds

/-! ## Claims about the activation kinds -/

/-- C2: for each of the kinds Unipolar, Bipolar, Tanh, Gaussian, Arctan, Sine,
Cosine, Linear, InverseSqrtUnit and SoftPlus, every slope > 0, amplify > 0 and
real x, the activation as a function of its input is differentiable at x and
its derivative there is the value getGradient returns. -/
theorem getGradient_is_derivative_of_getActivation (kind : ActiveT)
    (hk : kind ∈ [ActiveT.kUnipolar, ActiveT.kBipolar, ActiveT.kTanh, ActiveT.kGauss,
      ActiveT.kArctan, ActiveT.kSin, ActiveT.kCos, ActiveT.kLinear, ActiveT.kISRU,
      ActiveT.kSoftPlus])
    (slope amplify x : ℝ) (hs : 0 < slope) (ha : 0 < amplify) :
    HasDerivAt (fun t => forward realLibm kind slope amplify t)
      (getGradient realLibm kind slope amplify x) x := by
  have _ := ha
  simp only [List.mem_cons, List.mem_singleton, List.not_mem_nil, or_false] at hk
  rcases hk with h | h | h | h | h | h | h | h | h | h <;> subst h
  · exact unipolar_hasDerivAt slope amplify x
  · exact bipolar_hasDerivAt slope amplify x
  · exact tanh_hasDerivAt slope amplify x
  · exact gauss_hasDerivAt slope amplify x
  · exact arctan_hasDerivAt slope amplify x
  · exact sin_hasDerivAt slope amplify x
  · exact cos_hasDerivAt slope amplify x
  · exact linear_hasDerivAt slope amplify x
  · exact isru_hasDerivAt slope amplify x hs
  · exact softplus_hasDerivAt slope amplify x

/-- Witness for C2: the InverseSqrtUnit kind with slope 2 and amplify 3 at x = 1. -/
theorem getGradient_is_derivative_of_getActivation_witness :
    (0 : ℝ) < 2 ∧ (0 : ℝ) < 3 ∧
    HasDerivAt (fun t => forward realLibm ActiveT.kISRU 2 3 t)
      (getGradient realLibm ActiveT.kISRU 2 3 1) 1 :=
  ⟨by norm_num, by norm_num,
    getGradient_is_derivative_of_getActivation ActiveT.kISRU (by simp) 2 3 1
      (by norm_num) (by norm_num)⟩

/-- C3: for Elliot and SoftSign, every slope > 0, amplify > 0 and real x
(x = 0 included), the activation is amplify times the stated form, it is
differentiable at x with derivative getGradient, and getGradient is
amplify*(0.5*slope)/(1+|slope*x|)^2 for Elliot and
amplify*slope/(1+|slope*x|)^2 for SoftSign. -/
theorem elliot_softsign_gradient_is_derivative (slope amplify x : ℝ)
    (hs : 0 < slope) (ha : 0 < amplify) :
    (forward realLibm ActiveT.kElliot slope amplify x
        = amplify * ((slope * x / 2) / (1 + |slope * x|) + 0.5) ∧
      HasDerivAt (fun t => forward realLibm ActiveT.kElliot slope amplify t)
        (getGradient realLibm ActiveT.kElliot slope amplify x) x ∧
      getGradient realLibm ActiveT.kElliot slope amplify x
        = amplify * (0.5 * slope) / (1 + |slope * x|) ^ 2) ∧
    (forward realLibm ActiveT.kSoftSign slope amplify x
        = amplify * ((slope * x) / (1 + |slope * x|)) ∧
      HasDerivAt (fun t => forward realLibm ActiveT.kSoftSign slope amplify t)
        (getGradient realLibm ActiveT.kSoftSign slope amplify x) x ∧
      getGradient realLibm ActiveT.kSoftSign slope amplify x
        = amplify * slope / (1 + |slope * x|) ^ 2) := by
  have _ := hs
  have _ := ha
  refine ⟨⟨rfl, elliot_hasDerivAt slope amplify x, ?_⟩,
    ⟨rfl, softsign_hasDerivAt slope amplify x, ?_⟩⟩
  · simp only [getGradient, lit_half]
    ring
  · simp only [getGradient]
    ring

/-- Witness for C3: slope 2, amplify 3 at the origin. -/
theorem elliot_softsign_gradient_is_derivative_witness :
    HasDerivAt (fun t => forward realLibm ActiveT.kElliot 2 3 t)
      (getGradient realLibm ActiveT.kElliot 2 3 0) 0 ∧
    getGradient realLibm ActiveT.kElliot 2 3 0 = 3 ∧
    getGradient realLibm ActiveT.kSoftSign 2 3 0 = 6 := by
  have h := elliot_softsign_gradient_is_derivative 2 3 0 (by norm_num) (by norm_num)
  refine ⟨h.1.2.1, ?_, ?_⟩
  · rw [h.1.2.2]; norm_num
  · rw [h.2.2.2]; norm_num

/-- C4: for SincLike with slope > 0 and amplify > 0: when |x| < 1e-5 the
activation is amplify*1 and the gradient is 0; when |x| >= 1e-5 the activation
is amplify*sin(slope*x)/(slope*x), the gradient is
amplify*(slope*x*cos(slope*x) - sin(slope*x))/(slope*x*x), and that value is
the derivative of amplify*sin(slope*x)/(slope*x) at x. -/
theorem sinc_forward_and_gradient (slope amplify x : ℝ) (hs : 0 < slope) (ha : 0 < amplify) :
    (|x| < 0.00001 →
      forward realLibm ActiveT.kSinC slope amplify x = amplify * 1 ∧
      getGradient realLibm ActiveT.kSinC slope amplify x = 0) ∧
    (0.00001 ≤ |x| →
      forward realLibm ActiveT.kSinC slope amplify x
        = amplify * Real.sin (slope * x) / (slope * x) ∧
      getGradient realLibm ActiveT.kSinC slope amplify x
        = amplify * (slope * x * Real.cos (slope * x) - Real.sin (slope * x))
            / (slope * x * x) ∧
      HasDerivAt (fun t => amplify * Real.sin (slope * t) / (slope * t))
        (getGradient realLibm ActiveT.kSinC slope amplify x) x) := by
  have _ := ha
  constructor
  · intro h
    simp only [forward, NNetUnit.getActivation, getGradient, realLibm, if_pos h, lit_one,
      mul_zero, and_self]
  · intro h
    have hx : x ≠ 0 := by
      intro h0
      rw [h0, abs_zero] at h
      norm_num at h
    have hlt : ¬ |x| < 0.00001 := not_lt.mpr h
    simp only [forward, NNetUnit.getActivation, getGradient, realLibm, if_neg hlt]
    refine ⟨(mul_div_assoc _ _ _).symm, (mul_div_assoc _ _ _).symm, ?_⟩
    have hd := sinc_outer_hasDerivAt slope amplify x hs.ne' hx
    convert hd using 1
    funext t
    exact mul_div_assoc _ _ _

/-- Witness for C4: slope 2 and amplify 3, inside the patch (x = 0) and
outside it (x = 1). -/
theorem sinc_forward_and_gradient_witness :
    (forward realLibm ActiveT.kSinC 2 3 0 = 3 * 1 ∧
      getGradient realLibm ActiveT.kSinC 2 3 0 = 0) ∧
    HasDerivAt (fun t : ℝ => 3 * Real.sin (2 * t) / (2 * t))
      (getGradient realLibm ActiveT.kSinC 2 3 1) 1 :=
  ⟨(sinc_forward_and_gradient 2 3 0 (by norm_num) (by norm_num)).1 (by norm_num),
    ((sinc_forward_and_gradient 2 3 1 (by norm_num) (by norm_num)).2 (by norm_num)).2.2⟩

/-- C5: for Threshold with slope s > 0 and amplify a > 0: the activation is a*s
when x >= 0 and 0 when x < 0; the gradient is a*s at x = 0 and 0 at every
x != 0.  With s = 2 and a = 1: forward(1) = 2, forward(-1) = 0,
gradient(0) = 2, gradient(1) = 0. -/
theorem threshold_forward_and_gradient {α : Type} [LinearOrderedField α] (m : Libm α)
    (s a : α) (hs : 0 < s) (ha : 0 < a) :
    (∀ x : α, 0 ≤ x → forward m ActiveT.kThreshold s a x = a * s) ∧
    (∀ x : α, x < 0 → forward m ActiveT.kThreshold s a x = 0) ∧
    getGradient m ActiveT.kThreshold s a 0 = a * s ∧
    (∀ x : α, x ≠ 0 → getGradient m ActiveT.kThreshold s a x = 0) ∧
    forward m ActiveT.kThreshold 2 1 1 = 2 ∧
    forward m ActiveT.kThreshold 2 1 (-1) = 0 ∧
    getGradient m ActiveT.kThreshold 2 1 0 = 2 ∧
    getGradient m ActiveT.kThreshold 2 1 1 = 0 := by
  have _ := hs
  have _ := ha
  refine ⟨?_, ?_, ?_, ?_, ?_, ?_, ?_, ?_⟩
  · intro x hx
    simp [forward, NNetUnit.getActivation, hx]
  · intro x hx
    simp [forward, NNetUnit.getActivation, not_le.mpr hx]
  · simp [getGradient]
  · intro x hx
    simp [getGradient, hx]
  · simp [forward, NNetUnit.getActivation]
  · simp [forward, NNetUnit.getActivation]
  · simp [getGradient]
  · simp [getGradient]

/-- Witness for C5: slope 3 and amplify 5 over the rationals. -/
theorem threshold_forward_and_gradient_witness :
    forward (Libm.mk id id id id id id id) ActiveT.kThreshold (3 : ℚ) 5 7 = 15 ∧
    forward (Libm.mk id id id id id id id) ActiveT.kThreshold (3 : ℚ) 5 (-7) = 0 ∧
    getGradient (Libm.mk id id id id id id id) ActiveT.kThreshold (3 : ℚ) 5 0 = 15 := by
  have h := threshold_forward_and_gradient (Libm.mk id id id id id id id) (3 : ℚ) 5
    (by norm_num) (by norm_num)
  refine ⟨?_, ?_, ?_⟩
  · rw [h.1 7 (by norm_num)]; norm_num
  · exact h.2.1 (-7) (by norm_num)
  · rw [h.2.2.1]; norm_num

/-! ## addLayer -/

section AddLayer

variable {α : Type} [LinearOrderedField α]

theorem setNumNodes_counts (c : NNetWeightedConnect α) (nIn nOut : Int) (r : α)
    (g : RandState) (h : 0 < nIn ∧ 0 < nOut ∧ 0 < r) :
    (c.setNumNodes nIn nOut r g).1.mNumInNodes = nIn ∧
    (c.setNumNodes nIn nOut r g).1.mNumOutNodes = nOut := by
  simp [NNetWeightedConnect.setNumNodes, h, NNetWeightedConnect.initialiseWeights]

theorem vecAt_natCast {β : Type} (v : List β) (i : Nat) : vecAt v (i : Int) = v[i]? := by
  simp [vecAt]

theorem vecAt_of_nonneg {β : Type} (v : List β) (i : Int) (h : 0 ≤ i) :
    vecAt v i = v[i.toNat]? := by
  simp [vecAt, h]

theorem set_last_eq_take_append {β : Type} (v : List β) (n : Nat) (x : β)
    (h : v.length = n + 1) : v.set n x = v.take n ++ [x] := by
  induction v generalizing n with
  | nil => simp at h
  | cons a t ih =>
    cases n with
    | zero =>
      have : t = [] := by simpa using h
      subst this
      simp
    | succ k =>
      have hk : t.length = k + 1 := by simpa using h
      simp [ih k hk]

/-- The result of a call of addLayer with valid arguments on a consistent
network whose input width is set when the first layer is added. -/
theorem addLayer_valid (net : NeuralNet α) (hc : net.Consistent) (numUnits : Int)
    (unitType : ActiveT) (initRange slope amplify : α) (g : RandState)
    (hv : 0 < numUnits ∧ 0 < initRange ∧ 0 < slope ∧ 0 < amplify)
    (hin : net.mNumLayers = 0 → 0 < net.mNumInputs) :
    net.addLayer numUnits unitType initRange slope amplify g =
      some (0,
        { net.storeLayer unitType slope amplify with
          mLayers := net.mLayers.take net.mNumLayers.toNat ++
            [(NNetWeightedConnect.setNumNodes NNetWeightedConnect.new net.fanIn numUnits
                initRange g).1,
             (NNetWeightedConnect.setNumNodes NNetWeightedConnect.new numUnits net.mNumOutputs
                initRange (NNetWeightedConnect.setNumNodes NNetWeightedConnect.new net.fanIn
                  numUnits initRange g).2).1] },
        (NNetWeightedConnect.setNumNodes NNetWeightedConnect.new numUnits net.mNumOutputs
          initRange (NNetWeightedConnect.setNumNodes NNetWeightedConnect.new net.fanIn
            numUnits initRange g).2).2) := by
  by_cases h0 : net.mNumLayers = 0
  · have hlen : net.mLayers = [] := by
      have := hc.numConnect
      rw [if_pos h0] at this
      exact List.length_eq_zero.mp this
    simp [NeuralNet.addLayer, hv, h0, hin h0, NeuralNet.connectOutput, NeuralNet.storeLayer,
      NeuralNet.fanIn, hlen]
  · have hpos : 0 < net.mNumLayers := lt_of_le_of_ne hc.layersNonneg (Ne.symm h0)
    have hlen : net.mLayers.length = net.mNumLayers.toNat + 1 := by
      have := hc.numConnect
      rwa [if_neg h0] at this
    obtain ⟨k, hk⟩ : ∃ k : Nat, net.mNumLayers = ((k + 1 : Nat) : Int) := by
      refine ⟨net.mNumLayers.toNat - 1, ?_⟩
      omega
    have hkn : net.mNumLayers.toNat = k + 1 := by omega
    rw [hkn] at hlen
    have hlt : k < net.mLayers.length := by omega
    have hget : net.mLayers[k]? = some net.mLayers[k] := List.getElem?_eq_getElem hlt
    have hsub : net.mNumLayers - 1 = (k : Int) := by omega
    have hone : (1 : Int) < net.mNumLayers + 1 := by omega
    have hidx : net.mNumLayers + 1 - 1 = ((k + 1 : Nat) : Int) := by omega
    have hassign : vecAssign net.mLayers (((k + 1 : Nat)) : Int)
        (NNetWeightedConnect.setNumNodes NNetWeightedConnect.new net.mLayers[k].mNumOutNodes
          numUnits initRange g).1 =
        some (net.mLayers.take (k + 1) ++
          [(NNetWeightedConnect.setNumNodes NNetWeightedConnect.new net.mLayers[k].mNumOutNodes
            numUnits initRange g).1]) := by
      have hb : (0 : Int) ≤ ((k + 1 : Nat) : Int) ∧ ((k + 1 : Nat) : Int) < net.mLayers.length := by
        omega
      rw [vecAssign, if_pos hb, Int.toNat_ofNat, set_last_eq_take_append _ _ _ hlen]
    simp only [NeuralNet.addLayer, hv, and_self, if_true, h0, if_false, hpos, hsub,
      vecAt_natCast, hget, Option.bind_eq_bind, Option.some_bind, NeuralNet.connectOutput,
      NeuralNet.storeLayer, hone, hidx, hassign, NeuralNet.fanIn, NeuralNet.layerUnits, hkn,
      Nat.add_sub_cancel, Option.pure_def, List.append_assoc, List.singleton_append]

theorem new_consistent : (NeuralNet.new : NeuralNet α).Consistent := by
  constructor <;> simp [NeuralNet.new]

omit [LinearOrderedField α] in
theorem setNumInputs_consistent (net : NeuralNet α) (n : Int) (hc : net.Consistent) :
    (net.setNumInputs n).Consistent := by
  unfold NeuralNet.setNumInputs
  split
  · exact ⟨hc.1, hc.2, hc.3, hc.4, hc.5, hc.6⟩
  · exact hc

omit [LinearOrderedField α] in
theorem setNumOutputs_consistent (net : NeuralNet α) (n : Int) (hc : net.Consistent) :
    (net.setNumOutputs n).Consistent := by
  unfold NeuralNet.setNumOutputs
  split
  · exact ⟨hc.1, hc.2, hc.3, hc.4, hc.5, hc.6⟩
  · exact hc

/-- A call of addLayer that does not meet the conditions of `addLayer_valid`
returns -1 and changes nothing. -/
theorem addLayer_invalid (net : NeuralNet α) (numUnits : Int)
    (unitType : ActiveT) (initRange slope amplify : α) (g : RandState)
    (hv : ¬ ((0 < numUnits ∧ 0 < initRange ∧ 0 < slope ∧ 0 < amplify) ∧
      (net.mNumLayers = 0 → 0 < net.mNumInputs))) :
    net.addLayer numUnits unitType initRange slope amplify g = some (-1, net, g) := by
  unfold NeuralNet.addLayer
  by_cases h1 : 0 < numUnits ∧ 0 < initRange ∧ 0 < slope ∧ 0 < amplify
  · rw [if_pos h1]
    by_cases h0 : net.mNumLayers = 0
    · rw [if_pos h0]
      have : ¬ 0 < net.mNumInputs := fun h => hv ⟨h1, fun _ => h⟩
      rw [if_neg this]
    · exact absurd ⟨h1, fun h => absurd h h0⟩ hv
  · rw [if_neg h1]

omit [LinearOrderedField α] in
theorem fanIn_pos (net : NeuralNet α) (hc : net.Consistent)
    (hin : net.mNumLayers = 0 → 0 < net.mNumInputs) : 0 < net.fanIn := by
  unfold NeuralNet.fanIn
  by_cases h0 : net.mNumLayers = 0
  · rw [if_pos h0]; exact hin h0
  · rw [if_neg h0]
    have hpos : 0 < net.mNumLayers := lt_of_le_of_ne hc.layersNonneg (Ne.symm h0)
    have hlen : net.mLayers.length = net.mNumLayers.toNat + 1 := by
      have := hc.numConnect
      rwa [if_neg h0] at this
    have hlt : net.mNumLayers.toNat - 1 < net.mLayers.length := by omega
    have hget := List.getElem?_eq_getElem hlt
    unfold NeuralNet.layerUnits
    rw [hget]
    exact (hc.hidden _ _ (by omega) hget).2

end AddLayer

section AddLayerClaims

variable {α : Type} [LinearOrderedField α]

/-- C9 (as amended): on a successful addLayer(numUnits, kind, initRange, slope,
amplify) applied to a consistent network (one kept by the constructor, the
setters and addLayer) with L hidden layers whose output width is positive: the
hidden-layer count becomes L+1; there are L+2 connections; the connection at
index L has fan-in input nodes (the input width if L = 0, else the unit count
of hidden layer L-1) and numUnits output nodes; the connection at index L+1
has numUnits input nodes and outputWidth output nodes; getLayerDetails(L)
returns (kind, slope, amplify); the connections at indices below L and the
details of the hidden layers below L are unchanged. -/
theorem addLayer_success_rewires (net net' : NeuralNet α) (hc : net.Consistent)
    (hout : 0 < net.mNumOutputs) (numUnits : Int) (unitType : ActiveT)
    (initRange slope amplify : α) (g g' : RandState)
    (hs : net.addLayer numUnits unitType initRange slope amplify g = some (0, net', g')) :
    net'.mNumLayers = net.mNumLayers + 1 ∧
    net'.mLayers.length = net.mNumLayers.toNat + 2 ∧
    (∃ c, net'.mLayers[net.mNumLayers.toNat]? = some c ∧
      c.mNumInNodes = net.fanIn ∧ c.mNumOutNodes = numUnits) ∧
    (∃ c, net'.mLayers[net.mNumLayers.toNat + 1]? = some c ∧
      c.mNumInNodes = numUnits ∧ c.mNumOutNodes = net.mNumOutputs) ∧
    (∀ cur, net'.getLayerDetails net.mNumLayers cur = some (unitType, slope, amplify)) ∧
    (∀ i : Nat, i < net.mNumLayers.toNat → net'.mLayers[i]? = net.mLayers[i]?) ∧
    (∀ (i : Nat) cur, i < net.mNumLayers.toNat →
      net'.getLayerDetails (i : Int) cur = net.getLayerDetails (i : Int) cur) := by
  by_cases hv : (0 < numUnits ∧ 0 < initRange ∧ 0 < slope ∧ 0 < amplify) ∧
      (net.mNumLayers = 0 → 0 < net.mNumInputs)
  · have hfan := fanIn_pos net hc hv.2
    have hL := hc.layersNonneg
    have hlen : net.mLayers.length = 0 ∨ net.mLayers.length = net.mNumLayers.toNat + 1 := by
      have := hc.numConnect
      split at this
      · exact Or.inl this
      · exact Or.inr this
    have hlen0 : net.mNumLayers.toNat ≤ net.mLayers.length := by
      have := hc.numConnect
      split at this <;> omega
    rw [addLayer_valid net hc numUnits unitType initRange slope amplify g hv.1 hv.2] at hs
    simp only [Option.some.injEq, Prod.mk.injEq, true_and] at hs
    obtain ⟨hnet, _⟩ := hs
    subst hnet
    have hc1 := setNumNodes_counts (NNetWeightedConnect.new : NNetWeightedConnect α)
      net.fanIn numUnits initRange g ⟨hfan, hv.1.1, hv.1.2.1⟩
    have hc2 := setNumNodes_counts (NNetWeightedConnect.new : NNetWeightedConnect α)
      numUnits net.mNumOutputs initRange
      (NNetWeightedConnect.setNumNodes NNetWeightedConnect.new net.fanIn numUnits initRange g).2
      ⟨hv.1.1, hout, hv.1.2.1⟩
    have htake : (List.take net.mNumLayers.toNat net.mLayers).length = net.mNumLayers.toNat := by
      rw [List.length_take]; omega
    refine ⟨rfl, ?_, ⟨_, ?_, hc1.1, hc1.2⟩, ⟨_, ?_, hc2.1, hc2.2⟩, ?_, ?_, ?_⟩
    · simp [NeuralNet.storeLayer, htake]
    · simp only [NeuralNet.storeLayer]
      rw [List.getElem?_append_right (by omega), htake]
      simp
    · simp only [NeuralNet.storeLayer]
      rw [List.getElem?_append_right (by omega), htake]
      simp
    · intro cur
      have hb : (0 : Int) ≤ net.mNumLayers ∧ net.mNumLayers < net.mNumLayers + 1 := by omega
      simp only [NeuralNet.getLayerDetails, NeuralNet.storeLayer, hb, and_self, if_true,
        vecAt_of_nonneg _ _ hL]
      rw [List.getElem?_append_right (by rw [hc.numUnits]),
        List.getElem?_append_right (by rw [hc.numSlopes]),
        List.getElem?_append_right (by rw [hc.numAmplifies])]
      simp [hc.numUnits, hc.numSlopes, hc.numAmplifies]
    · intro i hi
      simp only [NeuralNet.storeLayer]
      rw [List.getElem?_append_left (by omega), List.getElem?_take_of_lt hi]
    · intro i cur hi
      have hb : (0 : Int) ≤ (i : Int) ∧ (i : Int) < net.mNumLayers + 1 := by omega
      have hb' : (0 : Int) ≤ (i : Int) ∧ (i : Int) < net.mNumLayers := by omega
      simp only [NeuralNet.getLayerDetails, NeuralNet.storeLayer, hb, hb', and_self, if_true,
        vecAt_natCast]
      rw [List.getElem?_append_left (by rw [hc.numUnits]; exact hi),
        List.getElem?_append_left (by rw [hc.numSlopes]; exact hi),
        List.getElem?_append_left (by rw [hc.numAmplifies]; exact hi)]
  · rw [addLayer_invalid net numUnits unitType initRange slope amplify g hv] at hs
    simp at hs

/-- The tail of addLayer returns 0 whenever it returns. -/
theorem connectOutput_code (net net' : NeuralNet α) (connect : NNetWeightedConnect α)
    (numUnits : Int) (initRange : α) (g g' : RandState) (r : Int)
    (h : net.connectOutput connect numUnits initRange g = some (r, net', g')) : r = 0 := by
  unfold NeuralNet.connectOutput at h
  by_cases h1 : 1 < net.mNumLayers
  · simp only [h1, if_true, Option.bind_eq_bind, Option.bind_eq_some, Option.pure_def,
      Option.some.injEq, Prod.mk.injEq] at h
    obtain ⟨layers, _, hr, _, _⟩ := h
    exact hr.symm
  · simp only [h1, if_false, Option.bind_eq_bind, Option.some_bind, Option.pure_def,
      Option.some.injEq, Prod.mk.injEq] at h
    exact h.1.symm

/-- The return value of addLayer, whenever the call returns: -1 when an
argument is not positive, when the first layer is added before the input width
is set, or when the layer count is negative; 0 in every other case. -/
theorem addLayer_code (net net' : NeuralNet α) (numUnits : Int) (unitType : ActiveT)
    (initRange slope amplify : α) (g g' : RandState) (r : Int)
    (h : net.addLayer numUnits unitType initRange slope amplify g = some (r, net', g')) :
    (r = -1 ∧ (numUnits ≤ 0 ∨ initRange ≤ 0 ∨ slope ≤ 0 ∨ amplify ≤ 0 ∨
        (net.mNumLayers = 0 ∧ net.mNumInputs ≤ 0) ∨ net.mNumLayers < 0)) ∨
    (r = 0 ∧ ¬ (numUnits ≤ 0 ∨ initRange ≤ 0 ∨ slope ≤ 0 ∨ amplify ≤ 0 ∨
        (net.mNumLayers = 0 ∧ net.mNumInputs ≤ 0) ∨ net.mNumLayers < 0)) := by
  unfold NeuralNet.addLayer at h
  by_cases hv : 0 < numUnits ∧ 0 < initRange ∧ 0 < slope ∧ 0 < amplify
  · rw [if_pos hv] at h
    by_cases h0 : net.mNumLayers = 0
    · rw [if_pos h0] at h
      by_cases hin : 0 < net.mNumInputs
      · rw [if_pos hin] at h
        refine Or.inr ⟨connectOutput_code _ _ _ _ _ _ _ _ h, ?_⟩
        rintro (h1 | h1 | h1 | h1 | ⟨_, h1⟩ | h1)
        · exact absurd hv.1 (not_lt.mpr h1)
        · exact absurd hv.2.1 (not_lt.mpr h1)
        · exact absurd hv.2.2.1 (not_lt.mpr h1)
        · exact absurd hv.2.2.2 (not_lt.mpr h1)
        · exact absurd hin (not_lt.mpr h1)
        · omega
      · rw [if_neg hin] at h
        simp only [Option.some.injEq, Prod.mk.injEq] at h
        exact Or.inl ⟨h.1.symm, Or.inr (Or.inr (Or.inr (Or.inr (Or.inl
          ⟨h0, not_lt.mp hin⟩))))⟩
    · rw [if_neg h0] at h
      by_cases hpos : 0 < net.mNumLayers
      · rw [if_pos hpos] at h
        simp only [Option.bind_eq_bind, Option.bind_eq_some] at h
        obtain ⟨last, _, h2⟩ := h
        refine Or.inr ⟨connectOutput_code _ _ _ _ _ _ _ _ h2, ?_⟩
        rintro (h1 | h1 | h1 | h1 | ⟨h1, _⟩ | h1)
        · exact absurd hv.1 (not_lt.mpr h1)
        · exact absurd hv.2.1 (not_lt.mpr h1)
        · exact absurd hv.2.2.1 (not_lt.mpr h1)
        · exact absurd hv.2.2.2 (not_lt.mpr h1)
        · exact h0 h1
        · omega
      · rw [if_neg hpos] at h
        simp only [Option.some.injEq, Prod.mk.injEq] at h
        exact Or.inl ⟨h.1.symm, Or.inr (Or.inr (Or.inr (Or.inr (Or.inr (by omega)))))⟩
  · rw [if_neg hv] at h
    simp only [Option.some.injEq, Prod.mk.injEq] at h
    refine Or.inl ⟨h.1.symm, ?_⟩
    by_contra hn
    simp only [not_or, not_le] at hn
    exact hv ⟨hn.1, hn.2.1, hn.2.2.1, hn.2.2.2.1⟩

/-- The call of addLayer returns on every network in which the two connections
it indexes exist: with a positive layer count L the connection list has more
than L entries. -/
theorem addLayer_returns (net : NeuralNet α) (numUnits : Int) (unitType : ActiveT)
    (initRange slope amplify : α) (g : RandState)
    (hidx : 0 < net.mNumLayers → net.mNumLayers < (net.mLayers.length : Int)) :
    ∃ r net' g', net.addLayer numUnits unitType initRange slope amplify g
      = some (r, net', g') := by
  unfold NeuralNet.addLayer
  by_cases hv : 0 < numUnits ∧ 0 < initRange ∧ 0 < slope ∧ 0 < amplify
  · rw [if_pos hv]
    by_cases h0 : net.mNumLayers = 0
    · rw [if_pos h0]
      by_cases hin : 0 < net.mNumInputs
      · rw [if_pos hin]
        simp only [NeuralNet.connectOutput, NeuralNet.storeLayer, h0, zero_add, lt_irrefl,
          if_false, Option.bind_eq_bind, Option.some_bind, Option.pure_def]
        exact ⟨_, _, _, rfl⟩
      · rw [if_neg hin]
        exact ⟨_, _, _, rfl⟩
    · rw [if_neg h0]
      by_cases hpos : 0 < net.mNumLayers
      · rw [if_pos hpos]
        have hlt := hidx hpos
        obtain ⟨k, hk⟩ : ∃ k : Nat, net.mNumLayers = ((k + 1 : Nat) : Int) :=
          ⟨net.mNumLayers.toNat - 1, by omega⟩
        have hget : net.mLayers[k]? = some net.mLayers[k] :=
          List.getElem?_eq_getElem (by omega)
        have hsub : net.mNumLayers - 1 = (k : Int) := by omega
        have hone : (1 : Int) < net.mNumLayers + 1 := by omega
        have hi : net.mNumLayers + 1 - 1 = ((k + 1 : Nat) : Int) := by omega
        have hb : (0 : Int) ≤ ((k + 1 : Nat) : Int) ∧
            ((k + 1 : Nat) : Int) < net.mLayers.length := by omega
        simp only [hsub, vecAt_natCast, hget, Option.bind_eq_bind, Option.some_bind,
          NeuralNet.connectOutput, NeuralNet.storeLayer, hone, if_true, hi, vecAssign, hb,
          and_self, Option.pure_def]
        exact ⟨_, _, _, rfl⟩
      · rw [if_neg hpos]
        exact ⟨_, _, _, rfl⟩
  · rw [if_neg hv]
    exact ⟨_, _, _, rfl⟩

/-- C10 (amended): addLayer returns -1 exactly when numUnits <= 0, or
initRange <= 0, or slope <= 0, or amplify <= 0, or there is no hidden layer
yet and the input width is not set, or the hidden-layer count is negative (the
explicit else of the branch for subsequent layers; a model text with a
negative count leaves such a network); in every other case it returns 0.  The
call returns on every network in which the connections it indexes exist (with
a positive layer count L, more than L connections), and whenever it returns,
on any network at all, the return value is as stated. -/
theorem addLayer_fails_iff (net : NeuralNet α) (numUnits : Int)
    (unitType : ActiveT) (initRange slope amplify : α) (g : RandState) :
    ((0 < net.mNumLayers → net.mNumLayers < (net.mLayers.length : Int)) →
      ∃ r net' g', net.addLayer numUnits unitType initRange slope amplify g
        = some (r, net', g')) ∧
    (∀ r net' g', net.addLayer numUnits unitType initRange slope amplify g
        = some (r, net', g') →
      (r = -1 ↔ (numUnits ≤ 0 ∨ initRange ≤ 0 ∨ slope ≤ 0 ∨ amplify ≤ 0 ∨
        (net.mNumLayers = 0 ∧ net.mNumInputs ≤ 0) ∨ net.mNumLayers < 0)) ∧
      (r = 0 ↔ ¬ (numUnits ≤ 0 ∨ initRange ≤ 0 ∨ slope ≤ 0 ∨ amplify ≤ 0 ∨
        (net.mNumLayers = 0 ∧ net.mNumInputs ≤ 0) ∨ net.mNumLayers < 0))) := by
  refine ⟨addLayer_returns net numUnits unitType initRange slope amplify g, ?_⟩
  intro r net' g' h
  rcases addLayer_code net net' numUnits unitType initRange slope amplify g g' r h with
    ⟨hr, hc⟩ | ⟨hr, hc⟩
  · subst hr
    refine ⟨⟨fun _ => hc, fun _ => rfl⟩, ⟨fun h0 => ?_, fun hn => absurd hc hn⟩⟩
    norm_num at h0
  · subst hr
    refine ⟨⟨fun h0 => ?_, fun hn => absurd hn hc⟩, ⟨fun _ => hc, fun _ => rfl⟩⟩
    norm_num at h0

end AddLayerClaims

/-- Witness for C9: the first layer (3 units) of a network with 2 inputs and
1 output. -/
theorem addLayer_success_rewires_witness :
    ∃ net' g', (((NeuralNet.new : NeuralNet ℚ).setNumInputs 2).setNumOutputs 1).addLayer 3
        ActiveT.kUnipolar 2 1 1 exampleRand = some (0, net', g') ∧
      net'.mNumLayers = 1 ∧ net'.mLayers.length = 2 ∧
      (∃ c, net'.mLayers[0]? = some c ∧ c.mNumInNodes = 2 ∧ c.mNumOutNodes = 3) ∧
      (∃ c, net'.mLayers[1]? = some c ∧ c.mNumInNodes = 3 ∧ c.mNumOutNodes = 1) ∧
      net'.getLayerDetails 0 (ActiveT.kThreshold, 0, 0) = some (ActiveT.kUnipolar, 1, 1) := by
  have hc : (((NeuralNet.new : NeuralNet ℚ).setNumInputs 2).setNumOutputs 1).Consistent :=
    setNumOutputs_consistent _ _ (setNumInputs_consistent _ _ new_consistent)
  have hs := addLayer_valid (((NeuralNet.new : NeuralNet ℚ).setNumInputs 2).setNumOutputs 1) hc 3
    ActiveT.kUnipolar 2 1 1 exampleRand (by norm_num)
    (by simp [NeuralNet.new, NeuralNet.setNumInputs, NeuralNet.setNumOutputs])
  have h := addLayer_success_rewires _ _ hc
    (by simp [NeuralNet.new, NeuralNet.setNumInputs, NeuralNet.setNumOutputs])
    3 ActiveT.kUnipolar 2 1 1 exampleRand _ hs
  refine ⟨_, _, hs, ?_, ?_, ?_, ?_, ?_⟩
  · simpa [NeuralNet.new, NeuralNet.setNumInputs, NeuralNet.setNumOutputs] using h.1
  · have h2 := h.2.1
    simp only [NeuralNet.new, NeuralNet.setNumInputs, NeuralNet.setNumOutputs] at h2
    exact h2
  · simpa [NeuralNet.new, NeuralNet.setNumInputs, NeuralNet.setNumOutputs, NeuralNet.fanIn]
      using h.2.2.1
  · simpa [NeuralNet.new, NeuralNet.setNumInputs, NeuralNet.setNumOutputs] using h.2.2.2.1
  · simpa [NeuralNet.new, NeuralNet.setNumInputs, NeuralNet.setNumOutputs]
      using h.2.2.2.2.1 (ActiveT.kThreshold, 0, 0)

/-- Counterexample to C9 as stated: with the input width set to 2 and the output
width never set, addLayer(3, ...) succeeds on the empty network (L = 0), yet
the connection at index L+1 = 1 has -1 input nodes and -1 output nodes, not
numUnits = 3 input nodes and outputWidth = 0 output nodes. -/
theorem addLayer_output_width_unset_counterexample :
    ∃ net' g', ((NeuralNet.new : NeuralNet ℚ).setNumInputs 2).addLayer 3
        ActiveT.kUnipolar 2 1 1 exampleRand = some (0, net', g') ∧
      ((NeuralNet.new : NeuralNet ℚ).setNumInputs 2).mNumOutputs = 0 ∧
      ∃ c, net'.mLayers[1]? = some c ∧ c.mNumInNodes = -1 ∧ c.mNumOutNodes = -1 := by
  have hc : ((NeuralNet.new : NeuralNet ℚ).setNumInputs 2).Consistent :=
    setNumInputs_consistent _ _ new_consistent
  have hs := addLayer_valid ((NeuralNet.new : NeuralNet ℚ).setNumInputs 2) hc 3
    ActiveT.kUnipolar 2 1 1 exampleRand (by norm_num)
    (by simp [NeuralNet.new, NeuralNet.setNumInputs])
  refine ⟨_, _, hs, ?_, ?_⟩
  · simp [NeuralNet.new, NeuralNet.setNumInputs]
  · simp [NeuralNet.new, NeuralNet.setNumInputs, NeuralNet.storeLayer,
      NNetWeightedConnect.setNumNodes, NNetWeightedConnect.new]

/-- Witness for C10: on the example network (one hidden layer, two
connections) addLayer(3, Tanh, 2, 5, 7) returns, and returns 0; with
numUnits = 0 on the empty network it returns -1. -/
theorem addLayer_fails_iff_witness :
    (∃ net' g', exampleNet.addLayer 3 ActiveT.kTanh 2 5 7 exampleRand = some (0, net', g')) ∧
    (∃ net' g', (NeuralNet.new : NeuralNet ℚ).addLayer 0 ActiveT.kUnipolar 2 1 1 exampleRand
      = some (-1, net', g')) := by
  refine ⟨?_, ?_⟩
  · obtain ⟨r, net', g', h⟩ :=
      (addLayer_fails_iff exampleNet 3 ActiveT.kTanh 2 5 7 exampleRand).1
        (fun _ => by decide)
    have hr := ((addLayer_fails_iff exampleNet 3 ActiveT.kTanh 2 5 7 exampleRand).2
      r net' g' h).2.2 (by
        have h1 : exampleNet.mNumLayers = 1 := rfl
        rw [h1]
        norm_num)
    subst hr
    exact ⟨net', g', h⟩
  · obtain ⟨r, net', g', h⟩ :=
      (addLayer_fails_iff (NeuralNet.new : NeuralNet ℚ) 0 ActiveT.kUnipolar 2 1 1
        exampleRand).1 (fun h0 => absurd h0 (by decide))
    have hr := ((addLayer_fails_iff (NeuralNet.new : NeuralNet ℚ) 0 ActiveT.kUnipolar 2 1 1
      exampleRand).2 r net' g' h).1.2 (Or.inl le_rfl)
    subst hr
    exact ⟨net', g', h⟩

/-- Counterexample for C10 as stated: the model text 2 1 -1 10 3 1 read into
a new network leaves the input width 2 and the hidden-layer count -1; on that
network addLayer(3, Linear, 2, 1, 1) returns -1 and leaves the count at -1,
although every argument is positive and the input width is set (so the last
condition of the claim fails whether or not a count of -1 is read as "no
hidden layer yet"). -/
theorem addLayer_negative_count_counterexample :
    ((NeuralNet.new : NeuralNet ℚ).deserialize
        [Token.int 2, Token.int 1, Token.int (-1), Token.int 10, Token.real 3, Token.real 1]
        exampleRand).map
      (fun d => (d.net.mNumInputs, d.net.mNumLayers, d.net.mLayers.length,
        (d.net.addLayer 3 ActiveT.kLinear 2 1 1 d.rand).map
          (fun r => (r.1, r.2.1.mNumLayers))))
      = some (2, -1, 0, some (-1, -1)) ∧
    ¬ ((3 : Int) ≤ 0 ∨ (2 : ℚ) ≤ 0 ∨ (1 : ℚ) ≤ 0 ∨ (1 : ℚ) ≤ 0 ∨
      ((-1 : Int) ≤ 0 ∧ (2 : Int) ≤ 0)) := by
  refine ⟨?_, ?_⟩
  · with_unfolding_all rfl
  · norm_num

/-! ## The forward pass -/

section Forward

variable {α : Type} [LinearOrderedField α]

theorem mapM_range_take {β γ : Type} (l : List β) (f : Nat → Option γ) (h : β → γ)
    (hf : ∀ (i : Nat) (hi : i < l.length), f i = some (h l[i])) :
    ∀ n, n ≤ l.length → (List.range n).mapM f = some ((l.take n).map h) := by
  intro n
  induction n with
  | zero =>
    intro _
    rw [List.range_zero, List.mapM_nil, List.take_zero, List.map_nil]
    rfl
  | succ k ih =>
    intro hk
    have hlt : k < l.length := hk
    rw [List.range_succ, List.mapM_append, ih (by omega), List.mapM_cons, List.mapM_nil,
      hf k hlt, List.take_succ, List.getElem?_eq_getElem hlt]
    simp only [Option.pure_def, Option.bind_eq_bind, Option.some_bind, Option.toList_some,
      List.map_append, List.map_cons, List.map_nil]

theorem mapM_range_all {β γ : Type} (l : List β) (f : Nat → Option γ) (h : β → γ)
    (hf : ∀ (i : Nat) (hi : i < l.length), f i = some (h l[i])) :
    (List.range l.length).mapM f = some (l.map h) := by
  have := mapM_range_take l f h hf l.length le_rfl
  rwa [List.take_length] at this

theorem foldlM_dot (row x : List α) :
    ∀ (n : Nat) (init : α), n ≤ row.length → n ≤ x.length →
      (List.range n).foldlM
        (fun value (i : Nat) => do
          let w ← vecAt row (i : Int)
          let v ← vecAt x (i : Int)
          pure (value + w * v)) init
      = some (init + dot (row.take n) (x.take n)) := by
  intro n
  induction n with
  | zero => intro init _ _; simp [dot]
  | succ k ih =>
    intro init hr hx
    have hkr : k < row.length := hr
    have hkx : k < x.length := hx
    rw [List.range_succ, List.foldlM_append, ih init (by omega) (by omega)]
    simp only [Option.bind_eq_bind, Option.some_bind, List.foldlM_cons, List.foldlM_nil,
      vecAt_natCast, List.getElem?_eq_getElem hkr, List.getElem?_eq_getElem hkx,
      Option.pure_def, Option.bind_some, List.take_succ, Option.toList_some, dot]
    rw [List.zipWith_append _ _ _ _ _ (by simp [List.length_take]; omega)]
    simp [add_assoc]

theorem dot_take_left (row x : List α) (n : Nat) (h : row.length = n) :
    dot (row.take n) x = dot row x := by
  rw [List.take_of_length_le (by omega)]

theorem setInputs_sized (c : NNetWeightedConnect α) (hs : c.Sized) (x : List α)
    (hx : (x.length : Int) = c.mNumInNodes) :
    ∃ c1, c.setInputs x = some c1 ∧ c1.mNumInNodes = c.mNumInNodes ∧
      c1.mNumOutNodes = c.mNumOutNodes ∧ c1.mWeights = c.mWeights ∧
      c1.mInputs.take x.length = x ∧ x.length ≤ c1.mInputs.length := by
  have hpos := hs.inPos
  unfold NNetWeightedConnect.setInputs
  rw [if_pos hx]
  by_cases he : c.mInputs.isEmpty
  · have hnil : c.mInputs = [] := List.isEmpty_iff.mp he
    have hr : vecResize (0 : α) c.mInputs c.mNumInNodes
        = some (List.replicate c.mNumInNodes.toNat 0) := by
      unfold vecResize
      rw [if_neg (by omega), hnil]
      simp
    have hcp : vecCopy x (List.replicate c.mNumInNodes.toNat (0 : α)) = some x := by
      unfold vecCopy
      have hlen : x.length = c.mNumInNodes.toNat := by omega
      rw [if_pos (by simp [hlen])]
      simp [hlen]
    simp only [he, if_true, hr, Option.bind_eq_bind, Option.some_bind, hcp, Option.pure_def]
    exact ⟨_, rfl, rfl, rfl, rfl, by simp, le_rfl⟩
  · have hne : c.mInputs ≠ [] := fun h => he (List.isEmpty_iff.mpr h)
    have hle : x.length ≤ c.mInputs.length := by
      rcases hs.inputs with h | h
      · exact absurd h hne
      · omega
    have hcp : vecCopy x c.mInputs = some (x ++ c.mInputs.drop x.length) := by
      unfold vecCopy
      rw [if_pos hle]
    simp only [he, Bool.false_eq_true, if_false, Option.bind_eq_bind, Option.some_bind, hcp,
      Option.pure_def]
    refine ⟨_, rfl, rfl, rfl, rfl, ?_, ?_⟩
    · simp
    · simp

theorem getNodeValue_eq (c : NNetWeightedConnect α) (x : List α) (i : Nat)
    (hi : i < c.mWeights.length)
    (hrow : (c.mWeights[i].length : Int) = c.mNumInNodes)
    (hx : (x.length : Int) = c.mNumInNodes)
    (htake : c.mInputs.take x.length = x) (hle : x.length ≤ c.mInputs.length) :
    c.getNodeValue (i : Int) = some (dot c.mWeights[i] x) := by
  unfold NNetWeightedConnect.getNodeValue
  have hn : c.mNumInNodes.toNat = x.length := by omega
  rw [vecAt_natCast, List.getElem?_eq_getElem hi]
  have hfold := foldlM_dot c.mWeights[i] c.mInputs x.length 0 (by omega) hle
  simp only [Option.bind_eq_bind] at hfold
  simp only [Option.bind_eq_bind, Option.some_bind]
  rw [if_pos hrow.symm, hn, hfold, htake, dot_take_left _ _ _ (by omega), zero_add]

theorem getOutputs_eq (c : NNetWeightedConnect α) (x : List α)
    (hout : 0 < c.mNumOutNodes) (hrows : (c.mWeights.length : Int) = c.mNumOutNodes)
    (hcols : ∀ row ∈ c.mWeights, (row.length : Int) = c.mNumInNodes)
    (hx : (x.length : Int) = c.mNumInNodes)
    (htake : c.mInputs.take x.length = x) (hle : x.length ≤ c.mInputs.length) :
    c.getOutputs [] = some ({ c with mOutputs := preActivation c x }, preActivation c x) := by
  unfold NNetWeightedConnect.getOutputs NNetWeightedConnect.calculateOutput
  have hne : ((([] : List α).length : Nat) : Int) ≠ c.mNumOutNodes := by
    simp only [List.length_nil, Nat.cast_zero]
    omega
  have hr : vecResize (0 : α) [] c.mNumOutNodes
      = some (List.replicate c.mNumOutNodes.toNat 0) := by
    unfold vecResize
    rw [if_neg (by omega)]
    simp
  have hn : c.mNumOutNodes.toNat = c.mWeights.length := by omega
  have hmap : (List.range c.mNumOutNodes.toNat).mapM (fun (i : Nat) => c.getNodeValue (i : Int))
      = some (preActivation c x) := by
    rw [hn]
    exact mapM_range_all c.mWeights _ (fun row => dot row x)
      (fun i hi => getNodeValue_eq c x i hi (hcols _ (List.getElem_mem _)) hx htake hle)
  have hcp : vecCopy (preActivation c x) (List.replicate c.mNumOutNodes.toNat (0 : α))
      = some (preActivation c x) := by
    unfold vecCopy
    have hlen : (preActivation c x).length = c.mNumOutNodes.toNat := by
      simp [preActivation, hn]
    rw [if_pos (by simp [hlen])]
    simp [hlen]
  simp only [if_pos hne, hr, Option.bind_eq_bind, Option.some_bind, hmap, Option.pure_def, hcp]

/-- Applying a usable connection to an input vector of the right length: the
outputs are the weighted sums of its rows. -/
theorem applyConnect (c : NNetWeightedConnect α) (hs : c.Sized) (x : List α)
    (hx : (x.length : Int) = c.mNumInNodes) :
    ∃ c1 c2, c.setInputs x = some c1 ∧ c1.getOutputs [] = some (c2, preActivation c x) := by
  obtain ⟨c1, h1, hin, hout, hw, htake, hle⟩ := setInputs_sized c hs x hx
  refine ⟨c1, { c1 with mOutputs := preActivation c1 x }, h1, ?_⟩
  have := getOutputs_eq c1 x (hout ▸ hs.outPos) (by rw [hw, hout]; exact hs.rows)
    (by rw [hw, hin]; exact hs.cols) (by rw [hin]; exact hx) htake hle
  rw [this]
  simp [preActivation, hw]

theorem activateUnits_snd (m : Libm α) (v : List α) :
    ∀ u : NNetUnit α, (activateUnits m u v).2
      = v.map (fun p => forward m u.mActivationType u.mSlope u.mAmplify p) := by
  induction v with
  | nil => intro u; rfl
  | cons a t ih =>
    intro u
    simp only [activateUnits, List.map_cons, ih]
    rfl

theorem setters_fields (u : NNetUnit α) (k : ActiveT) (s a : α) (hs : 0 < s) (ha : 0 < a) :
    (((u.setActivationType k).setSlope s).setAmplify a).mActivationType = k ∧
    (((u.setActivationType k).setSlope s).setAmplify a).mSlope = s ∧
    (((u.setActivationType k).setSlope s).setAmplify a).mAmplify = a := by
  simp [NNetUnit.setActivationType, NNetUnit.setSlope, NNetUnit.setAmplify, hs, ha]

theorem configureUnit_spec (net : NeuralNet α) (hw : net.WellFormed) (u : NNetUnit α) (s : Nat)
    (hs : s ≤ net.mNumLayers.toNat) :
    ∃ u', net.configureUnit u s = some u' ∧
      u'.mActivationType = (net.stageDetails s).1 ∧ u'.mSlope = (net.stageDetails s).2.1 ∧
      u'.mAmplify = (net.stageDetails s).2.2 := by
  unfold NeuralNet.configureUnit NeuralNet.stageDetails
  by_cases hlt : (s : Int) < net.mNumLayers
  · have hs' : s < net.mNumLayers.toNat := by omega
    have h1 : s < net.mActiveUnits.length := by rw [hw.numUnits]; exact hs'
    have h2 : s < net.mActiveSlope.length := by rw [hw.numSlopes]; exact hs'
    have h3 : s < net.mActiveAmplify.length := by rw [hw.numAmplifies]; exact hs'
    have hp2 : (0 : α) < net.mActiveSlope[s] := hw.slopePos _ (List.getElem_mem _)
    have hp3 : (0 : α) < net.mActiveAmplify[s] := hw.amplifyPos _ (List.getElem_mem _)
    simp only [if_pos hlt, vecAt_natCast, List.getElem?_eq_getElem h1,
      List.getElem?_eq_getElem h2, List.getElem?_eq_getElem h3, Option.bind_eq_bind,
      Option.some_bind, Option.pure_def, List.getD_eq_getElem?_getD, Option.getD_some]
    exact ⟨_, rfl, setters_fields u _ _ _ hp2 hp3⟩
  · simp only [if_neg hlt, Option.pure_def]
    exact ⟨_, rfl, setters_fields u _ _ _ hw.outSlopePos hw.outAmplifyPos⟩

theorem propagateLayer_spec (m : Libm α) (net : NeuralNet α) (hw : net.WellFormed)
    (st : ResponseState α) (s : Nat) (c : NNetWeightedConnect α)
    (hs : s ≤ net.mNumLayers.toNat) (hc : net.mLayers[s]? = some c)
    (hx : (st.inputVec.length : Int) = c.mNumInNodes) :
    ∃ st1, net.propagateLayer m st s = some st1 ∧
      st1.inputVec = net.stageOutput m s c st.inputVec ∧
      st1.mUnitInputs = st.mUnitInputs ++ [preActivation c st.inputVec] ∧
      st1.mActivations = st.mActivations ++ [net.stageOutput m s c st.inputVec] := by
  have hsz : c.Sized := hw.sized c (List.getElem?_mem hc)
  obtain ⟨c1, c2, h1, h2⟩ := applyConnect c hsz st.inputVec hx
  obtain ⟨u', hu, ht, hsl, ha⟩ := configureUnit_spec net hw st.unit s hs
  unfold NeuralNet.propagateLayer
  simp only [vecAt_natCast, hc, Option.bind_eq_bind, Option.some_bind, h1, h2, hu,
    Option.pure_def, activateUnits_snd, ht, hsl, ha]
  exact ⟨_, rfl, rfl, rfl, rfl⟩

theorem stageOutput_length (m : Libm α) (net : NeuralNet α) (s : Nat)
    (c : NNetWeightedConnect α) (x : List α) :
    (net.stageOutput m s c x).length = c.mWeights.length := by
  simp [NeuralNet.stageOutput, preActivation]

/-- The layer loop of getResponse from layer `s` on: it runs to the end, its
input vector becomes the specified stage outputs and the caches grow by the
pre- and post-activation vectors of the stages it passes. -/
theorem propagate_loop (m : Libm α) (net : NeuralNet α) (hw : net.WellFormed) :
    ∀ (n s : Nat) (st : ResponseState α) (p : NNetWeightedConnect α),
      s + n = net.mNumLayers.toNat + 1 → net.mLayers[s - 1]? = some p → 1 ≤ s →
      (st.inputVec.length : Int) = p.mNumOutNodes →
      ∃ st', (List.range' s n).foldlM (net.propagateLayer m) st = some st' ∧
        st'.inputVec = net.stagesFrom m s (net.mLayers.drop s) st.inputVec ∧
        st'.mUnitInputs = st.mUnitInputs ++
          (net.tracesFrom m s (net.mLayers.drop s) st.inputVec).map Prod.fst ∧
        st'.mActivations = st.mActivations ++
          (net.tracesFrom m s (net.mLayers.drop s) st.inputVec).map Prod.snd ∧
        (st'.inputVec.length : Int) = net.mNumOutputs := by
  intro n
  induction n with
  | zero =>
    intro s st p hsn hp hs1 hlen
    have hs : s = net.mNumLayers.toNat + 1 := by omega
    have hdrop : net.mLayers.drop s = [] := by
      apply List.drop_of_length_le
      rw [hw.numConnect, hs]
    have hp' : net.mLayers[net.mNumLayers.toNat]? = some p := by
      rw [← hp, hs]; rfl
    refine ⟨st, rfl, ?_, ?_, ?_, ?_⟩
    · rw [hdrop]; rfl
    · rw [hdrop]; simp [NeuralNet.tracesFrom]
    · rw [hdrop]; simp [NeuralNet.tracesFrom]
    · rw [hlen, hw.last p hp']
  | succ k ih =>
    intro s st p hsn hp hs1 hlen
    have hsL : s ≤ net.mNumLayers.toNat := by omega
    have hslt : s < net.mLayers.length := by rw [hw.numConnect]; omega
    have hc : net.mLayers[s]? = some net.mLayers[s] := List.getElem?_eq_getElem hslt
    have hchain : net.mLayers[s].mNumInNodes = p.mNumOutNodes := by
      have hp2 : net.mLayers[s - 1 + 1]? = some net.mLayers[s] := by
        rw [Nat.sub_add_cancel hs1]; exact hc
      exact hw.chain (s - 1) p _ hp hp2
    obtain ⟨st1, h1, hin, hui, hact⟩ := propagateLayer_spec m net hw st s net.mLayers[s] hsL hc
      (by rw [hlen, hchain])
    have hsz : (net.mLayers[s]).Sized := hw.sized _ (List.getElem_mem _)
    have hlen1 : (st1.inputVec.length : Int) = (net.mLayers[s]).mNumOutNodes := by
      rw [hin, stageOutput_length, hsz.rows]
    obtain ⟨st', h2, hin', hui', hact', hout⟩ := ih (s + 1) st1 net.mLayers[s] (by omega)
      (by rw [Nat.add_sub_cancel]; exact hc) (by omega) hlen1
    refine ⟨st', ?_, ?_, ?_, ?_, hout⟩
    · rw [List.range'_succ, List.foldlM_cons, h1]
      exact h2
    · rw [hin', hin, List.drop_eq_getElem_cons hslt]
      rfl
    · rw [hui', hui, hin, List.drop_eq_getElem_cons hslt]
      simp [NeuralNet.tracesFrom]
    · rw [hact', hact, hin, List.drop_eq_getElem_cons hslt]
      simp [NeuralNet.tracesFrom]

theorem vecAt_zero {β : Type} (v : List β) : vecAt v 0 = v[0]? := by
  simp [vecAt]

omit [LinearOrderedField α] in
theorem loadInputs (inputs : List α) (n : Nat) (h : n ≤ inputs.length) :
    (List.range n).mapM (fun (i : Nat) => vecAt inputs (i : Int)) = some (inputs.take n) := by
  have := mapM_range_take inputs (fun (i : Nat) => vecAt inputs (i : Int)) id
    (fun i hi => by
      show vecAt inputs ((i : Nat) : Int) = some (id inputs[i])
      rw [vecAt_natCast, List.getElem?_eq_getElem hi]; rfl) n h
  rwa [List.map_id] at this

/-- The forward pass on a well-formed network with enough inputs: the result
is defined, the output vector is the specified response and the two caches
hold the pre- and post-activation vectors of the stages 0..L. -/
theorem getResponse_spec (m : Libm α) (net : NeuralNet α) (hw : net.WellFormed)
    (inputs outputs : List α) (hlen : net.mNumInputs ≤ (inputs.length : Int)) :
    net.getResponse m inputs outputs =
      some ({ net with
          mActivations := (net.tracesFrom m 0 net.mLayers
            (inputs.take net.mNumInputs.toNat)).map Prod.snd,
          mUnitInputs := (net.tracesFrom m 0 net.mLayers
            (inputs.take net.mNumInputs.toNat)).map Prod.fst },
        net.responseSpec m inputs) ∧
    ((net.responseSpec m inputs).length : Int) = net.mNumOutputs := by
  have hL := hw.layersPos
  have hn : net.mNumInputs.toNat ≤ inputs.length := by omega
  have h0lt : 0 < net.mLayers.length := by rw [hw.numConnect]; omega
  have hc0 : net.mLayers[0]? = some net.mLayers[0] := List.getElem?_eq_getElem h0lt
  have hx0 : (((inputs.take net.mNumInputs.toNat).length : Nat) : Int)
      = (net.mLayers[0]).mNumInNodes := by
    rw [hw.first _ hc0, List.length_take, Nat.min_eq_left hn]
    have := hw.inputsPos
    omega
  have hsz : (net.mLayers[0]).Sized := hw.sized _ (List.getElem_mem _)
  obtain ⟨c1, c2, h1, h2⟩ := applyConnect net.mLayers[0] hsz _ hx0
  have hu1 : 0 < net.mActiveUnits.length := by rw [hw.numUnits]; omega
  have hu2 : 0 < net.mActiveSlope.length := by rw [hw.numSlopes]; omega
  have hu3 : 0 < net.mActiveAmplify.length := by rw [hw.numAmplifies]; omega
  have hp2 : (0 : α) < net.mActiveSlope[0] := hw.slopePos _ (List.getElem_mem _)
  have hp3 : (0 : α) < net.mActiveAmplify[0] := hw.amplifyPos _ (List.getElem_mem _)
  have hdet : net.stageDetails 0
      = (net.mActiveUnits[0], net.mActiveSlope[0], net.mActiveAmplify[0]) := by
    unfold NeuralNet.stageDetails
    rw [if_pos (by simpa using hL)]
    simp [List.getD_eq_getElem?_getD, List.getElem?_eq_getElem hu1,
      List.getElem?_eq_getElem hu2, List.getElem?_eq_getElem hu3]
  have hact : ∀ u : NNetUnit α, u.mActivationType = net.mActiveUnits[0] →
      u.mSlope = net.mActiveSlope[0] → u.mAmplify = net.mActiveAmplify[0] →
      (activateUnits m u (preActivation net.mLayers[0] (inputs.take net.mNumInputs.toNat))).2
        = net.stageOutput m 0 net.mLayers[0] (inputs.take net.mNumInputs.toNat) := by
    intro u e1 e2 e3
    rw [activateUnits_snd, e1, e2, e3]
    simp only [NeuralNet.stageOutput, hdet]
  have hlen1 : (((net.stageOutput m 0 net.mLayers[0]
      (inputs.take net.mNumInputs.toNat)).length : Nat) : Int)
      = (net.mLayers[0]).mNumOutNodes := by
    rw [stageOutput_length, hsz.rows]
  obtain ⟨st', hloop, hin', hui', hact', hout⟩ := propagate_loop m net hw net.mNumLayers.toNat 1
    { unit := (activateUnits m
        { mActivationType := net.mActiveUnits[0], mInput := -1, mSlope := net.mActiveSlope[0],
          mAmplify := net.mActiveAmplify[0] }
        (preActivation net.mLayers[0] (inputs.take net.mNumInputs.toNat))).1,
      inputVec := net.stageOutput m 0 net.mLayers[0] (inputs.take net.mNumInputs.toNat),
      outputVec := preActivation net.mLayers[0] (inputs.take net.mNumInputs.toNat),
      mUnitInputs := [preActivation net.mLayers[0] (inputs.take net.mNumInputs.toNat)],
      mActivations := [net.stageOutput m 0 net.mLayers[0] (inputs.take net.mNumInputs.toNat)] }
    net.mLayers[0] (by omega) hc0 le_rfl hlen1
  dsimp only at hin' hui' hact'
  have hact0 := hact
    { mActivationType := net.mActiveUnits[0], mInput := -1, mSlope := net.mActiveSlope[0],
      mAmplify := net.mActiveAmplify[0] } rfl rfl rfl
  have hsplit : net.mLayers = net.mLayers[0] :: net.mLayers.drop 1 := by
    rw [← List.drop_eq_getElem_cons h0lt, List.drop_zero]
  have hresp : net.responseSpec m inputs = st'.inputVec := by
    rw [hin']
    unfold NeuralNet.responseSpec
    conv_lhs => rw [hsplit]
    rfl
  have htr : net.tracesFrom m 0 net.mLayers (inputs.take net.mNumInputs.toNat)
      = (preActivation net.mLayers[0] (inputs.take net.mNumInputs.toNat),
          net.stageOutput m 0 net.mLayers[0] (inputs.take net.mNumInputs.toNat)) ::
        net.tracesFrom m 1 (net.mLayers.drop 1)
          (net.stageOutput m 0 net.mLayers[0] (inputs.take net.mNumInputs.toNat)) := by
    conv_lhs => rw [hsplit]
    rfl
  constructor
  · unfold NeuralNet.getResponse
    rw [if_pos ⟨hlen, hL⟩]
    simp only [loadInputs inputs _ hn, vecAt_zero, hc0, Option.bind_eq_bind, Option.some_bind,
      h1, h2, List.getElem?_eq_getElem hu1, List.getElem?_eq_getElem hu2,
      List.getElem?_eq_getElem hu3, NNetUnit.construct, hp2, hp3, and_self, if_true,
      hact0, hloop, Option.pure_def, hresp, htr, hui', hact', List.map_cons,
      List.singleton_append]
  · rw [hresp]; exact hout

end Forward

theorem exampleNet_wellFormed : exampleNet.WellFormed := by
  refine ⟨by decide, by decide, by decide, by decide, by decide, by decide, by decide,
    ?_, ?_, ?_, ?_, ?_, ?_, ?_, ?_⟩
  · intro s hs
    simp only [exampleNet, List.mem_singleton] at hs
    rw [hs]; norm_num
  · intro a ha
    simp only [exampleNet, List.mem_singleton] at ha
    rw [ha]; norm_num
  · simp [exampleNet]
  · simp [exampleNet]
  · intro c hc
    simp only [exampleNet, List.mem_cons, List.mem_singleton, List.not_mem_nil, or_false] at hc
    rcases hc with h | h <;> subst h <;>
      exact ⟨by decide, by decide, by decide, by simp, Or.inl rfl⟩
  · intro c hc
    simp only [exampleNet, List.getElem?_cons_zero, Option.some.injEq] at hc
    subst hc
    rfl
  · intro i c d h1 h2
    match i with
    | 0 =>
      simp only [exampleNet, List.getElem?_cons_zero, Option.some.injEq, zero_add,
        List.getElem?_cons_succ] at h1 h2
      subst h1 h2
      rfl
    | k + 1 =>
      simp [exampleNet] at h2
  · intro c hc
    simp only [exampleNet, Int.toNat_one, List.getElem?_cons_succ, List.getElem?_cons_zero,
      Option.some.injEq] at hc
    subst hc
    rfl

section ForwardClaims

variable {α : Type} [LinearOrderedField α]

/-- C1: for every well-formed network (input width n > 0, output width m > 0,
L >= 1 hidden layers) and every input vector of length >= n, getResponse
returns the vector obtained from x_0 = the first n input values by applying,
for each stage s = 0..L in order, pre_s[i] = sum_j W_s[i][j] * x_s[j] and
x_(s+1)[i] = forward(kind_s, slope_s, amplify_s, pre_s[i]), with the metadata
of hidden layer s for s < L and of the output layer for s = L; the returned
vector has length m. -/
theorem getResponse_computes_stages (m : Libm α) (net : NeuralNet α) (hw : net.WellFormed)
    (inputs outputs : List α) (hlen : net.mNumInputs ≤ (inputs.length : Int)) :
    ∃ net', net.getResponse m inputs outputs = some (net', net.responseSpec m inputs) ∧
      ((net.responseSpec m inputs).length : Int) = net.mNumOutputs :=
  ⟨_, (getResponse_spec m net hw inputs outputs hlen).1,
    (getResponse_spec m net hw inputs outputs hlen).2⟩

end ForwardClaims

theorem exampleNet_response : exampleNet.responseSpec exampleLibm [1, 1, 7] = [-24] := by
  simp [NeuralNet.responseSpec, NeuralNet.stagesFrom, NeuralNet.stageOutput, preActivation, dot,
    NeuralNet.stageDetails, forward, NNetUnit.getActivation, exampleNet]
  norm_num

/-- Witness for C1: the example network on the inputs 1, 1 (and an ignored
third value): hidden pre-activations 3 and 7, hidden outputs 6 and 14, output
pre-activation -8 and response 3 * -8 = -24. -/
theorem getResponse_computes_stages_witness :
    ∃ net', exampleNet.getResponse exampleLibm [1, 1, 7] [] = some (net', [-24]) := by
  obtain ⟨net', h, _⟩ := getResponse_computes_stages exampleLibm exampleNet
    exampleNet_wellFormed [1, 1, 7] [] (by decide)
  rw [exampleNet_response] at h
  exact ⟨net', h⟩

/-! ## The training step -/

section TrainLoops

variable {α : Type} [LinearOrderedField α]

theorem mapM_range_map {γ : Type} (f : Nat → Option γ) (h : Nat → γ) :
    ∀ n, (∀ i, i < n → f i = some (h i)) →
      (List.range n).mapM f = some ((List.range n).map h) := by
  intro n
  induction n with
  | zero =>
    intro _
    rw [List.range_zero, List.mapM_nil, List.map_nil]
    rfl
  | succ k ih =>
    intro hf
    rw [List.range_succ, List.mapM_append, ih (fun i hi => hf i (by omega)), List.mapM_cons,
      List.mapM_nil, hf k (by omega)]
    simp only [Option.pure_def, Option.bind_eq_bind, Option.some_bind, List.map_append,
      List.map_cons, List.map_nil]

theorem foldlM_range_sum (step : α → Nat → Option α) (term : Nat → α) :
    ∀ n (init : α), (∀ i acc, i < n → step acc i = some (acc + term i)) →
      (List.range n).foldlM step init = some (init + ((List.range n).map term).sum) := by
  intro n
  induction n with
  | zero => intro init _; simp
  | succ k ih =>
    intro init hf
    rw [List.range_succ, List.foldlM_append, ih init (fun i acc hi => hf i acc (by omega))]
    simp only [Option.bind_eq_bind, Option.some_bind, List.foldlM_cons, List.foldlM_nil,
      hf k _ (by omega), Option.pure_def, List.map_append, List.map_cons, List.map_nil,
      List.sum_append, List.sum_cons, List.sum_nil, add_zero, add_assoc]

theorem vecAt_getD {β : Type} (v : List β) (i : Nat) (d : β) (h : i < v.length) :
    vecAt v (i : Int) = some (v.getD i d) := by
  rw [vecAt_natCast, List.getElem?_eq_getElem h, List.getD_eq_getElem?_getD,
    List.getElem?_eq_getElem h]
  rfl

theorem vecAssign_natCast {β : Type} (v : List β) (i : Nat) (x : β) (h : i < v.length) :
    vecAssign v (i : Int) x = some (v.set i x) := by
  unfold vecAssign
  rw [if_pos ⟨by omega, by omega⟩, Int.toNat_ofNat]

omit [LinearOrderedField α] in
theorem getWeightVector_natCast (c : NNetWeightedConnect α) (k : Nat) (w : List α)
    (h : k < c.mWeights.length) :
    c.getWeightVector (k : Int) w = c.mWeights.getD k [] := by
  unfold NNetWeightedConnect.getWeightVector
  rw [if_pos ⟨by omega, by omega⟩, Int.toNat_ofNat, List.getElem?_eq_getElem h,
    List.getD_eq_getElem?_getD, List.getElem?_eq_getElem h]
  rfl

omit [LinearOrderedField α] in
theorem setWeightVector_natCast (c : NNetWeightedConnect α) (k : Nat) (w : List α)
    (h : k < c.mWeights.length) (hl : (c.mWeights.getD k []).length = w.length) :
    c.setWeightVector (k : Int) w = { c with mWeights := c.mWeights.set k w } := by
  unfold NNetWeightedConnect.setWeightVector
  rw [List.getD_eq_getElem?_getD, List.getElem?_eq_getElem h] at hl
  rw [if_pos ⟨by omega, by omega⟩, Int.toNat_ofNat, List.getElem?_eq_getElem h]
  simp only [Option.getD_some] at hl
  simp only [hl, if_true]

/-- The loop over the input nodes of one weight row: it runs to the end and
keeps the length of the row; without momentum the history is untouched and
the first `k` weights are the adjusted ones. -/
theorem adjustWeight_loop (learnConst momentum ei : α) (xVec row : List α)
    (hrow : row.length = xVec.length) (prev : List α) (idx : Nat) :
    ∀ k, k ≤ xVec.length →
      ∃ st, (List.range k).foldlM (adjustWeight learnConst momentum ei xVec)
          { weights := row, prevWt := prev, prevIdx := idx } = some st ∧
        st.weights.length = row.length ∧ st.prevIdx = idx + k ∧
        (¬ 0 < momentum → st.prevWt = prev ∧
          st.weights = (adjustedRow learnConst ei row xVec).take k ++ row.drop k) := by
  intro k
  induction k with
  | zero =>
    intro _
    exact ⟨_, rfl, rfl, rfl, fun _ => ⟨rfl, by simp⟩⟩
  | succ k ih =>
    intro hk
    obtain ⟨st, hst, hlen, hidx, hex⟩ := ih (by omega)
    have hkx : k < xVec.length := hk
    have hkw : k < st.weights.length := by omega
    rw [List.range_succ, List.foldlM_append, hst]
    simp only [Option.bind_eq_bind, Option.some_bind, List.foldlM_cons, List.foldlM_nil,
      Option.pure_def]
    unfold adjustWeight
    rw [vecAt_getD xVec k 0 hkx, vecAt_getD st.weights k 0 hkw]
    simp only [Option.bind_eq_bind, Option.some_bind, Option.pure_def]
    by_cases hm : 0 < momentum
    · rw [if_pos hm]
      by_cases hp : st.prevIdx < st.prevWt.length
      · rw [if_pos hp, vecAt_getD st.prevWt st.prevIdx 0 hp]
        simp only [Option.some_bind]
        rw [vecAssign_natCast _ _ _ hp]
        simp only [Option.some_bind]
        rw [vecAssign_natCast _ _ _ hkw]
        simp only [Option.some_bind]
        refine ⟨_, rfl, ?_, ?_, fun h => absurd hm h⟩
        · simp [hlen]
        · simp only [hidx]; omega
      · rw [if_neg hp]
        rw [vecAssign_natCast _ _ _ hkw]
        simp only [Option.some_bind]
        refine ⟨_, rfl, ?_, ?_, fun h => absurd hm h⟩
        · simp [hlen]
        · simp only [hidx]; omega
    · rw [if_neg hm]
      rw [vecAssign_natCast _ _ _ hkw]
      simp only [Option.some_bind]
      refine ⟨_, rfl, ?_, ?_, fun _ => ⟨(hex hm).1, ?_⟩⟩
      · simp [hlen]
      · simp only [hidx]; omega
      · have hkr : k < row.length := by omega
        have hw := (hex hm).2
        have hal : (adjustedRow learnConst ei row xVec).length = row.length := by
          simp [adjustedRow]
        have htl : ((adjustedRow learnConst ei row xVec).take k).length = k := by
          rw [List.length_take, hal]; omega
        have hk1 : k < (adjustedRow learnConst ei row xVec).length := by omega
        have hget : st.weights.getD k 0 = row.getD k 0 := by
          rw [hw, List.getD_eq_getElem?_getD, List.getElem?_append_right (by omega), htl,
            Nat.sub_self, List.getD_eq_getElem?_getD]
          simp [List.getElem?_eq_getElem hkr]
        rw [hget, hw, List.set_append_right _ _ (by omega), htl, Nat.sub_self,
          List.drop_eq_getElem_cons hkr, List.set_cons_zero, List.take_succ,
          List.getElem?_eq_getElem hk1, Option.toList_some, List.append_assoc]
        simp [adjustedRow]

theorem getD_take_append_drop {β : Type} (A R : List β) (k : Nat) (d : β) (hA : k ≤ A.length) :
    (A.take k ++ R.drop k).getD k d = R.getD k d := by
  have htl : (A.take k).length = k := by rw [List.length_take]; omega
  rw [List.getD_eq_getElem?_getD, List.getElem?_append_right (by omega), htl, Nat.sub_self,
    List.getD_eq_getElem?_getD, List.getElem?_drop]
  rfl

theorem set_take_append_drop {β : Type} (A R : List β) (k : Nat) (a : β) (hA : k < A.length)
    (hR : k < R.length) (ha : A[k] = a) :
    (A.take k ++ R.drop k).set k a = A.take (k + 1) ++ R.drop (k + 1) := by
  have htl : (A.take k).length = k := by rw [List.length_take]; omega
  rw [List.set_append_right _ _ (by omega), htl, Nat.sub_self, List.drop_eq_getElem_cons hR,
    List.set_cons_zero, List.take_succ, List.getElem?_eq_getElem hA, Option.toList_some,
    List.append_assoc, ha]
  rfl

theorem adjustedRow_length (learnConst d : α) (row xin : List α) :
    (adjustedRow learnConst d row xin).length = row.length := by
  simp [adjustedRow]

theorem adjustedWeights_length (learnConst : α) (W : List (List α)) (delta xin : List α) :
    (adjustedWeights learnConst W delta xin).length = W.length := by
  simp [adjustedWeights]

/-- The loop over the output nodes of one connection: it runs to the end and
keeps the shape of the weight matrix and every other member; without momentum
the history is untouched and the first `k` rows are the adjusted ones. -/
theorem adjustNode_loop (learnConst momentum : α) (outErr xVec : List α)
    (c : NNetWeightedConnect α)
    (hcols : ∀ row ∈ c.mWeights, row.length = xVec.length)
    (herr : c.mWeights.length ≤ outErr.length) (prev : List α) (idx : Nat) :
    ∀ k, k ≤ c.mWeights.length →
      ∃ W prev1 idx1, (List.range k).foldlM (adjustNode learnConst momentum outErr xVec)
          { wtConnect := c, prevWt := prev, prevIdx := idx }
          = some { wtConnect := { c with mWeights := W }, prevWt := prev1, prevIdx := idx1 } ∧
        W.length = c.mWeights.length ∧ (∀ row ∈ W, row.length = xVec.length) ∧
        (¬ 0 < momentum → prev1 = prev ∧
          W = (adjustedWeights learnConst c.mWeights outErr xVec).take k ++ c.mWeights.drop k) := by
  intro k
  induction k with
  | zero =>
    intro _
    exact ⟨c.mWeights, prev, idx, rfl, rfl, hcols, fun _ => ⟨rfl, by simp⟩⟩
  | succ k ih =>
    intro hk
    obtain ⟨W, prev1, idx1, hst, hlen, hrows, hex⟩ := ih (by omega)
    have hkW : k < W.length := by omega
    have hkc : k < c.mWeights.length := by omega
    have hke : k < outErr.length := by omega
    have hrowlen : (W.getD k []).length = xVec.length := by
      apply hrows
      rw [List.getD_eq_getElem?_getD, List.getElem?_eq_getElem hkW]
      exact List.getElem_mem _
    obtain ⟨st, hrow, hwl, _, hrex⟩ := adjustWeight_loop learnConst momentum (outErr.getD k 0)
      xVec (W.getD k []) hrowlen prev1 idx1 xVec.length le_rfl
    rw [List.range_succ, List.foldlM_append, hst]
    simp only [Option.bind_eq_bind, Option.some_bind, List.foldlM_cons, List.foldlM_nil,
      Option.pure_def]
    unfold adjustNode
    rw [vecAt_getD outErr k 0 hke]
    simp only [Option.bind_eq_bind, Option.some_bind, Option.pure_def]
    rw [getWeightVector_natCast _ k [] hkW]
    simp only []
    rw [hrow]
    simp only [Option.some_bind]
    rw [setWeightVector_natCast _ k st.weights hkW (by simpa using hwl.symm)]
    refine ⟨W.set k st.weights, st.prevWt, st.prevIdx, rfl, ?_, ?_, ?_⟩
    · simp [hlen]
    · intro row hrow'
      rcases List.mem_or_eq_of_mem_set hrow' with h | h
      · exact hrows row h
      · rw [h, hwl, hrowlen]
    · intro hm
      have hW := (hex hm).2
      have hp := (hrex hm).1
      have hw := (hrex hm).2
      refine ⟨hp.trans (hex hm).1, ?_⟩
      have hAl := adjustedWeights_length learnConst c.mWeights outErr xVec
      have hWk : W.getD k [] = c.mWeights.getD k [] := by
        rw [hW]
        exact getD_take_append_drop _ _ k [] (by omega)
      have hfull : st.weights = adjustedRow learnConst (outErr.getD k 0) (W.getD k []) xVec := by
        rw [hw, List.take_of_length_le (by rw [adjustedRow_length, hrowlen]),
          List.drop_of_length_le (by rw [hrowlen]), List.append_nil]
      rw [hW]
      apply set_take_append_drop _ _ k _ (by omega) hkc
      rw [hfull, hWk]
      simp [adjustedWeights]

end TrainLoops

section TrainNet

variable {α : Type} [LinearOrderedField α]

theorem tracesFrom_length (m : Libm α) (net : NeuralNet α) (layers : List (NNetWeightedConnect α)) :
    ∀ (s : Nat) (x : List α), (net.tracesFrom m s layers x).length = layers.length := by
  induction layers with
  | nil => intro s x; rfl
  | cons c cs ih =>
    intro s x
    simp [NeuralNet.tracesFrom, ih]

theorem tracesFrom_getElem (m : Libm α) (net : NeuralNet α)
    (layers : List (NNetWeightedConnect α)) :
    ∀ (s : Nat) (x : List α) (i : Nat) (c : NNetWeightedConnect α), layers[i]? = some c →
      ∃ tr, (net.tracesFrom m s layers x)[i]? = some tr ∧
        tr.1.length = c.mWeights.length ∧ tr.2.length = c.mWeights.length := by
  induction layers with
  | nil => intro s x i c h; simp at h
  | cons d ds ih =>
    intro s x i c h
    cases i with
    | zero =>
      simp only [List.getElem?_cons_zero, Option.some.injEq] at h
      subst h
      refine ⟨(preActivation d x, net.stageOutput m s d x), ?_, ?_, ?_⟩
      · simp [NeuralNet.tracesFrom]
      · simp [preActivation]
      · simp [NeuralNet.stageOutput, preActivation]
    | succ k =>
      simp only [List.getElem?_cons_succ] at h
      obtain ⟨tr, h1, h2, h3⟩ := ih (s + 1) (net.stageOutput m s d x) k c h
      exact ⟨tr, by simpa [NeuralNet.tracesFrom] using h1, h2, h3⟩

theorem layer_exists (net : NeuralNet α) (hw : net.WellFormed) (s : Nat)
    (hs : s ≤ net.mNumLayers.toNat) : ∃ c, net.mLayers[s]? = some c ∧ c.Sized := by
  have hlt : s < net.mLayers.length := by rw [hw.numConnect]; omega
  exact ⟨net.mLayers[s], List.getElem?_eq_getElem hlt, hw.sized _ (List.getElem_mem _)⟩

theorem preAt_length (m : Libm α) (net : NeuralNet α) (x : List α) (s : Nat)
    (c : NNetWeightedConnect α) (hc : net.mLayers[s]? = some c) :
    (net.preAt m x s).length = c.mWeights.length ∧
    (net.postAt m x s).length = c.mWeights.length := by
  obtain ⟨tr, h1, h2, h3⟩ := tracesFrom_getElem m net net.mLayers 0
    (x.take net.mNumInputs.toNat) s c hc
  simp only [NeuralNet.preAt, NeuralNet.postAt, h1]
  exact ⟨h2, h3⟩

theorem getUnitInputs_cache (m : Libm α) (net : NeuralNet α) (x : List α)
    (hc : net.CachesOf m x) (s : Nat) (hs : s < net.mLayers.length) (v : List α) :
    net.getUnitInputs v (s : Int) = net.preAt m x s := by
  have hlen : s < net.mUnitInputs.length := by
    rw [hc.1, List.length_map, tracesFrom_length]; exact hs
  unfold NeuralNet.getUnitInputs NeuralNet.preAt
  rw [if_pos ⟨by omega, by omega⟩, Int.toNat_ofNat, hc.1, List.getElem?_map]
  have hlt : s < (net.tracesFrom m 0 net.mLayers (x.take net.mNumInputs.toNat)).length := by
    rw [tracesFrom_length]; exact hs
  rw [List.getElem?_eq_getElem hlt]
  rfl

theorem getActivations_cache (m : Libm α) (net : NeuralNet α) (x : List α)
    (hc : net.CachesOf m x) (s : Nat) (hs : s < net.mLayers.length) (v : List α) :
    net.getActivations v (s : Int) = net.postAt m x s := by
  have hlen : s < net.mActivations.length := by
    rw [hc.2, List.length_map, tracesFrom_length]; exact hs
  unfold NeuralNet.getActivations NeuralNet.postAt
  rw [if_pos ⟨by omega, by omega⟩, Int.toNat_ofNat, hc.2, List.getElem?_map]
  have hlt : s < (net.tracesFrom m 0 net.mLayers (x.take net.mNumInputs.toNat)).length := by
    rw [tracesFrom_length]; exact hs
  rw [List.getElem?_eq_getElem hlt]
  rfl

omit [LinearOrderedField α] in
theorem getWeightedConnect_natCast (net : NeuralNet α) (w c : NNetWeightedConnect α) (s : Nat)
    (hc : net.mLayers[s]? = some c) : net.getWeightedConnect w (s : Int) = c := by
  have hlt : s < net.mLayers.length := (List.getElem?_eq_some.mp hc).1
  unfold NeuralNet.getWeightedConnect
  rw [if_pos ⟨by omega, by omega⟩, Int.toNat_ofNat, hc]
  rfl

omit [LinearOrderedField α] in
theorem setWeightedConnect_natCast (net : NeuralNet α) (w : NNetWeightedConnect α) (s : Nat)
    (hs : s < net.mLayers.length) :
    net.setWeightedConnect w (s : Int) = { net with mLayers := net.mLayers.set s w } := by
  unfold NeuralNet.setWeightedConnect
  rw [if_pos ⟨by omega, by omega⟩, Int.toNat_ofNat]

theorem getLayerDetails_hidden (net : NeuralNet α) (hw : net.WellFormed) (j : Nat)
    (hj : j < net.mNumLayers.toNat) (cur : ActiveT × α × α) :
    net.getLayerDetails (j : Int) cur = some (net.stageDetails j) := by
  have hlt : (j : Int) < net.mNumLayers := by omega
  have h1 : j < net.mActiveUnits.length := by rw [hw.numUnits]; exact hj
  have h2 : j < net.mActiveSlope.length := by rw [hw.numSlopes]; exact hj
  have h3 : j < net.mActiveAmplify.length := by rw [hw.numAmplifies]; exact hj
  unfold NeuralNet.getLayerDetails NeuralNet.stageDetails
  rw [if_pos ⟨by omega, hlt⟩, if_pos hlt]
  simp only [vecAt_natCast, List.getElem?_eq_getElem h1, List.getElem?_eq_getElem h2,
    List.getElem?_eq_getElem h3, Option.bind_eq_bind, Option.some_bind, Option.pure_def,
    List.getD_eq_getElem?_getD, Option.getD_some]

theorem calcNetworkError_eq (tr : NNetTrainer α) (response target : List α) (index : Nat)
    (ht : tr.mTrainTarget[index]? = some target) (hlen : response.length ≤ target.length) :
    tr.calcNetworkError response (index : Int) = some (halfSquaredError target response) := by
  unfold NNetTrainer.calcNetworkError halfSquaredError
  rw [vecAt_natCast, ht]
  simp only [Option.bind_eq_bind, Option.some_bind]
  have := foldlM_range_sum
    (fun error (i : Nat) => (vecAt target (i : Int)).bind fun t =>
      (vecAt response (i : Int)).bind fun r => pure (error + 0.5 * (t - r) ^ 2))
    (fun i => 0.5 * (target.getD i 0 - response.getD i 0) ^ 2) response.length 0
    (fun i acc hi => by
      simp only [vecAt_getD target i 0 (by omega), vecAt_getD response i 0 hi,
        Option.some_bind, Option.pure_def])
  rw [this, zero_add]

theorem calcOutputError_eq (m : Libm α) (tr : NNetTrainer α) (net : NeuralNet α)
    (response target : List α) (index : Nat)
    (ht : tr.mTrainTarget[index]? = some target) (hlen : response.length ≤ target.length)
    (hpre : response.length ≤ (net.getUnitInputs [] net.mNumLayers).length) :
    tr.calcOutputError m net [] response (index : Int) =
      some (outputDelta m (net.mOutUnitType, net.mOutUnitSlope, net.mOutUnitAmplify) target
        response (net.getUnitInputs [] net.mNumLayers)) := by
  unfold NNetTrainer.calcOutputError outputDelta
  rw [vecAt_natCast, ht]
  simp only [Option.bind_eq_bind, Option.some_bind]
  have := mapM_range_map
    (fun (i : Nat) => (vecAt response (i : Int)).bind fun yi =>
      (vecAt (net.getUnitInputs [] net.mNumLayers) (i : Int)).bind fun xi =>
        (vecAt target (i : Int)).bind fun t =>
          pure ((t - yi) * getGradient m net.mOutUnitType net.mOutUnitSlope
            net.mOutUnitAmplify xi))
    (fun i => (target.getD i 0 - response.getD i 0) *
      getGradient m net.mOutUnitType net.mOutUnitSlope net.mOutUnitAmplify
        ((net.getUnitInputs [] net.mNumLayers).getD i 0)) response.length
    (fun i hi => by
      simp only [vecAt_getD target i 0 (by omega), vecAt_getD response i 0 hi,
        vecAt_getD (net.getUnitInputs [] net.mNumLayers) i 0 (by omega),
        Option.some_bind, Option.pure_def])
  rw [this]
  simp

theorem hiddenUnitError_eq (m : Libm α) (c : NNetWeightedConnect α) (details : ActiveT × α × α)
    (prevErr : List α) (xj : α) (j : Nat)
    (hn : c.mNumOutNodes.toNat = c.mWeights.length)
    (herr : c.mWeights.length ≤ prevErr.length)
    (hcols : ∀ row ∈ c.mWeights, j < row.length) :
    hiddenUnitError m c details prevErr xj j =
      some (getGradient m details.1 details.2.1 details.2.2 xj * backSum c.mWeights prevErr j) := by
  unfold hiddenUnitError backSum
  have := foldlM_range_sum
    (fun error (k : Nat) => (vecAt prevErr (k : Int)).bind fun e =>
      (vecAt (c.getWeightVector (k : Int) []) (j : Int)).bind fun w =>
        pure (error + getGradient m details.1 details.2.1 details.2.2 xj * e * w))
    (fun k => getGradient m details.1 details.2.1 details.2.2 xj *
      (prevErr.getD k 0 * (c.mWeights.getD k []).getD j 0)) c.mWeights.length 0
    (fun k acc hk => by
      have hrow : j < (c.mWeights.getD k []).length := by
        apply hcols
        rw [List.getD_eq_getElem?_getD, List.getElem?_eq_getElem hk]
        exact List.getElem_mem _
      simp only [vecAt_getD prevErr k 0 (by omega), getWeightVector_natCast c k [] hk,
        vecAt_getD _ j 0 hrow, Option.some_bind, Option.pure_def, mul_assoc])
  simp only [Option.bind_eq_bind] at this ⊢
  rw [hn, this, zero_add, List.sum_map_mul_left]

theorem hiddenLayerError_eq (m : Libm α) (net : NeuralNet α) (hw : net.WellFormed)
    (x : List α) (hc : net.CachesOf m x) (j : Nat) (hj : j < net.mNumLayers.toNat)
    (c : NNetWeightedConnect α) (hget : net.mLayers[j + 1]? = some c)
    (H : List (List α)) (prevErr : List α) (herr : c.mWeights.length ≤ prevErr.length) :
    NNetTrainer.hiddenLayerError m net (H, prevErr) (j + 1) =
      some (H ++ [hiddenDelta m (net.stageDetails j) c.mWeights prevErr (net.preAt m x j)],
        hiddenDelta m (net.stageDetails j) c.mWeights prevErr (net.preAt m x j)) := by
  have hsz : c.Sized := hw.sized c (List.getElem?_mem hget)
  obtain ⟨p, hp, _⟩ := layer_exists net hw j (by omega)
  have hchain : c.mNumInNodes = p.mNumOutNodes := hw.chain j p c hp hget
  have hpsz : p.Sized := hw.sized p (List.getElem?_mem hp)
  have hprelen : (net.preAt m x j).length = c.mNumInNodes.toNat := by
    rw [(preAt_length m net x j p hp).1, hchain]
    have := hpsz.rows
    omega
  have hjlt : j < net.mLayers.length := (List.getElem?_eq_some.mp hp).1
  have hcast : (((j + 1 : Nat) : Int)) - 1 = (j : Int) := by omega
  have hn : c.mNumOutNodes.toNat = c.mWeights.length := by
    have := hsz.rows
    omega
  unfold NNetTrainer.hiddenLayerError
  rw [getWeightedConnect_natCast net _ c (j + 1) hget, hcast,
    getLayerDetails_hidden net hw j hj, getUnitInputs_cache m net x hc j hjlt]
  simp only [Option.bind_eq_bind, Option.some_bind, Option.pure_def]
  have := mapM_range_map
    (fun (j' : Nat) => (vecAt (net.preAt m x j) (j' : Int)).bind fun xj =>
      hiddenUnitError m c (net.stageDetails j) prevErr xj j')
    (fun j' => getGradient m (net.stageDetails j).1 (net.stageDetails j).2.1
      (net.stageDetails j).2.2 ((net.preAt m x j).getD j' 0) * backSum c.mWeights prevErr j')
    c.mNumInNodes.toNat
    (fun j' hj' => by
      have hcols : ∀ row ∈ c.mWeights, j' < row.length := by
        intro row hrow
        have := hsz.cols row hrow
        omega
      simp only [vecAt_getD (net.preAt m x j) j' 0 (by omega), Option.some_bind,
        hiddenUnitError_eq m c _ prevErr _ j' hn herr hcols])
  rw [this]
  simp only [Option.some_bind, hiddenDelta, hprelen]

theorem errorSignal_length (m : Libm α) (net : NeuralNet α) (hw : net.WellFormed)
    (x t : List α) (k : Nat) (hk : k ≤ net.mNumLayers.toNat) :
    (net.errorSignal m x t k).length = (net.weightsAt (net.mNumLayers.toNat - k)).length := by
  obtain ⟨c, hc, _⟩ := layer_exists net hw (net.mNumLayers.toNat - k) (by omega)
  have hwt : net.weightsAt (net.mNumLayers.toNat - k) = c.mWeights := by
    simp [NeuralNet.weightsAt, hc]
  rw [hwt]
  cases k with
  | zero =>
    simp only [NeuralNet.errorSignal, outputDelta, List.length_map, List.length_range]
    exact (preAt_length m net x _ c hc).2
  | succ k =>
    simp only [NeuralNet.errorSignal, hiddenDelta, List.length_map, List.length_range]
    exact (preAt_length m net x _ c hc).1

/-- The layer loop of calcHiddenError from connection index L back to `s`: the
layer errors pushed are the error signals 1, 2, ... steps before the output
layer and the previous layer error is the last of them. -/
theorem hiddenError_loop (m : Libm α) (net : NeuralNet α) (hw : net.WellFormed)
    (x t : List α) (hc : net.CachesOf m x) :
    ∀ (k s : Nat), s + k = net.mNumLayers.toNat + 1 → 1 ≤ s →
      ((List.range' s k).reverse).foldlM (NNetTrainer.hiddenLayerError m net)
          ([], net.errorSignal m x t 0) =
        some ((List.range k).map (fun r => net.errorSignal m x t (r + 1)),
          net.errorSignal m x t k) := by
  intro k
  induction k with
  | zero => intro s _ _; rfl
  | succ k ih =>
    intro s hs h1
    obtain ⟨j, rfl⟩ : ∃ j, s = j + 1 := ⟨s - 1, by omega⟩
    have hjL : j < net.mNumLayers.toNat := by omega
    obtain ⟨c, hget, _⟩ := layer_exists net hw (j + 1) (by omega)
    have hLk : net.mNumLayers.toNat - k = j + 1 := by omega
    have hLk1 : net.mNumLayers.toNat - (k + 1) = j := by omega
    have hwt : net.weightsAt (j + 1) = c.mWeights := by
      simp [NeuralNet.weightsAt, hget]
    have herr : c.mWeights.length ≤ (net.errorSignal m x t k).length := by
      rw [errorSignal_length m net hw x t k (by omega), hLk, hwt]
    rw [List.range'_succ, List.reverse_cons, List.foldlM_append, ih (j + 1 + 1) (by omega)
      (by omega)]
    simp only [Option.bind_eq_bind, Option.some_bind, List.foldlM_cons, List.foldlM_nil]
    rw [hiddenLayerError_eq m net hw x hc j hjL c hget _ _ herr]
    simp only [Option.some_bind, Option.pure_def, List.range_succ, List.map_append,
      List.map_cons, List.map_nil, NeuralNet.errorSignal, hLk, hLk1, hwt]

end TrainNet

section TrainAdjust

variable {α : Type} [LinearOrderedField α]

/-- The whole loop over the output nodes of one connection. -/
theorem adjustNode_all (learnConst momentum : α) (outErr xVec : List α)
    (c : NNetWeightedConnect α)
    (hcols : ∀ row ∈ c.mWeights, row.length = xVec.length)
    (herr : c.mWeights.length ≤ outErr.length) (prev : List α) (idx : Nat) :
    ∃ W prev1 idx1, (List.range c.mWeights.length).foldlM
        (adjustNode learnConst momentum outErr xVec)
        { wtConnect := c, prevWt := prev, prevIdx := idx }
        = some { wtConnect := { c with mWeights := W }, prevWt := prev1, prevIdx := idx1 } ∧
      W.length = c.mWeights.length ∧ (∀ row ∈ W, row.length = xVec.length) ∧
      (¬ 0 < momentum → prev1 = prev ∧
        W = adjustedWeights learnConst c.mWeights outErr xVec) := by
  obtain ⟨W, p, i, h, hl, hr, hex⟩ := adjustNode_loop learnConst momentum outErr xVec c hcols
    herr prev idx c.mWeights.length le_rfl
  refine ⟨W, p, i, h, hl, hr, fun hm => ⟨(hex hm).1, ?_⟩⟩
  rw [(hex hm).2, List.take_of_length_le (by rw [adjustedWeights_length]),
    List.drop_of_length_le le_rfl, List.append_nil]

theorem calcOutputWtAdjust_eq (tr : NNetTrainer α) (outErr : List α) (net : NeuralNet α)
    (L : Nat) (hL : net.mNumLayers = (L : Int)) (c : NNetWeightedConnect α)
    (hget : net.mLayers[L]? = some c)
    (hcols : ∀ row ∈ c.mWeights,
      row.length = (net.getActivations [] ((L : Int) - 1)).length)
    (hn : c.mNumOutNodes.toNat = c.mWeights.length)
    (herr : c.mWeights.length ≤ outErr.length) :
    ∃ W p, tr.calcOutputWtAdjust outErr net =
        some ({ tr with mPrevOutWt := p },
          { net with mLayers := net.mLayers.set L { c with mWeights := W } }) ∧
      W.length = c.mWeights.length ∧
      (∀ row ∈ W, row.length = (net.getActivations [] ((L : Int) - 1)).length) ∧
      (¬ 0 < tr.mMomentum → p = tr.mPrevOutWt ∧
        W = adjustedWeights tr.mLearnConst c.mWeights outErr
          (net.getActivations [] ((L : Int) - 1))) := by
  obtain ⟨W, p, i, h, hl, hr, hex⟩ := adjustNode_all tr.mLearnConst tr.mMomentum outErr
    (net.getActivations [] ((L : Int) - 1)) c hcols herr tr.mPrevOutWt 0
  have hlt : L < net.mLayers.length := (List.getElem?_eq_some.mp hget).1
  refine ⟨W, p, ?_, hl, hr, hex⟩
  unfold NNetTrainer.calcOutputWtAdjust
  simp only [hL, getWeightedConnect_natCast net _ c L hget, hn, h, Option.bind_eq_bind,
    Option.some_bind, Option.pure_def, setWeightedConnect_natCast net _ L hlt]

omit [LinearOrderedField α] in
theorem getActivations_congr (net nb : NeuralNet α) (v : List α) (i : Nat)
    (hA : net.mActivations = nb.mActivations) (hi : i < nb.mActivations.length) :
    net.getActivations v (i : Int) = nb.getActivations [] (i : Int) := by
  unfold NeuralNet.getActivations
  rw [hA, if_pos ⟨by omega, by omega⟩, if_pos ⟨by omega, by omega⟩, Int.toNat_ofNat,
    List.getElem?_eq_getElem hi]
  rfl

/-- The layer loop of calcHiddenWtAdjust from connection index L-1 back to
`s`: it runs to the end, touches only the connections s..L-1, keeps their
shape, and without momentum leaves the adjusted weights and an untouched
history. -/
theorem hiddenAdjust_loop (tr : NNetTrainer α) (hidErrSig : List (List α)) (inputVec : List α)
    (nb : NeuralNet α) (L : Nat)
    (H : ∀ n, n < L → ∃ c e, nb.mLayers[n]? = some c ∧ hidErrSig[L - 1 - n]? = some e ∧
      c.mNumOutNodes.toNat = c.mWeights.length ∧ c.mWeights.length ≤ e.length ∧
      (∀ row ∈ c.mWeights, row.length = (nb.adjustInput inputVec n).length) ∧
      (n ≠ 0 → n - 1 < nb.mActivations.length)) :
    ∀ (k s : Nat), s + k = L →
      ∃ M xv p i, ((List.range' s k).reverse).foldlM
          (NNetTrainer.hiddenLayerAdjust tr hidErrSig inputVec ((L : Int) - 1))
          { nNet := nb, xVec := [], prevWt := tr.mPrevHidWt, prevIdx := 0 }
          = some { nNet := { nb with mLayers := M }, xVec := xv, prevWt := p, prevIdx := i } ∧
        M.length = nb.mLayers.length ∧
        (∀ j, (j < s ∨ L ≤ j) → M[j]? = nb.mLayers[j]?) ∧
        (∀ j c, s ≤ j → j < L → nb.mLayers[j]? = some c →
          ∃ W, M[j]? = some { c with mWeights := W } ∧ W.length = c.mWeights.length ∧
            (∀ row ∈ W, row.length = (nb.adjustInput inputVec j).length) ∧
            (¬ 0 < tr.mMomentum → W = adjustedWeights tr.mLearnConst c.mWeights
              (hidErrSig.getD (L - 1 - j) []) (nb.adjustInput inputVec j))) ∧
        (¬ 0 < tr.mMomentum → p = tr.mPrevHidWt) := by
  intro k
  induction k with
  | zero =>
    intro s hs
    refine ⟨nb.mLayers, [], tr.mPrevHidWt, 0, rfl, rfl, fun _ _ => rfl, ?_, fun _ => rfl⟩
    intro j c h1 h2
    omega
  | succ k ih =>
    intro s hs
    obtain ⟨M, xv, p, i, hfold, hlen, hout, hin, hp⟩ := ih (s + 1) (by omega)
    obtain ⟨c, e, hc, he, hn, hel, hcols, hact⟩ := H s (by omega)
    have hMs : M[s]? = some c := by rw [hout s (Or.inl (by omega))]; exact hc
    have hslt : s < M.length := (List.getElem?_eq_some.mp hMs).1
    have hcast : (L : Int) - 1 - (s : Int) = ((L - 1 - s : Nat) : Int) := by omega
    have hx : (if s = 0 then inputVec
        else NeuralNet.getActivations { nb with mLayers := M } xv ((s : Int) - 1))
        = nb.adjustInput inputVec s := by
      unfold NeuralNet.adjustInput
      by_cases h0 : s = 0
      · rw [if_pos h0, if_pos h0]
      · rw [if_neg h0, if_neg h0]
        have hc1 : (s : Int) - 1 = ((s - 1 : Nat) : Int) := by omega
        rw [hc1]
        exact getActivations_congr _ nb xv (s - 1) rfl (hact h0)
    obtain ⟨W, p1, i1, hadj, hWl, hWr, hWex⟩ := adjustNode_all tr.mLearnConst tr.mMomentum e
      (nb.adjustInput inputVec s) c hcols hel p i
    rw [List.range'_succ, List.reverse_cons, List.foldlM_append, hfold]
    simp only [Option.bind_eq_bind, Option.some_bind, List.foldlM_cons, List.foldlM_nil]
    unfold NNetTrainer.hiddenLayerAdjust
    simp only [getWeightedConnect_natCast { nb with mLayers := M } _ c s hMs, hcast,
      vecAt_natCast, he, Option.bind_eq_bind, Option.some_bind, hx, hn, hadj, Option.pure_def,
      setWeightedConnect_natCast { nb with mLayers := M } _ s hslt]
    refine ⟨M.set s { c with mWeights := W }, nb.adjustInput inputVec s, p1, i1, rfl, ?_, ?_, ?_,
      ?_⟩
    · simp [hlen]
    · intro j hj
      have hne : s ≠ j := by omega
      rw [List.getElem?_set_ne hne]
      exact hout j (by omega)
    · intro j d h1 h2 hd
      by_cases hjs : j = s
      · subst hjs
        have hcd : c = d := by
          rw [hc] at hd
          exact Option.some.inj hd
        subst hcd
        refine ⟨W, ?_, hWl, hWr, fun hm => ?_⟩
        · rw [List.getElem?_set_self hslt]
        · have := (hWex hm).2
          rw [this, List.getD_eq_getElem?_getD, he]
          rfl
      · have hne : s ≠ j := fun h => hjs h.symm
        rw [List.getElem?_set_ne hne]
        exact hin j d (by omega) h2 hd
    · intro hm
      rw [(hWex hm).1, hp hm]

theorem calcHiddenWtAdjust_eq (tr : NNetTrainer α) (hidErrSig : List (List α))
    (inputVec : List α) (nb : NeuralNet α) (L : Nat) (hL : nb.mNumLayers = (L : Int))
    (H : ∀ n, n < L → ∃ c e, nb.mLayers[n]? = some c ∧ hidErrSig[L - 1 - n]? = some e ∧
      c.mNumOutNodes.toNat = c.mWeights.length ∧ c.mWeights.length ≤ e.length ∧
      (∀ row ∈ c.mWeights, row.length = (nb.adjustInput inputVec n).length) ∧
      (n ≠ 0 → n - 1 < nb.mActivations.length)) :
    ∃ M p, tr.calcHiddenWtAdjust hidErrSig inputVec nb =
        some ({ tr with mPrevHidWt := p }, { nb with mLayers := M }) ∧
      M.length = nb.mLayers.length ∧
      (∀ j, L ≤ j → M[j]? = nb.mLayers[j]?) ∧
      (∀ j c, j < L → nb.mLayers[j]? = some c →
        ∃ W, M[j]? = some { c with mWeights := W } ∧ W.length = c.mWeights.length ∧
          (∀ row ∈ W, row.length = (nb.adjustInput inputVec j).length) ∧
          (¬ 0 < tr.mMomentum → W = adjustedWeights tr.mLearnConst c.mWeights
            (hidErrSig.getD (L - 1 - j) []) (nb.adjustInput inputVec j))) ∧
      (¬ 0 < tr.mMomentum → p = tr.mPrevHidWt) := by
  obtain ⟨M, xv, p, i, hfold, hlen, hout, hin, hp⟩ :=
    hiddenAdjust_loop tr hidErrSig inputVec nb L H L 0 (by omega)
  refine ⟨M, p, ?_, hlen, fun j hj => hout j (Or.inr hj),
    fun j c hj hc => hin j c (by omega) hj hc, hp⟩
  unfold NNetTrainer.calcHiddenWtAdjust
  have h1 : ((L : Int) - 1 + 1).toNat = L := by omega
  have h2 : nb.mNumLayers - 1 = (L : Int) - 1 := by omega
  simp only [h1, h2, List.range_eq_range', hfold, Option.bind_eq_bind, Option.some_bind,
    Option.pure_def]

end TrainAdjust

section TrainStep

variable {α : Type} [LinearOrderedField α]

theorem stagesFrom_congr (m : Libm α) (net net' : NeuralNet α)
    (h : ∀ s, net'.stageDetails s = net.stageDetails s) (layers : List (NNetWeightedConnect α)) :
    ∀ (s : Nat) (x : List α), net'.stagesFrom m s layers x = net.stagesFrom m s layers x := by
  induction layers with
  | nil => intro s x; rfl
  | cons c cs ih =>
    intro s x
    simp only [NeuralNet.stagesFrom, NeuralNet.stageOutput, h, ih]

theorem tracesFrom_congr (m : Libm α) (net net' : NeuralNet α)
    (h : ∀ s, net'.stageDetails s = net.stageDetails s) (layers : List (NNetWeightedConnect α)) :
    ∀ (s : Nat) (x : List α), net'.tracesFrom m s layers x = net.tracesFrom m s layers x := by
  induction layers with
  | nil => intro s x; rfl
  | cons c cs ih =>
    intro s x
    simp only [NeuralNet.tracesFrom, NeuralNet.stageOutput, h, ih]

/-- Two networks that differ only in their caches. -/
theorem cachesOnly_stageDetails (net : NeuralNet α) (A U : List (List α)) (s : Nat) :
    NeuralNet.stageDetails { net with mActivations := A, mUnitInputs := U } s
      = net.stageDetails s := rfl

theorem cachesOnly_preAt (m : Libm α) (net : NeuralNet α) (A U : List (List α)) (x : List α)
    (s : Nat) :
    NeuralNet.preAt m { net with mActivations := A, mUnitInputs := U } x s = net.preAt m x s := by
  unfold NeuralNet.preAt
  rw [tracesFrom_congr m net { net with mActivations := A, mUnitInputs := U }
    (cachesOnly_stageDetails net A U)]

theorem cachesOnly_postAt (m : Libm α) (net : NeuralNet α) (A U : List (List α)) (x : List α)
    (s : Nat) :
    NeuralNet.postAt m { net with mActivations := A, mUnitInputs := U } x s
      = net.postAt m x s := by
  unfold NeuralNet.postAt
  rw [tracesFrom_congr m net { net with mActivations := A, mUnitInputs := U }
    (cachesOnly_stageDetails net A U)]

theorem cachesOnly_errorSignal (m : Libm α) (net : NeuralNet α) (A U : List (List α))
    (x t : List α) :
    ∀ k, NeuralNet.errorSignal m { net with mActivations := A, mUnitInputs := U } x t k
      = net.errorSignal m x t k := by
  intro k
  induction k with
  | zero =>
    simp only [NeuralNet.errorSignal, cachesOnly_preAt, cachesOnly_postAt]
  | succ k ih =>
    simp only [NeuralNet.errorSignal, cachesOnly_preAt, ih, cachesOnly_stageDetails]
    rfl

theorem cachesOnly_wellFormed (net : NeuralNet α) (hw : net.WellFormed) (A U : List (List α)) :
    NeuralNet.WellFormed { net with mActivations := A, mUnitInputs := U } :=
  ⟨hw.1, hw.2, hw.3, hw.4, hw.5, hw.6, hw.7, hw.8, hw.9, hw.10, hw.11, hw.12, hw.13, hw.14,
    hw.15⟩

theorem responded_cachesOf (m : Libm α) (net : NeuralNet α) (x : List α) :
    NeuralNet.CachesOf m
      { net with
        mActivations := (net.tracesFrom m 0 net.mLayers
          (x.take net.mNumInputs.toNat)).map Prod.snd,
        mUnitInputs := (net.tracesFrom m 0 net.mLayers
          (x.take net.mNumInputs.toNat)).map Prod.fst } x := by
  have key := tracesFrom_congr m net
    { net with
      mActivations := (net.tracesFrom m 0 net.mLayers
        (x.take net.mNumInputs.toNat)).map Prod.snd,
      mUnitInputs := (net.tracesFrom m 0 net.mLayers
        (x.take net.mNumInputs.toNat)).map Prod.fst }
    (fun _ => rfl) net.mLayers 0 (x.take net.mNumInputs.toNat)
  exact ⟨(congrArg (List.map Prod.fst) key).symm, (congrArg (List.map Prod.snd) key).symm⟩

theorem stagesFrom_last_trace (m : Libm α) (net : NeuralNet α)
    (layers : List (NNetWeightedConnect α)) :
    ∀ (s : Nat) (x : List α), layers ≠ [] →
      ∃ pre, (net.tracesFrom m s layers x)[layers.length - 1]?
        = some (pre, net.stagesFrom m s layers x) := by
  induction layers with
  | nil => intro s x h; exact absurd rfl h
  | cons c cs ih =>
    intro s x _
    cases cs with
    | nil => exact ⟨_, rfl⟩
    | cons d ds =>
      obtain ⟨pre, h⟩ := ih (s + 1) (net.stageOutput m s c x) (by simp)
      refine ⟨pre, ?_⟩
      simp only [NeuralNet.tracesFrom, NeuralNet.stagesFrom, List.length_cons,
        Nat.add_sub_cancel] at h ⊢
      rw [List.getElem?_cons_succ]
      exact h

theorem responseSpec_eq_postAt (m : Libm α) (net : NeuralNet α) (hw : net.WellFormed)
    (x : List α) : net.responseSpec m x = net.postAt m x net.mNumLayers.toNat := by
  have hne : net.mLayers ≠ [] := by
    intro h
    have := hw.numConnect
    rw [h] at this
    simp at this
  obtain ⟨pre, h⟩ := stagesFrom_last_trace m net net.mLayers 0
    (x.take net.mNumInputs.toNat) hne
  rw [hw.numConnect, Nat.add_sub_cancel] at h
  simp only [NeuralNet.postAt, h, NeuralNet.responseSpec]

omit [LinearOrderedField α] in
theorem sized_of_sameShape (c c' : NNetWeightedConnect α) (hs : c.Sized) (h : SameShape c c') :
    c'.Sized ∧ c'.mNumInNodes = c.mNumInNodes ∧ c'.mNumOutNodes = c.mNumOutNodes := by
  obtain ⟨W, rfl, hl, hr⟩ := h
  refine ⟨⟨hs.inPos, hs.outPos, ?_, hr, hs.inputs⟩, rfl, rfl⟩
  show (W.length : Int) = c.mNumOutNodes
  rw [hl]
  exact hs.rows

/-- Replacing connections by connections of the same shape, and the caches by
any others, keeps a network well-formed. -/
theorem wellFormed_of_sameShape (net : NeuralNet α) (hw : net.WellFormed)
    (M : List (NNetWeightedConnect α)) (A U : List (List α))
    (hlen : M.length = net.mLayers.length)
    (hM : ∀ (s : Nat) (c : NNetWeightedConnect α), net.mLayers[s]? = some c →
      ∃ c', M[s]? = some c' ∧ SameShape c c') :
    NeuralNet.WellFormed { net with mLayers := M, mActivations := A, mUnitInputs := U } := by
  have hback : ∀ (s : Nat) (c' : NNetWeightedConnect α), M[s]? = some c' →
      ∃ c, net.mLayers[s]? = some c ∧ SameShape c c' := by
    intro s c' hc'
    have hs : s < net.mLayers.length := by
      rw [← hlen]; exact (List.getElem?_eq_some.mp hc').1
    obtain ⟨c'', h1, h2⟩ := hM s _ (List.getElem?_eq_getElem hs)
    rw [hc'] at h1
    exact ⟨_, List.getElem?_eq_getElem hs, (Option.some.inj h1) ▸ h2⟩
  refine ⟨hw.1, hw.2, hw.3, ?_, hw.5, hw.6, hw.7, hw.8, hw.9, hw.10, hw.11, ?_, ?_, ?_, ?_⟩
  · show M.length = _
    rw [hlen]; exact hw.numConnect
  · intro c' hc'
    obtain ⟨s, hs⟩ := List.getElem?_of_mem hc'
    obtain ⟨c, hc, hsh⟩ := hback s c' hs
    exact (sized_of_sameShape c c' (hw.sized c (List.getElem?_mem hc)) hsh).1
  · intro c' hc'
    obtain ⟨c, hc, hsh⟩ := hback 0 c' hc'
    rw [(sized_of_sameShape c c' (hw.sized c (List.getElem?_mem hc)) hsh).2.1]
    exact hw.first c hc
  · intro i c' d' hc' hd'
    obtain ⟨c, hc, hsh⟩ := hback i c' hc'
    obtain ⟨d, hd, hsh'⟩ := hback (i + 1) d' hd'
    rw [(sized_of_sameShape d d' (hw.sized d (List.getElem?_mem hd)) hsh').2.1,
      (sized_of_sameShape c c' (hw.sized c (List.getElem?_mem hc)) hsh).2.2]
    exact hw.chain i c d hc hd
  · intro c' hc'
    obtain ⟨c, hc, hsh⟩ := hback _ c' hc'
    rw [(sized_of_sameShape c c' (hw.sized c (List.getElem?_mem hc)) hsh).2.2]
    exact hw.last c hc

theorem adjustInput_eq_stageInput (m : Libm α) (net : NeuralNet α) (x : List α)
    (hc : net.CachesOf m x) (s : Nat) (hs : s < net.mLayers.length) :
    net.adjustInput x s = net.stageInput m x s := by
  unfold NeuralNet.adjustInput NeuralNet.stageInput
  by_cases h0 : s = 0
  · rw [if_pos h0, if_pos h0]
  · rw [if_neg h0, if_neg h0]
    have hc1 : (s : Int) - 1 = ((s - 1 : Nat) : Int) := by omega
    rw [hc1, getActivations_cache m net x hc (s - 1) (by omega)]

theorem stageInput_length (m : Libm α) (net : NeuralNet α) (hw : net.WellFormed) (x : List α)
    (hx : (x.length : Int) = net.mNumInputs) (s : Nat) (c : NNetWeightedConnect α)
    (hc : net.mLayers[s]? = some c) :
    ((net.stageInput m x s).length : Int) = c.mNumInNodes := by
  unfold NeuralNet.stageInput
  by_cases h0 : s = 0
  · subst h0
    rw [if_pos rfl, hx, hw.first c hc]
  · rw [if_neg h0]
    have hs : s < net.mLayers.length := (List.getElem?_eq_some.mp hc).1
    have hp : net.mLayers[s - 1]? = some net.mLayers[s - 1] :=
      List.getElem?_eq_getElem (by omega)
    have hc' : net.mLayers[s - 1 + 1]? = some c := by
      rw [Nat.sub_add_cancel (by omega)]; exact hc
    rw [(preAt_length m net x (s - 1) _ hp).2, hw.chain (s - 1) _ c hp hc']
    exact (hw.sized _ (List.getElem_mem _)).rows

end TrainStep

section TrainExample

variable {α : Type} [LinearOrderedField α]

theorem calcHiddenError_eq (m : Libm α) (net : NeuralNet α) (hw : net.WellFormed)
    (x t : List α) (hc : net.CachesOf m x) :
    NNetTrainer.calcHiddenError m [] (net.errorSignal m x t 0) net =
      some ((List.range net.mNumLayers.toNat).map (fun r => net.errorSignal m x t (r + 1))) := by
  unfold NNetTrainer.calcHiddenError
  simp only [hiddenError_loop m net hw x t hc net.mNumLayers.toNat 1 (by omega) le_rfl,
    Option.bind_eq_bind, Option.some_bind, Option.pure_def]

/-- The two weight-adjustment routines, run one after the other on a
well-formed network holding the caches of the forward pass on `x`. -/
theorem adjust_spec (m : Libm α) (tr : NNetTrainer α) (net : NeuralNet α) (hw : net.WellFormed)
    (x t : List α) (hc : net.CachesOf m x) (hx : (x.length : Int) = net.mNumInputs) :
    ∃ (M : List (NNetWeightedConnect α)) (p1 p2 : List α),
      ((tr.calcOutputWtAdjust (net.errorSignal m x t 0) net).bind fun a =>
        a.1.calcHiddenWtAdjust
          ((List.range net.mNumLayers.toNat).map (fun r => net.errorSignal m x t (r + 1))) x a.2)
        = some ({ tr with mPrevOutWt := p1, mPrevHidWt := p2 }, { net with mLayers := M }) ∧
      M.length = net.mLayers.length ∧
      (∀ (s : Nat) (c : NNetWeightedConnect α), net.mLayers[s]? = some c →
        ∃ c', M[s]? = some c' ∧ SameShape c c' ∧
          (¬ 0 < tr.mMomentum → c'.mWeights = adjustedWeights tr.mLearnConst c.mWeights
            (net.delta m x t s) (net.stageInput m x s))) ∧
      (¬ 0 < tr.mMomentum → p1 = tr.mPrevOutWt ∧ p2 = tr.mPrevHidWt) := by
  have hLpos := hw.layersPos
  obtain ⟨L, hL⟩ : ∃ L : Nat, net.mNumLayers = (L : Int) := ⟨net.mNumLayers.toNat, by omega⟩
  have hLn : net.mNumLayers.toNat = L := by omega
  have hL1 : 1 ≤ L := by omega
  have hlen : net.mLayers.length = L + 1 := by rw [hw.numConnect, hLn]
  -- shape facts for every connection
  have hshape : ∀ (s : Nat) (c : NNetWeightedConnect α), net.mLayers[s]? = some c →
      c.mNumOutNodes.toNat = c.mWeights.length ∧
      (∀ row ∈ c.mWeights, row.length = (net.adjustInput x s).length) ∧
      c.mWeights.length ≤ (net.errorSignal m x t (L - s)).length := by
    intro s c hcs
    have hs : s < net.mLayers.length := (List.getElem?_eq_some.mp hcs).1
    have hsz := hw.sized c (List.getElem?_mem hcs)
    have hin := stageInput_length m net hw x hx s c hcs
    refine ⟨?_, ?_, ?_⟩
    · have := hsz.rows
      omega
    · intro row hrow
      rw [adjustInput_eq_stageInput m net x hc s hs]
      have := hsz.cols row hrow
      omega
    · rw [errorSignal_length m net hw x t (L - s) (by omega), hLn]
      have : L - (L - s) = s := by omega
      rw [this]
      simp [NeuralNet.weightsAt, hcs]
  -- the output connection
  obtain ⟨cL, hcL, _⟩ := layer_exists net hw L (by omega)
  obtain ⟨hnL, hcolsL, herrL⟩ := hshape L cL hcL
  have hadjL : net.adjustInput x L = net.getActivations [] ((L : Int) - 1) := by
    unfold NeuralNet.adjustInput
    rw [if_neg (by omega)]
  rw [hadjL] at hcolsL
  rw [Nat.sub_self] at herrL
  obtain ⟨W, p1, hO, hWl, hWr, hWex⟩ := calcOutputWtAdjust_eq tr (net.errorSignal m x t 0) net L
    hL cL hcL hcolsL hnL herrL
  -- the hidden connections
  have hH : ∀ n, n < L → ∃ c e,
      (NeuralNet.mLayers { net with mLayers := net.mLayers.set L { cL with mWeights := W } })[n]?
        = some c ∧
      ((List.range L).map (fun r => net.errorSignal m x t (r + 1)))[L - 1 - n]? = some e ∧
      c.mNumOutNodes.toNat = c.mWeights.length ∧ c.mWeights.length ≤ e.length ∧
      (∀ row ∈ c.mWeights, row.length = (NeuralNet.adjustInput
        { net with mLayers := net.mLayers.set L { cL with mWeights := W } } x n).length) ∧
      (n ≠ 0 → n - 1 < (NeuralNet.mActivations
        { net with mLayers := net.mLayers.set L { cL with mWeights := W } }).length) := by
    intro n hn
    obtain ⟨c, hcn, _⟩ := layer_exists net hw n (by omega)
    obtain ⟨h1, h2, h3⟩ := hshape n c hcn
    refine ⟨c, net.errorSignal m x t (L - 1 - n + 1), ?_, ?_, h1, ?_, h2, ?_⟩
    · show (net.mLayers.set L _)[n]? = some c
      rw [List.getElem?_set_ne (by omega)]
      exact hcn
    · rw [List.getElem?_map, List.getElem?_range (by omega)]
      rfl
    · have : L - 1 - n + 1 = L - n := by omega
      rw [this]
      exact h3
    · intro _
      show n - 1 < net.mActivations.length
      rw [hc.2, List.length_map, tracesFrom_length, hlen]
      omega
  obtain ⟨M, p2, hHid, hMl, hMout, hMin, hp2⟩ := calcHiddenWtAdjust_eq
    { tr with mPrevOutWt := p1 }
    ((List.range L).map (fun r => net.errorSignal m x t (r + 1))) x
    { net with mLayers := net.mLayers.set L { cL with mWeights := W } } L hL hH
  refine ⟨M, p1, p2, ?_, ?_, ?_, ?_⟩
  · rw [hO, hLn]
    simp only [Option.some_bind]
    exact hHid
  · rw [hMl]
    show (net.mLayers.set L _).length = _
    simp
  · intro s c hcs
    have hs : s < L + 1 := by rw [← hlen]; exact (List.getElem?_eq_some.mp hcs).1
    by_cases hsL : s = L
    · subst hsL
      have hcc : cL = c := by
        rw [hcL] at hcs
        exact Option.some.inj hcs
      subst hcc
      refine ⟨{ cL with mWeights := W }, ?_, ⟨W, rfl, hWl, ?_⟩, fun hm => ?_⟩
      · rw [hMout s le_rfl]
        show (net.mLayers.set s _)[s]? = _
        rw [List.getElem?_set_self (by omega)]
      · intro row hrow
        rw [hWr row hrow, ← hadjL, adjustInput_eq_stageInput m net x hc s (by omega)]
        exact stageInput_length m net hw x hx s cL hcL
      · show W = _
        rw [(hWex hm).2, ← hadjL, adjustInput_eq_stageInput m net x hc s (by omega)]
        simp only [NeuralNet.delta, hLn, Nat.sub_self]
    · have hslt : s < L := by omega
      have hcs' : (NeuralNet.mLayers
          { net with mLayers := net.mLayers.set L { cL with mWeights := W } })[s]? = some c := by
        show (net.mLayers.set L _)[s]? = some c
        rw [List.getElem?_set_ne (by omega)]
        exact hcs
      obtain ⟨Ws, hMs, hWsl, hWsr, hWsex⟩ := hMin s c hslt hcs'
      have hadj : NeuralNet.adjustInput
          { net with mLayers := net.mLayers.set L { cL with mWeights := W } } x s
          = net.stageInput m x s := by
        rw [← adjustInput_eq_stageInput m net x hc s (by omega)]
        rfl
      rw [hadj] at hWsr hWsex
      refine ⟨{ c with mWeights := Ws }, hMs, ⟨Ws, rfl, hWsl, ?_⟩, fun hm => ?_⟩
      · intro row hrow
        rw [hWsr row hrow]
        exact stageInput_length m net hw x hx s c hcs
      · show Ws = _
        rw [hWsex hm, List.getD_eq_getElem?_getD, List.getElem?_map,
          List.getElem?_range (by omega)]
        have : L - 1 - s + 1 = L - s := by omega
        simp only [Option.map_some', Option.getD_some, NeuralNet.delta, hLn, this]
  · intro hm
    exact ⟨(hWex hm).1, hp2 hm⟩

theorem cachesOnly_delta (m : Libm α) (net : NeuralNet α) (A U : List (List α))
    (x t : List α) (s : Nat) :
    NeuralNet.delta m { net with mActivations := A, mUnitInputs := U } x t s
      = net.delta m x t s := by
  unfold NeuralNet.delta
  exact cachesOnly_errorSignal m net A U x t _

theorem cachesOnly_stageInput (m : Libm α) (net : NeuralNet α) (A U : List (List α))
    (x : List α) (s : Nat) :
    NeuralNet.stageInput m { net with mActivations := A, mUnitInputs := U } x s
      = net.stageInput m x s := by
  unfold NeuralNet.stageInput
  rw [cachesOnly_postAt]

/-- One training example on a well-formed network with a fitting training
set: the step is defined, adds the example error to the total, keeps every
member of the network but the weights and the caches, keeps the shape of every
connection, and without momentum leaves the adjusted weights and untouched
histories. -/
theorem trainExample_spec (m : Libm α) (tr : NNetTrainer α) (net : NeuralNet α)
    (hw : net.WellFormed) (hf : tr.Fits net) (index : Nat)
    (hi : index < tr.mTrainInput.length) :
    ∃ (M : List (NNetWeightedConnect α)) (A U : List (List α)) (p1 p2 : List α),
      NNetTrainer.trainExample m (tr, net) index =
        some ({ tr with
                mNetError := tr.mNetError + NNetTrainer.exampleError m (tr, net) index,
                mPrevOutWt := p1, mPrevHidWt := p2 },
              { net with mLayers := M, mActivations := A, mUnitInputs := U }) ∧
      M.length = net.mLayers.length ∧
      (∀ (s : Nat) (c : NNetWeightedConnect α), net.mLayers[s]? = some c →
        ∃ c', M[s]? = some c' ∧ SameShape c c' ∧
          (¬ 0 < tr.mMomentum → c'.mWeights = adjustedWeights tr.mLearnConst c.mWeights
            (net.delta m (tr.mTrainInput.getD index []) (tr.mTrainTarget.getD index []) s)
            (net.stageInput m (tr.mTrainInput.getD index []) s))) ∧
      (¬ 0 < tr.mMomentum → p1 = tr.mPrevOutWt ∧ p2 = tr.mPrevHidWt) := by
  have hit : index < tr.mTrainTarget.length := by rw [hf.paired]; exact hi
  have hxget : tr.mTrainInput[index]? = some tr.mTrainInput[index] :=
    List.getElem?_eq_getElem hi
  have htget : tr.mTrainTarget[index]? = some tr.mTrainTarget[index] :=
    List.getElem?_eq_getElem hit
  have hxD : tr.mTrainInput.getD index [] = tr.mTrainInput[index] := by
    rw [List.getD_eq_getElem?_getD, hxget]; rfl
  have htD : tr.mTrainTarget.getD index [] = tr.mTrainTarget[index] := by
    rw [List.getD_eq_getElem?_getD, htget]; rfl
  rw [hxD, htD]
  generalize tr.mTrainInput[index] = x at hxget hxD
  generalize tr.mTrainTarget[index] = t at htget htD
  have hx : (x.length : Int) = net.mNumInputs := hf.inputs x (List.getElem?_mem hxget)
  have ht : net.mNumOutputs ≤ (t.length : Int) := hf.targets t (List.getElem?_mem htget)
  obtain ⟨hresp, hrlen⟩ := getResponse_spec m net hw x [] (by omega)
  have hw1 := cachesOnly_wellFormed net hw
    ((net.tracesFrom m 0 net.mLayers (x.take net.mNumInputs.toNat)).map Prod.snd)
    ((net.tracesFrom m 0 net.mLayers (x.take net.mNumInputs.toNat)).map Prod.fst)
  have hc1 := responded_cachesOf m net x
  have hLpos := hw.layersPos
  have hrt : (net.responseSpec m x).length ≤ t.length := by omega
  have herr := calcNetworkError_eq tr (net.responseSpec m x) t index htget hrt
  have hLlt : net.mNumLayers.toNat < net.mLayers.length := by rw [hw.numConnect]; omega
  obtain ⟨cL, hcL, _⟩ := layer_exists net hw net.mNumLayers.toNat le_rfl
  have hUI : NeuralNet.getUnitInputs
      { net with
        mActivations := (net.tracesFrom m 0 net.mLayers
          (x.take net.mNumInputs.toNat)).map Prod.snd,
        mUnitInputs := (net.tracesFrom m 0 net.mLayers
          (x.take net.mNumInputs.toNat)).map Prod.fst } [] net.mNumLayers
      = net.preAt m x net.mNumLayers.toNat := by
    have hcast : net.mNumLayers = ((net.mNumLayers.toNat : Nat) : Int) := by omega
    rw [← cachesOnly_preAt m net _ _ x]
    conv_lhs => rw [hcast]
    exact getUnitInputs_cache m _ x hc1 _ hLlt []
  have hpl := preAt_length m net x net.mNumLayers.toNat cL hcL
  have hrp := responseSpec_eq_postAt m net hw x
  have hout := calcOutputError_eq m
    { tr with mNetError := tr.mNetError + halfSquaredError t (net.responseSpec m x) }
    { net with
      mActivations := (net.tracesFrom m 0 net.mLayers
        (x.take net.mNumInputs.toNat)).map Prod.snd,
      mUnitInputs := (net.tracesFrom m 0 net.mLayers
        (x.take net.mNumInputs.toNat)).map Prod.fst }
    (net.responseSpec m x) t index htget hrt
    (by
      show _ ≤ (NeuralNet.getUnitInputs _ [] net.mNumLayers).length
      rw [hUI, hpl.1, hrp, hpl.2])
  have hE0 : outputDelta m (net.mOutUnitType, net.mOutUnitSlope, net.mOutUnitAmplify) t
      (net.responseSpec m x)
      (NeuralNet.getUnitInputs
        { net with
          mActivations := (net.tracesFrom m 0 net.mLayers
            (x.take net.mNumInputs.toNat)).map Prod.snd,
          mUnitInputs := (net.tracesFrom m 0 net.mLayers
            (x.take net.mNumInputs.toNat)).map Prod.fst } [] net.mNumLayers)
      = NeuralNet.errorSignal m
        { net with
          mActivations := (net.tracesFrom m 0 net.mLayers
            (x.take net.mNumInputs.toNat)).map Prod.snd,
          mUnitInputs := (net.tracesFrom m 0 net.mLayers
            (x.take net.mNumInputs.toNat)).map Prod.fst } x t 0 := by
    rw [hUI, cachesOnly_errorSignal, hrp]
    rfl
  have hhid := calcHiddenError_eq m _ hw1 x t hc1
  obtain ⟨M, p1, p2, hadj, hMl, hMs, hp⟩ := adjust_spec m
    { tr with mNetError := tr.mNetError + halfSquaredError t (net.responseSpec m x) }
    _ hw1 x t hc1 hx
  refine ⟨M, (net.tracesFrom m 0 net.mLayers (x.take net.mNumInputs.toNat)).map Prod.snd,
    (net.tracesFrom m 0 net.mLayers (x.take net.mNumInputs.toNat)).map Prod.fst, p1, p2, ?_, hMl,
    ?_, hp⟩
  · unfold NNetTrainer.trainExample
    simp only [vecAt_natCast, hxget, Option.bind_eq_bind, Option.some_bind, hresp, herr]
    rw [hout]
    simp only [Option.some_bind]
    rw [hE0, hhid]
    simp only [Option.some_bind]
    rw [hadj]
    simp only [NNetTrainer.exampleError, hxD, htD]
  · intro s c hcs
    obtain ⟨c', h1, h2, h3⟩ := hMs s c hcs
    refine ⟨c', h1, h2, fun hm => ?_⟩
    rw [h3 hm, cachesOnly_delta, cachesOnly_stageInput]

end TrainExample

/-! ## The shuffle -/

theorem iterSwap_length (v : List Nat) (i j : Nat) : (iterSwap v i j).length = v.length := by
  simp [iterSwap]

theorem iterSwap_perm (v : List Nat) (i j : Nat) (hi : i < v.length) (hj : j < v.length) :
    (iterSwap v i j).Perm v := by
  rw [List.perm_iff_count]
  intro a
  have hgi : v.getD i 0 = v[i] := by
    rw [List.getD_eq_getElem?_getD, List.getElem?_eq_getElem hi]; rfl
  have hgj : v.getD j 0 = v[j] := by
    rw [List.getD_eq_getElem?_getD, List.getElem?_eq_getElem hj]; rfl
  have hj' : j < (v.set i v[j]).length := by simpa using hj
  have hsj : (v.set i v[j])[j] = v[j] := by
    rw [List.getElem_set]
    split <;> rfl
  unfold iterSwap
  rw [hgi, hgj, List.count_set _ _ _ _ hj', List.count_set _ _ _ _ hi, hsj]
  have h1 : (if v[i] == a then 1 else 0) ≤ List.count a v := by
    split
    · rename_i h
      have : v[i] = a := by simpa using h
      rw [← this]
      exact List.one_le_count_iff.mpr (List.getElem_mem _)
    · exact Nat.zero_le _
  omega

theorem randomShuffle_perm :
    ∀ (steps i : Nat) (v : List Nat) (g : RandState), i + steps ≤ v.length →
      (randomShuffle steps i v g).1.Perm v := by
  intro steps
  induction steps with
  | zero => intro i v g _; exact List.Perm.refl _
  | succ k ih =>
    intro i v g h
    have hi : i < v.length := by omega
    have hj : (rand g).1 % (i + 1) < v.length := by
      have : (rand g).1 % (i + 1) < i + 1 := Nat.mod_lt _ (Nat.succ_pos i)
      omega
    unfold randomShuffle
    exact (ih (i + 1) _ _ (by rw [iterSwap_length]; omega)).trans (iterSwap_perm v i _ hi hj)

theorem random_shuffle_perm (idx : List Nat) (g : RandState) :
    (random_shuffle idx g).1.Perm idx := by
  unfold random_shuffle
  cases idx with
  | nil => exact List.Perm.refl _
  | cons a t =>
    apply randomShuffle_perm
    simp only [List.length_cons]
    omega

section Epoch

variable {α : Type} [LinearOrderedField α]

theorem trainExample_keeps (m : Libm α) (tr : NNetTrainer α) (net : NeuralNet α)
    (hw : net.WellFormed) (hf : tr.Fits net) (index : Nat)
    (hi : index < tr.mTrainInput.length) :
    ∃ tr' net', NNetTrainer.trainExample m (tr, net) index = some (tr', net') ∧
      tr'.mNetError = tr.mNetError + NNetTrainer.exampleError m (tr, net) index ∧
      net'.WellFormed ∧ tr'.Fits net' ∧ tr'.mTrainInput = tr.mTrainInput := by
  obtain ⟨M, A, U, p1, p2, h, hMl, hMs, _⟩ := trainExample_spec m tr net hw hf index hi
  refine ⟨_, _, h, rfl, ?_, ⟨hf.paired, hf.inputs, hf.targets⟩, rfl⟩
  exact wellFormed_of_sameShape net hw M A U hMl
    (fun s c hc => by
      obtain ⟨c', h1, h2, _⟩ := hMs s c hc
      exact ⟨c', h1, h2⟩)

/-- The loop of trainNeuralNet over a list of valid indices. -/
theorem epoch_loop (m : Libm α) :
    ∀ (order : List Nat) (tr : NNetTrainer α) (net : NeuralNet α), net.WellFormed →
      tr.Fits net → (∀ i ∈ order, i < tr.mTrainInput.length) →
      ∃ tr' net', order.foldlM (NNetTrainer.trainExample m) (tr, net) = some (tr', net') ∧
        tr'.mNetError = tr.mNetError + NNetTrainer.epochError m (tr, net) order ∧
        net'.WellFormed ∧ tr'.Fits net' ∧ tr'.mTrainInput = tr.mTrainInput := by
  intro order
  induction order with
  | nil =>
    intro tr net hw hf _
    exact ⟨tr, net, rfl, by simp [NNetTrainer.epochError], hw, hf, rfl⟩
  | cons index rest ih =>
    intro tr net hw hf hidx
    obtain ⟨tr1, net1, h1, he1, hw1, hf1, hin1⟩ := trainExample_keeps m tr net hw hf index
      (hidx index (List.mem_cons_self _ _))
    obtain ⟨tr', net', h2, he2, hw2, hf2, hin2⟩ := ih tr1 net1 hw1 hf1
      (fun i hi => by rw [hin1]; exact hidx i (List.mem_cons_of_mem _ hi))
    refine ⟨tr', net', ?_, ?_, hw2, hf2, hin2.trans hin1⟩
    · rw [List.foldlM_cons, h1]
      exact h2
    · rw [he2, he1]
      simp only [NNetTrainer.epochError, h1, add_assoc]

theorem trainNeuralNet_keeps (m : Libm α) (tr : NNetTrainer α) (net : NeuralNet α)
    (g : RandState) (hw : net.WellFormed) (hf : tr.Fits net)
    (hN : 0 < tr.mTrainInput.length) :
    ∃ tr' net' g', tr.trainNeuralNet m net g = some (tr', net', g') ∧
      tr'.mNetError = tr.mNetError + NNetTrainer.epochError m (tr, net) (tr.presented g) ∧
      net'.WellFormed ∧ tr'.Fits net' ∧ tr'.mTrainInput = tr.mTrainInput := by
  have hperm := random_shuffle_perm (List.range tr.mTrainInput.length) g
  obtain ⟨tr', net', h, he, hw', hf', hin⟩ := epoch_loop m (tr.presented g) tr net hw hf
    (fun i hi => List.mem_range.mp ((hperm.mem_iff).mp hi))
  refine ⟨tr', net', (random_shuffle (List.range tr.mTrainInput.length) g).2, ?_, he, hw', hf',
    hin⟩
  unfold NNetTrainer.trainNeuralNet
  unfold NNetTrainer.presented at h
  simp only [hN, if_true, h, Option.bind_eq_bind, Option.some_bind, Option.pure_def]

/-- C6: with momentum disabled and a well-formed network, processing one
training example (input x of inputWidth values, target t) leaves, for every
connection stage s in 0..L, the weights
W_s[i][j] + learnConst * delta_s[i] * in_s[j], where in_0 is the training
input, in_s (s >= 1) is the post-activation vector of hidden layer s-1 of the
forward pass on x, delta_L is the output-layer error signal and delta_s
(s < L) the error signal of hidden layer s, all from the weights before the
update. -/
theorem trainExample_adjusts_weights (m : Libm α) (tr : NNetTrainer α) (net : NeuralNet α)
    (hw : net.WellFormed) (hf : tr.Fits net) (index : Nat)
    (hi : index < tr.mTrainInput.length) (hmom : tr.mMomentum = 0) :
    ∃ tr' net', NNetTrainer.trainExample m (tr, net) index = some (tr', net') ∧
      ∀ s, s ≤ net.mNumLayers.toNat →
        net'.weightsAt s = adjustedWeights tr.mLearnConst (net.weightsAt s)
          (net.delta m (tr.mTrainInput.getD index []) (tr.mTrainTarget.getD index []) s)
          (net.stageInput m (tr.mTrainInput.getD index []) s) := by
  obtain ⟨M, A, U, p1, p2, h, _, hMs, _⟩ := trainExample_spec m tr net hw hf index hi
  have hm : ¬ 0 < tr.mMomentum := by rw [hmom]; exact lt_irrefl 0
  refine ⟨_, _, h, fun s hs => ?_⟩
  obtain ⟨c, hc, _⟩ := layer_exists net hw s hs
  obtain ⟨c', h1, _, h3⟩ := hMs s c hc
  have e1 : NeuralNet.weightsAt { net with mLayers := M, mActivations := A, mUnitInputs := U } s
      = c'.mWeights := by
    simp [NeuralNet.weightsAt, h1]
  have e2 : net.weightsAt s = c.mWeights := by
    simp [NeuralNet.weightsAt, hc]
  rw [e1, e2]
  exact h3 hm

/-- C7: for a trainer holding N >= 1 training examples that fit a well-formed
network, one call of trainNeuralNet presents every example exactly once (the
presented order is a reordering of 0..N-1), is defined, and increases the
total network error by the sum over the presented examples of
sum_i 0.5*(target_i - response_i)^2 with the response of the network as it is
before that example's update; the total is not cleared, so after k calls it is
the initial value plus the sum over all k epochs. -/
theorem trainNeuralNet_accumulates_error (m : Libm α) (tr : NNetTrainer α) (net : NeuralNet α)
    (g : RandState) (hw : net.WellFormed) (hf : tr.Fits net)
    (hN : 0 < tr.mTrainInput.length) :
    (tr.presented g).Perm (List.range tr.mTrainInput.length) ∧
    (∃ tr' net' g', tr.trainNeuralNet m net g = some (tr', net', g') ∧
      tr'.mNetError = tr.mNetError + NNetTrainer.epochError m (tr, net) (tr.presented g)) ∧
    (∀ k, ∃ tr' net' g', NNetTrainer.trainCalls m k (tr, net, g) = some (tr', net', g') ∧
      tr'.mNetError = tr.mNetError + NNetTrainer.callsError m k (tr, net, g)) := by
  refine ⟨random_shuffle_perm _ g, ?_, ?_⟩
  · obtain ⟨tr', net', g', h, he, _⟩ := trainNeuralNet_keeps m tr net g hw hf hN
    exact ⟨tr', net', g', h, he⟩
  · intro k
    induction k generalizing tr net g with
    | zero => exact ⟨tr, net, g, rfl, by simp [NNetTrainer.callsError]⟩
    | succ k ih =>
      obtain ⟨tr1, net1, g1, h1, he1, hw1, hf1, hin1⟩ := trainNeuralNet_keeps m tr net g hw hf hN
      obtain ⟨tr', net', g', h2, he2⟩ := ih tr1 net1 g1 hw1 hf1 (by rw [hin1]; exact hN)
      refine ⟨tr', net', g', ?_, ?_⟩
      · simp only [NNetTrainer.trainCalls, h1, Option.bind_eq_bind, Option.some_bind]
        exact h2
      · rw [he2, he1]
        simp only [NNetTrainer.callsError, h1, add_assoc]

end Epoch

theorem exampleTrainer_fits : exampleTrainer.Fits exampleNet := by
  refine ⟨rfl, ?_, ?_⟩
  · intro x hx
    simp only [exampleTrainer, NNetTrainer.addToTrainingSet, NNetTrainer.new, List.nil_append,
      List.mem_singleton] at hx
    subst hx
    rfl
  · intro t ht
    simp only [exampleTrainer, NNetTrainer.addToTrainingSet, NNetTrainer.new, List.nil_append,
      List.mem_singleton] at ht
    subst ht
    decide

theorem exampleNet_traces :
    exampleNet.tracesFrom exampleLibm 0 exampleNet.mLayers
      (List.take exampleNet.mNumInputs.toNat [1, 1]) = [([3, 7], [6, 14]), ([-8], [-24])] := by
  simp [NeuralNet.tracesFrom, NeuralNet.stageOutput, preActivation, dot,
    NeuralNet.stageDetails, forward, NNetUnit.getActivation, exampleNet]
  norm_num

theorem exampleNet_errorSignal_zero :
    exampleNet.errorSignal exampleLibm [1, 1] [0] 0 = [72] := by
  simp [NeuralNet.errorSignal, outputDelta, NeuralNet.preAt, NeuralNet.postAt,
    exampleNet_traces, getGradient]
  simp [exampleNet, List.range_succ]
  norm_num

theorem exampleNet_errorSignal_one :
    exampleNet.errorSignal exampleLibm [1, 1] [0] 1 = [144, -144] := by
  show exampleNet.errorSignal exampleLibm [1, 1] [0] (0 + 1) = _
  rw [NeuralNet.errorSignal, exampleNet_errorSignal_zero]
  simp [hiddenDelta, backSum, NeuralNet.preAt, exampleNet_traces, NeuralNet.weightsAt,
    NeuralNet.stageDetails, getGradient]
  simp [exampleNet, List.range_succ, getGradient]
  norm_num

/-- Witness for C6: the example trainer (learning constant 0.5, no momentum, one
pair (1, 1) -> (0)) on the example network: the error signals are 72 for
the output unit and 144, -144 for the hidden units, so the hidden weights
become 1+72, 2+72, 3-72, 4-72 and the output weights 1+0.5*72*6 and
-1+0.5*72*14. -/
theorem trainExample_adjusts_weights_witness :
    ∃ tr' net', NNetTrainer.trainExample exampleLibm (exampleTrainer, exampleNet) 0
        = some (tr', net') ∧
      net'.weightsAt 0 = [[73, 74], [-69, -68]] ∧ net'.weightsAt 1 = [[217, 503]] := by
  obtain ⟨tr', net', h, hW⟩ := trainExample_adjusts_weights exampleLibm exampleTrainer
    exampleNet exampleNet_wellFormed exampleTrainer_fits 0 (by decide) rfl
  refine ⟨tr', net', h, ?_, ?_⟩
  · rw [hW 0 (by decide)]
    have hd : exampleNet.delta exampleLibm [1, 1] [0] 0 = [144, -144] :=
      exampleNet_errorSignal_one
    simp only [exampleTrainer, NNetTrainer.addToTrainingSet, NNetTrainer.new, List.nil_append,
      List.getD_cons_zero, hd, NeuralNet.stageInput, if_true]
    simp [adjustedWeights, adjustedRow, NeuralNet.weightsAt, exampleNet, List.range_succ]
    norm_num
  · rw [hW 1 (by decide)]
    have hd : exampleNet.delta exampleLibm [1, 1] [0] 1 = [72] :=
      exampleNet_errorSignal_zero
    simp only [exampleTrainer, NNetTrainer.addToTrainingSet, NNetTrainer.new, List.nil_append,
      List.getD_cons_zero, hd, NeuralNet.stageInput]
    simp [adjustedWeights, adjustedRow, NeuralNet.weightsAt, NeuralNet.postAt,
      exampleNet_traces, List.range_succ]
    simp [exampleNet, List.range_succ]
    norm_num

theorem exampleNet_response_one : exampleNet.responseSpec exampleLibm [1, 1] = [-24] := by
  simp [NeuralNet.responseSpec, NeuralNet.stagesFrom, NeuralNet.stageOutput, preActivation, dot,
    NeuralNet.stageDetails, forward, NNetUnit.getActivation, exampleNet]
  norm_num

/-- Witness for C7: one call of trainNeuralNet for the example trainer on
the example network adds 0.5 * (0 - (-24))^2 = 288 to the total error 0. -/
theorem trainNeuralNet_accumulates_error_witness :
    ∃ tr' net' g', exampleTrainer.trainNeuralNet exampleLibm exampleNet exampleRand
        = some (tr', net', g') ∧ tr'.mNetError = 288 := by
  obtain ⟨_, ⟨tr', net', g', h, he⟩, _⟩ := trainNeuralNet_accumulates_error exampleLibm
    exampleTrainer exampleNet exampleRand exampleNet_wellFormed exampleTrainer_fits (by decide)
  refine ⟨tr', net', g', h, ?_⟩
  obtain ⟨tr1, net1, h1, _⟩ := trainExample_keeps exampleLibm exampleTrainer exampleNet
    exampleNet_wellFormed exampleTrainer_fits 0 (by decide)
  have hp : exampleTrainer.presented exampleRand = [0] := rfl
  rw [he, hp]
  simp only [NNetTrainer.epochError, h1, NNetTrainer.exampleError, add_zero]
  simp only [exampleTrainer, NNetTrainer.addToTrainingSet, NNetTrainer.new, List.nil_append,
    List.getD_cons_zero, exampleNet_response_one, halfSquaredError]
  simp [List.range_succ]
  norm_num

/-! ## Serialization round trip -/

section SerialLemmas

variable {α : Type} [LinearOrderedField α]

theorem ofInt_toInt (k : ActiveT) : ActiveT.ofInt k.toInt = some k := by
  cases k <;> rfl

omit [LinearOrderedField α] in
theorem serializeRow_eq (nIn : Int) (row : List α) (h : (row.length : Int) = nIn) :
    serializeRow nIn row = some (row.map Token.real) := by
  unfold serializeRow
  have hn : nIn.toNat = row.length := by omega
  rw [hn]
  exact mapM_range_all row _ Token.real
    (fun i hi => by
      simp only [vecAt_natCast, List.getElem?_eq_getElem hi, Option.bind_eq_bind,
        Option.some_bind, Option.pure_def])

omit [LinearOrderedField α] in
theorem serializeNode_loop (c : NNetWeightedConnect α)
    (hcols : ∀ row ∈ c.mWeights, (row.length : Int) = c.mNumInNodes) (o : List (Token α))
    (w : List α) :
    ∀ k, k ≤ c.mWeights.length →
      ∃ w', (List.range k).foldlM (serializeNode c) { out := o, weights := w } =
        some { out := o ++ ((c.mWeights.take k).map (fun row => row.map Token.real)).flatten,
               weights := w' } := by
  intro k
  induction k with
  | zero => intro _; exact ⟨w, by simp⟩
  | succ k ih =>
    intro hk
    obtain ⟨w', h⟩ := ih (by omega)
    have hkc : k < c.mWeights.length := hk
    have hrow : ((c.mWeights[k]).length : Int) = c.mNumInNodes :=
      hcols _ (List.getElem_mem _)
    have hgw : c.getWeightVector (k : Int) w' = c.mWeights[k] := by
      rw [getWeightVector_natCast c k w' hkc, List.getD_eq_getElem?_getD,
        List.getElem?_eq_getElem hkc]
      rfl
    refine ⟨c.mWeights[k], ?_⟩
    rw [List.range_succ, List.foldlM_append, h]
    simp only [Option.bind_eq_bind, Option.some_bind, List.foldlM_cons, List.foldlM_nil,
      Option.pure_def]
    unfold serializeNode
    simp only [hgw, serializeRow_eq _ _ hrow,
      Option.bind_eq_bind, Option.some_bind, Option.pure_def, List.take_succ,
      List.getElem?_eq_getElem hkc, Option.toList_some, List.map_append, List.map_cons,
      List.map_nil, List.flatten_append, List.flatten_cons, List.flatten_nil, List.append_nil,
      List.append_assoc]

theorem lit_zero : (0.0 : α) = 0 := by norm_num

theorem wellFormed_storable (net : NeuralNet α) (hw : net.WellFormed) : net.Storable :=
  ⟨le_of_lt hw.layersPos, hw.numConnect, le_of_eq hw.numUnits.symm, le_of_eq hw.numSlopes.symm,
    le_of_eq hw.numAmplifies.symm, fun c hc => (hw.sized c hc).rows,
    fun c hc => (hw.sized c hc).cols⟩

theorem serializeLayer_eq (net : NeuralNet α) (hw : net.Storable) (s : Nat)
    (hs : s ≤ net.mNumLayers.toNat) (c : NNetWeightedConnect α)
    (hc : net.mLayers[s]? = some c) (st : WriteState α) :
    ∃ w', net.serializeLayer st s =
      some { out := st.out ++
               layerText c (net.stageDetails s) (decide ((s : Int) < net.mNumLayers)),
             weights := w' } := by
  have hn : c.mNumOutNodes.toNat = c.mWeights.length := by
    have := hw.rows c (List.getElem?_mem hc)
    omega
  obtain ⟨w', hloop⟩ := serializeNode_loop c (hw.cols c (List.getElem?_mem hc))
    (st.out ++ [Token.char 'L', Token.int c.mNumInNodes, Token.int c.mNumOutNodes,
      Token.int (if decide ((s : Int) < net.mNumLayers) then (net.stageDetails s).1.toInt else 0),
      Token.real (if decide ((s : Int) < net.mNumLayers) then (net.stageDetails s).2.1 else 0),
      Token.real (if decide ((s : Int) < net.mNumLayers) then (net.stageDetails s).2.2 else 0)])
    st.weights c.mWeights.length le_rfl
  refine ⟨w', ?_⟩
  unfold NeuralNet.serializeLayer
  rw [vecAt_natCast, hc]
  simp only [Option.bind_eq_bind, Option.some_bind]
  by_cases hlt : (s : Int) < net.mNumLayers
  · have hs' : s < net.mNumLayers.toNat := by omega
    have h1 : s < net.mActiveUnits.length := lt_of_lt_of_le hs' hw.numUnits
    have h2 : s < net.mActiveSlope.length := lt_of_lt_of_le hs' hw.numSlopes
    have h3 : s < net.mActiveAmplify.length := lt_of_lt_of_le hs' hw.numAmplifies
    have hdet : net.stageDetails s
        = (net.mActiveUnits[s], net.mActiveSlope[s], net.mActiveAmplify[s]) := by
      unfold NeuralNet.stageDetails
      rw [if_pos hlt]
      simp [List.getD_eq_getElem?_getD, List.getElem?_eq_getElem h1,
        List.getElem?_eq_getElem h2, List.getElem?_eq_getElem h3]
    simp only [hlt, decide_True, if_true, hdet] at hloop ⊢
    simp only [vecAt_natCast, List.getElem?_eq_getElem h1, List.getElem?_eq_getElem h2,
      List.getElem?_eq_getElem h3, Option.map_some', Option.some_bind, hn, hloop, layerText,
      List.take_length, List.append_assoc, decide_True, if_true]
  · simp only [hlt, decide_False, if_false, Bool.false_eq_true] at hloop ⊢
    simp only [Option.some_bind, hn, lit_zero, hloop, layerText, List.take_length,
      List.append_assoc, Bool.false_eq_true, if_false]

theorem serialize_loop (net : NeuralNet α) (hw : net.Storable) :
    ∀ (k s : Nat) (st : WriteState α), s + k = net.mNumLayers.toNat + 1 →
      ∃ w', (List.range' s k).foldlM net.serializeLayer st =
        some { out := st.out ++ net.layersText s (net.mLayers.drop s), weights := w' } := by
  intro k
  induction k with
  | zero =>
    intro s st hs
    have hdrop : net.mLayers.drop s = [] := by
      apply List.drop_of_length_le
      rw [hw.numConnect]; omega
    exact ⟨st.weights, by simp [hdrop, NeuralNet.layersText]⟩
  | succ k ih =>
    intro s st hs
    have hslt : s < net.mLayers.length := by rw [hw.numConnect]; omega
    have hc : net.mLayers[s]? = some net.mLayers[s] := List.getElem?_eq_getElem hslt
    obtain ⟨w1, h1⟩ := serializeLayer_eq net hw s (by omega) _ hc st
    obtain ⟨w', h2⟩ := ih (s + 1) _ (by omega)
    refine ⟨w', ?_⟩
    rw [List.range'_succ, List.foldlM_cons, h1]
    simp only [Option.bind_eq_bind, Option.some_bind]
    rw [h2, List.drop_eq_getElem_cons hslt]
    simp [NeuralNet.layersText]

/-- On a network it can write serialize produces the token sequence of the
format. -/
theorem serialize_eq_modelText (net : NeuralNet α) (hw : net.Storable) :
    net.serialize = some net.modelText := by
  have hL := hw.layersNonneg
  obtain ⟨w', h⟩ := serialize_loop net hw (net.mNumLayers.toNat + 1) 0
    { out := [Token.int net.mNumInputs, Token.int net.mNumOutputs, Token.int net.mNumLayers,
        Token.int net.mOutUnitType.toInt, Token.real net.mOutUnitSlope,
        Token.real net.mOutUnitAmplify], weights := [] } (by omega)
  have hn : (net.mNumLayers + 1).toNat = net.mNumLayers.toNat + 1 := by omega
  unfold NeuralNet.serialize NeuralNet.modelText
  simp only [hn, List.range_eq_range', h, Option.bind_eq_bind, Option.some_bind,
    Option.pure_def, List.drop_zero]

theorem deserializeRow_eq (row : List α) (rest : List (Token α)) :
    deserializeRow row.length { toks := row.map Token.real ++ rest, fail := false }
      = some (row, { toks := rest, fail := false }) := by
  induction row with
  | nil => rfl
  | cons a t ih =>
    simp only [List.length_cons, deserializeRow, IStream.extractDouble, List.map_cons,
      List.cons_append, Bool.false_eq_true, if_false, Option.bind_eq_bind, Option.some_bind, ih,
      Option.pure_def]

theorem initVec_length (r : α) : ∀ (n : Nat) (g : RandState), (initVec r n g).1.length = n := by
  intro n
  induction n with
  | zero => intro g; rfl
  | succ k ih => intro g; simp [initVec, ih]

theorem initRows_shape (r : α) (n : Nat) :
    ∀ (rows : Nat) (g : RandState), (initRows r n rows g).1.length = rows ∧
      ∀ row ∈ (initRows r n rows g).1, row.length = n := by
  intro rows
  induction rows with
  | zero => intro g; exact ⟨rfl, fun row h => by simp [initRows] at h⟩
  | succ k ih =>
    intro g
    obtain ⟨h1, h2⟩ := ih (initVec r n g).2
    refine ⟨by simp [initRows, h1], ?_⟩
    intro row hrow
    simp only [initRows, List.mem_cons] at hrow
    rcases hrow with h | h
    · rw [h]; exact initVec_length r n g
    · exact h2 row h

theorem construct_shape (nIn nOut : Int) (g : RandState) (hin : 0 < nIn) (hout : 0 < nOut) :
    ∃ (R0 : List (List α)) (g' : RandState),
      NNetWeightedConnect.construct nIn nOut g =
        some ({ mNumInNodes := nIn, mNumOutNodes := nOut, mInputs := [], mOutputs := [],
                mWeights := R0 }, g') ∧
      R0.length = nOut.toNat ∧ ∀ row ∈ R0, row.length = nIn.toNat := by
  obtain ⟨h1, h2⟩ := initRows_shape (2.0 : α) nIn.toNat nOut.toNat g
  refine ⟨(initRows (2.0 : α) nIn.toNat nOut.toNat g).1,
    (initRows (2.0 : α) nIn.toNat nOut.toNat g).2, ?_, h1, h2⟩
  unfold NNetWeightedConnect.construct NNetWeightedConnect.initialiseWeights
  rw [if_pos ⟨hin, hout⟩]
  simp

/-- The loop of deserialize over the output nodes: the rows written by
serialize are read back into the constructed connection one by one. -/
theorem deserializeNode_loop (nIn : Int) (b : NNetWeightedConnect α) (R : List (List α))
    (rest : List (Token α)) (hlen : b.mWeights.length = R.length)
    (hb : ∀ row ∈ b.mWeights, row.length = nIn.toNat)
    (hR : ∀ row ∈ R, row.length = nIn.toNat) :
    ∀ k, k ≤ R.length →
      (List.range k).foldlM (deserializeNode nIn)
          (b, { toks := (R.map (fun row => row.map Token.real)).flatten ++ rest, fail := false })
        = some ({ b with mWeights := R.take k ++ b.mWeights.drop k },
            { toks := ((R.drop k).map (fun row => row.map Token.real)).flatten ++ rest,
              fail := false }) := by
  intro k
  induction k with
  | zero => intro _; simp
  | succ k ih =>
    intro hk
    have hkR : k < R.length := hk
    have hkb : k < b.mWeights.length := by omega
    have hrow : (R[k]).length = nIn.toNat := hR _ (List.getElem_mem _)
    rw [List.range_succ, List.foldlM_append, ih (by omega)]
    simp only [Option.bind_eq_bind, Option.some_bind, List.foldlM_cons, List.foldlM_nil,
      Option.pure_def]
    unfold deserializeNode
    rw [List.drop_eq_getElem_cons hkR]
    simp only [List.map_cons, List.flatten_cons, List.append_assoc, ← hrow,
      deserializeRow_eq, Option.bind_eq_bind, Option.some_bind, Option.pure_def]
    have hkW : k < (R.take k ++ b.mWeights.drop k).length := by
      simp only [List.length_append, List.length_take, List.length_drop]
      omega
    have hgd : ((R.take k ++ b.mWeights.drop k).getD k []).length = (R[k]).length := by
      rw [getD_take_append_drop R b.mWeights k [] (by omega), hrow,
        List.getD_eq_getElem?_getD, List.getElem?_eq_getElem hkb]
      exact hb _ (List.getElem_mem _)
    rw [setWeightVector_natCast { b with mWeights := R.take k ++ b.mWeights.drop k } k R[k] hkW
      hgd]
    simp only [set_take_append_drop R b.mWeights k R[k] hkR hkb rfl]

theorem deserializeLayer_eq (st : ReadState α) (c : NNetWeightedConnect α) (hsz : c.Sized)
    (kind : ActiveT) (sl am : α) (rest : List (Token α)) (i : Nat)
    (hst : st.stream =
      { toks := [Token.char 'L', Token.int c.mNumInNodes, Token.int c.mNumOutNodes,
          Token.int kind.toInt, Token.real sl, Token.real am] ++
          ((c.mWeights.map (fun row => row.map Token.real)).flatten ++ rest),
        fail := false }) :
    ∃ g', deserializeLayer st i =
      some { net := { st.net with
                      mLayers := st.net.mLayers ++ [c.reread],
                      mActiveUnits := st.net.mActiveUnits ++ [kind],
                      mActiveSlope := st.net.mActiveSlope ++ [sl],
                      mActiveAmplify := st.net.mActiveAmplify ++ [am] },
             stream := { toks := rest, fail := false }, rand := g' } := by
  obtain ⟨R0, g', hcon, hR0l, hR0r⟩ := construct_shape (α := α) c.mNumInNodes c.mNumOutNodes
    st.rand hsz.inPos hsz.outPos
  have hn : c.mNumOutNodes.toNat = c.mWeights.length := by
    have := hsz.rows
    omega
  have hcols : ∀ row ∈ c.mWeights, row.length = c.mNumInNodes.toNat := by
    intro row hrow
    have := hsz.cols row hrow
    omega
  have hloop := deserializeNode_loop c.mNumInNodes
    { mNumInNodes := c.mNumInNodes, mNumOutNodes := c.mNumOutNodes, mInputs := [],
      mOutputs := [], mWeights := R0 } c.mWeights rest (by rw [hR0l, hn]) hR0r hcols
    c.mWeights.length le_rfl
  have hd0 : List.drop c.mWeights.length R0 = [] := List.drop_of_length_le (by omega)
  simp only [List.take_length, List.drop_length, hd0, List.append_nil, List.map_nil,
    List.flatten_nil, List.nil_append] at hloop
  refine ⟨g', ?_⟩
  unfold deserializeLayer
  simp only [hst, IStream.extractChar, IStream.extractInt, IStream.extractDouble,
    List.cons_append, List.nil_append, Bool.false_eq_true, if_false, Option.bind_eq_bind,
    Option.some_bind, hcon, hn, hloop, ofInt_toInt, Option.pure_def,
    NNetWeightedConnect.reread]

theorem pushed_details (net : NeuralNet α) (hw : net.WellFormed) (k : Nat)
    (hk : k ≤ net.mNumLayers.toNat) :
    (net.mActiveUnits ++ [ActiveT.kThreshold])[k]?
      = some (if (k : Int) < net.mNumLayers then (net.stageDetails k).1 else ActiveT.kThreshold) ∧
    (net.mActiveSlope ++ [0])[k]?
      = some (if (k : Int) < net.mNumLayers then (net.stageDetails k).2.1 else 0) ∧
    (net.mActiveAmplify ++ [0])[k]?
      = some (if (k : Int) < net.mNumLayers then (net.stageDetails k).2.2 else 0) := by
  by_cases hlt : (k : Int) < net.mNumLayers
  · have hk' : k < net.mNumLayers.toNat := by omega
    have h1 : k < net.mActiveUnits.length := by rw [hw.numUnits]; exact hk'
    have h2 : k < net.mActiveSlope.length := by rw [hw.numSlopes]; exact hk'
    have h3 : k < net.mActiveAmplify.length := by rw [hw.numAmplifies]; exact hk'
    simp only [if_pos hlt, NeuralNet.stageDetails, List.getElem?_append_left h1,
      List.getElem?_append_left h2, List.getElem?_append_left h3, List.getD_eq_getElem?_getD,
      List.getElem?_eq_getElem h1, List.getElem?_eq_getElem h2, List.getElem?_eq_getElem h3,
      Option.getD_some, and_self]
  · have hk' : k = net.mNumLayers.toNat := by omega
    have h1 : net.mActiveUnits.length ≤ k := by rw [hw.numUnits]; omega
    have h2 : net.mActiveSlope.length ≤ k := by rw [hw.numSlopes]; omega
    have h3 : net.mActiveAmplify.length ≤ k := by rw [hw.numAmplifies]; omega
    have e1 : k - net.mActiveUnits.length = 0 := by rw [hw.numUnits]; omega
    have e2 : k - net.mActiveSlope.length = 0 := by rw [hw.numSlopes]; omega
    have e3 : k - net.mActiveAmplify.length = 0 := by rw [hw.numAmplifies]; omega
    rw [if_neg hlt, if_neg hlt, if_neg hlt, List.getElem?_append_right h1,
      List.getElem?_append_right h2, List.getElem?_append_right h3, e1, e2, e3]
    exact ⟨rfl, rfl, rfl⟩

/-- The layer loop of deserialize on the text serialize wrote, followed by
`rest`: after `k` passes the first `k` connections and layer details are
rebuilt and the stream stands at connection `k`. -/
theorem deserialize_loop (net : NeuralNet α) (hw : net.WellFormed) (nI nO nL : Int)
    (ot : ActiveT) (os oa : α) (rest : List (Token α)) (g : RandState) :
    ∀ k, k ≤ net.mNumLayers.toNat + 1 →
      ∃ g', (List.range k).foldlM deserializeLayer
          { net := { mNumInputs := nI, mNumOutputs := nO, mNumLayers := nL, mOutUnitType := ot,
                     mOutUnitSlope := os, mOutUnitAmplify := oa, mLayers := [],
                     mActivations := [], mUnitInputs := [], mActiveUnits := [],
                     mActiveSlope := [], mActiveAmplify := [] },
            stream := { toks := net.layersText 0 net.mLayers ++ rest, fail := false },
            rand := g }
        = some
          { net := { mNumInputs := nI, mNumOutputs := nO, mNumLayers := nL, mOutUnitType := ot,
                     mOutUnitSlope := os, mOutUnitAmplify := oa,
                     mLayers := (net.mLayers.take k).map NNetWeightedConnect.reread,
                     mActivations := [], mUnitInputs := [],
                     mActiveUnits := (net.mActiveUnits ++ [ActiveT.kThreshold]).take k,
                     mActiveSlope := (net.mActiveSlope ++ [0]).take k,
                     mActiveAmplify := (net.mActiveAmplify ++ [0]).take k },
            stream := { toks := net.layersText k (net.mLayers.drop k) ++ rest, fail := false },
            rand := g' } := by
  intro k
  induction k with
  | zero => intro _; exact ⟨g, by simp⟩
  | succ k ih =>
    intro hk
    obtain ⟨g1, h1⟩ := ih (by omega)
    have hkL : k ≤ net.mNumLayers.toNat := by omega
    have hklt : k < net.mLayers.length := by rw [hw.numConnect]; omega
    have hsz : (net.mLayers[k]).Sized := hw.sized _ (List.getElem_mem _)
    obtain ⟨hp1, hp2, hp3⟩ := pushed_details net hw k hkL
    obtain ⟨g', h2⟩ := deserializeLayer_eq
      { net := { mNumInputs := nI, mNumOutputs := nO, mNumLayers := nL, mOutUnitType := ot,
                 mOutUnitSlope := os, mOutUnitAmplify := oa,
                 mLayers := (net.mLayers.take k).map NNetWeightedConnect.reread,
                 mActivations := [], mUnitInputs := [],
                 mActiveUnits := (net.mActiveUnits ++ [ActiveT.kThreshold]).take k,
                 mActiveSlope := (net.mActiveSlope ++ [0]).take k,
                 mActiveAmplify := (net.mActiveAmplify ++ [0]).take k },
        stream := { toks := net.layersText k (net.mLayers.drop k) ++ rest, fail := false },
        rand := g1 }
      net.mLayers[k] hsz
      (if (k : Int) < net.mNumLayers then (net.stageDetails k).1 else ActiveT.kThreshold)
      (if (k : Int) < net.mNumLayers then (net.stageDetails k).2.1 else 0)
      (if (k : Int) < net.mNumLayers then (net.stageDetails k).2.2 else 0)
      (net.layersText (k + 1) (net.mLayers.drop (k + 1)) ++ rest) k
      (by
        rw [List.drop_eq_getElem_cons hklt]
        by_cases hlt : (k : Int) < net.mNumLayers
        · simp [NeuralNet.layersText, layerText, hlt]
        · simp [NeuralNet.layersText, layerText, hlt, ActiveT.toInt])
    refine ⟨g', ?_⟩
    rw [List.range_succ, List.foldlM_append, h1]
    simp only [Option.bind_eq_bind, Option.some_bind, List.foldlM_cons, List.foldlM_nil, h2,
      Option.pure_def, List.take_succ, hp1, hp2, hp3, List.getElem?_eq_getElem hklt,
      Option.toList_some, List.map_append, List.map_cons, List.map_nil]

/-- Deserializing, into a fresh network, the text serialize writes for a
well-formed network gives the reread network, with no error reported. -/
theorem deserialize_modelText (net : NeuralNet α) (hw : net.WellFormed) (g : RandState) :
    ∃ g', (NeuralNet.new : NeuralNet α).deserialize net.modelText g
      = some { reported := false, net := net.reread, rand := g' } := by
  have hL := hw.layersPos
  obtain ⟨g', h⟩ := deserialize_loop net hw net.mNumInputs net.mNumOutputs net.mNumLayers
    net.mOutUnitType net.mOutUnitSlope net.mOutUnitAmplify [] g (net.mNumLayers.toNat + 1)
    le_rfl
  have hn : (net.mNumLayers + 1).toNat = net.mNumLayers.toNat + 1 := by omega
  have ht1 : List.take (net.mNumLayers.toNat + 1) net.mLayers = net.mLayers :=
    List.take_of_length_le (by rw [hw.numConnect])
  have ht2 : List.take (net.mNumLayers.toNat + 1) (net.mActiveUnits ++ [ActiveT.kThreshold])
      = net.mActiveUnits ++ [ActiveT.kThreshold] :=
    List.take_of_length_le (by simp [hw.numUnits])
  have ht3 : List.take (net.mNumLayers.toNat + 1) (net.mActiveSlope ++ [0])
      = net.mActiveSlope ++ [0] :=
    List.take_of_length_le (by simp [hw.numSlopes])
  have ht4 : List.take (net.mNumLayers.toNat + 1) (net.mActiveAmplify ++ [0])
      = net.mActiveAmplify ++ [0] :=
    List.take_of_length_le (by simp [hw.numAmplifies])
  rw [ht1, ht2, ht3, ht4, List.append_nil] at h
  refine ⟨g', ?_⟩
  unfold NeuralNet.deserialize NeuralNet.modelText
  simp only [Bool.false_eq_true, if_false, IStream.extractInt, IStream.extractDouble,
    List.cons_append, List.nil_append, Option.bind_eq_bind, Option.some_bind, ofInt_toInt,
    NeuralNet.new, hn, h, Option.pure_def, NeuralNet.reread]

end SerialLemmas

section SerialClaims

variable {α : Type} [LinearOrderedField α]

/-- The hidden-layer details of the reread network are those of the network:
the extra entry lies beyond the hidden-layer count. -/
theorem reread_getLayerDetails (net : NeuralNet α) (hw : net.WellFormed) (n : Int)
    (cur : ActiveT × α × α) :
    net.reread.getLayerDetails n cur = net.getLayerDetails n cur := by
  unfold NeuralNet.getLayerDetails
  by_cases h : 0 ≤ n ∧ n < net.mNumLayers
  · have hr : 0 ≤ n ∧ n < net.reread.mNumLayers := h
    rw [if_pos h, if_pos hr]
    obtain ⟨j, rfl⟩ := Int.eq_ofNat_of_zero_le h.1
    have hj : j < net.mNumLayers.toNat := by omega
    have h1 : j < net.mActiveUnits.length := by rw [hw.numUnits]; exact hj
    have h2 : j < net.mActiveSlope.length := by rw [hw.numSlopes]; exact hj
    have h3 : j < net.mActiveAmplify.length := by rw [hw.numAmplifies]; exact hj
    simp only [NeuralNet.reread, vecAt_natCast, List.getElem?_append_left h1,
      List.getElem?_append_left h2, List.getElem?_append_left h3]
  · have hr : ¬ (0 ≤ n ∧ n < net.reread.mNumLayers) := h
    rw [if_neg h, if_neg hr]

/-- C8 (amended): for a well-formed network (one or more hidden layers),
serialize returns a text, and deserialize of that text into a fresh network
reports nothing and builds a network with the same input width, output width,
hidden-layer count and output-layer kind, slope and amplify, the same
getLayerDetails answer at every index, the same number of connections, and in
every connection the same input and output node counts and the same weights. -/
theorem serialize_deserialize_round_trip (net : NeuralNet α) (hw : net.WellFormed)
    (g : RandState) :
    ∃ text d, net.serialize = some text ∧
      (NeuralNet.new : NeuralNet α).deserialize text g = some d ∧
      d.reported = false ∧
      d.net.mNumInputs = net.mNumInputs ∧ d.net.mNumOutputs = net.mNumOutputs ∧
      d.net.mNumLayers = net.mNumLayers ∧
      d.net.mOutUnitType = net.mOutUnitType ∧ d.net.mOutUnitSlope = net.mOutUnitSlope ∧
      d.net.mOutUnitAmplify = net.mOutUnitAmplify ∧
      (∀ (n : Int) (cur : ActiveT × α × α),
        d.net.getLayerDetails n cur = net.getLayerDetails n cur) ∧
      d.net.mLayers.length = net.mLayers.length ∧
      ∀ (i : Nat) (c : NNetWeightedConnect α), net.mLayers[i]? = some c →
        ∃ c', d.net.mLayers[i]? = some c' ∧ c'.mNumInNodes = c.mNumInNodes ∧
          c'.mNumOutNodes = c.mNumOutNodes ∧ c'.mWeights = c.mWeights := by
  obtain ⟨g', hd⟩ := deserialize_modelText net hw g
  refine ⟨net.modelText, _, serialize_eq_modelText net (wellFormed_storable net hw), hd, rfl, rfl, rfl, rfl, rfl, rfl,
    rfl, reread_getLayerDetails net hw, ?_, ?_⟩
  · simp only [NeuralNet.reread, List.length_map]
  · intro i c hc
    refine ⟨c.reread, ?_, rfl, rfl, rfl⟩
    simp only [NeuralNet.reread, List.getElem?_map, hc, Option.map_some']

end SerialClaims

/-- The serialization of the example network: 2 inputs, 1 output, 1 hidden
layer, output kind Linear (10), slope 3, amplify 1; then the two
connections. -/
theorem exampleNet_modelText :
    exampleNet.modelText =
      [Token.int 2, Token.int 1, Token.int 1, Token.int 10, Token.real 3, Token.real 1,
        Token.char 'L', Token.int 2, Token.int 2, Token.int 10, Token.real 1, Token.real 2,
        Token.real 1, Token.real 2, Token.real 3, Token.real 4,
        Token.char 'L', Token.int 2, Token.int 1, Token.int 0, Token.real 0, Token.real 0,
        Token.real 1, Token.real (-1)] := by
  simp [NeuralNet.modelText, NeuralNet.layersText, layerText, NeuralNet.stageDetails,
    exampleNet, ActiveT.toInt]

/-- Witness for C8: the example network (one hidden layer) is serialized to
its 24 tokens, and rereading them gives a network with one hidden layer and the
weights [[1,2],[3,4]] and [[1,-1]]. -/
theorem serialize_deserialize_round_trip_witness :
    ∃ d, exampleNet.serialize = some exampleNet.modelText ∧
      (NeuralNet.new : NeuralNet ℚ).deserialize exampleNet.modelText exampleRand = some d ∧
      d.reported = false ∧ d.net.mNumLayers = 1 ∧
      d.net.mLayers.map (fun c => c.mWeights) = [[[1, 2], [3, 4]], [[1, -1]]] := by
  obtain ⟨text, d, hs, hd, hr, _, _, hl, _, _, _, _, hlen, hc⟩ :=
    serialize_deserialize_round_trip exampleNet exampleNet_wellFormed exampleRand
  have ht : text = exampleNet.modelText := by
    have h := serialize_eq_modelText exampleNet
      (wellFormed_storable exampleNet exampleNet_wellFormed)
    rw [hs] at h
    exact Option.some.inj h
  subst ht
  refine ⟨d, hs, hd, hr, hl, ?_⟩
  obtain ⟨c0, h0, _, _, w0⟩ := hc 0 _ rfl
  obtain ⟨c1, h1, _, _, w1⟩ := hc 1 _ rfl
  have hlen2 : d.net.mLayers.length = 2 := hlen
  match hm : d.net.mLayers, hlen2 with
  | [a, b], _ =>
    rw [hm] at h0 h1
    simp only [List.getElem?_cons_zero, List.getElem?_cons_succ, Option.some.injEq] at h0 h1
    subst h0 h1
    simp only [List.map_cons, List.map_nil, w0, w1]
    rfl

/-- Counterexample for C8 as stated: a network with no hidden layer (widths 2
and 1 set on a fresh network) has an empty connection list, and the first pass
of the layer loop of serialize reads `mLayers[0]` out of range. -/
theorem serialize_no_hidden_layer_counterexample :
    NeuralNet.serialize ((NeuralNet.new.setNumInputs 2).setNumOutputs 1 : NeuralNet ℚ) = none := by
  rfl

/-! ## Networks built by the setters and addLayer are well-formed -/

section BuiltNetworks

variable {α : Type} [LinearOrderedField α]

theorem built_consistent (net : NeuralNet α) (hb : net.Built) : net.Consistent := by
  refine ⟨hb.layersNonneg, hb.numConnect, hb.numUnits, hb.numSlopes, hb.numAmplifies, ?_⟩
  intro i c _ hc
  exact ⟨(hb.sized c (List.getElem?_mem hc)).inPos, (hb.sized c (List.getElem?_mem hc)).outPos⟩

theorem built_wellFormed (net : NeuralNet α) (hb : net.Built) (hL : 0 < net.mNumLayers) :
    net.WellFormed := by
  have hne : net.mNumLayers ≠ 0 := by omega
  have hlen := hb.numConnect
  rw [if_neg hne] at hlen
  exact ⟨hb.inputsPos, hb.outputsPos, hL, hlen, hb.numUnits, hb.numSlopes, hb.numAmplifies,
    hb.slopePos, hb.amplifyPos, hb.outSlopePos, hb.outAmplifyPos, hb.sized, hb.first, hb.chain,
    hb.last⟩

theorem wellFormed_built (net : NeuralNet α) (hw : net.WellFormed) : net.Built := by
  have hne : net.mNumLayers ≠ 0 := by have := hw.layersPos; omega
  refine ⟨hw.inputsPos, hw.outputsPos, le_of_lt hw.layersPos, ?_, hw.numUnits, hw.numSlopes,
    hw.numAmplifies, hw.slopePos, hw.amplifyPos, hw.outSlopePos, hw.outAmplifyPos, hw.sized,
    hw.first, hw.chain, hw.last⟩
  rw [if_neg hne]; exact hw.numConnect

/-- A fresh network on which positive widths are set is in the built state,
with no hidden layer. -/
theorem built_start (n k : Int) (hn : 0 < n) (hk : 0 < k) :
    (((NeuralNet.new : NeuralNet α).setNumInputs n).setNumOutputs k).Built ∧
    (((NeuralNet.new : NeuralNet α).setNumInputs n).setNumOutputs k).mNumLayers = 0 := by
  simp only [NeuralNet.setNumInputs, NeuralNet.setNumOutputs, if_pos hn, if_pos hk,
    NeuralNet.new]
  refine ⟨⟨hn, hk, le_refl _, rfl, rfl, rfl, rfl, ?_, ?_, ?_, ?_, ?_, ?_, ?_, ?_⟩, trivial⟩
  · intro s hs; cases hs
  · intro a ha; cases ha
  · show (0 : α) < 1.0
    norm_num
  · show (0 : α) < 1.0
    norm_num
  · intro c hc; cases hc
  · intro c hc; simp at hc
  · intro i c d hc; simp at hc
  · intro c hc; simp at hc

/-- The output-unit setters keep the built state. -/
theorem setOutputUnit_built (net : NeuralNet α) (hb : net.Built) (unitType : ActiveT)
    (slope amplify : α) :
    (((net.setOutputUnitType unitType).setOutputUnitSlope slope).setOutputUnitAmplify
      amplify).Built := by
  have h1 : (net.setOutputUnitType unitType).Built :=
    ⟨hb.1, hb.2, hb.3, hb.4, hb.5, hb.6, hb.7, hb.8, hb.9, hb.10, hb.11, hb.12, hb.13, hb.14,
      hb.15⟩
  have h2 : ((net.setOutputUnitType unitType).setOutputUnitSlope slope).Built := by
    unfold NeuralNet.setOutputUnitSlope
    split
    · next h =>
      exact ⟨h1.1, h1.2, h1.3, h1.4, h1.5, h1.6, h1.7, h1.8, h1.9, h, h1.11, h1.12, h1.13,
        h1.14, h1.15⟩
    · exact h1
  unfold NeuralNet.setOutputUnitAmplify
  split
  · next h =>
    exact ⟨h2.1, h2.2, h2.3, h2.4, h2.5, h2.6, h2.7, h2.8, h2.9, h2.10, h, h2.12, h2.13,
      h2.14, h2.15⟩
  · exact h2

/-- A fresh connection on which setNumNodes is called with valid data has the
given node counts and weight rows of matching shape. -/
theorem setNumNodes_new_sized (nIn nOut : Int) (r : α) (g : RandState)
    (h : 0 < nIn ∧ 0 < nOut ∧ 0 < r) :
    ((NNetWeightedConnect.new : NNetWeightedConnect α).setNumNodes nIn nOut r g).1.Sized := by
  obtain ⟨h1, h2⟩ := initRows_shape r nIn.toNat nOut.toNat g
  simp only [NNetWeightedConnect.setNumNodes, if_pos h, NNetWeightedConnect.initialiseWeights,
    NNetWeightedConnect.new, List.nil_append]
  refine ⟨h.1, h.2.1, ?_, ?_, Or.inl rfl⟩
  · show (((initRows r nIn.toNat nOut.toNat g).1.length : Nat) : Int) = nOut
    rw [h1]; omega
  · intro row hrow
    show ((row.length : Nat) : Int) = nIn
    rw [h2 row hrow]; omega

theorem built_extend (net : NeuralNet α) (hb : net.Built) (c1 c2 : NNetWeightedConnect α)
    (u : ActiveT) (sl am : α) (h1 : c1.Sized) (h2 : c2.Sized)
    (hin : c1.mNumInNodes = net.fanIn) (hmid : c2.mNumInNodes = c1.mNumOutNodes)
    (hout : c2.mNumOutNodes = net.mNumOutputs) (hsl : 0 < sl) (ham : 0 < am) :
    NeuralNet.Built { net.storeLayer u sl am with
      mLayers := net.mLayers.take net.mNumLayers.toNat ++ [c1, c2] } := by
  have hL := hb.layersNonneg
  have htake : (net.mLayers.take net.mNumLayers.toNat).length = net.mNumLayers.toNat := by
    rw [List.length_take, hb.numConnect]
    split <;> omega
  have hlow : ∀ i : Nat, i < net.mNumLayers.toNat →
      (net.mLayers.take net.mNumLayers.toNat ++ [c1, c2])[i]? = net.mLayers[i]? := by
    intro i hi
    rw [List.getElem?_append_left (by rw [htake]; exact hi), List.getElem?_take_of_lt hi]
  have hat : ∀ j : Nat, (net.mLayers.take net.mNumLayers.toNat ++ [c1, c2])[
      net.mNumLayers.toNat + j]? = [c1, c2][j]? := by
    intro j
    rw [List.getElem?_append_right (by rw [htake]; omega), htake, Nat.add_sub_cancel_left]
  have hn1 : (net.mNumLayers + 1).toNat = net.mNumLayers.toNat + 1 := by omega
  have hne : net.mNumLayers + 1 ≠ 0 := by omega
  refine ⟨hb.inputsPos, hb.outputsPos, ?_, ?_, ?_, ?_, ?_, ?_, ?_, hb.outSlopePos,
    hb.outAmplifyPos, ?_, ?_, ?_, ?_⟩
  · show 0 ≤ net.mNumLayers + 1
    omega
  · show (net.mLayers.take net.mNumLayers.toNat ++ [c1, c2]).length
      = if net.mNumLayers + 1 = 0 then 0 else (net.mNumLayers + 1).toNat + 1
    rw [if_neg hne, List.length_append, htake, hn1]; rfl
  · show (net.mActiveUnits ++ [u]).length = (net.mNumLayers + 1).toNat
    rw [List.length_append, hb.numUnits, hn1]; rfl
  · show (net.mActiveSlope ++ [sl]).length = (net.mNumLayers + 1).toNat
    rw [List.length_append, hb.numSlopes, hn1]; rfl
  · show (net.mActiveAmplify ++ [am]).length = (net.mNumLayers + 1).toNat
    rw [List.length_append, hb.numAmplifies, hn1]; rfl
  · intro s hs
    have hs' : s ∈ net.mActiveSlope ++ [sl] := hs
    rcases List.mem_append.mp hs' with h | h
    · exact hb.slopePos s h
    · rw [List.mem_singleton.mp h]; exact hsl
  · intro a ha
    have ha' : a ∈ net.mActiveAmplify ++ [am] := ha
    rcases List.mem_append.mp ha' with h | h
    · exact hb.amplifyPos a h
    · rw [List.mem_singleton.mp h]; exact ham
  · intro c hc
    have hc' : c ∈ net.mLayers.take net.mNumLayers.toNat ++ [c1, c2] := hc
    rcases List.mem_append.mp hc' with h | h
    · exact hb.sized c (List.mem_of_mem_take h)
    · simp only [List.mem_cons, List.mem_singleton, List.not_mem_nil, or_false] at h
      rcases h with h | h
      · rw [h]; exact h1
      · rw [h]; exact h2
  · intro c hc
    have hc' : (net.mLayers.take net.mNumLayers.toNat ++ [c1, c2])[0]? = some c := hc
    show c.mNumInNodes = net.mNumInputs
    by_cases h0 : net.mNumLayers = 0
    · have hz : net.mNumLayers.toNat = 0 := by omega
      have e := hat 0
      rw [hz, Nat.add_zero] at e
      rw [hz] at hc'
      rw [e] at hc'
      simp only [List.getElem?_cons_zero, Option.some.injEq] at hc'
      rw [← hc', hin, NeuralNet.fanIn, if_pos h0]
    · rw [hlow 0 (by omega)] at hc'
      exact hb.first c hc'
  · intro i c d hc hd
    have hc' : (net.mLayers.take net.mNumLayers.toNat ++ [c1, c2])[i]? = some c := hc
    have hd' : (net.mLayers.take net.mNumLayers.toNat ++ [c1, c2])[i + 1]? = some d := hd
    rcases Nat.lt_trichotomy (i + 1) net.mNumLayers.toNat with hlt | heq | hgt
    · rw [hlow i (by omega)] at hc'
      rw [hlow (i + 1) hlt] at hd'
      exact hb.chain i c d hc' hd'
    · rw [hlow i (by omega)] at hc'
      have e := hat 0
      rw [Nat.add_zero] at e
      rw [heq, e] at hd'
      simp only [List.getElem?_cons_zero, Option.some.injEq] at hd'
      have h0 : net.mNumLayers ≠ 0 := by omega
      have hi : net.mNumLayers.toNat - 1 = i := by omega
      rw [← hd', hin, NeuralNet.fanIn, if_neg h0, NeuralNet.layerUnits, hi, hc']
    · obtain ⟨j, hj⟩ : ∃ j, i = net.mNumLayers.toNat + j := ⟨i - net.mNumLayers.toNat, by omega⟩
      subst hj
      rw [hat j] at hc'
      rw [Nat.add_assoc, hat (j + 1)] at hd'
      match j, hc', hd' with
      | 0, hc', hd' =>
        simp only [List.getElem?_cons_zero, List.getElem?_cons_succ, Option.some.injEq]
          at hc' hd'
        rw [← hc', ← hd']; exact hmid
      | j + 1, _, hd' => simp at hd'
  · intro c hc
    have hc' : (net.mLayers.take net.mNumLayers.toNat ++ [c1, c2])[
        (net.mNumLayers + 1).toNat]? = some c := hc
    rw [hn1, hat 1] at hc'
    simp only [List.getElem?_cons_succ, List.getElem?_cons_zero, Option.some.injEq] at hc'
    rw [← hc']; exact hout

/-- A valid addLayer call on a network in the built state returns 0 and leaves
a network in the built state with one more hidden layer, which is therefore
well-formed. -/
theorem addLayer_built (net : NeuralNet α) (hb : net.Built) (numUnits : Int)
    (unitType : ActiveT) (initRange slope amplify : α) (g : RandState)
    (hv : 0 < numUnits ∧ 0 < initRange ∧ 0 < slope ∧ 0 < amplify) :
    ∃ net' g', net.addLayer numUnits unitType initRange slope amplify g = some (0, net', g') ∧
      net'.Built ∧ net'.mNumLayers = net.mNumLayers + 1 ∧ net'.WellFormed := by
  have hc := built_consistent net hb
  have hfan : 0 < net.fanIn := fanIn_pos net hc (fun _ => hb.inputsPos)
  have hv1 : 0 < net.fanIn ∧ 0 < numUnits ∧ 0 < initRange := ⟨hfan, hv.1, hv.2.1⟩
  have hv2 : 0 < numUnits ∧ 0 < net.mNumOutputs ∧ 0 < initRange :=
    ⟨hv.1, hb.outputsPos, hv.2.1⟩
  have hval := addLayer_valid net hc numUnits unitType initRange slope amplify g hv
    (fun _ => hb.inputsPos)
  have hbuilt := built_extend net hb
    (NNetWeightedConnect.setNumNodes NNetWeightedConnect.new net.fanIn numUnits initRange g).1
    (NNetWeightedConnect.setNumNodes NNetWeightedConnect.new numUnits net.mNumOutputs
      initRange (NNetWeightedConnect.setNumNodes NNetWeightedConnect.new net.fanIn
        numUnits initRange g).2).1
    unitType slope amplify
    (setNumNodes_new_sized _ _ _ _ hv1) (setNumNodes_new_sized _ _ _ _ hv2)
    (setNumNodes_counts _ _ _ _ _ hv1).1
    ((setNumNodes_counts _ _ _ _ _ hv2).1.trans (setNumNodes_counts _ _ _ _ _ hv1).2.symm)
    (setNumNodes_counts _ _ _ _ _ hv2).2 hv.2.2.1 hv.2.2.2
  refine ⟨_, _, hval, hbuilt, rfl, built_wellFormed _ hbuilt ?_⟩
  show 0 < net.mNumLayers + 1
  have := hb.layersNonneg
  omega

end BuiltNetworks

/-! ## Failed calls, the amplify factor and weight initialisation -/

section FailedCalls

variable {α : Type} [LinearOrderedField α]

/-- The tail of addLayer returns 0 whenever it returns. -/
theorem connectOutput_returns_zero (net : NeuralNet α) (connect : NNetWeightedConnect α)
    (numUnits : Int) (initRange : α) (g : RandState) (res : Int × NeuralNet α × RandState)
    (h : net.connectOutput connect numUnits initRange g = some res) : res.1 = 0 := by
  unfold NeuralNet.connectOutput at h
  simp only [Option.bind_eq_bind, Option.pure_def] at h
  split at h
  · obtain ⟨layers, _, h2⟩ := Option.bind_eq_some.mp h
    rw [← Option.some.inj h2]
  · rw [Option.some_bind] at h
    rw [← Option.some.inj h]

/-- C11: whenever addLayer fails the network (hidden-layer count, connection
list with its shapes and weights, per-layer activation metadata) and the
generator are exactly as before the call and -1 is returned; in particular a
call with numUnits <= 0, and a first-layer call before the input width is set,
return -1 and change nothing. -/
theorem addLayer_failure_unchanged (net : NeuralNet α) (numUnits : Int) (unitType : ActiveT)
    (initRange slope amplify : α) (g : RandState) :
    (numUnits ≤ 0 →
      net.addLayer numUnits unitType initRange slope amplify g = some (-1, net, g)) ∧
    (net.mNumLayers = 0 → net.mNumInputs ≤ 0 →
      net.addLayer numUnits unitType initRange slope amplify g = some (-1, net, g)) ∧
    (∀ (r : Int) (net' : NeuralNet α) (g' : RandState),
      net.addLayer numUnits unitType initRange slope amplify g = some (r, net', g') → r ≠ 0 →
        r = -1 ∧ net' = net ∧ g' = g) := by
  refine ⟨?_, ?_, ?_⟩
  · intro h
    exact addLayer_invalid net numUnits unitType initRange slope amplify g
      (fun hv => absurd hv.1.1 (not_lt.mpr h))
  · intro h0 hin
    exact addLayer_invalid net numUnits unitType initRange slope amplify g
      (fun hv => absurd (hv.2 h0) (not_lt.mpr hin))
  · intro r net' g' h hr
    unfold NeuralNet.addLayer at h
    split at h
    · split at h
      · split at h
        · exact absurd (connectOutput_returns_zero _ _ _ _ _ _ h) hr
        · injection h with h
          injection h with h1 h2
          injection h2 with h2 h3
          exact ⟨h1.symm, h2.symm, h3.symm⟩
      · split at h
        · simp only [Option.bind_eq_bind] at h
          obtain ⟨last, _, h2⟩ := Option.bind_eq_some.mp h
          exact absurd (connectOutput_returns_zero _ _ _ _ _ _ h2) hr
        · injection h with h
          injection h with h1 h2
          injection h2 with h2 h3
          exact ⟨h1.symm, h2.symm, h3.symm⟩
    · injection h with h
      injection h with h1 h2
      injection h2 with h2 h3
      exact ⟨h1.symm, h2.symm, h3.symm⟩

/-- C16: getResponse called with fewer input values than the input width, or
on a network with no hidden layer, changes nothing: the caller's output vector
and the network (weights, metadata and both caches) are as before. -/
theorem getResponse_guard_noop (m : Libm α) (net : NeuralNet α) (inputs outputs : List α)
    (h : (inputs.length : Int) < net.mNumInputs ∨ net.mNumLayers ≤ 0) :
    net.getResponse m inputs outputs = some (net, outputs) := by
  unfold NeuralNet.getResponse
  rw [if_neg]
  rintro ⟨h1, h2⟩
  rcases h with h | h
  · exact absurd h1 (not_le.mpr h)
  · exact absurd h2 (not_lt.mpr h)

/-- C14: for every activation kind, slope, amplify and x the forward value is
amplify times the forward value at amplify 1, and the gradient is amplify
times the gradient at amplify 1; for slope > 0 and amplify > 0 the unit
constructed with these settings returns that forward value. -/
theorem amplify_is_final_factor (m : Libm α) (kind : ActiveT) (slope amplify x : α) :
    forward m kind slope amplify x = amplify * forward m kind slope 1 x ∧
    getGradient m kind slope amplify x = amplify * getGradient m kind slope 1 x ∧
    (0 < slope → 0 < amplify →
      ∃ u, NNetUnit.construct kind slope amplify = some u ∧
        (u.setInput x).getActivation m = amplify * forward m kind slope 1 x) := by
  refine ⟨?_, ?_, ?_⟩
  · simp only [forward, NNetUnit.getActivation, one_mul]
  · simp only [getGradient, one_mul]
  · intro hs ha
    refine ⟨_, by rw [NNetUnit.construct, if_pos ⟨hs, ha⟩], ?_⟩
    simp only [NNetUnit.setInput, forward, NNetUnit.getActivation, one_mul]

end FailedCalls

/-- Witness for C11: on the example network a call with numUnits = 0 returns
-1 and leaves the network and the generator as they were. -/
theorem addLayer_failure_unchanged_witness :
    exampleNet.addLayer 0 ActiveT.kLinear 2 1 1 exampleRand
      = some (-1, exampleNet, exampleRand) :=
  (addLayer_failure_unchanged exampleNet 0 ActiveT.kLinear 2 1 1 exampleRand).1 (by decide)

/-- Witness for C16: the example network (input width 2) on a single input
value leaves the output vector [5] and the network as they were. -/
theorem getResponse_guard_noop_witness :
    exampleNet.getResponse exampleLibm [1] [5] = some (exampleNet, [5]) :=
  getResponse_guard_noop exampleLibm exampleNet [1] [5] (Or.inl (by decide))

/-- Witness for C14: a Linear unit of slope 2 and amplify 3 at x = 5 returns
3 * (2 * 5) = 30. -/
theorem amplify_is_final_factor_witness :
    ∃ u, NNetUnit.construct ActiveT.kLinear (2 : ℚ) 3 = some u ∧
      (u.setInput 5).getActivation exampleLibm = 30 := by
  obtain ⟨u, h1, h2⟩ := (amplify_is_final_factor exampleLibm ActiveT.kLinear (2 : ℚ) 3 5).2.2
    (by norm_num) (by norm_num)
  refine ⟨u, h1, ?_⟩
  rw [h2]
  simp only [forward, NNetUnit.getActivation]
  norm_num

/-! ## Weight initialisation -/

section Initialise

variable {α : Type} [LinearOrderedField α]

theorem rand_le (g : RandState) : (rand g).1 ≤ g.RAND_MAX :=
  Nat.lt_succ_iff.mp (Nat.mod_lt _ (Nat.succ_pos _))

/-- The initial weight computed from a generator value in 0..RAND_MAX lies in
the closed interval of width `initRange` around 0. -/
theorem initVal_bounds (RAND_MAX r : Nat) (initRange : α) (hr : 0 < initRange)
    (hle : r ≤ RAND_MAX) :
    -(initRange / 2) ≤ initVal RAND_MAX initRange r ∧
      initVal RAND_MAX initRange r ≤ initRange / 2 := by
  have h0 : (0 : α) ≤ (r : α) / (RAND_MAX : α) :=
    div_nonneg (Nat.cast_nonneg r) (Nat.cast_nonneg RAND_MAX)
  have h1 : (r : α) / (RAND_MAX : α) ≤ 1 :=
    div_le_one_of_le₀ (Nat.cast_le.mpr hle) (Nat.cast_nonneg RAND_MAX)
  have h2 : 0 ≤ initRange * ((r : α) / (RAND_MAX : α)) := mul_nonneg (le_of_lt hr) h0
  have h3 : initRange * ((r : α) / (RAND_MAX : α)) ≤ initRange := by
    calc initRange * ((r : α) / (RAND_MAX : α)) ≤ initRange * 1 :=
          mul_le_mul_of_nonneg_left h1 (le_of_lt hr)
      _ = initRange := mul_one _
  unfold initVal
  constructor
  · linarith
  · linarith

theorem initVec_entries (initRange : α) :
    ∀ (n : Nat) (g : RandState), (initVec initRange n g).2.RAND_MAX = g.RAND_MAX ∧
      ∀ w ∈ (initVec initRange n g).1,
        ∃ r, r ≤ g.RAND_MAX ∧ w = initVal g.RAND_MAX initRange r := by
  intro n
  induction n with
  | zero => intro g; exact ⟨rfl, fun w hw => by simp [initVec] at hw⟩
  | succ k ih =>
    intro g
    obtain ⟨h1, h2⟩ := ih (rand g).2
    refine ⟨h1, ?_⟩
    intro w hw
    simp only [initVec, List.mem_cons] at hw
    rcases hw with h | h
    · exact ⟨(rand g).1, rand_le g, h⟩
    · exact h2 w h

theorem initRows_entries (initRange : α) (n : Nat) :
    ∀ (rows : Nat) (g : RandState), ∀ row ∈ (initRows initRange n rows g).1, ∀ w ∈ row,
      ∃ r, r ≤ g.RAND_MAX ∧ w = initVal g.RAND_MAX initRange r := by
  intro rows
  induction rows with
  | zero => intro g row hrow; simp [initRows] at hrow
  | succ k ih =>
    intro g row hrow w hw
    simp only [initRows, List.mem_cons] at hrow
    rcases hrow with h | h
    · rw [h] at hw
      exact (initVec_entries initRange n g).2 w hw
    · obtain ⟨r, hr, e⟩ := ih (initVec initRange n g).2 row h w hw
      rw [(initVec_entries initRange n g).1] at hr e
      exact ⟨r, hr, e⟩

/-- The effect of setNumNodes with valid data on any connection: the node
counts are set and `nOut` rows of `nIn` entries are pushed after the rows the
connection already has. -/
theorem setNumNodes_appends (c : NNetWeightedConnect α) (nIn nOut : Int) (initRange : α)
    (g : RandState) (h : 0 < nIn ∧ 0 < nOut ∧ 0 < initRange) :
    (c.setNumNodes nIn nOut initRange g).1.mNumInNodes = nIn ∧
    (c.setNumNodes nIn nOut initRange g).1.mNumOutNodes = nOut ∧
    (c.setNumNodes nIn nOut initRange g).1.mWeights
      = c.mWeights ++ (initRows initRange nIn.toNat nOut.toNat g).1 ∧
    (((initRows initRange nIn.toNat nOut.toNat g).1.length : Nat) : Int) = nOut ∧
    ∀ row ∈ (initRows initRange nIn.toNat nOut.toNat g).1, ((row.length : Nat) : Int) = nIn := by
  obtain ⟨h1, h2⟩ := initRows_shape initRange nIn.toNat nOut.toNat g
  simp only [NNetWeightedConnect.setNumNodes, if_pos h, NNetWeightedConnect.initialiseWeights,
    true_and]
  refine ⟨by rw [h1]; omega, ?_⟩
  intro row hrow
  rw [h2 row hrow]; omega

/-- C20: for every initRange > 0 and every generator value r in 0..RAND_MAX
the initial weight initRange*(r/RAND_MAX) - initRange/2 lies in
[-initRange/2, +initRange/2]; every weight of a connection freshly
initialised by setNumNodes lies in that interval; and the endpoints are the
values at r = 0 and (for RAND_MAX > 0) at r = RAND_MAX. -/
theorem initial_weights_in_range (initRange : α) (hr : 0 < initRange) :
    (∀ (RAND_MAX r : Nat), r ≤ RAND_MAX →
      -(initRange / 2) ≤ initVal RAND_MAX initRange r ∧
        initVal RAND_MAX initRange r ≤ initRange / 2) ∧
    (∀ (nIn nOut : Int) (g : RandState), 0 < nIn → 0 < nOut →
      ∀ row ∈ ((NNetWeightedConnect.new : NNetWeightedConnect α).setNumNodes nIn nOut
          initRange g).1.mWeights,
        ∀ w ∈ row, -(initRange / 2) ≤ w ∧ w ≤ initRange / 2) ∧
    (∀ RAND_MAX : Nat, initVal RAND_MAX initRange 0 = -(initRange / 2)) ∧
    (∀ RAND_MAX : Nat, 0 < RAND_MAX → initVal RAND_MAX initRange RAND_MAX = initRange / 2) := by
  refine ⟨fun M r hle => initVal_bounds M r initRange hr hle, ?_, ?_, ?_⟩
  · intro nIn nOut g hin hout row hrow w hw
    have hs := (setNumNodes_appends (NNetWeightedConnect.new : NNetWeightedConnect α) nIn nOut
      initRange g ⟨hin, hout, hr⟩).2.2.1
    rw [hs] at hrow
    have hrow' : row ∈ (initRows initRange nIn.toNat nOut.toNat g).1 := by
      simpa [NNetWeightedConnect.new] using hrow
    obtain ⟨r, hle, e⟩ := initRows_entries initRange nIn.toNat nOut.toNat g row hrow' w hw
    rw [e]
    exact initVal_bounds g.RAND_MAX r initRange hr hle
  · intro M
    simp [initVal]
  · intro M hM
    have hne : (M : α) ≠ 0 := Nat.cast_ne_zero.mpr (Nat.pos_iff_ne_zero.mp hM)
    unfold initVal
    rw [div_self hne, mul_one]
    ring

end Initialise

/-- Witness for C20: with initRange = 4.0 the weight of a fresh 1-by-1
connection drawn from the example generator is -2, the lower endpoint, and
the value at r = RAND_MAX = 32767 is +2. -/
theorem initial_weights_in_range_witness :
    ((NNetWeightedConnect.new : NNetWeightedConnect ℚ).setNumNodes 1 1 4.0 exampleRand).1.mWeights
      = [[-2]] ∧
    (∀ row ∈ ((NNetWeightedConnect.new : NNetWeightedConnect ℚ).setNumNodes 1 1 4.0
        exampleRand).1.mWeights, ∀ w ∈ row, -((4.0 : ℚ) / 2) ≤ w ∧ w ≤ (4.0 : ℚ) / 2) ∧
    initVal 32767 (4.0 : ℚ) 32767 = 2 := by
  have h := initial_weights_in_range (4.0 : ℚ) (by norm_num)
  refine ⟨?_, h.2.1 1 1 exampleRand (by decide) (by decide), ?_⟩
  · simp [NNetWeightedConnect.setNumNodes, NNetWeightedConnect.initialiseWeights,
      NNetWeightedConnect.new, initRows, initVec, initVal, rand, exampleRand]
    norm_num
  · rw [h.2.2.2 32767 (by decide)]
    norm_num

/-- C19 at a failing input: a default connection sized to 1 input and 1 output
node and then sized again to 2 input nodes and 1 output node reports the node
counts 2 and 1 but holds two weight rows, the first of them the old row with a
single entry. -/
theorem setNumNodes_resize_keeps_old_rows :
    ((((NNetWeightedConnect.new : NNetWeightedConnect ℚ).setNumNodes 1 1 2 exampleRand).1
        ).setNumNodes 2 1 2 exampleRand).1.mNumInNodes = 2 ∧
    ((((NNetWeightedConnect.new : NNetWeightedConnect ℚ).setNumNodes 1 1 2 exampleRand).1
        ).setNumNodes 2 1 2 exampleRand).1.mNumOutNodes = 1 ∧
    (((((NNetWeightedConnect.new : NNetWeightedConnect ℚ).setNumNodes 1 1 2 exampleRand).1
        ).setNumNodes 2 1 2 exampleRand).1.mWeights.map List.length) = [1, 2] := by
  simp [NNetWeightedConnect.setNumNodes, NNetWeightedConnect.initialiseWeights,
    NNetWeightedConnect.new, initRows, initVec]

/-! ## The connection count in every reachable state -/

section Reachable

variable {α : Type} [LinearOrderedField α]

omit [LinearOrderedField α] in
theorem setOutputUnitType_consistent (net : NeuralNet α) (k : ActiveT) (hc : net.Consistent) :
    (net.setOutputUnitType k).Consistent :=
  ⟨hc.1, hc.2, hc.3, hc.4, hc.5, hc.6⟩

theorem setOutputUnitSlope_consistent (net : NeuralNet α) (s : α) (hc : net.Consistent) :
    (net.setOutputUnitSlope s).Consistent := by
  unfold NeuralNet.setOutputUnitSlope
  split
  · exact ⟨hc.1, hc.2, hc.3, hc.4, hc.5, hc.6⟩
  · exact hc

theorem setOutputUnitAmplify_consistent (net : NeuralNet α) (a : α) (hc : net.Consistent) :
    (net.setOutputUnitAmplify a).Consistent := by
  unfold NeuralNet.setOutputUnitAmplify
  split
  · exact ⟨hc.1, hc.2, hc.3, hc.4, hc.5, hc.6⟩
  · exact hc

theorem clearNeuralNetwork_consistent (net : NeuralNet α) :
    (net.clearNeuralNetwork).Consistent := by
  constructor <;> simp [NeuralNet.clearNeuralNetwork]

/-- A call of addLayer on a consistent network returns, and the network it
leaves is consistent. -/
theorem addLayer_consistent (net : NeuralNet α) (hc : net.Consistent) (numUnits : Int)
    (unitType : ActiveT) (initRange slope amplify : α) (g : RandState) :
    ∃ r net' g', net.addLayer numUnits unitType initRange slope amplify g = some (r, net', g') ∧
      net'.Consistent := by
  by_cases hv : (0 < numUnits ∧ 0 < initRange ∧ 0 < slope ∧ 0 < amplify) ∧
      (net.mNumLayers = 0 → 0 < net.mNumInputs)
  · refine ⟨_, _, _, addLayer_valid net hc numUnits unitType initRange slope amplify g hv.1 hv.2,
      ?_⟩
    have hL := hc.layersNonneg
    have hfan : 0 < net.fanIn := fanIn_pos net hc hv.2
    have htake : (net.mLayers.take net.mNumLayers.toNat).length = net.mNumLayers.toNat := by
      rw [List.length_take, hc.numConnect]
      split <;> omega
    have hn1 : (net.mNumLayers + 1).toNat = net.mNumLayers.toNat + 1 := by omega
    have hne : net.mNumLayers + 1 ≠ 0 := by omega
    refine ⟨?_, ?_, ?_, ?_, ?_, ?_⟩
    · show 0 ≤ net.mNumLayers + 1
      omega
    · show (net.mLayers.take net.mNumLayers.toNat ++ [_, _]).length
        = if net.mNumLayers + 1 = 0 then 0 else (net.mNumLayers + 1).toNat + 1
      rw [if_neg hne, List.length_append, htake, hn1]; rfl
    · show (net.mActiveUnits ++ [unitType]).length = (net.mNumLayers + 1).toNat
      rw [List.length_append, hc.numUnits, hn1]; rfl
    · show (net.mActiveSlope ++ [slope]).length = (net.mNumLayers + 1).toNat
      rw [List.length_append, hc.numSlopes, hn1]; rfl
    · show (net.mActiveAmplify ++ [amplify]).length = (net.mNumLayers + 1).toNat
      rw [List.length_append, hc.numAmplifies, hn1]; rfl
    · intro i c hi hget
      have hi' : i < net.mNumLayers.toNat + 1 := by
        have : i < (net.mNumLayers + 1).toNat := hi
        omega
      have hget' : (net.mLayers.take net.mNumLayers.toNat ++
          [(NNetWeightedConnect.setNumNodes NNetWeightedConnect.new net.fanIn numUnits
            initRange g).1,
           (NNetWeightedConnect.setNumNodes NNetWeightedConnect.new numUnits net.mNumOutputs
            initRange (NNetWeightedConnect.setNumNodes NNetWeightedConnect.new net.fanIn
              numUnits initRange g).2).1])[i]? = some c := hget
      by_cases hlt : i < net.mNumLayers.toNat
      · rw [List.getElem?_append_left (by rw [htake]; exact hlt),
          List.getElem?_take_of_lt hlt] at hget'
        exact hc.hidden i c hlt hget'
      · have hi2 : i = net.mNumLayers.toNat := by omega
        rw [List.getElem?_append_right (by rw [htake]; omega), htake, hi2, Nat.sub_self,
          List.getElem?_cons_zero] at hget'
        have hcnt := setNumNodes_counts (NNetWeightedConnect.new : NNetWeightedConnect α)
          net.fanIn numUnits initRange g ⟨hfan, hv.1.1, hv.1.2.1⟩
        rw [← Option.some.inj hget', hcnt.1, hcnt.2]
        exact ⟨hfan, hv.1.1⟩
  · exact ⟨_, _, _, addLayer_invalid net numUnits unitType initRange slope amplify g hv, hc⟩

/-- One building call on a consistent network returns and leaves a consistent
network. -/
theorem perform_consistent (st : NeuralNet α × RandState) (hc : st.1.Consistent)
    (call : NetCall α) :
    ∃ st', NeuralNet.perform st call = some st' ∧ st'.1.Consistent := by
  cases call with
  | setNumInputs n => exact ⟨_, rfl, setNumInputs_consistent st.1 n hc⟩
  | setNumOutputs n => exact ⟨_, rfl, setNumOutputs_consistent st.1 n hc⟩
  | setOutputUnitType k => exact ⟨_, rfl, setOutputUnitType_consistent st.1 k hc⟩
  | setOutputUnitSlope s => exact ⟨_, rfl, setOutputUnitSlope_consistent st.1 s hc⟩
  | setOutputUnitAmplify a => exact ⟨_, rfl, setOutputUnitAmplify_consistent st.1 a hc⟩
  | addLayer n k r s a =>
    obtain ⟨res, net', g', h, hc'⟩ := addLayer_consistent st.1 hc n k r s a st.2
    exact ⟨(net', g'), by simp only [NeuralNet.perform, h, Option.map_some'], hc'⟩
  | clearNeuralNetwork => exact ⟨_, rfl, clearNeuralNetwork_consistent st.1⟩

theorem performAll_consistent (calls : List (NetCall α)) :
    ∀ st : NeuralNet α × RandState, st.1.Consistent →
      ∃ st', NeuralNet.performAll st calls = some st' ∧ st'.1.Consistent := by
  induction calls with
  | nil => intro st hc; exact ⟨st, rfl, hc⟩
  | cons call rest ih =>
    intro st hc
    obtain ⟨st1, h1, hc1⟩ := perform_consistent st hc call
    obtain ⟨st2, h2, hc2⟩ := ih st1 hc1
    refine ⟨st2, ?_, hc2⟩
    unfold NeuralNet.performAll at h2 ⊢
    rw [List.foldlM_cons, h1]
    exact h2

/-- C12 (amended): in every state reached from the empty constructor by a
sequence of setNumInputs, setNumOutputs, output-unit setter, addLayer
(successful or failed) and clearNeuralNetwork calls, every call returns, and
the connection list is empty while the hidden-layer count is 0 and has length
hiddenLayerCount + 1 once a hidden layer has been added. -/
theorem reachable_connection_count (calls : List (NetCall α)) (g : RandState) :
    ∃ net g', NeuralNet.performAll ((NeuralNet.new : NeuralNet α), g) calls = some (net, g') ∧
      0 ≤ net.mNumLayers ∧
      (net.mNumLayers = 0 → net.mLayers.length = 0) ∧
      (0 < net.mNumLayers → net.mLayers.length = net.mNumLayers.toNat + 1) := by
  obtain ⟨st', h, hc⟩ := performAll_consistent calls ((NeuralNet.new : NeuralNet α), g)
    new_consistent
  refine ⟨st'.1, st'.2, h, hc.layersNonneg, ?_, ?_⟩
  · intro h0
    have := hc.numConnect
    rwa [if_pos h0] at this
  · intro hpos
    have hne : st'.1.mNumLayers ≠ 0 := by omega
    have := hc.numConnect
    rwa [if_neg hne] at this

end Reachable

/-- Counterexample for C12 as stated: after setNumInputs(2) and
setNumOutputs(1) on a fresh network, with no addLayer call, the hidden-layer
count is 0 and the connection list is empty, so its length is not 0 + 1. -/
theorem reachable_no_layer_counterexample :
    ∃ net g', NeuralNet.performAll ((NeuralNet.new : NeuralNet ℚ), exampleRand)
        [NetCall.setNumInputs 2, NetCall.setNumOutputs 1] = some (net, g') ∧
      net.mNumLayers = 0 ∧ net.mLayers.length = 0 ∧
      net.mLayers.length ≠ net.mNumLayers.toNat + 1 :=
  ⟨(NeuralNet.new.setNumInputs 2).setNumOutputs 1, exampleRand, rfl, rfl, rfl, by decide⟩

/-- Witness for C12: after setNumInputs(2), setNumOutputs(1) and one
successful addLayer call the hidden-layer count is 1 and the connection list
has 2 entries. -/
theorem reachable_connection_count_witness :
    ∃ net g', NeuralNet.performAll ((NeuralNet.new : NeuralNet ℚ), exampleRand)
        [NetCall.setNumInputs 2, NetCall.setNumOutputs 1,
          NetCall.addLayer 3 ActiveT.kLinear 2 1 1] = some (net, g') ∧
      net.mNumLayers = 1 ∧ net.mLayers.length = 2 := by
  obtain ⟨net, g', h, _, _, h3⟩ := reachable_connection_count
    [NetCall.setNumInputs 2, NetCall.setNumOutputs 1,
      NetCall.addLayer 3 ActiveT.kLinear (2 : ℚ) 1 1] exampleRand
  have e : (NeuralNet.performAll ((NeuralNet.new : NeuralNet ℚ), exampleRand)
      [NetCall.setNumInputs 2, NetCall.setNumOutputs 1,
        NetCall.addLayer 3 ActiveT.kLinear 2 1 1]).map (fun st => st.1.mNumLayers)
      = some 1 := by
    simp [NeuralNet.performAll, NeuralNet.perform, NeuralNet.setNumInputs,
      NeuralNet.setNumOutputs, NeuralNet.new, NeuralNet.addLayer, NeuralNet.connectOutput,
      NeuralNet.storeLayer]
  rw [h] at e
  have hL : net.mNumLayers = 1 := Option.some.inj e
  refine ⟨net, g', h, hL, ?_⟩
  rw [h3 (by omega), hL]
  rfl

/-! ## The outputs of a weighted connection -/

section ConnectOutputs

variable {α : Type} [LinearOrderedField α]

/-- An accepted setInputs call stores the vector: the node counts and weights
stay, and the stored inputs start with the given values. -/
theorem setInputs_accept (c : NNetWeightedConnect α) (v : List α)
    (hv : (v.length : Int) = c.mNumInNodes)
    (hinp : c.mInputs = [] ∨ c.mNumInNodes ≤ (c.mInputs.length : Int)) :
    ∃ stored, c.setInputs v = some { c with mInputs := stored } ∧
      stored.take v.length = v ∧ v.length ≤ stored.length := by
  unfold NNetWeightedConnect.setInputs
  rw [if_pos hv]
  by_cases he : c.mInputs.isEmpty
  · have hnil : c.mInputs = [] := List.isEmpty_iff.mp he
    have hr : vecResize (0 : α) c.mInputs c.mNumInNodes
        = some (List.replicate c.mNumInNodes.toNat 0) := by
      unfold vecResize
      rw [if_neg (by omega), hnil]
      simp
    have hlen : v.length = c.mNumInNodes.toNat := by omega
    have hcp : vecCopy v (List.replicate c.mNumInNodes.toNat (0 : α)) = some v := by
      unfold vecCopy
      rw [if_pos (by simp [hlen])]
      simp [hlen]
    simp only [he, if_true, hr, Option.bind_eq_bind, Option.some_bind, hcp, Option.pure_def]
    exact ⟨_, rfl, by simp, le_rfl⟩
  · have hne : c.mInputs ≠ [] := fun h => he (List.isEmpty_iff.mpr h)
    have hle : v.length ≤ c.mInputs.length := by
      rcases hinp with h | h
      · exact absurd h hne
      · omega
    have hcp : vecCopy v c.mInputs = some (v ++ c.mInputs.drop v.length) := by
      unfold vecCopy
      rw [if_pos hle]
    simp only [he, Bool.false_eq_true, if_false, Option.bind_eq_bind, Option.some_bind, hcp,
      Option.pure_def]
    exact ⟨_, rfl, by simp, by simp⟩

omit [LinearOrderedField α] in
/-- The caller's vector after the resize and the copy in getOutputs is the
copied vector when that has the length of the number of output nodes. -/
theorem resize_then_copy [Zero α] (src outputs : List α) (n : Int) (hn : 0 ≤ n)
    (hsrc : src.length = n.toNat) :
    ((if (outputs.length : Int) ≠ n then vecResize (0 : α) outputs n else some outputs).bind
      (fun resized => vecCopy src resized)) = some src := by
  by_cases h : (outputs.length : Int) ≠ n
  · rw [if_pos h]
    unfold vecResize
    rw [if_neg (by omega), Option.some_bind]
    unfold vecCopy
    have hlen : (outputs.take n.toNat ++ List.replicate (n.toNat - outputs.length) (0 : α)).length
        = n.toNat := by
      rw [List.length_append, List.length_take, List.length_replicate]
      omega
    rw [if_pos (by rw [hlen, hsrc]), ← hsrc] at *
    rw [List.drop_of_length_le (by rw [hlen]), List.append_nil]
  · rw [if_neg h, Option.some_bind]
    have hlen : outputs.length = n.toNat := by
      have : (outputs.length : Int) = n := not_not.mp h
      omega
    unfold vecCopy
    rw [if_pos (by rw [hlen, hsrc]), List.drop_of_length_le (by rw [hlen, hsrc]),
      List.append_nil]

/-- The outputs of a connection whose stored inputs start with `v`: for each
output node the weighted sum of its row with `v`, whatever the caller's vector
held. -/
theorem getOutputs_stored (c : NNetWeightedConnect α) (v outputs : List α)
    (hout : 0 ≤ c.mNumOutNodes) (hrows : c.mNumOutNodes ≤ (c.mWeights.length : Int))
    (hcols : ∀ row ∈ c.mWeights, (row.length : Int) = c.mNumInNodes)
    (hv : (v.length : Int) = c.mNumInNodes)
    (htake : c.mInputs.take v.length = v) (hle : v.length ≤ c.mInputs.length) :
    c.getOutputs outputs =
      some ({ c with mOutputs :=
                (c.mWeights.take c.mNumOutNodes.toNat).map (fun row => dot row v) },
        (c.mWeights.take c.mNumOutNodes.toNat).map (fun row => dot row v)) := by
  have hn : c.mNumOutNodes.toNat ≤ c.mWeights.length := by omega
  have hmap : (List.range c.mNumOutNodes.toNat).mapM (fun (i : Nat) => c.getNodeValue (i : Int))
      = some ((c.mWeights.take c.mNumOutNodes.toNat).map (fun row => dot row v)) :=
    mapM_range_take c.mWeights _ (fun row => dot row v)
      (fun i hi => getNodeValue_eq c v i hi (hcols _ (List.getElem_mem _)) hv htake hle) _ hn
  have hlen : ((c.mWeights.take c.mNumOutNodes.toNat).map (fun row => dot row v)).length
      = c.mNumOutNodes.toNat := by
    rw [List.length_map, List.length_take, Nat.min_eq_left hn]
  have hcopy := resize_then_copy
    ((c.mWeights.take c.mNumOutNodes.toNat).map (fun row => dot row v)) outputs
    c.mNumOutNodes hout hlen
  unfold NNetWeightedConnect.getOutputs NNetWeightedConnect.calculateOutput
  simp only [Option.bind_eq_bind, hmap, Option.some_bind, Option.pure_def]
  by_cases h : (outputs.length : Int) ≠ c.mNumOutNodes
  · rw [if_pos h] at hcopy ⊢
    obtain ⟨resized, hr, hc⟩ := Option.bind_eq_some.mp hcopy
    rw [hr, Option.some_bind, hc, Option.some_bind]
  · rw [if_neg h] at hcopy ⊢
    rw [Option.some_bind] at hcopy
    rw [hcopy, Option.some_bind]

omit [LinearOrderedField α] in
theorem setWeightVector_accept (c : NNetWeightedConnect α) (i : Nat) (w : List α)
    (hi : i < c.mWeights.length) (hw : c.mWeights[i].length = w.length) :
    c.setWeightVector (i : Int) w = { c with mWeights := c.mWeights.set i w } := by
  unfold NNetWeightedConnect.setWeightVector
  rw [if_pos ⟨by omega, by omega⟩]
  simp only [Int.toNat_ofNat, List.getElem?_eq_getElem hi, if_pos hw]

/-- The outputs of a connection after an accepted setInputs call, under the
shape conditions every reached connection with uniform rows meets. -/
theorem connection_outputs (c : NNetWeightedConnect α) (v outputs : List α)
    (hv : (v.length : Int) = c.mNumInNodes)
    (hout : 0 ≤ c.mNumOutNodes) (hrows : c.mNumOutNodes ≤ (c.mWeights.length : Int))
    (hcols : ∀ row ∈ c.mWeights, (row.length : Int) = c.mNumInNodes)
    (hinp : c.mInputs = [] ∨ c.mNumInNodes ≤ (c.mInputs.length : Int)) :
    ∃ c1 c2 out, c.setInputs v = some c1 ∧ c1.getOutputs outputs = some (c2, out) ∧
      (out.length : Int) = c.mNumOutNodes ∧
      (∀ i : Nat, (i : Int) < c.mNumOutNodes →
        ∃ row, c.mWeights[i]? = some row ∧ out[i]? = some (dot row v)) ∧
      (∀ w : List α, (w.length : Int) ≠ c.mNumInNodes → c2.setInputs w = some c2) ∧
      (∀ outputs' : List α, c2.getOutputs outputs' = some (c2, out)) ∧
      (∀ (i : Nat) (w outputs' : List α), i < c.mWeights.length →
        (w.length : Int) = c.mNumInNodes →
        ∃ c3 out', (c2.setWeightVector (i : Int) w).getOutputs outputs' = some (c3, out') ∧
          ∀ k : Nat, (k : Int) < c.mNumOutNodes →
            out'[k]? = ((c.mWeights.set i w)[k]?).map (fun row => dot row v)) := by
  obtain ⟨stored, h1, htake, hle⟩ := setInputs_accept c v hv hinp
  have h2 := getOutputs_stored { c with mInputs := stored } v outputs hout hrows hcols hv
    htake hle
  have hn : c.mNumOutNodes.toNat ≤ c.mWeights.length := by omega
  refine ⟨_, _, _, h1, h2, ?_, ?_, ?_, ?_, ?_⟩
  · show ((((c.mWeights.take c.mNumOutNodes.toNat).map (fun row => dot row v)).length : Nat)
      : Int) = c.mNumOutNodes
    rw [List.length_map, List.length_take, Nat.min_eq_left hn]
    omega
  · intro i hi
    have hlt : i < c.mNumOutNodes.toNat := by omega
    have hiw : i < c.mWeights.length := by omega
    refine ⟨c.mWeights[i], List.getElem?_eq_getElem hiw, ?_⟩
    show ((c.mWeights.take c.mNumOutNodes.toNat).map (fun row => dot row v))[i]? = _
    rw [List.getElem?_map, List.getElem?_take_of_lt hlt, List.getElem?_eq_getElem hiw,
      Option.map_some']
  · intro w hw
    unfold NNetWeightedConnect.setInputs
    rw [if_neg]
    exact hw
  · intro outputs'
    exact getOutputs_stored
      { c with mInputs := stored,
               mOutputs := (c.mWeights.take c.mNumOutNodes.toNat).map (fun row => dot row v) }
      v outputs' hout hrows hcols hv htake hle
  · intro i w outputs' hi hw
    have hrow : c.mWeights[i].length = w.length := by
      have := hcols _ (List.getElem_mem hi)
      omega
    have hset := setWeightVector_accept
      { c with mInputs := stored,
               mOutputs := (c.mWeights.take c.mNumOutNodes.toNat).map (fun row => dot row v) }
      i w hi hrow
    have hcols' : ∀ row ∈ c.mWeights.set i w, (row.length : Int) = c.mNumInNodes := by
      intro row hmem
      rcases List.mem_or_eq_of_mem_set hmem with h | h
      · exact hcols row h
      · rw [h]; exact hw
    have h3 := getOutputs_stored
      { c with mInputs := stored,
               mOutputs := (c.mWeights.take c.mNumOutNodes.toNat).map (fun row => dot row v),
               mWeights := c.mWeights.set i w }
      v outputs' hout (by rw [List.length_set]; exact hrows) hcols' hv htake hle
    rw [hset]
    refine ⟨_, _, h3, ?_⟩
    intro k hk
    have hlt : k < c.mNumOutNodes.toNat := by omega
    show (List.map (fun row => dot row v)
      (List.take c.mNumOutNodes.toNat (c.mWeights.set i w)))[k]? = _
    rw [List.getElem?_map, List.getElem?_take_of_lt hlt]


omit [LinearOrderedField α] in
theorem set_lengths {β : Type} (W : List (List β)) (i : Nat) (w : List β)
    (hi : i < W.length) (hw : W[i].length = w.length) :
    (W.set i w).map List.length = W.map List.length := by
  rw [List.map_set, ← hw]
  apply List.ext_getElem?
  intro k
  by_cases hk : k = i
  · subst hk
    rw [List.getElem?_set_self (by rw [List.length_map]; exact hi), List.getElem?_map,
      List.getElem?_eq_getElem hi, Option.map_some']
  · rw [List.getElem?_set_ne (Ne.symm hk)]

omit [LinearOrderedField α] in
theorem new_reached : (NNetWeightedConnect.new : NNetWeightedConnect α).Reached :=
  ⟨Or.inl ⟨rfl, rfl, rfl⟩, Or.inl rfl⟩

theorem setNumNodes_reached (c : NNetWeightedConnect α) (hc : c.Reached) (nIn nOut : Int)
    (r : α) (g : RandState) : (c.setNumNodes nIn nOut r g).1.Reached := by
  by_cases h : 0 < nIn ∧ 0 < nOut ∧ 0 < r
  · obtain ⟨h1, h2⟩ := initRows_shape r nIn.toNat nOut.toNat g
    simp only [NNetWeightedConnect.setNumNodes, if_pos h, NNetWeightedConnect.initialiseWeights]
    have hpos : 0 < (initRows r nIn.toNat nOut.toNat g).1.length := by rw [h1]; omega
    have hmem : nIn.toNat ∈ (c.mWeights ++ (initRows r nIn.toNat nOut.toNat g).1).map
        List.length := by
      rw [List.map_append, List.mem_append]
      right
      rw [List.mem_map]
      exact ⟨(initRows r nIn.toNat nOut.toNat g).1[0], List.getElem_mem _,
        h2 _ (List.getElem_mem _)⟩
    refine ⟨Or.inr ⟨h.1, h.2.1, ?_, hmem⟩, ?_⟩
    · show nOut ≤ (((c.mWeights ++ (initRows r nIn.toNat nOut.toNat g).1).length : Nat) : Int)
      rw [List.length_append, h1]
      omega
    · rcases hc.inputs with hi | hi
      · exact Or.inl hi
      · right
        show c.mInputs.length ∈ (c.mWeights ++ (initRows r nIn.toNat nOut.toNat g).1).map
          List.length
        rw [List.map_append, List.mem_append]
        exact Or.inl hi
  · simp only [NNetWeightedConnect.setNumNodes, if_neg h]
    exact hc

theorem setInputs_reached (c c' : NNetWeightedConnect α) (hc : c.Reached) (v : List α)
    (h : c.setInputs v = some c') : c'.Reached := by
  unfold NNetWeightedConnect.setInputs at h
  by_cases hv : (v.length : Int) = c.mNumInNodes
  · rw [if_pos hv] at h
    have hsized : 0 < c.mNumInNodes ∧ 0 < c.mNumOutNodes ∧
        c.mNumOutNodes ≤ (c.mWeights.length : Int) ∧
        c.mNumInNodes.toNat ∈ c.mWeights.map List.length := by
      rcases hc.counts with h1 | h1
      · omega
      · exact h1
    have hcopy : ∀ sized copied : List α, vecCopy v sized = some copied →
        copied.length = sized.length := by
      intro sized copied hcp
      unfold vecCopy at hcp
      by_cases hle : v.length ≤ sized.length
      · rw [if_pos hle] at hcp
        rw [← Option.some.inj hcp, List.length_append, List.length_drop]
        omega
      · rw [if_neg hle] at hcp
        exact absurd hcp (by simp)
    by_cases he : c.mInputs.isEmpty
    · rw [if_pos he] at h
      have hnil : c.mInputs = [] := List.isEmpty_iff.mp he
      have hr : vecResize (0 : α) c.mInputs c.mNumInNodes
          = some (List.replicate c.mNumInNodes.toNat 0) := by
        unfold vecResize
        rw [if_neg (by omega), hnil]
        simp
      rw [hr] at h
      simp only [Option.bind_eq_bind, Option.some_bind, Option.pure_def] at h
      obtain ⟨copied, hcp, hres⟩ := Option.bind_eq_some.mp h
      rw [← Option.some.inj hres]
      refine ⟨Or.inr hsized, Or.inr ?_⟩
      show copied.length ∈ c.mWeights.map List.length
      rw [hcopy _ _ hcp, List.length_replicate]
      exact hsized.2.2.2
    · rw [if_neg he] at h
      simp only [Option.bind_eq_bind, Option.some_bind, Option.pure_def] at h
      obtain ⟨copied, hcp, hres⟩ := Option.bind_eq_some.mp h
      rw [← Option.some.inj hres]
      refine ⟨Or.inr hsized, Or.inr ?_⟩
      show copied.length ∈ c.mWeights.map List.length
      rw [hcopy _ _ hcp]
      rcases hc.inputs with hi | hi
      · exact absurd (List.isEmpty_iff.mpr hi) he
      · exact hi
  · rw [if_neg hv] at h
    rw [← Option.some.inj h]
    exact hc

theorem getOutputs_reached (c : NNetWeightedConnect α) (hc : c.Reached) (o : List α)
    (res : NNetWeightedConnect α × List α) (h : c.getOutputs o = some res) :
    res.1.Reached := by
  unfold NNetWeightedConnect.getOutputs NNetWeightedConnect.calculateOutput at h
  simp only [Option.bind_eq_bind, Option.pure_def] at h
  split at h
  all_goals
    obtain ⟨resized, _, h1⟩ := Option.bind_eq_some.mp h
    obtain ⟨c1, h2, h3⟩ := Option.bind_eq_some.mp h1
    obtain ⟨outs, _, h4⟩ := Option.bind_eq_some.mp h2
    obtain ⟨copied, _, h5⟩ := Option.bind_eq_some.mp h3
    rw [← Option.some.inj h5, ← Option.some.inj h4]
    exact ⟨hc.counts, hc.inputs⟩

omit [LinearOrderedField α] in
theorem setWeightVector_reached (c : NNetWeightedConnect α) (hc : c.Reached) (node : Int)
    (w : List α) : (c.setWeightVector node w).Reached := by
  unfold NNetWeightedConnect.setWeightVector
  split
  · next hn =>
    have hlt : node.toNat < c.mWeights.length := by omega
    rw [List.getElem?_eq_getElem hlt]
    simp only
    split
    · next hw =>
      have hl := set_lengths c.mWeights node.toNat w hlt hw
      refine ⟨?_, ?_⟩
      · rcases hc.counts with h1 | h1
        · rw [h1.2.2] at hlt
          exact absurd hlt (by simp)
        · right
          refine ⟨h1.1, h1.2.1, ?_, ?_⟩
          · show c.mNumOutNodes ≤ (((c.mWeights.set node.toNat w).length : Nat) : Int)
            rw [List.length_set]; exact h1.2.2.1
          · show c.mNumInNodes.toNat ∈ (c.mWeights.set node.toNat w).map List.length
            rw [hl]; exact h1.2.2.2
      · rcases hc.inputs with hi | hi
        · exact Or.inl hi
        · right
          show c.mInputs.length ∈ (c.mWeights.set node.toNat w).map List.length
          rw [hl]; exact hi
    · exact hc
  · exact hc

theorem connect_perform_reached (st st' : NNetWeightedConnect α × RandState)
    (hc : st.1.Reached) (call : ConnectCall α)
    (h : NNetWeightedConnect.perform st call = some st') : st'.1.Reached := by
  cases call with
  | setNumNodes nIn nOut r =>
    rw [← Option.some.inj h]
    exact setNumNodes_reached st.1 hc nIn nOut r st.2
  | setInputs v =>
    simp only [NNetWeightedConnect.perform, Option.map_eq_some'] at h
    obtain ⟨c', h1, rfl⟩ := h
    exact setInputs_reached st.1 c' hc v h1
  | getOutputs o =>
    simp only [NNetWeightedConnect.perform, Option.map_eq_some'] at h
    obtain ⟨res, h1, rfl⟩ := h
    exact getOutputs_reached st.1 hc o res h1
  | setWeightVector node w =>
    rw [← Option.some.inj h]
    exact setWeightVector_reached st.1 hc node w

theorem connect_performAll_reached (calls : List (ConnectCall α)) :
    ∀ st st' : NNetWeightedConnect α × RandState, st.1.Reached →
      NNetWeightedConnect.performAll st calls = some st' → st'.1.Reached := by
  induction calls with
  | nil =>
    intro st st' hc h
    rw [← Option.some.inj h]
    exact hc
  | cons call rest ih =>
    intro st st' hc h
    unfold NNetWeightedConnect.performAll at h
    rw [List.foldlM_cons] at h
    obtain ⟨st1, h1, h2⟩ := Option.bind_eq_some.mp h
    exact ih st1 st' (connect_perform_reached st st1 hc call h1) h2

/-- C13: for a connection in a state its public methods lead to from the
default constructor, with nIn input nodes and nOut output nodes, whose rows all
have nIn entries: after setInputs(v) with length(v) = nIn, getOutputs returns
(whatever the caller's vector held) a vector of length exactly nOut whose i-th
entry is the sum over j of weight[i][j] * v[j].  The result reflects the stored
inputs and the current weights: a rejected setInputs call changes nothing, a
repeated getOutputs call returns the same vector, and after
setWeightVector(i, w) the outputs are those of the updated rows. -/
theorem getOutputs_matrix_vector (calls : List (ConnectCall α)) (g g' : RandState)
    (c : NNetWeightedConnect α) (v outputs : List α)
    (hreach : NNetWeightedConnect.performAll (NNetWeightedConnect.new, g) calls = some (c, g'))
    (hcols : ∀ row ∈ c.mWeights, (row.length : Int) = c.mNumInNodes)
    (hv : (v.length : Int) = c.mNumInNodes) :
    ∃ c1 c2 out, c.setInputs v = some c1 ∧ c1.getOutputs outputs = some (c2, out) ∧
      (out.length : Int) = c.mNumOutNodes ∧
      (∀ i : Nat, (i : Int) < c.mNumOutNodes →
        ∃ row, c.mWeights[i]? = some row ∧ out[i]? = some (dot row v)) ∧
      (∀ w : List α, (w.length : Int) ≠ c.mNumInNodes → c2.setInputs w = some c2) ∧
      (∀ outputs' : List α, c2.getOutputs outputs' = some (c2, out)) ∧
      (∀ (i : Nat) (w outputs' : List α), i < c.mWeights.length →
        (w.length : Int) = c.mNumInNodes →
        ∃ c3 out', (c2.setWeightVector (i : Int) w).getOutputs outputs' = some (c3, out') ∧
          ∀ k : Nat, (k : Int) < c.mNumOutNodes →
            out'[k]? = ((c.mWeights.set i w)[k]?).map (fun row => dot row v)) := by
  have hr : c.Reached :=
    connect_performAll_reached calls (NNetWeightedConnect.new, g) (c, g') new_reached hreach
  have hsized : 0 < c.mNumOutNodes ∧ c.mNumOutNodes ≤ (c.mWeights.length : Int) := by
    rcases hr.counts with h1 | h1
    · omega
    · exact ⟨h1.2.1, h1.2.2.1⟩
  have hinp : c.mInputs = [] ∨ c.mNumInNodes ≤ (c.mInputs.length : Int) := by
    rcases hr.inputs with hi | hi
    · exact Or.inl hi
    · right
      obtain ⟨row, hrow, hl⟩ := List.mem_map.mp hi
      have := hcols row hrow
      omega
  exact connection_outputs c v outputs hv (le_of_lt hsized.1) hsized.2 hcols hinp

end ConnectOutputs

/-- Witness for C13: a connection sized to 2 input and 2 output nodes whose
rows are then set to 1, 2 and 3, 4 returns, on the inputs 5, 6, the outputs
1*5 + 2*6 = 17 and 3*5 + 4*6 = 39, overwriting a caller vector that held 9. -/
theorem getOutputs_matrix_vector_witness :
    ∃ c g' c1 c2,
      NNetWeightedConnect.performAll ((NNetWeightedConnect.new : NNetWeightedConnect ℚ),
          exampleRand)
        [ConnectCall.setNumNodes 2 2 2, ConnectCall.setWeightVector 0 [1, 2],
          ConnectCall.setWeightVector 1 [3, 4]] = some (c, g') ∧
      c.mWeights = [[1, 2], [3, 4]] ∧
      c.setInputs [5, 6] = some c1 ∧ c1.getOutputs [9] = some (c2, [17, 39]) := by
  have hx : (NNetWeightedConnect.performAll
      ((NNetWeightedConnect.new : NNetWeightedConnect ℚ), exampleRand)
      [ConnectCall.setNumNodes 2 2 2, ConnectCall.setWeightVector 0 [1, 2],
        ConnectCall.setWeightVector 1 [3, 4]]).map Prod.fst
      = some { mNumInNodes := 2, mNumOutNodes := 2, mInputs := [], mOutputs := [],
               mWeights := [[1, 2], [3, 4]] } := by
    simp [NNetWeightedConnect.performAll, NNetWeightedConnect.perform,
      NNetWeightedConnect.setNumNodes, NNetWeightedConnect.initialiseWeights,
      NNetWeightedConnect.new, NNetWeightedConnect.setWeightVector, initRows, initVec]
  obtain ⟨⟨c, g'⟩, hreach, hc⟩ := Option.map_eq_some'.mp hx
  have hc' : c = { mNumInNodes := 2, mNumOutNodes := 2, mInputs := [], mOutputs := [],
                   mWeights := [[1, 2], [3, 4]] } := hc
  subst hc'
  obtain ⟨c1, c2, out, h1, h2, hlen, hent, _⟩ := getOutputs_matrix_vector _ exampleRand g'
    _ [5, 6] [9] hreach (by decide) (by decide)
  obtain ⟨row0, hr0, ho0⟩ := hent 0 (by decide)
  obtain ⟨row1, hr1, ho1⟩ := hent 1 (by decide)
  have e0 : row0 = [1, 2] := (Option.some.inj hr0).symm
  have e1 : row1 = [3, 4] := (Option.some.inj hr1).symm
  have hlen2 : out.length = 2 := by
    have h : (out.length : Int) = 2 := hlen
    omega
  refine ⟨_, g', c1, c2, hreach, rfl, h1, ?_⟩
  rw [h2]
  match out, hlen2, ho0, ho1 with
  | [a, b], _, ho0, ho1 =>
    simp only [List.getElem?_cons_zero, List.getElem?_cons_succ, Option.some.injEq] at ho0 ho1
    rw [ho0, ho1, e0, e1]
    simp [dot]
    norm_num

/-! ## The forward-pass caches and determinism of the forward pass -/

section Caches

variable {α : Type} [LinearOrderedField α]

/-- Entry `i` of the traces: the weighted sums of connection `i` on its stage
input and their activations, where the stage input is `x` for the first entry
and the activations of the entry before otherwise. -/
theorem tracesFrom_step (m : Libm α) (net : NeuralNet α)
    (layers : List (NNetWeightedConnect α)) :
    ∀ (s : Nat) (x : List α) (i : Nat) (c : NNetWeightedConnect α), layers[i]? = some c →
      ∃ xin, (i = 0 → xin = x) ∧
        (∀ j, i = j + 1 → ∃ tr, (net.tracesFrom m s layers x)[j]? = some tr ∧ xin = tr.2) ∧
        (net.tracesFrom m s layers x)[i]?
          = some (preActivation c xin, net.stageOutput m (s + i) c xin) := by
  induction layers with
  | nil => intro s x i c h; simp at h
  | cons d ds ih =>
    intro s x i c h
    cases i with
    | zero =>
      simp only [List.getElem?_cons_zero, Option.some.injEq] at h
      subst h
      exact ⟨x, fun _ => rfl, fun j hj => absurd hj (by omega), by simp [NeuralNet.tracesFrom]⟩
    | succ k =>
      simp only [List.getElem?_cons_succ] at h
      obtain ⟨xin, h0, hprev, hk⟩ := ih (s + 1) (net.stageOutput m s d x) k c h
      refine ⟨xin, fun hz => absurd hz (by omega), ?_, ?_⟩
      · intro j hj
        have hjk : j = k := by omega
        subst hjk
        cases j with
        | zero =>
          exact ⟨(preActivation d x, net.stageOutput m s d x), by simp [NeuralNet.tracesFrom],
            h0 rfl⟩
        | succ j' =>
          obtain ⟨tr, h1, h2⟩ := hprev j' rfl
          exact ⟨tr, by simpa [NeuralNet.tracesFrom] using h1, h2⟩
      · have e : s + 1 + k = s + (k + 1) := by omega
        rw [e] at hk
        simpa [NeuralNet.tracesFrom] using hk

/-- With the guard of getResponse satisfied the result does not depend on the
caches the network holds before the call, nor on the caller's output vector. -/
theorem getResponse_ignores_caches (m : Libm α) (net : NeuralNet α) (A U : List (List α))
    (inputs outputs outputs' : List α)
    (h : net.mNumInputs ≤ (inputs.length : Int) ∧ 0 < net.mNumLayers) :
    NeuralNet.getResponse m { net with mActivations := A, mUnitInputs := U } inputs outputs'
      = net.getResponse m inputs outputs := by
  have h' : NeuralNet.mNumInputs { net with mActivations := A, mUnitInputs := U }
      ≤ (inputs.length : Int) ∧
      0 < NeuralNet.mNumLayers { net with mActivations := A, mUnitInputs := U } := h
  unfold NeuralNet.getResponse
  rw [if_pos h, if_pos h']
  rfl

/-- Whatever getResponse returns, the network afterwards is the network before
with (at most) its two caches replaced. -/
theorem getResponse_keeps (m : Libm α) (net net' : NeuralNet α) (inputs outputs out : List α)
    (h : net.getResponse m inputs outputs = some (net', out)) :
    ∃ A U, net' = { net with mActivations := A, mUnitInputs := U } := by
  unfold NeuralNet.getResponse at h
  split at h
  · simp only [Option.bind_eq_bind, Option.bind_eq_some, Option.pure_def, Option.some.injEq,
      Prod.mk.injEq] at h
    obtain ⟨_, _, _, _, _, _, _, _, _, _, _, _, _, _, _, _, st, _, h1, _⟩ := h
    exact ⟨st.mActivations, st.mUnitInputs, h1.symm⟩
  · have e := Option.some.inj h
    exact ⟨net.mActivations, net.mUnitInputs, (congrArg Prod.fst e).symm⟩

/-- C15: after a successful getResponse on a well-formed network with L hidden
layers, each of the two caches holds exactly L+1 vectors; for every stage
s in 0..L, getUnitInputs(s) is the weighted-sum vector of connection s on its
stage input (the first n input values for s = 0, getActivations(s-1)
otherwise) and getActivations(s)[i] = forward(kind_s, slope_s, amplify_s,
getUnitInputs(s)[i]); getActivations(L) is the returned output vector; and the
result is the same whatever the caches held before the call. -/
theorem getResponse_fills_caches (m : Libm α) (net : NeuralNet α) (hw : net.WellFormed)
    (inputs outputs : List α) (hlen : net.mNumInputs ≤ (inputs.length : Int)) :
    ∃ net' out, net.getResponse m inputs outputs = some (net', out) ∧
      net'.mUnitInputs.length = net.mNumLayers.toNat + 1 ∧
      net'.mActivations.length = net.mNumLayers.toNat + 1 ∧
      (∀ (s : Nat) (v : List α), s ≤ net.mNumLayers.toNat →
        ∃ c, net.mLayers[s]? = some c ∧
          net'.getUnitInputs v (s : Int) = preActivation c
            (if s = 0 then inputs.take net.mNumInputs.toNat
              else net'.getActivations v ((s : Int) - 1)) ∧
          net'.getActivations v (s : Int) = (net'.getUnitInputs v (s : Int)).map (fun p =>
            forward m (net.stageDetails s).1 (net.stageDetails s).2.1
              (net.stageDetails s).2.2 p)) ∧
      (∀ v : List α, net'.getActivations v net.mNumLayers = out) ∧
      (∀ A U : List (List α),
        NeuralNet.getResponse m { net with mActivations := A, mUnitInputs := U } inputs outputs
          = some (net', out)) := by
  have hL := hw.layersPos
  obtain ⟨hres, _⟩ := getResponse_spec m net hw inputs outputs hlen
  have hc := responded_cachesOf m net inputs
  have hlay : ∀ s : Nat, s ≤ net.mNumLayers.toNat → s < net.mLayers.length := by
    intro s hs; rw [hw.numConnect]; omega
  refine ⟨_, _, hres, ?_, ?_, ?_, ?_, ?_⟩
  · show ((net.tracesFrom m 0 net.mLayers (inputs.take net.mNumInputs.toNat)).map
      Prod.fst).length = _
    rw [List.length_map, tracesFrom_length, hw.numConnect]
  · show ((net.tracesFrom m 0 net.mLayers (inputs.take net.mNumInputs.toNat)).map
      Prod.snd).length = _
    rw [List.length_map, tracesFrom_length, hw.numConnect]
  · intro s v hs
    obtain ⟨c, hcs, _⟩ := layer_exists net hw s hs
    obtain ⟨xin, h0, hprev, htr⟩ := tracesFrom_step m net net.mLayers 0
      (inputs.take net.mNumInputs.toNat) s c hcs
    rw [Nat.zero_add] at htr
    have hU := getUnitInputs_cache m _ inputs hc s (hlay s hs) v
    rw [cachesOnly_preAt] at hU
    have hA := getActivations_cache m _ inputs hc s (hlay s hs) v
    rw [cachesOnly_postAt] at hA
    have hpre : net.preAt m inputs s = preActivation c xin := by
      simp only [NeuralNet.preAt, htr]
    have hpost : net.postAt m inputs s = net.stageOutput m s c xin := by
      simp only [NeuralNet.postAt, htr]
    refine ⟨c, hcs, ?_, ?_⟩
    · rw [hU, hpre]
      by_cases hz : s = 0
      · rw [if_pos hz, h0 hz]
      · rw [if_neg hz]
        obtain ⟨j, hj⟩ : ∃ j, s = j + 1 := ⟨s - 1, by omega⟩
        obtain ⟨tr, htrj, hx⟩ := hprev j hj
        have hAj := getActivations_cache m _ inputs hc j (hlay j (by omega)) v
        rw [cachesOnly_postAt] at hAj
        have hcast : ((s : Int) - 1) = (j : Int) := by omega
        rw [hcast, hAj, hx]
        simp only [NeuralNet.postAt, htrj]
    · rw [hA, hU, hpost, hpre]
      rfl
  · intro v
    have hA := getActivations_cache m _ inputs hc net.mNumLayers.toNat (hlay _ le_rfl) v
    rw [cachesOnly_postAt] at hA
    have hcast : ((net.mNumLayers.toNat : Nat) : Int) = net.mNumLayers := by omega
    rw [hcast] at hA
    rw [hA, responseSpec_eq_postAt m net hw inputs]
  · intro A U
    rw [getResponse_ignores_caches m net A U inputs outputs outputs ⟨hlen, hL⟩]
    exact hres

/-- C17: for every well-formed network with input width n and every input
vector v with length(v) >= n, getResponse(v) returns, and getResponse applied
to the first n values of v returns the same outputs and leaves the same
network (hence the same caches). -/
theorem getResponse_ignores_extra_inputs (m : Libm α) (net : NeuralNet α)
    (hw : net.WellFormed) (inputs outputs : List α)
    (hlen : net.mNumInputs ≤ (inputs.length : Int)) :
    ∃ net' out, net.getResponse m inputs outputs = some (net', out) ∧
      net.getResponse m (inputs.take net.mNumInputs.toNat) outputs = some (net', out) := by
  have hn : net.mNumInputs.toNat ≤ inputs.length := by omega
  have hlen' : net.mNumInputs ≤ (((inputs.take net.mNumInputs.toNat).length : Nat) : Int) := by
    rw [List.length_take, Nat.min_eq_left hn]
    omega
  obtain ⟨h1, _⟩ := getResponse_spec m net hw inputs outputs hlen
  obtain ⟨h2, _⟩ := getResponse_spec m net hw (inputs.take net.mNumInputs.toNat) outputs hlen'
  refine ⟨_, _, h1, ?_⟩
  rw [h2]
  simp only [NeuralNet.responseSpec, List.take_take, Nat.min_self]

/-- C18: whatever getResponse returns, the connections (weights included), the
layer metadata, the output-unit settings, the widths and the layer count of
the network are as before; the returned outputs do not depend on the caches
the network held; and a second call with the same inputs returns the same
outputs and leaves the same network. -/
theorem getResponse_deterministic (m : Libm α) (net : NeuralNet α) (inputs outputs : List α) :
    (∀ (net' : NeuralNet α) (out : List α),
      net.getResponse m inputs outputs = some (net', out) →
        net'.mLayers = net.mLayers ∧ net'.mActiveUnits = net.mActiveUnits ∧
        net'.mActiveSlope = net.mActiveSlope ∧ net'.mActiveAmplify = net.mActiveAmplify ∧
        net'.mOutUnitType = net.mOutUnitType ∧ net'.mOutUnitSlope = net.mOutUnitSlope ∧
        net'.mOutUnitAmplify = net.mOutUnitAmplify ∧ net'.mNumInputs = net.mNumInputs ∧
        net'.mNumOutputs = net.mNumOutputs ∧ net'.mNumLayers = net.mNumLayers) ∧
    (∀ A U : List (List α),
      (NeuralNet.getResponse m { net with mActivations := A, mUnitInputs := U } inputs
          outputs).map Prod.snd
        = (net.getResponse m inputs outputs).map Prod.snd) ∧
    (∀ (net1 : NeuralNet α) (out1 : List α),
      net.getResponse m inputs outputs = some (net1, out1) →
        net1.getResponse m inputs out1 = some (net1, out1)) := by
  refine ⟨?_, ?_, ?_⟩
  · intro net' out h
    obtain ⟨A, U, e⟩ := getResponse_keeps m net net' inputs outputs out h
    rw [e]
    exact ⟨rfl, rfl, rfl, rfl, rfl, rfl, rfl, rfl, rfl, rfl⟩
  · intro A U
    by_cases hg : net.mNumInputs ≤ (inputs.length : Int) ∧ 0 < net.mNumLayers
    · rw [getResponse_ignores_caches m net A U inputs outputs outputs hg]
    · have h' : ¬ (NeuralNet.mNumInputs { net with mActivations := A, mUnitInputs := U }
          ≤ (inputs.length : Int) ∧
          0 < NeuralNet.mNumLayers { net with mActivations := A, mUnitInputs := U }) := hg
      unfold NeuralNet.getResponse
      rw [if_neg hg, if_neg h']
      rfl
  · intro net1 out1 h
    obtain ⟨A, U, e⟩ := getResponse_keeps m net net1 inputs outputs out1 h
    by_cases hg : net.mNumInputs ≤ (inputs.length : Int) ∧ 0 < net.mNumLayers
    · rw [e, getResponse_ignores_caches m net A U inputs outputs out1 hg, h, e]
    · have h0 : net.getResponse m inputs outputs = some (net, outputs) := by
        unfold NeuralNet.getResponse
        rw [if_neg hg]
      rw [h0] at h
      have e1 : net = net1 := congrArg Prod.fst (Option.some.inj h)
      have e2 : outputs = out1 := congrArg Prod.snd (Option.some.inj h)
      rw [← e1, ← e2]
      exact h0

end Caches

/-- Witness for C15: on the example network and the inputs 1, 1 the caches
hold the weighted sums 3, 7 and -8 and the activations 6, 14 and -24, and the
output vector is the last activation vector. -/
theorem getResponse_fills_caches_witness :
    ∃ net', exampleNet.getResponse exampleLibm [1, 1] [] = some (net', [-24]) ∧
      net'.getUnitInputs [] 0 = [3, 7] ∧ net'.getActivations [] 0 = [6, 14] ∧
      net'.getUnitInputs [] 1 = [-8] ∧ net'.getActivations [] 1 = [-24] := by
  obtain ⟨net', out, h, _, _, hs, hout, _⟩ := getResponse_fills_caches exampleLibm exampleNet
    exampleNet_wellFormed [1, 1] [] (by decide)
  obtain ⟨c0, hc0, hu0, ha0⟩ := hs 0 [] (by decide)
  obtain ⟨c1, hc1, hu1, ha1⟩ := hs 1 [] (by decide)
  have e0 : c0 = exampleNet.mLayers.getD 0 NNetWeightedConnect.new :=
    (Option.some.inj hc0).symm
  have e1 : c1 = exampleNet.mLayers.getD 1 NNetWeightedConnect.new :=
    (Option.some.inj hc1).symm
  have hu0' : net'.getUnitInputs [] 0 = [3, 7] := by
    have h := hu0
    rw [if_pos rfl, e0] at h
    rw [show ((0 : Nat) : Int) = 0 from rfl] at h
    rw [h]
    simp [preActivation, dot, exampleNet]
    norm_num
  have ha0' : net'.getActivations [] 0 = [6, 14] := by
    have h := ha0
    rw [show ((0 : Nat) : Int) = 0 from rfl] at h
    rw [h, hu0']
    simp [NeuralNet.stageDetails, exampleNet, forward, NNetUnit.getActivation]
    norm_num
  have hu1' : net'.getUnitInputs [] 1 = [-8] := by
    have h := hu1
    rw [if_neg (by decide), e1] at h
    rw [show ((1 : Nat) : Int) = 1 from rfl, show (1 : Int) - 1 = 0 from rfl] at h
    rw [h, ha0']
    simp [preActivation, dot, exampleNet]
    norm_num
  have ha1' : net'.getActivations [] 1 = [-24] := by
    have h := ha1
    rw [show ((1 : Nat) : Int) = 1 from rfl] at h
    rw [h, hu1']
    simp [NeuralNet.stageDetails, exampleNet, forward, NNetUnit.getActivation]
    norm_num
  have hout' : out = [-24] := by
    have h := hout []
    rw [show exampleNet.mNumLayers = 1 from rfl, ha1'] at h
    exact h.symm
  rw [hout'] at h
  exact ⟨net', h, hu0', ha0', hu1', ha1'⟩

/-- Witness for C17: the example network returns -24 on the inputs 1, 1, 7 and
on their first two values 1, 1. -/
theorem getResponse_ignores_extra_inputs_witness :
    ∃ net', exampleNet.getResponse exampleLibm [1, 1, 7] [] = some (net', [-24]) ∧
      exampleNet.getResponse exampleLibm [1, 1] [] = some (net', [-24]) := by
  obtain ⟨net', out, h1, h2⟩ := getResponse_ignores_extra_inputs exampleLibm exampleNet
    exampleNet_wellFormed [1, 1, 7] [] (by decide)
  have hs := (getResponse_spec exampleLibm exampleNet exampleNet_wellFormed [1, 1, 7] []
    (by decide)).1
  rw [exampleNet_response] at hs
  have e : out = [-24] := by
    rw [h1] at hs
    exact congrArg Prod.snd (Option.some.inj hs)
  rw [e] at h1 h2
  exact ⟨net', h1, h2⟩

/-- Witness for C18: two consecutive calls of getResponse on the example
network with the inputs 1, 1, 7 both return -24. -/
theorem getResponse_deterministic_witness :
    ∃ net1, exampleNet.getResponse exampleLibm [1, 1, 7] [] = some (net1, [-24]) ∧
      net1.getResponse exampleLibm [1, 1, 7] [-24] = some (net1, [-24]) ∧
      net1.mLayers = exampleNet.mLayers := by
  have hs := (getResponse_spec exampleLibm exampleNet exampleNet_wellFormed [1, 1, 7] []
    (by decide)).1
  rw [exampleNet_response] at hs
  have hd := getResponse_deterministic exampleLibm exampleNet [1, 1, 7] []
  exact ⟨_, hs, hd.2.2 _ _ hs, (hd.1 _ _ hs).1⟩

/-! ## Rejected calls and weight rows of a connection -/

section ConnectErrors

variable {α : Type} [LinearOrderedField α]

omit [LinearOrderedField α] in
theorem setWeightVector_outside (c : NNetWeightedConnect α) (node : Int) (w : List α)
    (h : node < 0 ∨ (c.mWeights.length : Int) ≤ node) : c.setWeightVector node w = c := by
  unfold NNetWeightedConnect.setWeightVector
  rw [if_neg]
  rintro ⟨h1, h2⟩
  omega

omit [LinearOrderedField α] in
theorem getWeightVector_outside (c : NNetWeightedConnect α) (node : Int) (w : List α)
    (h : node < 0 ∨ (c.mWeights.length : Int) ≤ node) : c.getWeightVector node w = w := by
  unfold NNetWeightedConnect.getWeightVector
  rw [if_neg]
  rintro ⟨h1, h2⟩
  omega

/-- Invalid calls on a weighted connection leave it unchanged: setNumNodes
with nIn <= 0 or nOut <= 0 or initRange <= 0 (the generator is not used
either); setInputs with a vector whose length differs from nIn;
setWeightVector with a node index outside [0, R), R being the number of weight
rows the connection holds, or with a vector whose length differs from the row
length; and getWeightVector with a node index outside [0, R) leaves the
caller's vector unchanged.  When the connection holds no row or exactly nOut
rows, as it does unless it has been sized more than once, the indices outside
[0, nOut) are rejected. -/
theorem connection_invalid_calls_unchanged (c : NNetWeightedConnect α) :
    (∀ (nIn nOut : Int) (initRange : α) (g : RandState),
      nIn ≤ 0 ∨ nOut ≤ 0 ∨ initRange ≤ 0 → c.setNumNodes nIn nOut initRange g = (c, g)) ∧
    (∀ v : List α, (v.length : Int) ≠ c.mNumInNodes → c.setInputs v = some c) ∧
    (∀ (node : Int) (w : List α), node < 0 ∨ (c.mWeights.length : Int) ≤ node →
      c.setWeightVector node w = c ∧ c.getWeightVector node w = w) ∧
    (∀ (i : Nat) (w row : List α), c.mWeights[i]? = some row → row.length ≠ w.length →
      c.setWeightVector (i : Int) w = c) ∧
    (c.mWeights = [] ∨ (c.mWeights.length : Int) = c.mNumOutNodes →
      ∀ (node : Int) (w : List α), node < 0 ∨ c.mNumOutNodes ≤ node →
        c.setWeightVector node w = c ∧ c.getWeightVector node w = w) := by
  refine ⟨?_, ?_, ?_, ?_, ?_⟩
  · intro nIn nOut initRange g h
    unfold NNetWeightedConnect.setNumNodes
    rw [if_neg]
    rintro ⟨h1, h2, h3⟩
    rcases h with h | h | h
    · omega
    · omega
    · exact absurd h3 (not_lt.mpr h)
  · intro v hv
    unfold NNetWeightedConnect.setInputs
    rw [if_neg hv]
  · intro node w h
    exact ⟨setWeightVector_outside c node w h, getWeightVector_outside c node w h⟩
  · intro i w row hrow hne
    unfold NNetWeightedConnect.setWeightVector
    split
    · simp only [Int.toNat_ofNat, hrow, if_neg hne]
    · rfl
  · intro hshape node w h
    have h' : node < 0 ∨ (c.mWeights.length : Int) ≤ node := by
      rcases hshape with hs | hs
      · rw [hs]
        simp only [List.length_nil, Nat.cast_zero]
        omega
      · omega
    exact ⟨setWeightVector_outside c node w h', getWeightVector_outside c node w h'⟩

end ConnectErrors

/-- C22: for a connection with nOut rows of length nIn, every node index i in
[0, nOut) and every vector v of length nIn: after setWeightVector(i, v),
getWeightVector(i) returns exactly v, getWeightVector(k) for every k != i
returns what it returned before, and the node counts and the stored inputs are
unchanged. -/
theorem setWeightVector_then_get {α : Type} (c : NNetWeightedConnect α) (i : Nat) (v : List α)
    (hrows : (c.mWeights.length : Int) = c.mNumOutNodes)
    (hcols : ∀ row ∈ c.mWeights, (row.length : Int) = c.mNumInNodes)
    (hi : (i : Int) < c.mNumOutNodes) (hv : (v.length : Int) = c.mNumInNodes) :
    (∀ w : List α, (c.setWeightVector (i : Int) v).getWeightVector (i : Int) w = v) ∧
    (∀ (k : Int) (w : List α), k ≠ (i : Int) →
      (c.setWeightVector (i : Int) v).getWeightVector k w = c.getWeightVector k w) ∧
    (c.setWeightVector (i : Int) v).mNumInNodes = c.mNumInNodes ∧
    (c.setWeightVector (i : Int) v).mNumOutNodes = c.mNumOutNodes ∧
    (c.setWeightVector (i : Int) v).mInputs = c.mInputs ∧
    (c.setWeightVector (i : Int) v).mWeights.length = c.mWeights.length := by
  have hlt : i < c.mWeights.length := by omega
  have hrow : c.mWeights[i].length = v.length := by
    have := hcols _ (List.getElem_mem hlt)
    omega
  rw [setWeightVector_accept c i v hlt hrow]
  refine ⟨?_, ?_, rfl, rfl, rfl, ?_⟩
  · intro w
    unfold NNetWeightedConnect.getWeightVector
    have hlt' : i < (c.mWeights.set i v).length := by rw [List.length_set]; exact hlt
    rw [if_pos ⟨by show (i : Int) < ((c.mWeights.set i v).length : Int); omega, by omega⟩]
    simp only [Int.toNat_ofNat, List.getElem?_set_self hlt]
  · intro k w hk
    unfold NNetWeightedConnect.getWeightVector
    by_cases hin : k < (c.mWeights.length : Int) ∧ 0 ≤ k
    · have hin' : k < ((c.mWeights.set i v).length : Int) ∧ 0 ≤ k := by
        rw [List.length_set]; exact hin
      have hne : i ≠ k.toNat := by omega
      rw [if_pos hin]
      simp only [if_pos hin', List.getElem?_set_ne hne]
    · have hin' : ¬ (k < ((c.mWeights.set i v).length : Int) ∧ 0 ≤ k) := by
        rw [List.length_set]; exact hin
      rw [if_neg hin]
      simp only [if_neg hin']
  · show (c.mWeights.set i v).length = c.mWeights.length
    rw [List.length_set]

/-- On the hidden connection of the example network (2 input nodes, 2 rows) a
setNumNodes call with nIn = 0, a setInputs call with three values and a
setWeightVector call at index 2 change nothing. -/
theorem connection_invalid_calls_example :
    (exampleNet.mLayers.getD 0 NNetWeightedConnect.new).setNumNodes 0 3 2 exampleRand
      = (exampleNet.mLayers.getD 0 NNetWeightedConnect.new, exampleRand) ∧
    (exampleNet.mLayers.getD 0 NNetWeightedConnect.new).setInputs [1, 2, 3]
      = some (exampleNet.mLayers.getD 0 NNetWeightedConnect.new) ∧
    (exampleNet.mLayers.getD 0 NNetWeightedConnect.new).setWeightVector 2 [8, 9]
      = exampleNet.mLayers.getD 0 NNetWeightedConnect.new ∧
    (exampleNet.mLayers.getD 0 NNetWeightedConnect.new).getWeightVector 2 [8, 9] = [8, 9] := by
  have h := connection_invalid_calls_unchanged
    (exampleNet.mLayers.getD 0 NNetWeightedConnect.new)
  exact ⟨h.1 0 3 2 exampleRand (Or.inl (le_refl 0)), h.2.1 [1, 2, 3] (by decide),
    (h.2.2.2.2 (Or.inr rfl) 2 [8, 9] (Or.inr (by decide))).1,
    (h.2.2.2.2 (Or.inr rfl) 2 [8, 9] (Or.inr (by decide))).2⟩

/-- C21 at a failing input: a connection sized twice to 1 input and 1 output
node has nOut = 1 but two weight rows, so the node index 1, which is outside
[0, nOut), is accepted: setWeightVector(1, (5)) changes the second row and
getWeightVector(1) overwrites the caller's vector. -/
theorem resized_connection_accepts_index_beyond_nOut :
    ((((NNetWeightedConnect.new : NNetWeightedConnect ℚ).setNumNodes 1 1 2 exampleRand).1
        ).setNumNodes 1 1 2 exampleRand).1.mNumOutNodes = 1 ∧
    (((((NNetWeightedConnect.new : NNetWeightedConnect ℚ).setNumNodes 1 1 2 exampleRand).1
        ).setNumNodes 1 1 2 exampleRand).1.setWeightVector 1 [5]).mWeights = [[-1], [5]] ∧
    ((((NNetWeightedConnect.new : NNetWeightedConnect ℚ).setNumNodes 1 1 2 exampleRand).1
        ).setNumNodes 1 1 2 exampleRand).1.mWeights = [[-1], [-1]] ∧
    ((((NNetWeightedConnect.new : NNetWeightedConnect ℚ).setNumNodes 1 1 2 exampleRand).1
        ).setNumNodes 1 1 2 exampleRand).1.getWeightVector 1 [7] = [-1] := by
  have hw : ((((NNetWeightedConnect.new : NNetWeightedConnect ℚ).setNumNodes 1 1 2
      exampleRand).1).setNumNodes 1 1 2 exampleRand).1
      = { mNumInNodes := 1, mNumOutNodes := 1, mInputs := [], mOutputs := [],
          mWeights := [[-1], [-1]] } := by
    simp [NNetWeightedConnect.setNumNodes, NNetWeightedConnect.initialiseWeights,
      NNetWeightedConnect.new, initRows, initVec, initVal, rand, exampleRand]
  rw [hw]
  refine ⟨rfl, ?_, rfl, ?_⟩
  · simp [NNetWeightedConnect.setWeightVector]
  · simp [NNetWeightedConnect.getWeightVector]

/-- Witness for C22: on the hidden connection of the example network (rows
1, 2 and 3, 4) setWeightVector(1, (7, 8)) makes getWeightVector(1) return 7, 8
and leaves getWeightVector(0) at 1, 2. -/
theorem setWeightVector_then_get_witness :
    ((exampleNet.mLayers.getD 0 NNetWeightedConnect.new).setWeightVector 1 [7, 8]
      ).getWeightVector 1 [] = [7, 8] ∧
    ((exampleNet.mLayers.getD 0 NNetWeightedConnect.new).setWeightVector 1 [7, 8]
      ).getWeightVector 0 [] = [1, 2] := by
  have h := setWeightVector_then_get (exampleNet.mLayers.getD 0 NNetWeightedConnect.new) 1
    [7, 8] (by decide) (by decide) (by decide) (by decide)
  refine ⟨h.1 [], ?_⟩
  have h0 := h.2.1 0 [] (by decide)
  rw [show ((1 : Nat) : Int) = 1 from rfl] at h0
  rw [h0]
  rfl

/-! ## Positive-only setters, defaults and the training set -/

section Setters

variable {α : Type} [LinearOrderedField α]

/-- C25: every positive-only setter assigns its field when the argument is
> 0 and otherwise returns the object as it was: NNetUnit::setSlope and
setAmplify, NeuralNet::setNumInputs, setNumOutputs, setOutputUnitSlope and
setOutputUnitAmplify, NNetTrainer::setLearningConstant and setMomentum.  A new
trainer has learning constant 0.5 and momentum 0; a default unit is
(Threshold, slope 1.0, amplify 1.0). -/
theorem positive_only_setters (u : NNetUnit α) (net : NeuralNet α) (tr : NNetTrainer α)
    (x : α) (n : Int) :
    (u.setSlope x = if 0 < x then { u with mSlope := x } else u) ∧
    (u.setAmplify x = if 0 < x then { u with mAmplify := x } else u) ∧
    (net.setNumInputs n = if 0 < n then { net with mNumInputs := n } else net) ∧
    (net.setNumOutputs n = if 0 < n then { net with mNumOutputs := n } else net) ∧
    (net.setOutputUnitSlope x = if 0 < x then { net with mOutUnitSlope := x } else net) ∧
    (net.setOutputUnitAmplify x = if 0 < x then { net with mOutUnitAmplify := x } else net) ∧
    (tr.setLearningConstant x = if 0 < x then { tr with mLearnConst := x } else tr) ∧
    (tr.setMomentum x = if 0 < x then { tr with mMomentum := x } else tr) ∧
    ((x ≤ 0 → u.setSlope x = u ∧ u.setAmplify x = u ∧ net.setOutputUnitSlope x = net ∧
        net.setOutputUnitAmplify x = net ∧ tr.setLearningConstant x = tr ∧
        tr.setMomentum x = tr) ∧
      (n ≤ 0 → net.setNumInputs n = net ∧ net.setNumOutputs n = net)) ∧
    ((NNetTrainer.new : NNetTrainer α).mLearnConst = 0.5 ∧
      (NNetTrainer.new : NNetTrainer α).mMomentum = 0) ∧
    ((NNetUnit.new : NNetUnit α).mActivationType = ActiveT.kThreshold ∧
      (NNetUnit.new : NNetUnit α).mSlope = 1.0 ∧ (NNetUnit.new : NNetUnit α).mAmplify = 1.0) := by
  refine ⟨rfl, rfl, rfl, rfl, rfl, rfl, rfl, rfl, ⟨?_, ?_⟩, ⟨rfl, rfl⟩, ⟨rfl, ?_, ?_⟩⟩
  · intro hx
    have hn : ¬ 0 < x := not_lt.mpr hx
    simp only [NNetUnit.setSlope, NNetUnit.setAmplify, NeuralNet.setOutputUnitSlope,
      NeuralNet.setOutputUnitAmplify, NNetTrainer.setLearningConstant, NNetTrainer.setMomentum,
      if_neg hn, and_self]
  · intro hn
    have hn' : ¬ 0 < n := not_lt.mpr hn
    simp only [NeuralNet.setNumInputs, NeuralNet.setNumOutputs, if_neg hn', and_self]
  · show (1 : α) = 1.0
    norm_num
  · show (1 : α) = 1.0
    norm_num

omit [LinearOrderedField α] in
theorem performAll_paired (calls : List (TrainerCall α)) :
    ∀ tr : NNetTrainer α, tr.mTrainInput.length = tr.mTrainTarget.length →
      (∀ call ∈ calls, call.Paired) →
      (tr.performAll calls).mTrainInput.length = (tr.performAll calls).mTrainTarget.length := by
  induction calls with
  | nil => intro tr h _; exact h
  | cons call rest ih =>
    intro tr h hp
    have hrest : ∀ c ∈ rest, c.Paired := fun c hc => hp c (List.mem_cons_of_mem _ hc)
    have hcall : call.Paired := hp call (List.mem_cons_self _ _)
    show ((tr.perform call).performAll rest).mTrainInput.length = _
    refine ih (tr.perform call) ?_ hrest
    cases call with
    | addToTrainingSet inVec outVec =>
      show (tr.mTrainInput ++ [inVec]).length = (tr.mTrainTarget ++ [outVec]).length
      rw [List.length_append, List.length_append, h]
      rfl
    | addNewTrainingSet inVecs outVecs => exact hcall

end Setters

/-- C26 (amended): in every trainer state reached from construction by a
sequence of addToTrainingSet calls and of addNewTrainingSet calls whose two
supplied sequences have the same length, the stored input vectors and the
stored target vectors have the same length; addToTrainingSet appends one pair
at the end and addNewTrainingSet replaces both sequences with the supplied
ones. -/
theorem training_set_stays_paired {α : Type} [LinearOrderedField α]
    (calls : List (TrainerCall α)) (hp : ∀ call ∈ calls, call.Paired) :
    ((NNetTrainer.new : NNetTrainer α).performAll calls).mTrainInput.length
      = ((NNetTrainer.new : NNetTrainer α).performAll calls).mTrainTarget.length ∧
    (∀ (tr : NNetTrainer α) (inVec outVec : List α),
      (tr.addToTrainingSet inVec outVec).mTrainInput = tr.mTrainInput ++ [inVec] ∧
      (tr.addToTrainingSet inVec outVec).mTrainTarget = tr.mTrainTarget ++ [outVec]) ∧
    (∀ (tr : NNetTrainer α) (inVecs outVecs : List (List α)),
      (tr.addNewTrainingSet inVecs outVecs).mTrainInput = inVecs ∧
      (tr.addNewTrainingSet inVecs outVecs).mTrainTarget = outVecs) :=
  ⟨performAll_paired calls NNetTrainer.new rfl hp, fun _ _ _ => ⟨rfl, rfl⟩,
    fun _ _ _ => ⟨rfl, rfl⟩⟩

/-- Witness for C25: on a default unit setSlope(2) sets the slope to 2 and
setSlope(-1) changes nothing; a new trainer has learning constant 0.5. -/
theorem positive_only_setters_witness :
    ((NNetUnit.new : NNetUnit ℚ).setSlope 2).mSlope = 2 ∧
    (NNetUnit.new : NNetUnit ℚ).setSlope (-1) = NNetUnit.new ∧
    ((NNetTrainer.new : NNetTrainer ℚ).setMomentum 0) = NNetTrainer.new ∧
    (NNetTrainer.new : NNetTrainer ℚ).mLearnConst = 1 / 2 := by
  have h := positive_only_setters (NNetUnit.new : NNetUnit ℚ) (NeuralNet.new : NeuralNet ℚ)
    (NNetTrainer.new : NNetTrainer ℚ)
  refine ⟨?_, ((h (-1) 0).2.2.2.2.2.2.2.2.1.1 (by norm_num)).1,
    ((h 0 0).2.2.2.2.2.2.2.2.1.1 (le_refl 0)).2.2.2.2.2, ?_⟩
  · rw [(h 2 0).1, if_pos (by norm_num)]
  · rw [(h 0 0).2.2.2.2.2.2.2.2.2.1.1]
    norm_num

/-- Witness for C26: after addToTrainingSet((1, 1), (0)) and
addNewTrainingSet of two inputs and two targets the trainer holds two input
vectors and two target vectors. -/
theorem training_set_stays_paired_witness :
    ((NNetTrainer.new : NNetTrainer ℚ).performAll
      [TrainerCall.addToTrainingSet [1, 1] [0],
        TrainerCall.addNewTrainingSet [[1, 2], [3, 4]] [[0], [1]]]).mTrainInput.length = 2 ∧
    ((NNetTrainer.new : NNetTrainer ℚ).performAll
      [TrainerCall.addToTrainingSet [1, 1] [0],
        TrainerCall.addNewTrainingSet [[1, 2], [3, 4]] [[0], [1]]]).mTrainTarget.length = 2 := by
  have h := (training_set_stays_paired
    [TrainerCall.addToTrainingSet [1, 1] [0],
      TrainerCall.addNewTrainingSet [[1, 2], [3, 4]] ([[0], [1]] : List (List ℚ))]
    (by
      intro call hc
      simp only [List.mem_cons, List.mem_singleton, List.not_mem_nil, or_false] at hc
      rcases hc with rfl | rfl
      · trivial
      · rfl)).1
  have h1 : ((NNetTrainer.new : NNetTrainer ℚ).performAll
      [TrainerCall.addToTrainingSet [1, 1] [0],
        TrainerCall.addNewTrainingSet [[1, 2], [3, 4]] [[0], [1]]]).mTrainInput.length = 2 := rfl
  exact ⟨h1, by rw [← h, h1]⟩

/-- Counterexample for C26 as stated: addNewTrainingSet with one input vector
and no target vector leaves a trainer holding 1 input vector and 0 target
vectors. -/
theorem training_set_unpaired_counterexample :
    ((NNetTrainer.new : NNetTrainer ℚ).performAll
      [TrainerCall.addNewTrainingSet [[1]] []]).mTrainInput.length = 1 ∧
    ((NNetTrainer.new : NNetTrainer ℚ).performAll
      [TrainerCall.addNewTrainingSet [[1]] []]).mTrainTarget.length = 0 :=
  ⟨rfl, rfl⟩

/-! ## The output-layer error signal -/

section OutputError

variable {α : Type} [LinearOrderedField α]

/-- C30: for each training example of a training set that fits a well-formed
network, after the forward pass on the example calcOutputError returns one
error signal per output unit, and the signal of output unit i is
(target_i - response_i) * gradient(outputKind, outputSlope, outputAmplify,
pre_i), where response is the forward-pass output for the example and pre_i is
entry i of getUnitInputs(hiddenLayerCount) after that pass; the running error
total held by the trainer plays no part. -/
theorem calcOutputError_signal (m : Libm α) (tr : NNetTrainer α) (net : NeuralNet α)
    (hw : net.WellFormed) (hf : tr.Fits net) (index : Nat)
    (hi : index < tr.mTrainInput.length) :
    ∃ net' response outErr,
      net.getResponse m (tr.mTrainInput.getD index []) [] = some (net', response) ∧
      (∀ e : α, NNetTrainer.calcOutputError m { tr with mNetError := e } net' [] response
        (index : Int) = some outErr) ∧
      (outErr.length : Int) = net.mNumOutputs ∧ outErr.length = response.length ∧
      ∀ i, i < response.length →
        outErr[i]? = some (((tr.mTrainTarget.getD index []).getD i 0 - response.getD i 0) *
          getGradient m net.mOutUnitType net.mOutUnitSlope net.mOutUnitAmplify
            ((net'.getUnitInputs [] net.mNumLayers).getD i 0)) := by
  have hit : index < tr.mTrainTarget.length := by rw [hf.paired]; exact hi
  have hxget : tr.mTrainInput[index]? = some tr.mTrainInput[index] :=
    List.getElem?_eq_getElem hi
  have htget : tr.mTrainTarget[index]? = some tr.mTrainTarget[index] :=
    List.getElem?_eq_getElem hit
  have hxD : tr.mTrainInput.getD index [] = tr.mTrainInput[index] := by
    rw [List.getD_eq_getElem?_getD, hxget]; rfl
  have htD : tr.mTrainTarget.getD index [] = tr.mTrainTarget[index] := by
    rw [List.getD_eq_getElem?_getD, htget]; rfl
  rw [hxD, htD]
  generalize tr.mTrainInput[index] = x at hxget hxD
  generalize tr.mTrainTarget[index] = t at htget htD
  have hx : (x.length : Int) = net.mNumInputs := hf.inputs x (List.getElem?_mem hxget)
  have ht : net.mNumOutputs ≤ (t.length : Int) := hf.targets t (List.getElem?_mem htget)
  obtain ⟨hresp, hrlen⟩ := getResponse_spec m net hw x [] (by omega)
  have hc1 := responded_cachesOf m net x
  have hLpos := hw.layersPos
  have hrt : (net.responseSpec m x).length ≤ t.length := by omega
  have hLlt : net.mNumLayers.toNat < net.mLayers.length := by rw [hw.numConnect]; omega
  obtain ⟨cL, hcL, _⟩ := layer_exists net hw net.mNumLayers.toNat le_rfl
  have hUI : NeuralNet.getUnitInputs
      { net with
        mActivations := (net.tracesFrom m 0 net.mLayers
          (x.take net.mNumInputs.toNat)).map Prod.snd,
        mUnitInputs := (net.tracesFrom m 0 net.mLayers
          (x.take net.mNumInputs.toNat)).map Prod.fst } [] net.mNumLayers
      = net.preAt m x net.mNumLayers.toNat := by
    have hcast : net.mNumLayers = ((net.mNumLayers.toNat : Nat) : Int) := by omega
    rw [← cachesOnly_preAt m net _ _ x]
    conv_lhs => rw [hcast]
    exact getUnitInputs_cache m _ x hc1 _ hLlt []
  have hpl := preAt_length m net x net.mNumLayers.toNat cL hcL
  have hrp := responseSpec_eq_postAt m net hw x
  have hout : ∀ e : α, NNetTrainer.calcOutputError m { tr with mNetError := e }
      { net with
        mActivations := (net.tracesFrom m 0 net.mLayers
          (x.take net.mNumInputs.toNat)).map Prod.snd,
        mUnitInputs := (net.tracesFrom m 0 net.mLayers
          (x.take net.mNumInputs.toNat)).map Prod.fst }
      [] (net.responseSpec m x) (index : Int) = _ := fun e =>
    calcOutputError_eq m { tr with mNetError := e } _ (net.responseSpec m x) t index htget hrt
      (by
        show _ ≤ (NeuralNet.getUnitInputs _ [] net.mNumLayers).length
        rw [hUI, hpl.1, hrp, hpl.2])
  refine ⟨_, _, _, hresp, hout, ?_, ?_, ?_⟩
  · simp only [outputDelta, List.length_map, List.length_range]
    exact hrlen
  · simp only [outputDelta, List.length_map, List.length_range]
  · intro i hi'
    simp only [outputDelta, List.getElem?_map, List.getElem?_range hi', Option.map_some']

end OutputError

/-- Witness for C30: for the example trainer (input (1, 1), target (0)) on the
example network the response is -24, the output pre-activation is -8 and the
output unit is Linear with slope 3 and amplify 1, so the error signal is
(0 - (-24)) * 3 = 72. -/
theorem calcOutputError_signal_witness :
    ∃ net', exampleNet.getResponse exampleLibm [1, 1] [] = some (net', [-24]) ∧
      exampleTrainer.calcOutputError exampleLibm net' [] [-24] 0 = some [72] := by
  obtain ⟨net', response, outErr, h1, h2, _, hlen, hent⟩ := calcOutputError_signal exampleLibm
    exampleTrainer exampleNet exampleNet_wellFormed exampleTrainer_fits 0 (by decide)
  have hs := (getResponse_spec exampleLibm exampleNet exampleNet_wellFormed [1, 1] []
    (by decide)).1
  rw [exampleNet_response_one] at hs
  have hx : exampleTrainer.mTrainInput.getD 0 [] = [1, 1] := rfl
  rw [hx, hs] at h1
  have e1 : net' = _ := (congrArg Prod.fst (Option.some.inj h1)).symm
  have e2 : response = [-24] := (congrArg Prod.snd (Option.some.inj h1)).symm
  subst e2
  have h0 := hent 0 (by decide)
  have hlen1 : outErr.length = 1 := hlen
  have hcalc := h2 exampleTrainer.mNetError
  refine ⟨net', by rw [hx] at *; rw [hs, e1], ?_⟩
  have hsame : ({ exampleTrainer with mNetError := exampleTrainer.mNetError } : NNetTrainer ℚ)
      = exampleTrainer := rfl
  rw [hsame] at hcalc
  rw [show ((0 : Nat) : Int) = 0 from rfl] at hcalc
  rw [hcalc]
  match outErr, hlen1, h0 with
  | [a], _, h0 =>
    simp only [List.getElem?_cons_zero, Option.some.injEq] at h0
    rw [h0, e1]
    simp [NeuralNet.getUnitInputs, exampleNet_traces, exampleTrainer,
      NNetTrainer.addToTrainingSet, NNetTrainer.new, exampleNet, getGradient]
    norm_num

/-! ## The serialization format and what deserialize checks -/

section SerialFormat

variable {α : Type} [LinearOrderedField α]

omit [LinearOrderedField α] in
theorem flatten_length_uniform {β : Type} (n : Nat) :
    ∀ rows : List (List β), (∀ row ∈ rows, row.length = n) →
      rows.flatten.length = rows.length * n := by
  intro rows
  induction rows with
  | nil => intro _; simp
  | cons r rs ih =>
    intro h
    rw [List.flatten_cons, List.length_append, ih (fun row hr => h row (List.mem_cons_of_mem _ hr)),
      h r (List.mem_cons_self _ _), List.length_cons]
    ring

/-- The network deserialize rebuilds from the text of a well-formed network
can be written again. -/
theorem reread_storable (net : NeuralNet α) (hw : net.WellFormed) : net.reread.Storable := by
  refine ⟨le_of_lt hw.layersPos, ?_, ?_, ?_, ?_, ?_, ?_⟩
  · show (net.mLayers.map NNetWeightedConnect.reread).length = _
    rw [List.length_map]; exact hw.numConnect
  · show net.mNumLayers.toNat ≤ (net.mActiveUnits ++ [ActiveT.kThreshold]).length
    rw [List.length_append, hw.numUnits]; omega
  · show net.mNumLayers.toNat ≤ (net.mActiveSlope ++ [0]).length
    rw [List.length_append, hw.numSlopes]; omega
  · show net.mNumLayers.toNat ≤ (net.mActiveAmplify ++ [0]).length
    rw [List.length_append, hw.numAmplifies]; omega
  · intro c hc
    obtain ⟨d, hd, rfl⟩ := List.mem_map.mp (show c ∈ net.mLayers.map _ from hc)
    exact (hw.sized d hd).rows
  · intro c hc
    obtain ⟨d, hd, rfl⟩ := List.mem_map.mp (show c ∈ net.mLayers.map _ from hc)
    exact (hw.sized d hd).cols

/-- C23: on every network it can write (hidden-layer count L >= 0, L+1 sized
connections, layer details for every hidden layer: every well-formed network
and every network read back from a model text), serialize produces the token
sequence numInputs, numOutputs, numHiddenLayers, outputKind (as its integer
code), outputSlope, outputAmplify, followed for each of the L+1 connections in
order by the literal token L, numInputNodes, numOutputNodes, hiddenKind,
hiddenSlope, hiddenAmplify (0, 0, 0 for the connection with index L) and then
its numOutputNodes * numInputNodes weights row after row. -/
theorem serialize_token_sequence (net : NeuralNet α) (hs : net.Storable) :
    net.serialize = some
      ([Token.int net.mNumInputs, Token.int net.mNumOutputs, Token.int net.mNumLayers,
        Token.int net.mOutUnitType.toInt, Token.real net.mOutUnitSlope,
        Token.real net.mOutUnitAmplify] ++ net.layersText 0 net.mLayers) ∧
    net.mLayers.length = net.mNumLayers.toNat + 1 ∧
    (∀ (i : Nat) (c : NNetWeightedConnect α) (rest : List (NNetWeightedConnect α)),
      net.layersText i (c :: rest) =
        [Token.char 'L', Token.int c.mNumInNodes, Token.int c.mNumOutNodes,
          Token.int (if (i : Int) < net.mNumLayers then
            (net.mActiveUnits.getD i ActiveT.kThreshold).toInt else 0),
          Token.real (if (i : Int) < net.mNumLayers then net.mActiveSlope.getD i 0 else 0),
          Token.real (if (i : Int) < net.mNumLayers then net.mActiveAmplify.getD i 0 else 0)] ++
        (c.mWeights.map (fun row => row.map Token.real)).flatten ++
        net.layersText (i + 1) rest) ∧
    (∀ i : Nat, net.layersText i [] = []) ∧
    (∀ c ∈ net.mLayers,
      ((c.mWeights.map (fun row => row.map (Token.real : α → Token α))).flatten).length
        = c.mNumOutNodes.toNat * c.mNumInNodes.toNat) := by
  refine ⟨serialize_eq_modelText net hs, hs.numConnect, ?_, fun _ => rfl, ?_⟩
  · intro i c rest
    by_cases hlt : (i : Int) < net.mNumLayers
    · simp [NeuralNet.layersText, layerText, NeuralNet.stageDetails, hlt]
    · simp [NeuralNet.layersText, layerText, hlt]
  · intro c hc
    have hr := hs.rows c hc
    have hcol := hs.cols c hc
    rw [flatten_length_uniform c.mNumInNodes.toNat, List.length_map]
    · have : c.mWeights.length = c.mNumOutNodes.toNat := by omega
      rw [this]
    · intro row hrow
      obtain ⟨r, hr', rfl⟩ := List.mem_map.mp hrow
      rw [List.length_map]
      have := hcol r hr'
      omega

end SerialFormat

/-- Witness for C23: the 24 tokens of the example network: the six main
fields 2 1 1 10 3 1, then L 2 2 10 1 2 and the weights 1 2 3 4 of the hidden
connection, then L 2 1 0 0 0 and the weights 1 -1 of the output connection. -/
theorem serialize_token_sequence_witness :
    exampleNet.serialize = some
      [Token.int 2, Token.int 1, Token.int 1, Token.int 10, Token.real 3, Token.real 1,
        Token.char 'L', Token.int 2, Token.int 2, Token.int 10, Token.real 1, Token.real 2,
        Token.real 1, Token.real 2, Token.real 3, Token.real 4,
        Token.char 'L', Token.int 2, Token.int 1, Token.int 0, Token.real 0, Token.real 0,
        Token.real 1, Token.real (-1)] := by
  have h := (serialize_token_sequence exampleNet
    (wellFormed_storable exampleNet exampleNet_wellFormed)).1
  rw [h, ← exampleNet_modelText]
  rfl

/-! ## What deserialize checks -/

section DeserializeChecks

variable {α : Type} [LinearOrderedField α]

omit [LinearOrderedField α] in
theorem extractInt_retag (f : Char → Char) (s : IStream α) (cur : Option Int) :
    (s.retag f).extractInt cur = ((s.extractInt cur).1, (s.extractInt cur).2.retag f) := by
  obtain ⟨toks, fail⟩ := s
  cases fail with
  | true => rfl
  | false =>
    cases toks with
    | nil => rfl
    | cons t rest => cases t <;> rfl

theorem extractDouble_retag (f : Char → Char) (s : IStream α) (cur : Option α) :
    (s.retag f).extractDouble cur
      = ((s.extractDouble cur).1, (s.extractDouble cur).2.retag f) := by
  obtain ⟨toks, fail⟩ := s
  cases fail with
  | true => rfl
  | false =>
    cases toks with
    | nil => rfl
    | cons t rest => cases t <;> rfl

omit [LinearOrderedField α] in
theorem extractChar_retag (f : Char → Char) (s : IStream α) :
    (s.retag f).extractChar = (s.extractChar).map (IStream.retag f) := by
  obtain ⟨toks, fail⟩ := s
  cases fail with
  | true => rfl
  | false =>
    cases toks with
    | nil => rfl
    | cons t rest => cases t <;> rfl

theorem deserializeRow_retag (f : Char → Char) :
    ∀ (n : Nat) (s : IStream α),
      deserializeRow n (s.retag f)
        = (deserializeRow n s).map (fun r => (r.1, r.2.retag f)) := by
  intro n
  induction n with
  | zero => intro s; rfl
  | succ k ih =>
    intro s
    simp only [deserializeRow, extractDouble_retag, ih, Option.bind_eq_bind, Option.pure_def]
    cases (s.extractDouble none).1 with
    | none => rfl
    | some wgt =>
      simp only [Option.some_bind]
      cases deserializeRow k (s.extractDouble none).2 with
      | none => rfl
      | some rest => rfl

theorem deserializeNode_retag (f : Char → Char) (nIn : Int)
    (st : NNetWeightedConnect α × IStream α) (j : Nat) :
    deserializeNode nIn (st.1, st.2.retag f) j
      = (deserializeNode nIn st j).map (fun r => (r.1, r.2.retag f)) := by
  simp only [deserializeNode, deserializeRow_retag, Option.bind_eq_bind, Option.pure_def]
  cases deserializeRow nIn.toNat st.2 with
  | none => rfl
  | some row => rfl

theorem deserializeNodes_retag (f : Char → Char) (nIn : Int) (js : List Nat) :
    ∀ st : NNetWeightedConnect α × IStream α,
      js.foldlM (deserializeNode nIn) (st.1, st.2.retag f)
        = (js.foldlM (deserializeNode nIn) st).map (fun r => (r.1, r.2.retag f)) := by
  induction js with
  | nil => intro st; rfl
  | cons j rest ih =>
    intro st
    rw [List.foldlM_cons, List.foldlM_cons, deserializeNode_retag]
    cases deserializeNode nIn st j with
    | none => rfl
    | some st1 =>
      simp only [Option.map_some', Option.bind_eq_bind, Option.some_bind]
      exact ih st1

/-- One pass of the layer loop of deserialize on a text whose characters are
replaced: the same network and generator, and the rest of the replaced
text. -/
theorem deserializeLayer_retag (f : Char → Char) (st : ReadState α) (i : Nat) :
    deserializeLayer { st with stream := st.stream.retag f } i
      = (deserializeLayer st i).map (fun r => { r with stream := r.stream.retag f }) := by
  simp only [deserializeLayer, extractChar_retag, Option.bind_eq_bind, Option.pure_def]
  cases st.stream.extractChar with
  | none => rfl
  | some s1 =>
    simp only [Option.map_some', Option.some_bind, extractInt_retag, extractDouble_retag]
    cases (s1.extractInt none).1 with
    | none => rfl
    | some nIn =>
      simp only [Option.some_bind]
      cases ((s1.extractInt none).2.extractInt none).1 with
      | none => rfl
      | some nOut =>
        simp only [Option.some_bind]
        cases (((s1.extractInt none).2.extractInt none).2.extractInt none).1 with
        | none => rfl
        | some nUnit =>
          simp only [Option.some_bind]
          cases ((((s1.extractInt none).2.extractInt none).2.extractInt none).2.extractDouble
            none).1 with
          | none => rfl
          | some sUnit =>
            simp only [Option.some_bind]
            cases (((((s1.extractInt none).2.extractInt none).2.extractInt none).2.extractDouble
              none).2.extractDouble none).1 with
            | none => rfl
            | some aUnit =>
              simp only [Option.some_bind]
              cases (NNetWeightedConnect.construct nIn nOut st.rand :
                Option (NNetWeightedConnect α × RandState)) with
              | none => rfl
              | some built =>
                simp only [Option.some_bind]
                rw [deserializeNodes_retag f nIn (List.range nOut.toNat)
                  (built.1, (((((s1.extractInt none).2.extractInt none).2.extractInt
                    none).2.extractDouble none).2.extractDouble none).2)]
                cases (List.range nOut.toNat).foldlM (deserializeNode nIn)
                  (built.1, (((((s1.extractInt none).2.extractInt none).2.extractInt
                    none).2.extractDouble none).2.extractDouble none).2) with
                | none => rfl
                | some filled =>
                  simp only [Option.map_some', Option.some_bind]
                  cases ActiveT.ofInt nUnit with
                  | none => rfl
                  | some unitType => rfl

theorem deserializeLayers_retag (f : Char → Char) (is : List Nat) :
    ∀ st : ReadState α,
      is.foldlM deserializeLayer { st with stream := st.stream.retag f }
        = (is.foldlM deserializeLayer st).map
            (fun r => { r with stream := r.stream.retag f }) := by
  induction is with
  | nil => intro st; rfl
  | cons i rest ih =>
    intro st
    rw [List.foldlM_cons, List.foldlM_cons, deserializeLayer_retag]
    cases deserializeLayer st i with
    | none => rfl
    | some st1 =>
      simp only [Option.map_some', Option.bind_eq_bind, Option.some_bind]
      exact ih st1

theorem deserializeLayers_retag_fields (f : Char → Char) (is : List Nat) (n : NeuralNet α)
    (s : IStream α) (g : RandState) :
    is.foldlM deserializeLayer { net := n, stream := s.retag f, rand := g }
      = (is.foldlM deserializeLayer { net := n, stream := s, rand := g }).map
          (fun r => { r with stream := r.stream.retag f }) :=
  deserializeLayers_retag f is { net := n, stream := s, rand := g }

omit [LinearOrderedField α] in
theorem bind_after_retag (f : Char → Char) (X : Option (ReadState α)) :
    (X.map (fun r => ({ r with stream := r.stream.retag f } : ReadState α))).bind
        (fun st => some ({ reported := false, net := st.net, rand := st.rand } :
          Deserialized α))
      = X.bind (fun st => some { reported := false, net := st.net, rand := st.rand }) := by
  cases X <;> rfl

/-- The characters of the model text are never inspected by deserialize: the
text with every character replaced through `f` gives the same result. -/
theorem deserialize_retag (f : Char → Char) (net : NeuralNet α) (inData : List (Token α))
    (g : RandState) :
    net.deserialize (inData.map (Token.retag f)) g = net.deserialize inData g := by
  have hs : ({ toks := inData.map (Token.retag f), fail := false } : IStream α)
      = IStream.retag f { toks := inData, fail := false } := rfl
  unfold NeuralNet.deserialize
  simp only [Bool.false_eq_true, if_false]
  rw [hs]
  simp only [extractInt_retag, extractDouble_retag, deserializeLayers_retag_fields,
    Option.bind_eq_bind, Option.pure_def, bind_after_retag]

end DeserializeChecks

/-- C24 at failing inputs: deserialize tests the stream only before the first
extraction and tests neither an extraction nor the delimiter afterwards.  The
text of the example network with both L tokens replaced by X is not a
well-formed serialization, yet the network is built from it and nothing is
reported.  On the text cut off before its last weight, and on the text with a
letter in place of its first weight, a weight is read from the local `wgt`
that no extraction has set: the call has no defined result, and in particular
reports nothing. -/
theorem deserialize_malformed_text_unreported :
    (∃ g', (NeuralNet.new : NeuralNet ℚ).deserialize
        [Token.int 2, Token.int 1, Token.int 1, Token.int 10, Token.real 3, Token.real 1,
          Token.char 'X', Token.int 2, Token.int 2, Token.int 10, Token.real 1, Token.real 2,
          Token.real 1, Token.real 2, Token.real 3, Token.real 4,
          Token.char 'X', Token.int 2, Token.int 1, Token.int 0, Token.real 0, Token.real 0,
          Token.real 1, Token.real (-1)] exampleRand
      = some { reported := false, net := exampleNet.reread, rand := g' }) ∧
    ((NeuralNet.new : NeuralNet ℚ).deserialize
        [Token.int 2, Token.int 1, Token.int 1, Token.int 10, Token.real 3, Token.real 1,
          Token.char 'L', Token.int 2, Token.int 2, Token.int 10, Token.real 1, Token.real 2,
          Token.real 1, Token.real 2, Token.real 3, Token.real 4,
          Token.char 'L', Token.int 2, Token.int 1, Token.int 0, Token.real 0, Token.real 0,
          Token.real 1] exampleRand).map (fun d => d.reported) = none ∧
    ((NeuralNet.new : NeuralNet ℚ).deserialize
        [Token.int 2, Token.int 1, Token.int 1, Token.int 10, Token.real 3, Token.real 1,
          Token.char 'L', Token.int 2, Token.int 2, Token.int 10, Token.real 1, Token.real 2,
          Token.char 'a', Token.real 2, Token.real 3, Token.real 4,
          Token.char 'L', Token.int 2, Token.int 1, Token.int 0, Token.real 0, Token.real 0,
          Token.real 1, Token.real (-1)] exampleRand).map (fun d => d.reported) = none := by
  refine ⟨?_, ?_, ?_⟩
  · obtain ⟨g', h⟩ := deserialize_modelText exampleNet exampleNet_wellFormed exampleRand
    refine ⟨g', ?_⟩
    have ht : [Token.int 2, Token.int 1, Token.int 1, Token.int 10, Token.real 3, Token.real 1,
        Token.char 'X', Token.int 2, Token.int 2, Token.int 10, Token.real 1, Token.real 2,
        Token.real 1, Token.real 2, Token.real 3, Token.real 4,
        Token.char 'X', Token.int 2, Token.int 1, Token.int 0, Token.real 0, Token.real 0,
        Token.real 1, Token.real (-1)]
        = exampleNet.modelText.map (Token.retag (fun _ => 'X')) := by
      rw [exampleNet_modelText]
      rfl
    rw [ht, deserialize_retag, h]
  · with_unfolding_all rfl
  · with_unfolding_all rfl

/-! ## The documented ranges of the activation values -/

section Ranges

theorem unit_range_scale (a v : ℝ) (ha : 0 < a) (h0 : 0 ≤ v) (h1 : v ≤ 1) :
    0 ≤ a * v ∧ a * v ≤ a :=
  ⟨mul_nonneg ha.le h0, by nlinarith⟩

theorem sym_range_scale (a v : ℝ) (ha : 0 < a) (h0 : -1 ≤ v) (h1 : v ≤ 1) :
    -a ≤ a * v ∧ a * v ≤ a := by
  constructor <;> nlinarith

theorem div_one_add_abs_range (t : ℝ) : -1 ≤ t / (1 + |t|) ∧ t / (1 + |t|) ≤ 1 := by
  have hd : 0 < 1 + |t| := by positivity
  constructor
  · rw [le_div_iff₀ hd]
    have := neg_abs_le t
    linarith
  · rw [div_le_one hd]
    have := le_abs_self t
    linarith

theorem real_tanh_range (y : ℝ) : -1 ≤ Real.tanh y ∧ Real.tanh y ≤ 1 := by
  have hc : 0 < Real.cosh y := Real.cosh_pos y
  rw [Real.tanh_eq_sinh_div_cosh]
  constructor
  · rw [le_div_iff₀ hc]
    have h : Real.cosh y + Real.sinh y = Real.exp y := Real.cosh_add_sinh y
    have := Real.exp_pos y
    linarith
  · rw [div_le_one hc]
    exact (Real.sinh_lt_cosh y).le

theorem isru_range (s x : ℝ) (hs : 0 < s) :
    -(1 / Real.sqrt s) ≤ x / Real.sqrt (1 + s * x * x) ∧
      x / Real.sqrt (1 + s * x * x) ≤ 1 / Real.sqrt s := by
  have hpos : 0 < 1 + s * x * x := by
    have : 0 ≤ s * x * x := by
      rw [mul_assoc]; exact mul_nonneg hs.le (mul_self_nonneg x)
    linarith
  have hD : 0 < Real.sqrt (1 + s * x * x) := Real.sqrt_pos.mpr hpos
  have hr : 0 < Real.sqrt s := Real.sqrt_pos.mpr hs
  have hsq : (x * Real.sqrt s) ^ 2 ≤ 1 + s * x * x := by
    rw [mul_pow, Real.sq_sqrt hs.le]
    nlinarith
  have habs : |x * Real.sqrt s| ≤ Real.sqrt (1 + s * x * x) := Real.abs_le_sqrt hsq
  have hle := abs_le.mp habs
  constructor
  · rw [neg_le, ← neg_div, div_le_iff₀ hD, one_div, ← div_eq_inv_mul, le_div_iff₀ hr]
    linarith [hle.1]
  · rw [div_le_iff₀ hD, one_div, ← div_eq_inv_mul, le_div_iff₀ hr]
    linarith [hle.2]

theorem sin_div_le_one (t : ℝ) (ht : t ≠ 0) : Real.sin t / t ≤ 1 := by
  rcases lt_or_gt_of_ne ht with hneg | hpos
  · rw [div_le_one_of_neg hneg]
    have h := Real.sin_le (show 0 ≤ -t by linarith)
    rw [Real.sin_neg] at h
    linarith
  · rw [div_le_one hpos]
    exact Real.sin_le hpos.le

/-- C27: for every real x, slope > 0 and amplify > 0 the activation value lies
in the documented amplified range: Unipolar, Gaussian and Elliot in
[0, amplify]; Bipolar, Tanh, Sine, Cosine and SoftSign in [-amplify, amplify];
Arctan in [-(pi/2)*amplify, (pi/2)*amplify]; InverseSqrtUnit in
[-amplify/sqrt(slope), amplify/sqrt(slope)]; SoftPlus in [0, +infinity);
SincLike at most amplify. -/
theorem activation_in_documented_range (slope amplify x : ℝ) (hs : 0 < slope)
    (ha : 0 < amplify) :
    (∀ kind ∈ [ActiveT.kUnipolar, ActiveT.kGauss, ActiveT.kElliot],
      0 ≤ forward realLibm kind slope amplify x ∧
        forward realLibm kind slope amplify x ≤ amplify) ∧
    (∀ kind ∈ [ActiveT.kBipolar, ActiveT.kTanh, ActiveT.kSin, ActiveT.kCos,
        ActiveT.kSoftSign],
      -amplify ≤ forward realLibm kind slope amplify x ∧
        forward realLibm kind slope amplify x ≤ amplify) ∧
    (-(Real.pi / 2) * amplify ≤ forward realLibm ActiveT.kArctan slope amplify x ∧
      forward realLibm ActiveT.kArctan slope amplify x ≤ Real.pi / 2 * amplify) ∧
    (-amplify / Real.sqrt slope ≤ forward realLibm ActiveT.kISRU slope amplify x ∧
      forward realLibm ActiveT.kISRU slope amplify x ≤ amplify / Real.sqrt slope) ∧
    0 ≤ forward realLibm ActiveT.kSoftPlus slope amplify x ∧
    forward realLibm ActiveT.kSinC slope amplify x ≤ amplify := by
  have he : 0 < Real.exp (-slope * x) := Real.exp_pos _
  refine ⟨?_, ?_, ?_, ?_, ?_, ?_⟩
  · intro kind hk
    simp only [List.mem_cons, List.mem_singleton, List.not_mem_nil, or_false] at hk
    rcases hk with h | h | h <;> subst h
    · simp only [forward, NNetUnit.getActivation, realLibm, lit_one]
      refine unit_range_scale amplify _ ha (by positivity) ?_
      rw [div_le_one (by positivity)]
      linarith
    · simp only [forward, NNetUnit.getActivation, realLibm]
      refine unit_range_scale amplify _ ha (Real.exp_pos _).le ?_
      rw [Real.exp_le_one_iff]
      have : 0 ≤ slope * (x * x) := mul_nonneg hs.le (mul_self_nonneg x)
      nlinarith
    · simp only [forward, NNetUnit.getActivation, realLibm, lit_half]
      have hw := div_one_add_abs_range (slope * x)
      have e : slope * x / 2 / (1 + |slope * x|) + 1 / 2
          = (slope * x / (1 + |slope * x|)) / 2 + 1 / 2 := by ring
      rw [e]
      exact unit_range_scale amplify _ ha (by linarith [hw.1]) (by linarith [hw.2])
  · intro kind hk
    simp only [List.mem_cons, List.mem_singleton, List.not_mem_nil, or_false] at hk
    rcases hk with h | h | h | h | h <;> subst h
    · simp only [forward, NNetUnit.getActivation, realLibm, lit_one, lit_two]
      have h0 : 0 ≤ 2 / (1 + Real.exp (-slope * x)) := by positivity
      have h2 : 2 / (1 + Real.exp (-slope * x)) ≤ 2 := by
        rw [div_le_iff₀ (by positivity)]
        linarith
      exact sym_range_scale amplify _ ha (by linarith) (by linarith)
    · simp only [forward, NNetUnit.getActivation, realLibm]
      exact sym_range_scale amplify _ ha (real_tanh_range _).1 (real_tanh_range _).2
    · simp only [forward, NNetUnit.getActivation, realLibm]
      exact sym_range_scale amplify _ ha (Real.neg_one_le_sin _) (Real.sin_le_one _)
    · simp only [forward, NNetUnit.getActivation, realLibm]
      exact sym_range_scale amplify _ ha (Real.neg_one_le_cos _) (Real.cos_le_one _)
    · simp only [forward, NNetUnit.getActivation, realLibm]
      exact sym_range_scale amplify _ ha (div_one_add_abs_range _).1
        (div_one_add_abs_range _).2
  · simp only [forward, NNetUnit.getActivation, realLibm]
    have h1 := Real.arctan_lt_pi_div_two (slope * x)
    have h2 := Real.neg_pi_div_two_lt_arctan (slope * x)
    constructor <;> nlinarith
  · simp only [forward, NNetUnit.getActivation, realLibm]
    obtain ⟨h1, h2⟩ := isru_range slope x hs
    constructor
    · have := mul_le_mul_of_nonneg_left h1 ha.le
      calc -amplify / Real.sqrt slope = amplify * -(1 / Real.sqrt slope) := by ring
        _ ≤ _ := this
    · have := mul_le_mul_of_nonneg_left h2 ha.le
      calc amplify * (x / Real.sqrt (1 + slope * x * x)) ≤ amplify * (1 / Real.sqrt slope) := this
        _ = amplify / Real.sqrt slope := by ring
  · simp only [forward, NNetUnit.getActivation, realLibm]
    refine mul_nonneg ha.le (Real.log_nonneg ?_)
    have := Real.exp_pos (slope * x)
    linarith
  · simp only [forward, NNetUnit.getActivation, realLibm, lit_one]
    have hv : (if |x| < 0.00001 then (1 : ℝ)
        else Real.sin (slope * x) / (slope * x)) ≤ 1 := by
      split
      · exact le_refl 1
      · next hx =>
        have hx0 : x ≠ 0 := by
          intro h0
          apply hx
          rw [h0, abs_zero]
          norm_num
        exact sin_div_le_one _ (mul_ne_zero hs.ne' hx0)
    nlinarith

end Ranges

/-- Witness for C27: at slope 1, amplify 2 and x = 3 the Unipolar value lies in
[0, 2] and the Tanh value in [-2, 2]. -/
theorem activation_in_documented_range_witness :
    (0 ≤ forward realLibm ActiveT.kUnipolar 1 2 3 ∧
      forward realLibm ActiveT.kUnipolar 1 2 3 ≤ 2) ∧
    (-2 ≤ forward realLibm ActiveT.kTanh 1 2 3 ∧ forward realLibm ActiveT.kTanh 1 2 3 ≤ 2) := by
  have h := activation_in_documented_range 1 2 3 (by norm_num) (by norm_num)
  exact ⟨h.1 ActiveT.kUnipolar (by simp), h.2.1 ActiveT.kTanh (by simp)⟩

/-! ## The slope of the sigmoidal curves at the origin -/

section OriginSlope

/-- At the origin the gradient code of the ISRU kind returns `amplify`,
whatever the slope parameter is. -/
theorem isru_gradient_origin (s a : ℝ) : getGradient realLibm ActiveT.kISRU s a 0 = a := by
  simp [getGradient, realLibm]

theorem isru_origin_hasDerivAt (s a : ℝ) (hs : 0 < s) :
    HasDerivAt (fun t => forward realLibm ActiveT.kISRU s a t) a 0 := by
  have h := isru_hasDerivAt s a 0 hs
  rwa [isru_gradient_origin] at h

theorem isru_origin_deriv (s a : ℝ) (hs : 0 < s) :
    deriv (fun t => forward realLibm ActiveT.kISRU s a t) 0 = a :=
  (isru_origin_hasDerivAt s a hs).deriv

/-- The gradient code at the origin for the other sigmoidal kinds: a positive
multiple of `amplify * slope`. -/
theorem sigmoid_gradient_origin (s a : ℝ) :
    getGradient realLibm ActiveT.kUnipolar s a 0 = a * s / 4 ∧
    getGradient realLibm ActiveT.kBipolar s a 0 = a * s / 2 ∧
    getGradient realLibm ActiveT.kTanh s a 0 = a * s ∧
    getGradient realLibm ActiveT.kArctan s a 0 = a * s ∧
    getGradient realLibm ActiveT.kElliot s a 0 = a * s / 2 ∧
    getGradient realLibm ActiveT.kSoftSign s a 0 = a * s := by
  refine ⟨?_, ?_, ?_, ?_, ?_, ?_⟩
  · simp only [getGradient, realLibm, mul_zero, Real.exp_zero]; ring
  · simp only [getGradient, realLibm, mul_zero, Real.exp_zero]; ring
  · simp [getGradient, realLibm]
  · simp [getGradient, realLibm]
  · simp only [getGradient, realLibm, mul_zero, abs_zero, add_zero, lit_half]; ring
  · simp [getGradient, realLibm]

/-- For Unipolar, Bipolar, Tanh, Arctan, Elliot and SoftSign a larger slope
parameter gives a strictly larger derivative at the origin. -/
theorem sigmoid_origin_deriv_increasing (a s1 s2 : ℝ) (ha : 0 < a) (h12 : s1 < s2) :
    ∀ kind ∈ [ActiveT.kUnipolar, ActiveT.kBipolar, ActiveT.kTanh, ActiveT.kArctan,
        ActiveT.kElliot, ActiveT.kSoftSign],
      deriv (fun t => forward realLibm kind s1 a t) 0
        < deriv (fun t => forward realLibm kind s2 a t) 0 := by
  have hm : a * s1 < a * s2 := mul_lt_mul_of_pos_left h12 ha
  obtain ⟨u1, b1, t1, r1, e1, g1⟩ := sigmoid_gradient_origin s1 a
  obtain ⟨u2, b2, t2, r2, e2, g2⟩ := sigmoid_gradient_origin s2 a
  intro kind hk
  simp only [List.mem_cons, List.mem_singleton, List.not_mem_nil, or_false] at hk
  rcases hk with h | h | h | h | h | h <;> subst h
  · rw [(unipolar_hasDerivAt s1 a 0).deriv, (unipolar_hasDerivAt s2 a 0).deriv, u1, u2]
    linarith
  · rw [(bipolar_hasDerivAt s1 a 0).deriv, (bipolar_hasDerivAt s2 a 0).deriv, b1, b2]
    linarith
  · rw [(tanh_hasDerivAt s1 a 0).deriv, (tanh_hasDerivAt s2 a 0).deriv, t1, t2]
    exact hm
  · rw [(arctan_hasDerivAt s1 a 0).deriv, (arctan_hasDerivAt s2 a 0).deriv, r1, r2]
    exact hm
  · rw [(elliot_hasDerivAt s1 a 0).deriv, (elliot_hasDerivAt s2 a 0).deriv, e1, e2]
    linarith
  · rw [(softsign_hasDerivAt s1 a 0).deriv, (softsign_hasDerivAt s2 a 0).deriv, g1, g2]
    exact hm

end OriginSlope

/-- C28, the code at amplify 1 with slopes 1 and 4: the ISRU activation
x / sqrt(1 + slope*x*x) has derivative 1 at the origin for both slopes, and the
gradient code returns 1 for both, so the derivative for the larger slope is not
strictly smaller than for the smaller one. -/
theorem isru_origin_slope_has_no_effect :
    deriv (fun t => forward realLibm ActiveT.kISRU 1 1 t) 0 = 1 ∧
    deriv (fun t => forward realLibm ActiveT.kISRU 4 1 t) 0 = 1 ∧
    getGradient realLibm ActiveT.kISRU 1 1 0 = 1 ∧
    getGradient realLibm ActiveT.kISRU 4 1 0 = 1 ∧
    ¬ (deriv (fun t => forward realLibm ActiveT.kISRU 4 1 t) 0
        < deriv (fun t => forward realLibm ActiveT.kISRU 1 1 t) 0) := by
  have h1 := isru_origin_deriv 1 1 (by norm_num)
  have h4 := isru_origin_deriv 4 1 (by norm_num)
  refine ⟨h1, h4, isru_gradient_origin 1 1, isru_gradient_origin 4 1, ?_⟩
  rw [h1, h4]
  exact lt_irrefl 1

/-! ## Numeric aliases of a table column -/

section AliasLists

theorem extendSeen_cons (seen : List String) (v : String) (vs : List String) :
    extendSeen seen (v :: vs) = extendSeen (if v ∈ seen then seen else seen ++ [v]) vs := rfl

theorem extendSeen_length_le (vs : List String) :
    ∀ seen : List String, (extendSeen seen vs).length ≤ seen.length + vs.length := by
  induction vs with
  | nil => intro seen; simp [extendSeen]
  | cons v vs ih =>
      intro seen
      rw [extendSeen_cons]
      by_cases h : v ∈ seen
      · rw [if_pos h]
        have := ih seen
        simp only [List.length_cons]
        omega
      · rw [if_neg h]
        have := ih (seen ++ [v])
        simp only [List.length_append, List.length_cons, List.length_nil] at this ⊢
        omega

end AliasLists

section AliasScan

variable {α : Type} [LinearOrderedField α]

end AliasScan

section AliasLoop

variable {α : Type} [LinearOrderedField α]

end AliasLoop

section AliasClaims

variable {α : Type} [LinearOrderedField α]

end AliasClaims

section ExtraInputs

variable {α : Type} [LinearOrderedField α]

/-- The loop body "calculate the total weight adjustment" at an input node `j`
for which the weight vector has no entry: `weights[j]` is out of range. -/
theorem adjustWeight_beyond_row (learnConst momentum ei : α) (xVec : List α)
    (st : AdjustState α) (j : Nat) (hj : st.weights.length ≤ j) :
    adjustWeight learnConst momentum ei xVec st j = none := by
  have hw : vecAt st.weights (j : Int) = none := by
    rw [vecAt_natCast]
    exact List.getElem?_eq_none hj
  unfold adjustWeight
  cases hx : vecAt xVec (j : Int) with
  | none => rfl
  | some x =>
      simp only [Option.bind_eq_bind, Option.some_bind]
      by_cases hm : 0 < momentum
      · by_cases hi : st.prevIdx < st.prevWt.length
        · have h1 : vecAt st.prevWt (st.prevIdx : Int) = some (st.prevWt.getD st.prevIdx 0) :=
            vecAt_getD _ _ _ hi
          simp [hm, hi, h1, vecAssign_natCast _ _ _ hi, hw]
        · simp [hm, hi, hw]
      · simp [hm, hw]

end ExtraInputs

/-- C38 at a failing input: on the example network (input width 2) the
training example (1, 1, 7) -> (0) makes trainNeuralNet index out of range,
while the example truncated to (1, 1) trains to the weights 73, 74, -69, -68
and 217, 503 with error total 288. The forward pass on (1, 1, 7) returns -24
as on (1, 1); the failing access is `weights[2]` on the two weights of the
first row of the first connection, reached with the input vector (1, 1, 7). -/
theorem trainNeuralNet_extra_input_out_of_range :
    longTrainer.trainNeuralNet exampleLibm exampleNet exampleRand = none ∧
    (exampleTrainer.trainNeuralNet exampleLibm exampleNet exampleRand).map
      (fun r => (r.1.mNetError, r.2.1.mLayers.map (fun c => c.mWeights)))
      = some (288, [[[73, 74], [-69, -68]], [[217, 503]]]) ∧
    (exampleNet.getResponse exampleLibm [1, 1, 7] []).map Prod.snd = some [-24] ∧
    adjustWeight exampleTrainer.mLearnConst exampleTrainer.mMomentum 144 [1, 1, 7]
      { weights := [73, 74], prevWt := [], prevIdx := 2 } 2 = none := by
  refine ⟨?_, ?_, ?_, ?_⟩
  · with_unfolding_all rfl
  · with_unfolding_all rfl
  · with_unfolding_all rfl
  · with_unfolding_all rfl

/-! ## The layer details after deserialization -/

/-- C33 at a failing input: the model text of the example network (one hidden
layer) read into a fresh network leaves two entries in each of the three
layer-detail arrays, the second being (Threshold, 0, 0) read from the
output-facing connection; a following successful addLayer(3, Tanh, 2, 5, 7)
makes the hidden-layer count 2 and pushes its details at index 2, so
getLayerDetails(1) returns (Threshold, 0, 0) and not (Tanh, 5, 7). -/
theorem deserialize_leaves_extra_details :
    ((NeuralNet.new : NeuralNet ℚ).deserialize exampleNet.modelText exampleRand).map
      (fun d => (d.net.mNumLayers, d.net.mActiveUnits, d.net.mActiveSlope,
        d.net.mActiveAmplify))
      = some (1, [ActiveT.kLinear, ActiveT.kThreshold], [1, 0], [2, 0]) ∧
    ((NeuralNet.new : NeuralNet ℚ).deserialize exampleNet.modelText exampleRand).bind
      (fun d => (d.net.addLayer 3 ActiveT.kTanh 2 5 7 d.rand).map
        (fun r => (r.1, r.2.1.mNumLayers, r.2.1.mActiveUnits, r.2.1.mActiveSlope,
          r.2.1.mActiveAmplify, r.2.1.getLayerDetails 1 (ActiveT.kUnipolar, 9, 9))))
      = some (0, 2, [ActiveT.kLinear, ActiveT.kThreshold, ActiveT.kTanh], [1, 0, 5],
          [2, 0, 7], some (ActiveT.kThreshold, 0, 0)) := by
  refine ⟨?_, ?_⟩
  · with_unfolding_all rfl
  · with_unfolding_all rfl

/-! ## The total network error -/

section NetError

variable {α : Type} [LinearOrderedField α]

/-- A property kept by every defined pass of a loop body holds after the
loop. -/
theorem foldlM_preserves {σ ι : Type} (P : σ → Prop) (f : σ → ι → Option σ)
    (hf : ∀ s i s', f s i = some s' → P s → P s') :
    ∀ (l : List ι) (s s' : σ), l.foldlM f s = some s' → P s → P s' := by
  intro l
  induction l with
  | nil =>
      intro s s' h hP
      simp only [List.foldlM, Option.pure_def, Option.some.injEq] at h
      rw [← h]
      exact hP
  | cons i l ih =>
      intro s s' h hP
      rw [List.foldlM_cons] at h
      obtain ⟨s1, h1, h2⟩ := Option.bind_eq_some.mp h
      exact ih s1 s' h2 (hf s i s1 h1 hP)

/-- Whatever calcNetworkError returns is a sum of halved squares, hence not
negative. -/
theorem calcNetworkError_nonneg (tr : NNetTrainer α) (response : List α) (nTarget : Int)
    (e : α) (h : tr.calcNetworkError response nTarget = some e) : 0 ≤ e := by
  unfold NNetTrainer.calcNetworkError at h
  obtain ⟨targetVec, _, h2⟩ := Option.bind_eq_some.mp h
  refine foldlM_preserves (fun err : α => 0 ≤ err) _ ?_ _ 0 e h2 le_rfl
  intro s i s' hs hP
  simp only [Option.bind_eq_bind, Option.pure_def, Option.bind_eq_some, Option.some.injEq] at hs
  obtain ⟨t, _, r, _, rfl⟩ := hs
  have h5 : (0 : α) ≤ 0.5 := by norm_num
  have := mul_nonneg h5 (sq_nonneg (t - r))
  linarith

/-- One pass of the training loop, when it returns, adds a non-negative error
to the total and changes nothing else of the trainer but the two histories. -/
theorem trainExample_trainer (m : Libm α) (st st' : NNetTrainer α × NeuralNet α) (index : Nat)
    (h : NNetTrainer.trainExample m st index = some st') :
    ∃ (err : α) (p1 p2 : List α), 0 ≤ err ∧
      st'.1 = { st.1 with mNetError := st.1.mNetError + err, mPrevOutWt := p1,
                          mPrevHidWt := p2 } := by
  unfold NNetTrainer.trainExample at h
  simp only [Option.bind_eq_bind, Option.bind_eq_some] at h
  obtain ⟨trainVec, _, responded, _, err, herr, outErrSig, _, hidErrSig, _, adjustedOut, hout,
    hhid⟩ := h
  have hnn := calcNetworkError_nonneg st.1 responded.2 index err herr
  unfold NNetTrainer.calcOutputWtAdjust at hout
  simp only [Option.bind_eq_bind, Option.bind_eq_some, Option.pure_def, Option.some.injEq] at hout
  obtain ⟨so, _, rfl⟩ := hout
  unfold NNetTrainer.calcHiddenWtAdjust at hhid
  simp only [Option.bind_eq_bind, Option.bind_eq_some, Option.pure_def, Option.some.injEq] at hhid
  obtain ⟨sh, _, rfl⟩ := hhid
  exact ⟨err, so.prevWt, sh.prevWt, hnn, rfl⟩

/-- A call of trainNeuralNet, when it returns, leaves a total error that is
not smaller and the settings and the training set as they were. -/
theorem trainNeuralNet_trainer (m : Libm α) (tr tr' : NNetTrainer α) (net net' : NeuralNet α)
    (g g' : RandState) (h : tr.trainNeuralNet m net g = some (tr', net', g')) :
    tr.mNetError ≤ tr'.mNetError ∧ tr'.mLearnConst = tr.mLearnConst ∧
      tr'.mMomentum = tr.mMomentum ∧ tr'.mTrainInput = tr.mTrainInput ∧
      tr'.mTrainTarget = tr.mTrainTarget := by
  unfold NNetTrainer.trainNeuralNet at h
  by_cases hN : 0 < tr.mTrainInput.length
  · simp only [hN, if_true, Option.bind_eq_bind, Option.bind_eq_some, Option.pure_def,
      Option.some.injEq, Prod.mk.injEq] at h
    obtain ⟨st, hst, rfl, _, _⟩ := h
    refine foldlM_preserves
      (fun s : NNetTrainer α × NeuralNet α => tr.mNetError ≤ s.1.mNetError ∧
        s.1.mLearnConst = tr.mLearnConst ∧ s.1.mMomentum = tr.mMomentum ∧
        s.1.mTrainInput = tr.mTrainInput ∧ s.1.mTrainTarget = tr.mTrainTarget)
      _ ?_ _ (tr, net) st hst ⟨le_rfl, rfl, rfl, rfl, rfl⟩
    intro s i s' hs hP
    obtain ⟨err, p1, p2, hnn, heq⟩ := trainExample_trainer m s s' i hs
    rw [heq]
    refine ⟨?_, hP.2.1, hP.2.2.1, hP.2.2.2.1, hP.2.2.2.2⟩
    show tr.mNetError ≤ s.1.mNetError + err
    linarith [hP.1]
  · simp only [hN, if_false, Option.some.injEq, Prod.mk.injEq] at h
    obtain ⟨rfl, _, _⟩ := h
    exact ⟨le_rfl, rfl, rfl, rfl, rfl⟩

/-- Every call but resetNetError leaves a total error that is not smaller. -/
theorem run_error_le (m : Libm α) (tr tr' : NNetTrainer α) (op : TrainerOp α)
    (hop : op ≠ TrainerOp.resetNetError) (h : tr.run m op = some tr') :
    tr.mNetError ≤ tr'.mNetError := by
  cases op with
  | resetNetError => exact absurd rfl hop
  | setLearningConstant lc =>
      simp only [NNetTrainer.run, Option.some.injEq] at h
      rw [← h]
      unfold NNetTrainer.setLearningConstant
      split <;> exact le_rfl
  | setMomentum mo =>
      simp only [NNetTrainer.run, Option.some.injEq] at h
      rw [← h]
      unfold NNetTrainer.setMomentum
      split <;> exact le_rfl
  | addToTrainingSet a b =>
      simp only [NNetTrainer.run, Option.some.injEq] at h
      rw [← h]
      exact le_rfl
  | addNewTrainingSet a b =>
      simp only [NNetTrainer.run, Option.some.injEq] at h
      rw [← h]
      exact le_rfl
  | trainNeuralNet nNet g =>
      simp only [NNetTrainer.run, Option.map_eq_some'] at h
      obtain ⟨⟨t1, n1, g1⟩, h1, rfl⟩ := h
      exact (trainNeuralNet_trainer m tr t1 nNet n1 g g1 h1).1

theorem run_error_nonneg (m : Libm α) (tr tr' : NNetTrainer α) (op : TrainerOp α)
    (h : tr.run m op = some tr') (h0 : 0 ≤ tr.mNetError) : 0 ≤ tr'.mNetError := by
  by_cases hop : op = TrainerOp.resetNetError
  · subst hop
    simp only [NNetTrainer.run, Option.some.injEq] at h
    rw [← h]
    exact le_refl (0 : α)
  · exact le_trans h0 (run_error_le m tr tr' op hop h)

/-- C37: over an ordered field the total network error is never negative and,
apart from resetNetError, no call decreases it: in every trainer state reached
from construction by the setters, the training-set calls, resetNetError and
trainNeuralNet calls on any networks, getNetError() >= 0; getNetError() after
a trainNeuralNet call is >= its value before the call, whatever the trainer
state and the network; and resetNetError sets the total to exactly 0 and
changes nothing else. -/
theorem net_error_nonneg_and_monotone (m : Libm α) :
    (∀ (ops : List (TrainerOp α)) (tr : NNetTrainer α),
      (NNetTrainer.new : NNetTrainer α).runAll m ops = some tr → 0 ≤ tr.getNetError) ∧
    (∀ (tr tr' : NNetTrainer α) (nNet nNet' : NeuralNet α) (g g' : RandState),
      tr.trainNeuralNet m nNet g = some (tr', nNet', g') →
        tr.getNetError ≤ tr'.getNetError) ∧
    (∀ (tr tr' : NNetTrainer α) (op : TrainerOp α), op ≠ TrainerOp.resetNetError →
      tr.run m op = some tr' → tr.getNetError ≤ tr'.getNetError) ∧
    (∀ tr : NNetTrainer α, tr.resetNetError.getNetError = 0 ∧
      tr.resetNetError.mLearnConst = tr.mLearnConst ∧
      tr.resetNetError.mMomentum = tr.mMomentum ∧
      tr.resetNetError.mPrevOutWt = tr.mPrevOutWt ∧
      tr.resetNetError.mPrevHidWt = tr.mPrevHidWt ∧
      tr.resetNetError.mTrainInput = tr.mTrainInput ∧
      tr.resetNetError.mTrainTarget = tr.mTrainTarget) := by
  refine ⟨?_, ?_, ?_, ?_⟩
  · intro ops tr h
    exact foldlM_preserves (fun t : NNetTrainer α => 0 ≤ t.mNetError) _
      (fun s i s' hs hP => run_error_nonneg m s s' i hs hP) ops _ tr h (le_refl (0 : α))
  · intro tr tr' nNet nNet' g g' h
    exact (trainNeuralNet_trainer m tr tr' nNet nNet' g g' h).1
  · intro tr tr' op hop h
    exact run_error_le m tr tr' op hop h
  · intro tr
    exact ⟨rfl, rfl, rfl, rfl, rfl, rfl, rfl⟩

end NetError

/-- Witness for C37: after addToTrainingSet((1, 1), (0)), one trainNeuralNet
call on the example network, resetNetError and a second trainNeuralNet call on
the example network the total error is not negative, and the first training
call raises the total from 0 to 288. -/
theorem net_error_nonneg_and_monotone_witness :
    (∃ tr, (NNetTrainer.new : NNetTrainer ℚ).runAll exampleLibm
        [TrainerOp.addToTrainingSet [1, 1] [0],
          TrainerOp.trainNeuralNet exampleNet exampleRand, TrainerOp.resetNetError,
          TrainerOp.trainNeuralNet exampleNet exampleRand] = some tr ∧ 0 ≤ tr.getNetError) ∧
    (∃ tr' net' g', exampleTrainer.trainNeuralNet exampleLibm exampleNet exampleRand
        = some (tr', net', g') ∧ exampleTrainer.getNetError = 0 ∧ tr'.getNetError = 288 ∧
        exampleTrainer.getNetError ≤ tr'.getNetError) := by
  have h := net_error_nonneg_and_monotone exampleLibm
  refine ⟨?_, ?_⟩
  · have hs : ((NNetTrainer.new : NNetTrainer ℚ).runAll exampleLibm
        [TrainerOp.addToTrainingSet [1, 1] [0],
          TrainerOp.trainNeuralNet exampleNet exampleRand, TrainerOp.resetNetError,
          TrainerOp.trainNeuralNet exampleNet exampleRand]).isSome = true := by
      with_unfolding_all rfl
    obtain ⟨tr, htr⟩ := Option.isSome_iff_exists.mp hs
    exact ⟨tr, htr, h.1 _ tr htr⟩
  · have hs : (exampleTrainer.trainNeuralNet exampleLibm exampleNet exampleRand).isSome
        = true := by
      with_unfolding_all rfl
    obtain ⟨⟨tr', net', g'⟩, htr⟩ := Option.isSome_iff_exists.mp hs
    have he : (exampleTrainer.trainNeuralNet exampleLibm exampleNet exampleRand).map
        (fun r => r.1.mNetError) = some 288 := by
      with_unfolding_all rfl
    rw [htr] at he
    have he' : tr'.mNetError = 288 := by simpa using he
    exact ⟨tr', net', g', htr, rfl, he', h.2.1 _ _ _ _ _ _ htr⟩

/-! ## Networks built by successive addLayer calls -/

section LayerChain

variable {α : Type} [LinearOrderedField α]

/-- A successful addLayer call on a network in the built state: the state is
kept, the layer count grows by one, the connections below the old count are
untouched and the connection at the old count has `numUnits` output nodes. -/
theorem addLayer_success_units (net net' : NeuralNet α) (hb : net.Built) (numUnits : Int)
    (unitType : ActiveT) (initRange slope amplify : α) (g g' : RandState)
    (h : net.addLayer numUnits unitType initRange slope amplify g = some (0, net', g')) :
    net'.Built ∧ net'.mNumLayers = net.mNumLayers + 1 ∧
      net'.mNumInputs = net.mNumInputs ∧ net'.mNumOutputs = net.mNumOutputs ∧
      (∀ i : Nat, i < net.mNumLayers.toNat → net'.mLayers[i]? = net.mLayers[i]?) ∧
      net'.layerUnits net.mNumLayers.toNat = numUnits := by
  have hc := built_consistent net hb
  have hin : net.mNumLayers = 0 → 0 < net.mNumInputs := fun _ => hb.inputsPos
  by_cases hv : 0 < numUnits ∧ 0 < initRange ∧ 0 < slope ∧ 0 < amplify
  · obtain ⟨n1, g1, h1, hb1, hl1, _⟩ :=
      addLayer_built net hb numUnits unitType initRange slope amplify g hv
    have hv' := addLayer_valid net hc numUnits unitType initRange slope amplify g hv hin
    rw [h] at h1
    simp only [Option.some.injEq, Prod.mk.injEq, true_and] at h1
    obtain ⟨rfl, rfl⟩ := h1
    rw [h] at hv'
    simp only [Option.some.injEq, Prod.mk.injEq, true_and] at hv'
    obtain ⟨hnet, _⟩ := hv'
    have htake : (net.mLayers.take net.mNumLayers.toNat).length = net.mNumLayers.toNat := by
      rw [List.length_take, hb.numConnect]
      have := hb.layersNonneg
      split <;> omega
    refine ⟨hb1, hl1, ?_, ?_, ?_, ?_⟩
    · rw [hnet]; rfl
    · rw [hnet]; rfl
    · intro i hi
      rw [hnet]
      show (net.mLayers.take net.mNumLayers.toNat ++ _)[i]? = _
      rw [List.getElem?_append_left (by rw [htake]; exact hi), List.getElem?_take_of_lt hi]
    · rw [hnet]
      unfold NeuralNet.layerUnits
      show (match (net.mLayers.take net.mNumLayers.toNat ++ _)[net.mNumLayers.toNat]? with
        | some c => c.mNumOutNodes
        | none => 0) = numUnits
      rw [List.getElem?_append_right (by rw [htake]), htake, Nat.sub_self]
      simp only [List.getElem?_cons_zero]
      exact (setNumNodes_counts _ _ _ _ _ ⟨fanIn_pos net hc hin, hv.1, hv.2.1⟩).2
  · have hinv := addLayer_invalid net numUnits unitType initRange slope amplify g
      (fun hh => hv hh.1)
    rw [h] at hinv
    simp only [Option.some.injEq, Prod.mk.injEq] at hinv
    omega

/-- Successive successful addLayer calls on a network in the built state. -/
theorem addLayers_built :
    ∀ (specs : List (LayerSpec α)) (net net' : NeuralNet α) (g g' : RandState)
      (codes : List Int), net.Built →
      NeuralNet.addLayers specs (net, g) = some (codes, net', g') →
      (∀ code ∈ codes, code = 0) →
      net'.Built ∧ net'.mNumLayers = net.mNumLayers + (specs.length : Int) ∧
        net'.mNumInputs = net.mNumInputs ∧ net'.mNumOutputs = net.mNumOutputs ∧
        (∀ i : Nat, i < net.mNumLayers.toNat → net'.mLayers[i]? = net.mLayers[i]?) ∧
        (∀ (i : Nat) (sp : LayerSpec α), specs[i]? = some sp →
          net'.layerUnits (net.mNumLayers.toNat + i) = sp.numUnits) := by
  intro specs
  induction specs with
  | nil =>
      intro net net' g g' codes hb h _
      simp only [NeuralNet.addLayers, Option.some.injEq, Prod.mk.injEq] at h
      obtain ⟨_, rfl, _⟩ := h
      refine ⟨hb, by simp, rfl, rfl, fun _ _ => rfl, ?_⟩
      intro i sp hsp
      simp at hsp
  | cons sp rest ih =>
      intro net net' g g' codes hb h hok
      simp only [NeuralNet.addLayers, Option.bind_eq_bind, Option.bind_eq_some,
        Option.pure_def, Option.some.injEq, Prod.mk.injEq] at h
      obtain ⟨⟨r, n1, g1⟩, h1, ⟨cs, n2, g2⟩, h2, rfl, rfl, rfl⟩ := h
      have hr : r = 0 := hok r (List.mem_cons_self _ _)
      subst hr
      obtain ⟨hb1, hl1, hi1, ho1, hkeep1, hu1⟩ :=
        addLayer_success_units net n1 hb sp.numUnits sp.unitType sp.initRange sp.slope
          sp.amplify g g1 h1
      obtain ⟨hb2, hl2, hi2, ho2, hkeep2, hu2⟩ :=
        ih n1 n2 g1 g2 cs hb1 h2 (fun c hc => hok c (List.mem_cons_of_mem _ hc))
      have hL := hb.layersNonneg
      have hn1 : n1.mNumLayers.toNat = net.mNumLayers.toNat + 1 := by omega
      refine ⟨hb2, ?_, hi2.trans hi1, ho2.trans ho1, ?_, ?_⟩
      · rw [hl2, hl1, List.length_cons]
        push_cast
        omega
      · intro i hi
        rw [hkeep2 i (by omega), hkeep1 i hi]
      · intro i sp' hsp
        cases i with
        | zero =>
            simp only [List.getElem?_cons_zero, Option.some.injEq] at hsp
            subst hsp
            rw [Nat.add_zero]
            have e := hkeep2 net.mNumLayers.toNat (by omega)
            unfold NeuralNet.layerUnits at hu1 ⊢
            rw [e]
            exact hu1
        | succ j =>
            simp only [List.getElem?_cons_succ] at hsp
            have e := hu2 j sp' hsp
            rw [hn1] at e
            have : net.mNumLayers.toNat + (j + 1) = net.mNumLayers.toNat + 1 + j := by omega
            rw [this]
            exact e

/-- Successive addLayer calls with valid arguments on a network in the built
state all return 0. -/
theorem addLayers_valid :
    ∀ (specs : List (LayerSpec α)) (net : NeuralNet α) (g : RandState), net.Built →
      (∀ sp ∈ specs, 0 < sp.numUnits ∧ 0 < sp.initRange ∧ 0 < sp.slope ∧ 0 < sp.amplify) →
      ∃ net' g', NeuralNet.addLayers specs (net, g)
        = some (List.replicate specs.length 0, net', g') := by
  intro specs
  induction specs with
  | nil => intro net g _ _; exact ⟨net, g, rfl⟩
  | cons sp rest ih =>
      intro net g hb hv
      obtain ⟨n1, g1, h1, hb1, _, _⟩ := addLayer_built net hb sp.numUnits sp.unitType
        sp.initRange sp.slope sp.amplify g (hv sp (List.mem_cons_self _ _))
      obtain ⟨n2, g2, h2⟩ := ih n1 g1 hb1 (fun s hs => hv s (List.mem_cons_of_mem _ hs))
      refine ⟨n2, g2, ?_⟩
      simp only [NeuralNet.addLayers, h1, h2, Option.bind_eq_bind, Option.some_bind,
        Option.pure_def, List.length_cons, List.replicate_succ]

/-- C36: if positive input and output widths are set on a new network and
then L >= 1 addLayer calls with unit counts u_0..u_(L-1) all return 0, the
widths are as set, there are L hidden layers and L+1 connections, connection 0
has inputWidth input nodes, connection i has u_i output nodes and connection
i+1 has u_i input nodes for every i < L, connection L has outputWidth output
nodes, and every connection's weight matrix has exactly (output nodes) rows of
exactly (input nodes) entries. -/
theorem addLayers_chain (n k : Int) (hn : 0 < n) (hk : 0 < k) (specs : List (LayerSpec α))
    (hL : specs ≠ []) (g g' : RandState) (codes : List Int) (net : NeuralNet α)
    (h : NeuralNet.addLayers specs
      (((NeuralNet.new : NeuralNet α).setNumInputs n).setNumOutputs k, g)
        = some (codes, net, g'))
    (hok : ∀ code ∈ codes, code = 0) :
    net.mNumInputs = n ∧ net.mNumOutputs = k ∧ net.mNumLayers = (specs.length : Int) ∧
    net.mLayers.length = specs.length + 1 ∧
    (∃ c, net.mLayers[0]? = some c ∧ c.mNumInNodes = n) ∧
    (∀ (i : Nat) (sp : LayerSpec α), specs[i]? = some sp →
      ∃ c d, net.mLayers[i]? = some c ∧ net.mLayers[i + 1]? = some d ∧
        c.mNumOutNodes = sp.numUnits ∧ d.mNumInNodes = sp.numUnits) ∧
    (∃ c, net.mLayers[specs.length]? = some c ∧ c.mNumOutNodes = k) ∧
    (∀ c ∈ net.mLayers, (c.mWeights.length : Int) = c.mNumOutNodes ∧
      ∀ row ∈ c.mWeights, (row.length : Int) = c.mNumInNodes) := by
  obtain ⟨hb0, hl0⟩ := @built_start α _ n k hn hk
  obtain ⟨hb, hl, hin, hout, _, hu⟩ := addLayers_built specs _ net g g' codes hb0 h hok
  have hlen : 0 < specs.length := List.length_pos.mpr hL
  rw [hl0, zero_add] at hl
  have hLn : net.mNumLayers.toNat = specs.length := by omega
  have hw : net.WellFormed := built_wellFormed net hb (by omega)
  have hi0 : (((NeuralNet.new : NeuralNet α).setNumInputs n).setNumOutputs k).mNumInputs = n := by
    simp [NeuralNet.setNumInputs, NeuralNet.setNumOutputs, hn, hk]
  have ho0 : (((NeuralNet.new : NeuralNet α).setNumInputs n).setNumOutputs k).mNumOutputs
      = k := by
    simp [NeuralNet.setNumInputs, NeuralNet.setNumOutputs, hn, hk]
  have hnc : net.mLayers.length = specs.length + 1 := by rw [hw.numConnect, hLn]
  refine ⟨hin.trans hi0, hout.trans ho0, hl, hnc, ?_, ?_, ?_, ?_⟩
  · obtain ⟨c, hc, _⟩ := layer_exists net hw 0 (by omega)
    exact ⟨c, hc, (hw.first c hc).trans (hin.trans hi0)⟩
  · intro i sp hsp
    have hi : i < specs.length := (List.getElem?_eq_some.mp hsp).1
    obtain ⟨c, hc, _⟩ := layer_exists net hw i (by omega)
    obtain ⟨d, hd, _⟩ := layer_exists net hw (i + 1) (by omega)
    have hui := hu i sp hsp
    rw [hl0] at hui
    simp only [Int.toNat_zero, Nat.zero_add] at hui
    unfold NeuralNet.layerUnits at hui
    rw [hc] at hui
    exact ⟨c, d, hc, hd, hui, (hw.chain i c d hc hd).trans hui⟩
  · obtain ⟨c, hc, _⟩ := layer_exists net hw specs.length (by omega)
    refine ⟨c, hc, ?_⟩
    rw [← hLn] at hc
    exact (hw.last c hc).trans (hout.trans ho0)
  · intro c hc
    exact ⟨(hw.sized c hc).rows, (hw.sized c hc).cols⟩

end LayerChain

/-- Witness for C36: widths 2 and 1, then layers of 3 and 2 units: the call
sequence returns 0, 0 and the connections have 2 -> 3, 3 -> 2 and 2 -> 1
nodes. -/
theorem addLayers_chain_witness :
    ∃ net g', NeuralNet.addLayers exampleSpecs
        (((NeuralNet.new : NeuralNet ℚ).setNumInputs 2).setNumOutputs 1, exampleRand)
        = some ([0, 0], net, g') ∧
      net.mNumLayers = 2 ∧ net.mLayers.length = 3 ∧
      (∃ c d, net.mLayers[0]? = some c ∧ net.mLayers[1]? = some d ∧
        c.mNumOutNodes = 3 ∧ d.mNumInNodes = 3) ∧
      (∃ c, net.mLayers[2]? = some c ∧ c.mNumOutNodes = 1) := by
  obtain ⟨hb0, _⟩ := @built_start ℚ _ 2 1 (by decide) (by decide)
  obtain ⟨net, g', h⟩ := addLayers_valid exampleSpecs _ exampleRand hb0 (by
    intro sp hsp
    simp only [exampleSpecs, List.mem_cons, List.mem_singleton, List.not_mem_nil,
      or_false] at hsp
    rcases hsp with rfl | rfl <;> norm_num)
  have hc := addLayers_chain 2 1 (by decide) (by decide) exampleSpecs (by simp [exampleSpecs])
    exampleRand g' _ net h (by
      intro code hcode
      exact (List.mem_replicate.mp hcode).2)
  refine ⟨net, g', h, hc.2.2.1, hc.2.2.2.1, ?_, hc.2.2.2.2.2.2.1⟩
  obtain ⟨c, d, h1, h2, h3, h4⟩ := hc.2.2.2.2.2.1 0 _ rfl
  exact ⟨c, d, h1, h2, h3, h4⟩

/-! ## Index safety of training -/

section IndexSafety

variable {α : Type} [LinearOrderedField α]

/-- A call of trainNeuralNet on a well-formed network with a fitting training
set (empty or not) returns, and leaves a well-formed network that the training
set still fits. -/
theorem trainNeuralNet_returns (m : Libm α) (tr : NNetTrainer α) (net : NeuralNet α)
    (g : RandState) (hw : net.WellFormed) (hf : tr.Fits net) :
    ∃ tr' net' g', tr.trainNeuralNet m net g = some (tr', net', g') ∧
      net'.WellFormed ∧ tr'.Fits net' := by
  by_cases hN : 0 < tr.mTrainInput.length
  · obtain ⟨tr', net', g', h, _, hw', hf', _⟩ := trainNeuralNet_keeps m tr net g hw hf hN
    exact ⟨tr', net', g', h, hw', hf'⟩
  · refine ⟨tr, net, g, ?_, hw, hf⟩
    unfold NNetTrainer.trainNeuralNet
    simp only [hN, if_false]

theorem trainCalls_returns (m : Libm α) :
    ∀ (k : Nat) (tr : NNetTrainer α) (net : NeuralNet α) (g : RandState), net.WellFormed →
      tr.Fits net →
      ∃ tr' net' g', NNetTrainer.trainCalls m k (tr, net, g) = some (tr', net', g') := by
  intro k
  induction k with
  | zero => intro tr net g _ _; exact ⟨tr, net, g, rfl⟩
  | succ k ih =>
      intro tr net g hw hf
      obtain ⟨tr1, net1, g1, h1, hw1, hf1⟩ := trainNeuralNet_returns m tr net g hw hf
      obtain ⟨tr', net', g', h2⟩ := ih tr1 net1 g1 hw1 hf1
      refine ⟨tr', net', g', ?_⟩
      simp only [NNetTrainer.trainCalls, h1, Option.bind_eq_bind, Option.some_bind]
      exact h2

/-- The steps of one pass of the training loop, each of which returns when the
pass does. -/
theorem trainExample_steps (m : Libm α) (st st' : NNetTrainer α × NeuralNet α) (index : Nat)
    (h : NNetTrainer.trainExample m st index = some st') :
    ∃ trainVec responded err outErrSig hidErrSig adjustedOut,
      vecAt st.1.mTrainInput (index : Int) = some trainVec ∧
      st.2.getResponse m trainVec [] = some responded ∧
      st.1.calcNetworkError responded.2 (index : Int) = some err ∧
      NNetTrainer.calcOutputError m { st.1 with mNetError := st.1.mNetError + err }
        responded.1 [] responded.2 (index : Int) = some outErrSig ∧
      NNetTrainer.calcHiddenError m [] outErrSig responded.1 = some hidErrSig ∧
      NNetTrainer.calcOutputWtAdjust { st.1 with mNetError := st.1.mNetError + err }
        outErrSig responded.1 = some adjustedOut ∧
      adjustedOut.1.calcHiddenWtAdjust hidErrSig trainVec adjustedOut.2 = some st' := by
  unfold NNetTrainer.trainExample at h
  simp only [Option.bind_eq_bind, Option.bind_eq_some] at h
  obtain ⟨trainVec, h1, responded, h2, err, h3, outErrSig, h4, hidErrSig, h5, adjustedOut, h6,
    h7⟩ := h
  exact ⟨trainVec, responded, err, outErrSig, hidErrSig, adjustedOut, h1, h2, h3, h4, h5, h6, h7⟩

/-- C34: if positive input and output widths are set on a new network, L >= 1
addLayer calls then all return 0, and every training example has an input
vector of exactly inputWidth values and a target vector of at least
outputWidth values, then trainNeuralNet returns for every state of the
generator, and so does every further call: no index evaluated during training
(forward pass, network error, output and hidden error signals, both
weight-adjustment routines, for every example presented) is out of bounds. In
the embedding an index outside its vector has no value, so a call that returns
has evaluated only indices within bounds. -/
theorem training_indices_in_bounds (m : Libm α) (n k : Int) (hn : 0 < n) (hk : 0 < k)
    (specs : List (LayerSpec α)) (hL : specs ≠ []) (g g' : RandState) (codes : List Int)
    (net : NeuralNet α)
    (h : NeuralNet.addLayers specs
      (((NeuralNet.new : NeuralNet α).setNumInputs n).setNumOutputs k, g)
        = some (codes, net, g'))
    (hok : ∀ code ∈ codes, code = 0) (tr : NNetTrainer α)
    (hpair : tr.mTrainTarget.length = tr.mTrainInput.length)
    (hin : ∀ x ∈ tr.mTrainInput, (x.length : Int) = n)
    (hout : ∀ t ∈ tr.mTrainTarget, k ≤ (t.length : Int)) (g2 : RandState) :
    (∃ tr' net' g'', tr.trainNeuralNet m net g2 = some (tr', net', g'')) ∧
    (∀ calls : Nat, ∃ tr' net' g'',
      NNetTrainer.trainCalls m calls (tr, net, g2) = some (tr', net', g'')) ∧
    (∀ index : Nat, index < tr.mTrainInput.length →
      ∃ trainVec responded err outErrSig hidErrSig adjustedOut st',
        vecAt tr.mTrainInput (index : Int) = some trainVec ∧
        net.getResponse m trainVec [] = some responded ∧
        tr.calcNetworkError responded.2 (index : Int) = some err ∧
        NNetTrainer.calcOutputError m { tr with mNetError := tr.mNetError + err }
          responded.1 [] responded.2 (index : Int) = some outErrSig ∧
        NNetTrainer.calcHiddenError m [] outErrSig responded.1 = some hidErrSig ∧
        NNetTrainer.calcOutputWtAdjust { tr with mNetError := tr.mNetError + err }
          outErrSig responded.1 = some adjustedOut ∧
        adjustedOut.1.calcHiddenWtAdjust hidErrSig trainVec adjustedOut.2 = some st') := by
  obtain ⟨hb0, hl0⟩ := @built_start α _ n k hn hk
  obtain ⟨hb, hl, hi, ho, _, _⟩ := addLayers_built specs _ net g g' codes hb0 h hok
  have hlen : 0 < specs.length := List.length_pos.mpr hL
  rw [hl0, zero_add] at hl
  have hw : net.WellFormed := built_wellFormed net hb (by omega)
  have hi0 : net.mNumInputs = n := by
    rw [hi]; simp [NeuralNet.setNumInputs, NeuralNet.setNumOutputs, hn, hk]
  have ho0 : net.mNumOutputs = k := by
    rw [ho]; simp [NeuralNet.setNumInputs, NeuralNet.setNumOutputs, hn, hk]
  have hf : tr.Fits net :=
    ⟨hpair, fun x hx => by rw [hi0]; exact hin x hx, fun t ht => by rw [ho0]; exact hout t ht⟩
  refine ⟨?_, fun calls => trainCalls_returns m calls tr net g2 hw hf, ?_⟩
  · obtain ⟨tr', net', g'', h1, _⟩ := trainNeuralNet_returns m tr net g2 hw hf
    exact ⟨tr', net', g'', h1⟩
  · intro index hidx
    obtain ⟨tr', net', h1, _⟩ := trainExample_keeps m tr net hw hf index hidx
    obtain ⟨a, b, c, d, e, f, q1, q2, q3, q4, q5, q6, q7⟩ :=
      trainExample_steps m (tr, net) (tr', net') index h1
    exact ⟨a, b, c, d, e, f, (tr', net'), q1, q2, q3, q4, q5, q6, q7⟩

end IndexSafety

/-- Witness for C34: a network with widths 2 and 1 and layers of 3 and 2 units,
and the training example (1, 1) -> (0): trainNeuralNet returns. -/
theorem training_indices_in_bounds_witness :
    ∃ net g', NeuralNet.addLayers exampleSpecs
        (((NeuralNet.new : NeuralNet ℚ).setNumInputs 2).setNumOutputs 1, exampleRand)
        = some ([0, 0], net, g') ∧
      ∃ tr' net' g'', exampleTrainer.trainNeuralNet exampleLibm net g' = some (tr', net', g'') := by
  obtain ⟨hb0, _⟩ := @built_start ℚ _ 2 1 (by decide) (by decide)
  obtain ⟨net, g', h⟩ := addLayers_valid exampleSpecs _ exampleRand hb0 (by
    intro sp hsp
    simp only [exampleSpecs, List.mem_cons, List.mem_singleton, List.not_mem_nil,
      or_false] at hsp
    rcases hsp with rfl | rfl <;> norm_num)
  have hc := training_indices_in_bounds exampleLibm 2 1 (by decide) (by decide) exampleSpecs
    (by simp [exampleSpecs]) exampleRand g' _ net h
    (fun code hcode => (List.mem_replicate.mp hcode).2) exampleTrainer rfl
    (by
      intro x hx
      have hx' : x ∈ [[(1 : ℚ), 1]] := hx
      rw [List.mem_singleton.mp hx']
      rfl)
    (by
      intro t ht
      have ht' : t ∈ [[(0 : ℚ)]] := ht
      rw [List.mem_singleton.mp ht']
      decide) g'
  exact ⟨net, g', h, hc.1⟩

/-! ## Training changes only weight values -/

section FrameRelations

variable {α : Type}

theorem set_same {β : Type} (l : List β) (i : Nat) (a : β) (h : l[i]? = some a) :
    l.set i a = l := by
  apply List.ext_getElem?
  intro n
  by_cases hn : i = n
  · subst hn
    rw [List.getElem?_set_self (List.getElem?_eq_some.mp h).1, h]
  · rw [List.getElem?_set_ne hn]

theorem reweighted_refl (c : NNetWeightedConnect α) : c.Reweighted c :=
  ⟨rfl, rfl, rfl, rfl, rfl⟩

theorem reweighted_trans (a b c : NNetWeightedConnect α) (h1 : a.Reweighted b)
    (h2 : b.Reweighted c) : a.Reweighted c :=
  ⟨h2.1.trans h1.1, h2.2.1.trans h1.2.1, h2.2.2.1.trans h1.2.2.1,
    h2.2.2.2.1.trans h1.2.2.2.1, h2.2.2.2.2.trans h1.2.2.2.2⟩

theorem setWeightVector_reweighted (c : NNetWeightedConnect α) (node : Int) (w : List α) :
    c.Reweighted (c.setWeightVector node w) := by
  unfold NNetWeightedConnect.setWeightVector
  split
  · cases hrow : c.mWeights[node.toNat]? with
    | none => exact reweighted_refl c
    | some row =>
        simp only
        split
        · next hlen =>
          refine ⟨rfl, rfl, rfl, rfl, ?_⟩
          show (c.mWeights.set node.toNat w).map List.length = _
          rw [List.map_set, ← hlen]
          apply set_same
          rw [List.getElem?_map, hrow]
          rfl
        · exact reweighted_refl c
  · exact reweighted_refl c

theorem retrained_refl (net : NeuralNet α) : net.Retrained net :=
  ⟨rfl, rfl, rfl, rfl, rfl, rfl, rfl, rfl, rfl, rfl, fun s c c' h h' => by
    rw [h] at h'
    rw [← Option.some.inj h']
    exact reweighted_refl c⟩

theorem retrained_trans (a b c : NeuralNet α) (h1 : a.Retrained b) (h2 : b.Retrained c) :
    a.Retrained c := by
  refine ⟨h2.1.trans h1.1, h2.2.trans h1.2, h2.3.trans h1.3, h2.4.trans h1.4, h2.5.trans h1.5,
    h2.6.trans h1.6, h2.7.trans h1.7, h2.8.trans h1.8, h2.9.trans h1.9, h2.10.trans h1.10, ?_⟩
  intro s ca cc ha hc
  have hs : s < b.mLayers.length := by
    rw [h1.numConnect]
    exact (List.getElem?_eq_some.mp ha).1
  exact reweighted_trans ca _ cc (h1.connects s ca _ ha (List.getElem?_eq_getElem hs))
    (h2.connects s _ cc (List.getElem?_eq_getElem hs) hc)

theorem cachesOnly_retrained (net : NeuralNet α) (A U : List (List α)) :
    net.Retrained { net with mActivations := A, mUnitInputs := U } :=
  ⟨rfl, rfl, rfl, rfl, rfl, rfl, rfl, rfl, rfl, rfl, fun s c c' h h' => by
    have h'' : net.mLayers[s]? = some c' := h'
    rw [h] at h''
    rw [← Option.some.inj h'']
    exact reweighted_refl c⟩

/-- Putting back a reweighted copy of the connection fetched from a layer
index leaves the network retrained, whether the index is a layer or not. -/
theorem setWeightedConnect_retrained (net : NeuralNet α) (c' : NNetWeightedConnect α)
    (layer : Int)
    (h : (net.getWeightedConnect NNetWeightedConnect.new layer).Reweighted c') :
    net.Retrained (net.setWeightedConnect c' layer) := by
  unfold NeuralNet.setWeightedConnect
  unfold NeuralNet.getWeightedConnect at h
  by_cases hin : 0 ≤ layer ∧ layer < (net.mLayers.length : Int)
  · rw [if_pos hin] at h ⊢
    have hlt : layer.toNat < net.mLayers.length := by omega
    rw [List.getElem?_eq_getElem hlt] at h
    simp only [Option.getD_some] at h
    refine ⟨rfl, rfl, rfl, rfl, rfl, rfl, rfl, rfl, rfl, ?_, ?_⟩
    · show (net.mLayers.set layer.toNat c').length = _
      simp
    · intro s c d hc hd
      have hd' : (net.mLayers.set layer.toNat c')[s]? = some d := hd
      by_cases hs : layer.toNat = s
      · subst hs
        rw [List.getElem?_set_self hlt] at hd'
        rw [List.getElem?_eq_getElem hlt] at hc
        rw [← Option.some.inj hd', ← Option.some.inj hc]
        exact h
      · rw [List.getElem?_set_ne hs, hc] at hd'
        rw [← Option.some.inj hd']
        exact reweighted_refl c
  · rw [if_neg hin]
    exact retrained_refl net

end FrameRelations

section TrainingFrame

variable {α : Type} [LinearOrderedField α]

theorem adjustNode_reweighted (learnConst momentum : α) (outErr xVec : List α)
    (c0 : NNetWeightedConnect α) (l : List Nat) (init st : ConnectAdjust α)
    (h : l.foldlM (adjustNode learnConst momentum outErr xVec) init = some st)
    (h0 : c0.Reweighted init.wtConnect) : c0.Reweighted st.wtConnect := by
  refine foldlM_preserves (fun s : ConnectAdjust α => c0.Reweighted s.wtConnect) _ ?_ l init st
    h h0
  intro s i s' hs hP
  unfold adjustNode at hs
  simp only [Option.bind_eq_bind, Option.bind_eq_some, Option.pure_def, Option.some.injEq] at hs
  obtain ⟨ei, _, adjusted, _, rfl⟩ := hs
  exact reweighted_trans _ _ _ hP (setWeightVector_reweighted _ _ _)

theorem calcOutputWtAdjust_retrained (tr tr' : NNetTrainer α) (outErr : List α)
    (net net' : NeuralNet α) (h : tr.calcOutputWtAdjust outErr net = some (tr', net')) :
    net.Retrained net' := by
  unfold NNetTrainer.calcOutputWtAdjust at h
  simp only [Option.bind_eq_bind, Option.bind_eq_some, Option.pure_def, Option.some.injEq,
    Prod.mk.injEq] at h
  obtain ⟨st, hst, _, rfl⟩ := h
  exact setWeightedConnect_retrained net st.wtConnect _
    (adjustNode_reweighted _ _ _ _ _ _ _ st hst (reweighted_refl _))

theorem calcHiddenWtAdjust_retrained (tr tr' : NNetTrainer α) (hidErrSig : List (List α))
    (inputVec : List α) (net net' : NeuralNet α)
    (h : tr.calcHiddenWtAdjust hidErrSig inputVec net = some (tr', net')) :
    net.Retrained net' := by
  unfold NNetTrainer.calcHiddenWtAdjust at h
  simp only [Option.bind_eq_bind, Option.bind_eq_some, Option.pure_def, Option.some.injEq,
    Prod.mk.injEq] at h
  obtain ⟨st, hst, _, rfl⟩ := h
  refine foldlM_preserves (fun s : HiddenAdjust α => net.Retrained s.nNet) _ ?_ _ _ st hst
    (retrained_refl net)
  intro s n s' hs hP
  unfold NNetTrainer.hiddenLayerAdjust at hs
  simp only [Option.bind_eq_bind, Option.bind_eq_some, Option.pure_def, Option.some.injEq] at hs
  obtain ⟨outErr, _, adjusted, hadj, rfl⟩ := hs
  exact retrained_trans _ _ _ hP (setWeightedConnect_retrained s.nNet adjusted.wtConnect _
    (adjustNode_reweighted _ _ _ _ _ _ _ adjusted hadj (reweighted_refl _)))

theorem trainExample_retrained (m : Libm α) (st st' : NNetTrainer α × NeuralNet α)
    (index : Nat) (h : NNetTrainer.trainExample m st index = some st') :
    st.2.Retrained st'.2 := by
  obtain ⟨trainVec, responded, err, outErrSig, hidErrSig, adjustedOut, _, h2, _, _, _, h6, h7⟩ :=
    trainExample_steps m st st' index h
  obtain ⟨A, U, hr⟩ := getResponse_keeps m st.2 responded.1 trainVec [] responded.2 h2
  have r1 : st.2.Retrained responded.1 := by
    rw [hr]
    exact cachesOnly_retrained st.2 A U
  have r2 := calcOutputWtAdjust_retrained _ adjustedOut.1 outErrSig responded.1 adjustedOut.2 h6
  have r3 := calcHiddenWtAdjust_retrained adjustedOut.1 st'.1 hidErrSig trainVec adjustedOut.2
    st'.2 h7
  exact retrained_trans _ _ _ r1 (retrained_trans _ _ _ r2 r3)

theorem trainNeuralNet_retrained (m : Libm α) (tr tr' : NNetTrainer α) (net net' : NeuralNet α)
    (g g' : RandState) (h : tr.trainNeuralNet m net g = some (tr', net', g')) :
    net.Retrained net' := by
  unfold NNetTrainer.trainNeuralNet at h
  by_cases hN : 0 < tr.mTrainInput.length
  · simp only [hN, if_true, Option.bind_eq_bind, Option.bind_eq_some, Option.pure_def,
      Option.some.injEq, Prod.mk.injEq] at h
    obtain ⟨st, hst, _, rfl, _⟩ := h
    exact foldlM_preserves (fun s : NNetTrainer α × NeuralNet α => net.Retrained s.2) _
      (fun s i s' hs hP => retrained_trans _ _ _ hP (trainExample_retrained m s s' i hs))
      _ (tr, net) st hst (retrained_refl net)
  · simp only [hN, if_false, Option.some.injEq, Prod.mk.injEq] at h
    obtain ⟨_, rfl, _⟩ := h
    exact retrained_refl net

/-- C35: whenever trainNeuralNet returns, whatever the network and the
training set, the network afterwards has the input width, output width,
hidden-layer count, output-layer and hidden-layer activation details and
number of connections it had before, and every connection has the node counts,
the number of weight rows and the row lengths it had before; on a well-formed
network with a fitting training set the call does return; and with an empty
training set it returns the network, the trainer and the generator exactly as
they were. -/
theorem trainNeuralNet_changes_only_weights (m : Libm α) :
    (∀ (tr tr' : NNetTrainer α) (net net' : NeuralNet α) (g g' : RandState),
      tr.trainNeuralNet m net g = some (tr', net', g') →
        net'.mNumInputs = net.mNumInputs ∧ net'.mNumOutputs = net.mNumOutputs ∧
        net'.mNumLayers = net.mNumLayers ∧ net'.mOutUnitType = net.mOutUnitType ∧
        net'.mOutUnitSlope = net.mOutUnitSlope ∧ net'.mOutUnitAmplify = net.mOutUnitAmplify ∧
        net'.mActiveUnits = net.mActiveUnits ∧ net'.mActiveSlope = net.mActiveSlope ∧
        net'.mActiveAmplify = net.mActiveAmplify ∧
        net'.mLayers.length = net.mLayers.length ∧
        ∀ (s : Nat) (c : NNetWeightedConnect α), net.mLayers[s]? = some c →
          ∃ c', net'.mLayers[s]? = some c' ∧ c'.mNumInNodes = c.mNumInNodes ∧
            c'.mNumOutNodes = c.mNumOutNodes ∧ c'.mWeights.length = c.mWeights.length ∧
            c'.mWeights.map List.length = c.mWeights.map List.length) ∧
    (∀ (tr : NNetTrainer α) (net : NeuralNet α) (g : RandState), net.WellFormed →
      tr.Fits net → ∃ tr' net' g', tr.trainNeuralNet m net g = some (tr', net', g')) ∧
    (∀ (tr : NNetTrainer α) (net : NeuralNet α) (g : RandState), tr.mTrainInput = [] →
      tr.trainNeuralNet m net g = some (tr, net, g)) := by
  refine ⟨?_, ?_, ?_⟩
  · intro tr tr' net net' g g' h
    have hr := trainNeuralNet_retrained m tr tr' net net' g g' h
    refine ⟨hr.1, hr.2, hr.3, hr.4, hr.5, hr.6, hr.7, hr.8, hr.9, hr.10, ?_⟩
    intro s c hc
    have hs : s < net'.mLayers.length := by
      rw [hr.numConnect]
      exact (List.getElem?_eq_some.mp hc).1
    have hrw := hr.connects s c _ hc (List.getElem?_eq_getElem hs)
    refine ⟨_, List.getElem?_eq_getElem hs, hrw.1, hrw.2.1, ?_, hrw.2.2.2.2⟩
    have := congrArg List.length hrw.2.2.2.2
    simpa using this
  · intro tr net g hw hf
    obtain ⟨tr', net', g', h, _⟩ := trainNeuralNet_returns m tr net g hw hf
    exact ⟨tr', net', g', h⟩
  · intro tr net g hN
    unfold NNetTrainer.trainNeuralNet
    simp [hN]

end TrainingFrame

/-- Witness for C35: one call of trainNeuralNet for the example trainer on the
example network returns a network with 2 inputs, 1 output, 1 hidden layer and
2 connections, whose first connection still has 2 rows of 2 weights. -/
theorem trainNeuralNet_changes_only_weights_witness :
    ∃ tr' net' g', exampleTrainer.trainNeuralNet exampleLibm exampleNet exampleRand
        = some (tr', net', g') ∧
      net'.mNumInputs = 2 ∧ net'.mNumOutputs = 1 ∧ net'.mNumLayers = 1 ∧
      net'.mLayers.length = 2 ∧
      ∃ c', net'.mLayers[0]? = some c' ∧ c'.mWeights.map List.length = [2, 2] := by
  have hs : (exampleTrainer.trainNeuralNet exampleLibm exampleNet exampleRand).isSome
      = true := by
    with_unfolding_all rfl
  obtain ⟨⟨tr', net', g'⟩, htr⟩ := Option.isSome_iff_exists.mp hs
  have h := (trainNeuralNet_changes_only_weights exampleLibm).1 exampleTrainer tr' exampleNet
    net' exampleRand g' htr
  obtain ⟨c', hc', _, _, _, hm⟩ := h.2.2.2.2.2.2.2.2.2.2 0 _ rfl
  exact ⟨tr', net', g', htr, h.1, h.2.1, h.2.2.1, h.2.2.2.2.2.2.2.2.2.1, c', hc', hm⟩

/-! ## The hidden-layer error signals -/

section HiddenError

variable {α : Type} [LinearOrderedField α]

/-- The forward pass on a training example and the two error-signal routines
after it, on a well-formed network: each returns, the output error signal is
the error signal 0 steps before the output layer and the hidden error signals
are those 1, 2, ... steps before it. -/
theorem forward_error_signals (m : Libm α) (tr : NNetTrainer α) (net : NeuralNet α)
    (hw : net.WellFormed) (x t : List α) (index : Nat)
    (htget : tr.mTrainTarget[index]? = some t)
    (hx : (x.length : Int) = net.mNumInputs) (ht : net.mNumOutputs ≤ (t.length : Int)) :
    net.getResponse m x [] = some (net.responded m x, net.responseSpec m x) ∧
    (net.responded m x).WellFormed ∧ (net.responded m x).CachesOf m x ∧
    (∀ e : α, NNetTrainer.calcOutputError m { tr with mNetError := e } (net.responded m x) []
      (net.responseSpec m x) (index : Int) = some (net.errorSignal m x t 0)) ∧
    NNetTrainer.calcHiddenError m [] (net.errorSignal m x t 0) (net.responded m x) =
      some ((List.range net.mNumLayers.toNat).map (fun r => net.errorSignal m x t (r + 1))) := by
  obtain ⟨hresp, hrlen⟩ := getResponse_spec m net hw x [] (by omega)
  have hw1 : (net.responded m x).WellFormed := cachesOnly_wellFormed net hw _ _
  have hc1 : (net.responded m x).CachesOf m x := responded_cachesOf m net x
  have hLpos := hw.layersPos
  have hrt : (net.responseSpec m x).length ≤ t.length := by omega
  have hLlt : net.mNumLayers.toNat < net.mLayers.length := by rw [hw.numConnect]; omega
  obtain ⟨cL, hcL, _⟩ := layer_exists net hw net.mNumLayers.toNat le_rfl
  have hUI : (net.responded m x).getUnitInputs [] net.mNumLayers
      = net.preAt m x net.mNumLayers.toNat := by
    have hcast : net.mNumLayers = ((net.mNumLayers.toNat : Nat) : Int) := by omega
    rw [← cachesOnly_preAt m net _ _ x]
    conv_lhs => rw [hcast]
    exact getUnitInputs_cache m _ x hc1 _ hLlt []
  have hpl := preAt_length m net x net.mNumLayers.toNat cL hcL
  have hrp := responseSpec_eq_postAt m net hw x
  have hE : ∀ k, (net.responded m x).errorSignal m x t k = net.errorSignal m x t k :=
    cachesOnly_errorSignal m net _ _ x t
  have hout : ∀ e : α, NNetTrainer.calcOutputError m { tr with mNetError := e }
      (net.responded m x) [] (net.responseSpec m x) (index : Int)
        = some (net.errorSignal m x t 0) := by
    intro e
    rw [calcOutputError_eq m { tr with mNetError := e } _ (net.responseSpec m x) t index htget
      hrt (by
        show _ ≤ (NeuralNet.getUnitInputs _ [] net.mNumLayers).length
        rw [hUI, hpl.1, hrp, hpl.2])]
    show some (outputDelta m _ t _ ((net.responded m x).getUnitInputs [] net.mNumLayers)) = _
    rw [hUI, hrp]
    rfl
  have hhid := calcHiddenError_eq m _ hw1 x t hc1
  simp only [hE] at hhid
  exact ⟨hresp, hw1, hc1, hout, hhid⟩

/-- C31: for a well-formed network with L >= 1 hidden layers and a training
example that fits it, after the forward pass and calcOutputError, calcHiddenError
returns exactly L error vectors in reverse layer order: the vector of hidden
layer h is entry L-1-h, it has as many entries as layer h has units, and its
entry j is gradient(kind_h, slope_h, amplify_h, pre_h[j]) times the sum over k
of delta_(h+1)[k] * W_(h+1)[k][j], where W_(h+1) is the weight matrix of
connection h+1, pre_h is getUnitInputs(h), delta_L is the output error signal
and delta_(h+1) for h+1 < L is the vector of hidden layer h+1. -/
theorem calcHiddenError_signals (m : Libm α) (tr : NNetTrainer α) (net : NeuralNet α)
    (hw : net.WellFormed) (hf : tr.Fits net) (index : Nat)
    (hi : index < tr.mTrainInput.length) :
    ∃ net' response outErr hidErr,
      net.getResponse m (tr.mTrainInput.getD index []) [] = some (net', response) ∧
      (∀ e : α, NNetTrainer.calcOutputError m { tr with mNetError := e } net' [] response
        (index : Int) = some outErr) ∧
      NNetTrainer.calcHiddenError m [] outErr net' = some hidErr ∧
      hidErr.length = net.mNumLayers.toNat ∧
      ∀ h, h < net.mNumLayers.toNat →
        ∃ c d v, net.mLayers[h]? = some c ∧ net.mLayers[h + 1]? = some d ∧
          hidErr[net.mNumLayers.toNat - 1 - h]? = some v ∧
          (v.length : Int) = c.mNumOutNodes ∧
          ∀ j, j < v.length →
            v[j]? = some
              (getGradient m (net.stageDetails h).1 (net.stageDetails h).2.1
                  (net.stageDetails h).2.2 ((net'.getUnitInputs [] (h : Int)).getD j 0) *
                backSum d.mWeights
                  (if h + 1 = net.mNumLayers.toNat then outErr
                    else hidErr.getD (net.mNumLayers.toNat - 1 - (h + 1)) []) j) := by
  have hit : index < tr.mTrainTarget.length := by rw [hf.paired]; exact hi
  have hxget : tr.mTrainInput[index]? = some tr.mTrainInput[index] :=
    List.getElem?_eq_getElem hi
  have htget : tr.mTrainTarget[index]? = some tr.mTrainTarget[index] :=
    List.getElem?_eq_getElem hit
  have hxD : tr.mTrainInput.getD index [] = tr.mTrainInput[index] := by
    rw [List.getD_eq_getElem?_getD, hxget]; rfl
  rw [hxD]
  generalize tr.mTrainInput[index] = x at hxget hxD
  generalize tr.mTrainTarget[index] = t at htget
  have hx : (x.length : Int) = net.mNumInputs := hf.inputs x (List.getElem?_mem hxget)
  have ht : net.mNumOutputs ≤ (t.length : Int) := hf.targets t (List.getElem?_mem htget)
  obtain ⟨hresp, hw1, hc1, hout, hhid⟩ := forward_error_signals m tr net hw x t index htget hx ht
  have hLpos := hw.layersPos
  refine ⟨_, _, _, _, hresp, hout, hhid, by simp, ?_⟩
  intro h hh
  obtain ⟨c, hc, hcs⟩ := layer_exists net hw h (by omega)
  obtain ⟨d, hd, _⟩ := layer_exists net hw (h + 1) (by omega)
  have hpre : (net.responded m x).getUnitInputs [] (h : Int) = net.preAt m x h := by
    rw [← cachesOnly_preAt m net _ _ x]
    exact getUnitInputs_cache m _ x hc1 h
      (by show h < net.mLayers.length; rw [hw.numConnect]; omega) []
  have hplen := (preAt_length m net x h c hc).1
  have hr : net.mNumLayers.toNat - 1 - h < net.mNumLayers.toNat := by omega
  have hk1 : net.mNumLayers.toNat - (net.mNumLayers.toNat - 1 - h + 1) = h := by omega
  have hk2 : net.mNumLayers.toNat - (net.mNumLayers.toNat - 1 - h) = h + 1 := by omega
  have hsig : net.errorSignal m x t (net.mNumLayers.toNat - 1 - h + 1)
      = hiddenDelta m (net.stageDetails h) d.mWeights
          (net.errorSignal m x t (net.mNumLayers.toNat - 1 - h)) (net.preAt m x h) := by
    show hiddenDelta m _ _ _ _ = _
    rw [hk1, hk2]
    simp only [NeuralNet.weightsAt, hd]
  have hnext : (if h + 1 = net.mNumLayers.toNat then net.errorSignal m x t 0
      else ((List.range net.mNumLayers.toNat).map
        (fun r => net.errorSignal m x t (r + 1))).getD (net.mNumLayers.toNat - 1 - (h + 1)) [])
      = net.errorSignal m x t (net.mNumLayers.toNat - 1 - h) := by
    by_cases hlast : h + 1 = net.mNumLayers.toNat
    · rw [if_pos hlast]
      have : net.mNumLayers.toNat - 1 - h = 0 := by omega
      rw [this]
    · rw [if_neg hlast, List.getD_eq_getElem?_getD, List.getElem?_map,
        List.getElem?_range (by omega)]
      have : net.mNumLayers.toNat - 1 - (h + 1) + 1 = net.mNumLayers.toNat - 1 - h := by omega
      simp only [Option.map_some', Option.getD_some, this]
  refine ⟨c, d, net.errorSignal m x t (net.mNumLayers.toNat - 1 - h + 1), hc, hd, ?_, ?_, ?_⟩
  · rw [List.getElem?_map, List.getElem?_range hr]
    rfl
  · rw [hsig]
    simp only [hiddenDelta, List.length_map, List.length_range]
    rw [hplen]
    exact hcs.rows
  · intro j hj
    rw [hnext, hpre]
    rw [hsig] at hj ⊢
    simp only [hiddenDelta, List.length_map, List.length_range] at hj
    simp only [hiddenDelta, List.getElem?_map, List.getElem?_range hj, Option.map_some']

end HiddenError

/-- Witness for C31: for the example trainer (input (1, 1), target (0)) on the
example network (one hidden layer of two Linear units with slope 1 and amplify
2, output weights 1, -1) the output error signal is 72 and calcHiddenError
returns the single vector 2 * 72 * 1, 2 * 72 * (-1). -/
theorem calcHiddenError_signals_witness :
    ∃ net', exampleNet.getResponse exampleLibm [1, 1] [] = some (net', [-24]) ∧
      exampleTrainer.calcOutputError exampleLibm net' [] [-24] 0 = some [72] ∧
      NNetTrainer.calcHiddenError exampleLibm [] [72] net' = some [[144, -144]] := by
  obtain ⟨net', response, outErr, hidErr, h1, h2, h3, _, _⟩ :=
    calcHiddenError_signals exampleLibm exampleTrainer exampleNet exampleNet_wellFormed
      exampleTrainer_fits 0 (by decide)
  have e1 : (exampleNet.getResponse exampleLibm [1, 1] []).map Prod.snd = some [-24] := by
    with_unfolding_all rfl
  have h1' : exampleNet.getResponse exampleLibm [1, 1] [] = some (net', response) := h1
  rw [h1'] at e1
  have hr : response = [-24] := by simpa using e1
  subst hr
  have e2 : ((exampleNet.getResponse exampleLibm [1, 1] []).bind (fun r =>
      exampleTrainer.calcOutputError exampleLibm r.1 [] [-24] 0)) = some [72] := by
    with_unfolding_all rfl
  rw [h1'] at e2
  have h2' := h2 exampleTrainer.mNetError
  have h2'' : exampleTrainer.calcOutputError exampleLibm net' [] [-24] 0 = some outErr := h2'
  simp only [Option.some_bind] at e2
  rw [h2''] at e2
  have ho : outErr = [72] := by simpa using e2
  subst ho
  have e3 : ((exampleNet.getResponse exampleLibm [1, 1] []).bind (fun r =>
      NNetTrainer.calcHiddenError exampleLibm [] [72] r.1)) = some [[144, -144]] := by
    with_unfolding_all rfl
  rw [h1'] at e3
  simp only [Option.some_bind] at e3
  exact ⟨net', h1', h2'', e3⟩

/-! ## The momentum term of the weight adjustments -/

section MomentumRow

variable {α : Type} [LinearOrderedField α]

/-- The loop over the input nodes of one weight row with momentum on, started
with the flat counter at `idx` within or at the end of the history: weight `j`
receives the delta `learnConst * ei * x_j`, plus momentum times the stored
delta when the history has an entry at position `idx + j`, and that delta is
stored at the position; the rest of the history is untouched. -/
theorem adjustWeight_momentum_loop (learnConst momentum ei : α) (hm : 0 < momentum)
    (xVec row : List α) (hrow : row.length = xVec.length) (prev : List α) (idx : Nat)
    (hidx : idx ≤ prev.length) :
    ∀ k, k ≤ xVec.length →
      ∃ st, (List.range k).foldlM (adjustWeight learnConst momentum ei xVec)
          { weights := row, prevWt := prev, prevIdx := idx } = some st ∧
        st.weights.length = row.length ∧ st.prevIdx = idx + k ∧
        (∀ j, st.weights[j]? = if j < k then
            some (row.getD j 0 +
              momentumDelta learnConst momentum ei (xVec.getD j 0) prev[idx + j]?)
          else row[j]?) ∧
        st.prevWt.length = max prev.length (idx + k) ∧
        (∀ p, st.prevWt[p]? = if idx ≤ p ∧ p < idx + k then
            some (momentumDelta learnConst momentum ei (xVec.getD (p - idx) 0) prev[p]?)
          else prev[p]?) := by
  intro k
  induction k with
  | zero =>
    intro _
    refine ⟨_, rfl, rfl, rfl, ?_, ?_, ?_⟩
    · intro j; simp
    · show prev.length = max prev.length (idx + 0)
      rw [Nat.add_zero, Nat.max_eq_left hidx]
    · intro p
      rw [if_neg (by omega)]
  | succ k ih =>
    intro hk
    obtain ⟨st, hst, hlen, hsidx, hwt, hplen, hpv⟩ := ih (by omega)
    have hkx : k < xVec.length := hk
    have hkw : k < st.weights.length := by omega
    have hkr : k < row.length := by omega
    have hwk : st.weights.getD k 0 = row.getD k 0 := by
      rw [List.getD_eq_getElem?_getD, hwt k, if_neg (Nat.lt_irrefl k),
        List.getD_eq_getElem?_getD]
    have hpk : st.prevWt[idx + k]? = prev[idx + k]? := by
      rw [hpv (idx + k), if_neg (by omega)]
    rw [List.range_succ, List.foldlM_append, hst]
    simp only [Option.bind_eq_bind, Option.some_bind, List.foldlM_cons, List.foldlM_nil,
      Option.pure_def]
    unfold adjustWeight
    rw [vecAt_getD xVec k 0 hkx, vecAt_getD st.weights k 0 hkw]
    simp only [Option.bind_eq_bind, Option.some_bind, Option.pure_def]
    rw [if_pos hm, hsidx, hwk]
    by_cases hp : idx + k < st.prevWt.length
    · have hp' : idx + k < prev.length := by
        rw [hplen] at hp
        rcases Nat.le_total prev.length (idx + k) with h | h
        · rw [Nat.max_eq_right h] at hp; omega
        · rw [Nat.max_eq_left h] at hp; exact hp
      have hD : st.prevWt.getD (idx + k) 0 = prev.getD (idx + k) 0 := by
        rw [List.getD_eq_getElem?_getD, hpk, List.getD_eq_getElem?_getD]
      have hΔ : learnConst * ei * xVec.getD k 0 + momentum * prev.getD (idx + k) 0
          = momentumDelta learnConst momentum ei (xVec.getD k 0) prev[idx + k]? := by
        simp only [List.getD_eq_getElem?_getD, List.getElem?_eq_getElem hp', Option.getD_some,
          momentumDelta]
      rw [if_pos hp, vecAt_getD st.prevWt (idx + k) 0 hp]
      simp only [Option.some_bind]
      rw [vecAssign_natCast _ _ _ hp]
      simp only [Option.some_bind]
      rw [vecAssign_natCast _ _ _ hkw]
      simp only [Option.some_bind]
      rw [hD, hΔ]
      refine ⟨_, rfl, ?_, ?_, ?_, ?_, ?_⟩
      · simp [hlen]
      · show idx + k + 1 = idx + (k + 1)
        omega
      · intro j
        show (st.weights.set k _)[j]? = _
        by_cases hjk : k = j
        · subst hjk
          rw [List.getElem?_set_self hkw, if_pos (Nat.lt_succ_self _)]
        · rw [List.getElem?_set_ne hjk, hwt j]
          by_cases hj : j < k
          · rw [if_pos hj, if_pos (by omega)]
          · rw [if_neg hj, if_neg (by omega)]
      · show (st.prevWt.set (idx + k) _).length = _
        rw [List.length_set, hplen]
        omega
      · intro p
        show (st.prevWt.set (idx + k) _)[p]? = _
        by_cases hpk' : idx + k = p
        · subst hpk'
          rw [List.getElem?_set_self hp, if_pos ⟨by omega, by omega⟩, Nat.add_sub_cancel_left]
        · rw [List.getElem?_set_ne hpk', hpv p]
          by_cases hin : idx ≤ p ∧ p < idx + k
          · rw [if_pos hin, if_pos ⟨hin.1, by omega⟩]
          · rw [if_neg hin, if_neg (by omega)]
    · have hp' : prev.length ≤ idx + k := by
        rw [hplen] at hp
        have := Nat.le_max_left prev.length (idx + k)
        omega
      have hL : st.prevWt.length = idx + k := by
        rw [hplen, Nat.max_eq_right hp']
      have hΔ : learnConst * ei * xVec.getD k 0
          = momentumDelta learnConst momentum ei (xVec.getD k 0) prev[idx + k]? := by
        rw [List.getElem?_eq_none hp']
        rfl
      rw [if_neg hp]
      rw [vecAssign_natCast _ _ _ hkw]
      simp only [Option.some_bind]
      rw [hΔ]
      refine ⟨_, rfl, ?_, ?_, ?_, ?_, ?_⟩
      · simp [hlen]
      · show idx + k + 1 = idx + (k + 1)
        omega
      · intro j
        show (st.weights.set k _)[j]? = _
        by_cases hjk : k = j
        · subst hjk
          rw [List.getElem?_set_self hkw, if_pos (Nat.lt_succ_self _)]
        · rw [List.getElem?_set_ne hjk, hwt j]
          by_cases hj : j < k
          · rw [if_pos hj, if_pos (by omega)]
          · rw [if_neg hj, if_neg (by omega)]
      · show (st.prevWt ++ [_]).length = _
        rw [List.length_append, hL, List.length_singleton]
        omega
      · intro p
        show (st.prevWt ++ [_])[p]? = _
        by_cases hlt : p < idx + k
        · rw [List.getElem?_append_left (by omega), hpv p]
          by_cases hin : idx ≤ p ∧ p < idx + k
          · rw [if_pos hin, if_pos ⟨hin.1, by omega⟩]
          · rw [if_neg hin, if_neg (by omega)]
        · rw [List.getElem?_append_right (by omega), hL]
          by_cases heq : p = idx + k
          · subst heq
            rw [Nat.sub_self, if_pos ⟨by omega, by omega⟩, Nat.add_sub_cancel_left]
            rfl
          · have h1 : prev[p]? = none := List.getElem?_eq_none (by omega)
            rw [if_neg (by omega), h1]
            apply List.getElem?_eq_none
            simp only [List.length_singleton]
            omega

end MomentumRow

section MomentumNode

variable {α : Type} [LinearOrderedField α]

theorem flat_index_lt (i k n j : Nat) (hi : i < k) (hj : j < n) : i * n + j < k * n := by
  have h1 : (i + 1) * n ≤ k * n := Nat.mul_le_mul_right n hi
  rw [Nat.succ_mul] at h1
  omega

/-- The loop over the output nodes of one connection with momentum on, started
with the flat counter at `idx` within or at the end of the history: the weight
of output node `i` and input node `j` receives the delta
`learnConst * outErr_i * x_j`, plus momentum times the stored delta when the
history has an entry at position `idx + i * nIn + j`, and that delta is stored
at the position; the rest of the history is untouched. -/
theorem adjustNode_momentum_loop (learnConst momentum : α) (hm : 0 < momentum)
    (outErr xVec : List α) (c : NNetWeightedConnect α)
    (hcols : ∀ row ∈ c.mWeights, row.length = xVec.length)
    (herr : c.mWeights.length ≤ outErr.length) (prev : List α) (idx : Nat)
    (hidx : idx ≤ prev.length) :
    ∀ k, k ≤ c.mWeights.length →
      ∃ W P, (List.range k).foldlM (adjustNode learnConst momentum outErr xVec)
          { wtConnect := c, prevWt := prev, prevIdx := idx }
          = some { wtConnect := { c with mWeights := W }, prevWt := P,
                   prevIdx := idx + k * xVec.length } ∧
        W.length = c.mWeights.length ∧ (∀ row ∈ W, row.length = xVec.length) ∧
        (∀ i, k ≤ i → W[i]? = c.mWeights[i]?) ∧
        (∀ i j, i < k → j < xVec.length →
          (W.getD i []).getD j 0 = (c.mWeights.getD i []).getD j 0 +
            momentumDelta learnConst momentum (outErr.getD i 0) (xVec.getD j 0)
              prev[idx + i * xVec.length + j]?) ∧
        P.length = max prev.length (idx + k * xVec.length) ∧
        (∀ i j, i < k → j < xVec.length →
          P[idx + i * xVec.length + j]? =
            some (momentumDelta learnConst momentum (outErr.getD i 0) (xVec.getD j 0)
              prev[idx + i * xVec.length + j]?)) ∧
        (∀ p, p < idx ∨ idx + k * xVec.length ≤ p → P[p]? = prev[p]?) := by
  intro k
  induction k with
  | zero =>
    intro _
    refine ⟨c.mWeights, prev, ?_, rfl, hcols, fun _ _ => rfl, ?_, ?_, ?_, fun _ _ => rfl⟩
    · simp
    · intro i j hi; omega
    · rw [Nat.zero_mul, Nat.add_zero, Nat.max_eq_left hidx]
    · intro i j hi; omega
  | succ k ih =>
    intro hk
    obtain ⟨W, P, hst, hlen, hrows, hkeep, hval, hPlen, hPval, hPkeep⟩ := ih (by omega)
    have hkW : k < W.length := by omega
    have hkc : k < c.mWeights.length := by omega
    have hke : k < outErr.length := by omega
    have hsucc : (k + 1) * xVec.length = k * xVec.length + xVec.length := Nat.succ_mul k _
    have hWk : W.getD k [] = c.mWeights.getD k [] := by
      rw [List.getD_eq_getElem?_getD, hkeep k le_rfl, List.getD_eq_getElem?_getD]
    have hrowlen : (W.getD k []).length = xVec.length := by
      apply hrows
      rw [List.getD_eq_getElem?_getD, List.getElem?_eq_getElem hkW]
      exact List.getElem_mem _
    have hidxk : idx + k * xVec.length ≤ P.length := by
      rw [hPlen]; exact Nat.le_max_right _ _
    obtain ⟨st, hrow, hwl, hsi, hsw, hsl, hsp⟩ := adjustWeight_momentum_loop learnConst momentum
      (outErr.getD k 0) hm xVec (W.getD k []) hrowlen P (idx + k * xVec.length) hidxk
      xVec.length le_rfl
    rw [List.range_succ, List.foldlM_append, hst]
    simp only [Option.bind_eq_bind, Option.some_bind, List.foldlM_cons, List.foldlM_nil,
      Option.pure_def]
    unfold adjustNode
    rw [vecAt_getD outErr k 0 hke]
    simp only [Option.bind_eq_bind, Option.some_bind, Option.pure_def]
    rw [getWeightVector_natCast _ k [] hkW]
    simp only []
    rw [hrow]
    simp only [Option.some_bind]
    rw [setWeightVector_natCast _ k st.weights hkW (by simpa using hwl.symm)]
    have hnew : ∀ j, j < xVec.length →
        st.weights.getD j 0 = (c.mWeights.getD k []).getD j 0 +
          momentumDelta learnConst momentum (outErr.getD k 0) (xVec.getD j 0)
            prev[idx + k * xVec.length + j]? := by
      intro j hj
      rw [List.getD_eq_getElem?_getD, hsw j, if_pos hj, hPkeep _ (Or.inr (by omega)), hWk]
      rfl
    refine ⟨W.set k st.weights, st.prevWt, ?_, ?_, ?_, ?_, ?_, ?_, ?_, ?_⟩
    · rw [hsi, hsucc, Nat.add_assoc]
    · simp [hlen]
    · intro row hrow'
      rcases List.mem_or_eq_of_mem_set hrow' with h | h
      · exact hrows row h
      · rw [h, hwl, hrowlen]
    · intro i hi
      rw [List.getElem?_set_ne (by omega)]
      exact hkeep i (by omega)
    · intro i j hi hj
      by_cases hik : i = k
      · subst hik
        rw [List.getD_eq_getElem?_getD (W.set i st.weights), List.getElem?_set_self hkW]
        exact hnew j hj
      · rw [List.getD_eq_getElem?_getD (W.set k st.weights), List.getElem?_set_ne (Ne.symm hik),
          ← List.getD_eq_getElem?_getD]
        exact hval i j (by omega) hj
    · rw [hsl, hPlen, hsucc]
      omega
    · intro i j hi hj
      by_cases hik : i = k
      · subst hik
        rw [hsp, if_pos ⟨by omega, by omega⟩, hPkeep _ (Or.inr (by omega))]
        have : idx + i * xVec.length + j - (idx + i * xVec.length) = j := by omega
        rw [this]
      · have hlt := flat_index_lt i k xVec.length j (by omega) hj
        rw [hsp, if_neg (by omega)]
        exact hPval i j (by omega) hj
    · intro p hp
      rw [hsp, if_neg (by omega)]
      exact hPkeep p (by omega)

end MomentumNode

section MomentumConnect

variable {α : Type} [LinearOrderedField α]

theorem flatOffset_step (cnt : Nat → Nat) (L s : Nat) (hs : s < L) :
    flatOffset cnt L s = cnt s + flatOffset cnt L (s + 1) := by
  unfold flatOffset
  have h : L - s = (L - (s + 1)) + 1 := by omega
  rw [h, List.range'_succ, List.map_cons, List.sum_cons]

theorem flatOffset_end (cnt : Nat → Nat) (L : Nat) : flatOffset cnt L L = 0 := by
  simp [flatOffset]

theorem flatOffset_mono (cnt : Nat → Nat) (L : Nat) :
    ∀ (d a : Nat), a + d ≤ L → flatOffset cnt L (a + d) ≤ flatOffset cnt L a := by
  intro d
  induction d with
  | zero => intro a _; exact le_rfl
  | succ d ih =>
      intro a ha
      have h1 := ih (a + 1) (by omega)
      have h2 := flatOffset_step cnt L a (by omega)
      have e : a + (d + 1) = a + 1 + d := by omega
      rw [e]
      omega

/-- The routine calcOutputWtAdjust with momentum on: the weight of output node
`i` and input node `j` of the output connection receives the delta
`learnConst * outErr_i * x_j`, plus momentum times the stored delta when the
output history has an entry at position `i * nIn + j`, and that delta is
stored at the position; the rest of the history is untouched. -/
theorem calcOutputWtAdjust_momentum (tr : NNetTrainer α) (hm : 0 < tr.mMomentum)
    (outErr : List α) (net : NeuralNet α)
    (L : Nat) (hL : net.mNumLayers = (L : Int)) (c : NNetWeightedConnect α)
    (hget : net.mLayers[L]? = some c) (xVec : List α)
    (hx : net.getActivations [] ((L : Int) - 1) = xVec)
    (hcols : ∀ row ∈ c.mWeights, row.length = xVec.length)
    (hn : c.mNumOutNodes.toNat = c.mWeights.length)
    (herr : c.mWeights.length ≤ outErr.length) :
    ∃ W P, tr.calcOutputWtAdjust outErr net =
        some ({ tr with mPrevOutWt := P },
          { net with mLayers := net.mLayers.set L { c with mWeights := W } }) ∧
      W.length = c.mWeights.length ∧ (∀ row ∈ W, row.length = xVec.length) ∧
      (∀ i j, i < c.mWeights.length → j < xVec.length →
        (W.getD i []).getD j 0 = (c.mWeights.getD i []).getD j 0 +
          momentumDelta tr.mLearnConst tr.mMomentum (outErr.getD i 0) (xVec.getD j 0)
            tr.mPrevOutWt[i * xVec.length + j]?) ∧
      P.length = max tr.mPrevOutWt.length (c.mWeights.length * xVec.length) ∧
      (∀ i j, i < c.mWeights.length → j < xVec.length →
        P[i * xVec.length + j]? =
          some (momentumDelta tr.mLearnConst tr.mMomentum (outErr.getD i 0) (xVec.getD j 0)
            tr.mPrevOutWt[i * xVec.length + j]?)) ∧
      (∀ p, c.mWeights.length * xVec.length ≤ p → P[p]? = tr.mPrevOutWt[p]?) := by
  obtain ⟨W, P, h, hl, hr, _, hval, hPl, hPv, hPk⟩ := adjustNode_momentum_loop tr.mLearnConst
    tr.mMomentum hm outErr xVec c hcols herr tr.mPrevOutWt 0 (Nat.zero_le _) c.mWeights.length
    le_rfl
  have hlt : L < net.mLayers.length := (List.getElem?_eq_some.mp hget).1
  simp only [Nat.zero_add] at hval hPl hPv hPk
  refine ⟨W, P, ?_, hl, hr, hval, hPl, hPv, fun p hp => hPk p (Or.inr hp)⟩
  unfold NNetTrainer.calcOutputWtAdjust
  simp only [hL, getWeightedConnect_natCast net _ c L hget, hn, hx, h, Option.bind_eq_bind,
    Option.some_bind, Option.pure_def, setWeightedConnect_natCast net _ L hlt]

/-- The layer loop of calcHiddenWtAdjust with momentum on, from connection
index L-1 back to `s`: the flat counter has passed the weights of the
connections s..L-1, each weight of these connections has received its delta
(with momentum times the stored delta where the hidden history had an entry)
and the delta is stored at the weight's position; the history beyond the
counter is untouched. -/
theorem hiddenAdjust_momentum_loop (tr : NNetTrainer α) (hm : 0 < tr.mMomentum)
    (hidErrSig : List (List α)) (inputVec : List α) (nb : NeuralNet α) (L : Nat)
    (cnt : Nat → Nat)
    (H : ∀ n, n < L → ∃ c e, nb.mLayers[n]? = some c ∧ hidErrSig[L - 1 - n]? = some e ∧
      c.mNumOutNodes.toNat = c.mWeights.length ∧ c.mWeights.length ≤ e.length ∧
      (∀ row ∈ c.mWeights, row.length = (nb.adjustInput inputVec n).length) ∧
      (n ≠ 0 → n - 1 < nb.mActivations.length) ∧
      cnt n = c.mWeights.length * (nb.adjustInput inputVec n).length) :
    ∀ (k s : Nat), s + k = L →
      ∃ M xv P, ((List.range' s k).reverse).foldlM
          (NNetTrainer.hiddenLayerAdjust tr hidErrSig inputVec ((L : Int) - 1))
          { nNet := nb, xVec := [], prevWt := tr.mPrevHidWt, prevIdx := 0 }
          = some { nNet := { nb with mLayers := M }, xVec := xv, prevWt := P,
                   prevIdx := flatOffset cnt L s } ∧
        M.length = nb.mLayers.length ∧
        (∀ j, (j < s ∨ L ≤ j) → M[j]? = nb.mLayers[j]?) ∧
        (∀ n c, s ≤ n → n < L → nb.mLayers[n]? = some c →
          ∃ W, M[n]? = some { c with mWeights := W } ∧ W.length = c.mWeights.length ∧
            (∀ row ∈ W, row.length = (nb.adjustInput inputVec n).length) ∧
            (∀ i j, i < c.mWeights.length → j < (nb.adjustInput inputVec n).length →
              (W.getD i []).getD j 0 = (c.mWeights.getD i []).getD j 0 +
                momentumDelta tr.mLearnConst tr.mMomentum
                  ((hidErrSig.getD (L - 1 - n) []).getD i 0)
                  ((nb.adjustInput inputVec n).getD j 0)
                  tr.mPrevHidWt[flatOffset cnt L (n + 1) +
                    i * (nb.adjustInput inputVec n).length + j]? ∧
              P[flatOffset cnt L (n + 1) + i * (nb.adjustInput inputVec n).length + j]? =
                some (momentumDelta tr.mLearnConst tr.mMomentum
                  ((hidErrSig.getD (L - 1 - n) []).getD i 0)
                  ((nb.adjustInput inputVec n).getD j 0)
                  tr.mPrevHidWt[flatOffset cnt L (n + 1) +
                    i * (nb.adjustInput inputVec n).length + j]?))) ∧
        P.length = max tr.mPrevHidWt.length (flatOffset cnt L s) ∧
        (∀ p, flatOffset cnt L s ≤ p → P[p]? = tr.mPrevHidWt[p]?) := by
  intro k
  induction k with
  | zero =>
    intro s hs
    have hsL : s = L := by omega
    subst hsL
    refine ⟨nb.mLayers, [], tr.mPrevHidWt, ?_, rfl, fun _ _ => rfl, ?_, ?_, fun _ _ => rfl⟩
    · rw [flatOffset_end]
      rfl
    · intro n c h1 h2
      omega
    · rw [flatOffset_end]
      simp
  | succ k ih =>
    intro s hs
    obtain ⟨M, xv, P, hfold, hlen, hout, hin, hPl, hPk⟩ := ih (s + 1) (by omega)
    obtain ⟨c, e, hc, he, hn, hel, hcols, hact, hcnt⟩ := H s (by omega)
    have hMs : M[s]? = some c := by rw [hout s (Or.inl (by omega))]; exact hc
    have hslt : s < M.length := (List.getElem?_eq_some.mp hMs).1
    have hcast : (L : Int) - 1 - (s : Int) = ((L - 1 - s : Nat) : Int) := by omega
    have hx : (if s = 0 then inputVec
        else NeuralNet.getActivations { nb with mLayers := M } xv ((s : Int) - 1))
        = nb.adjustInput inputVec s := by
      unfold NeuralNet.adjustInput
      by_cases h0 : s = 0
      · rw [if_pos h0, if_pos h0]
      · rw [if_neg h0, if_neg h0]
        have hc1 : (s : Int) - 1 = ((s - 1 : Nat) : Int) := by omega
        rw [hc1]
        exact getActivations_congr _ nb xv (s - 1) rfl (hact h0)
    have hstep := flatOffset_step cnt L s (by omega)
    have hidx : flatOffset cnt L (s + 1) ≤ P.length := by
      rw [hPl]; exact Nat.le_max_right _ _
    obtain ⟨W, P1, hadj, hWl, hWr, _, hWv, hP1l, hP1v, hP1k⟩ := adjustNode_momentum_loop
      tr.mLearnConst tr.mMomentum hm e (nb.adjustInput inputVec s) c hcols hel P
      (flatOffset cnt L (s + 1)) hidx c.mWeights.length le_rfl
    have hoff : flatOffset cnt L (s + 1) + c.mWeights.length * (nb.adjustInput inputVec s).length
        = flatOffset cnt L s := by
      rw [hstep, hcnt]; omega
    rw [hoff] at hadj hP1l hP1k
    have heD : hidErrSig.getD (L - 1 - s) [] = e := by
      rw [List.getD_eq_getElem?_getD, he]
      rfl
    rw [List.range'_succ, List.reverse_cons, List.foldlM_append, hfold]
    simp only [Option.bind_eq_bind, Option.some_bind, List.foldlM_cons, List.foldlM_nil]
    unfold NNetTrainer.hiddenLayerAdjust
    simp only [getWeightedConnect_natCast { nb with mLayers := M } _ c s hMs, hcast,
      vecAt_natCast, he, Option.bind_eq_bind, Option.some_bind, hx, hn, hadj, Option.pure_def,
      setWeightedConnect_natCast { nb with mLayers := M } _ s hslt]
    refine ⟨M.set s { c with mWeights := W }, nb.adjustInput inputVec s, P1, rfl, ?_, ?_, ?_,
      ?_, ?_⟩
    · simp [hlen]
    · intro j hj
      have hne : s ≠ j := by omega
      rw [List.getElem?_set_ne hne]
      exact hout j (by omega)
    · intro n d h1 h2 hd
      by_cases hns : n = s
      · subst hns
        have hcd : c = d := by
          rw [hc] at hd
          exact Option.some.inj hd
        subst hcd
        refine ⟨W, ?_, hWl, hWr, ?_⟩
        · rw [List.getElem?_set_self hslt]
        · intro i j hi hj
          have hkeep := hPk (flatOffset cnt L (n + 1) +
            i * (nb.adjustInput inputVec n).length + j) (by omega)
          rw [heD]
          refine ⟨?_, ?_⟩
          · rw [hWv i j hi hj, hkeep]
          · rw [hP1v i j hi hj, hkeep]
      · have hne : s ≠ n := fun h => hns h.symm
        rw [List.getElem?_set_ne hne]
        obtain ⟨Wn, hMn, hWnl, hWnr, hWnv⟩ := hin n d (by omega) h2 hd
        refine ⟨Wn, hMn, hWnl, hWnr, ?_⟩
        intro i j hi hj
        obtain ⟨v1, v2⟩ := hWnv i j hi hj
        refine ⟨v1, ?_⟩
        obtain ⟨c', e', hc', _, _, _, _, _, hcnt'⟩ := H n h2
        have hcd : c' = d := by
          rw [hc'] at hd
          exact Option.some.inj hd
        subst hcd
        have hlt := flat_index_lt i c'.mWeights.length (nb.adjustInput inputVec n).length j hi hj
        have hstep' := flatOffset_step cnt L n h2
        have hmono := flatOffset_mono cnt L (n - (s + 1)) (s + 1) (by omega)
        have e1 : s + 1 + (n - (s + 1)) = n := by omega
        rw [e1] at hmono
        rw [hP1k _ (Or.inl (by omega))]
        exact v2
    · rw [hP1l, hPl]
      have := flatOffset_mono cnt L 1 s (by omega)
      omega
    · intro p hp
      have := flatOffset_mono cnt L 1 s (by omega)
      rw [hP1k p (Or.inr hp)]
      exact hPk p (by omega)

end MomentumConnect

/-! ## The histories are never shortened -/

section HistoryLength

variable {α : Type} [LinearOrderedField α]

theorem vecAssign_length {β : Type} (v v' : List β) (i : Int) (x : β)
    (h : vecAssign v i x = some v') : v'.length = v.length := by
  unfold vecAssign at h
  split at h
  · simp only [Option.some.injEq] at h
    rw [← h, List.length_set]
  · exact absurd h (by simp)

theorem adjustWeight_history (learnConst momentum ei : α) (xVec : List α)
    (st st' : AdjustState α) (j : Nat)
    (h : adjustWeight learnConst momentum ei xVec st j = some st') :
    st.prevWt.length ≤ st'.prevWt.length := by
  unfold adjustWeight at h
  by_cases hm : 0 < momentum
  · by_cases hidx : st.prevIdx < st.prevWt.length
    · simp only [hm, hidx, if_true, Option.bind_eq_bind, Option.bind_eq_some, Option.pure_def,
        Option.some.injEq] at h
      obtain ⟨x, _, dWPrev, _, prev, hprev, y, rfl, w, _, weights, _, rfl⟩ := h
      show st.prevWt.length ≤ prev.length
      rw [vecAssign_length _ _ _ _ hprev]
    · simp only [hm, hidx, if_true, if_false, Option.bind_eq_bind, Option.bind_eq_some,
        Option.pure_def, Option.some.injEq] at h
      obtain ⟨x, _, y, rfl, w, _, weights, _, rfl⟩ := h
      simp
  · simp only [hm, if_false, Option.bind_eq_bind, Option.bind_eq_some, Option.pure_def,
      Option.some.injEq] at h
    obtain ⟨x, _, y, rfl, w, _, weights, _, rfl⟩ := h
    exact le_rfl

theorem adjustNode_history (learnConst momentum : α) (outErr xVec : List α)
    (st st' : ConnectAdjust α) (i : Nat)
    (h : adjustNode learnConst momentum outErr xVec st i = some st') :
    st.prevWt.length ≤ st'.prevWt.length := by
  unfold adjustNode at h
  simp only [Option.bind_eq_bind, Option.bind_eq_some, Option.pure_def, Option.some.injEq] at h
  obtain ⟨ei, _, adjusted, hadj, rfl⟩ := h
  exact foldlM_preserves (fun s : AdjustState α => st.prevWt.length ≤ s.prevWt.length) _
    (fun s j s' hs hP => le_trans hP (adjustWeight_history _ _ _ _ s s' j hs)) _ _ adjusted hadj
    le_rfl

theorem calcOutputWtAdjust_history (tr : NNetTrainer α) (outErr : List α) (nNet : NeuralNet α)
    (r : NNetTrainer α × NeuralNet α) (h : tr.calcOutputWtAdjust outErr nNet = some r) :
    tr.mPrevOutWt.length ≤ r.1.mPrevOutWt.length ∧ r.1.mPrevHidWt = tr.mPrevHidWt := by
  unfold NNetTrainer.calcOutputWtAdjust at h
  simp only [Option.bind_eq_bind, Option.bind_eq_some, Option.pure_def, Option.some.injEq] at h
  obtain ⟨st, hst, rfl⟩ := h
  refine ⟨?_, rfl⟩
  exact foldlM_preserves (fun s : ConnectAdjust α => tr.mPrevOutWt.length ≤ s.prevWt.length) _
    (fun s j s' hs hP => le_trans hP (adjustNode_history _ _ _ _ s s' j hs)) _ _ st hst le_rfl

theorem calcHiddenWtAdjust_history (tr : NNetTrainer α) (hidErrSig : List (List α))
    (inputVec : List α) (nNet : NeuralNet α) (r : NNetTrainer α × NeuralNet α)
    (h : tr.calcHiddenWtAdjust hidErrSig inputVec nNet = some r) :
    tr.mPrevHidWt.length ≤ r.1.mPrevHidWt.length ∧ r.1.mPrevOutWt = tr.mPrevOutWt := by
  unfold NNetTrainer.calcHiddenWtAdjust at h
  simp only [Option.bind_eq_bind, Option.bind_eq_some, Option.pure_def, Option.some.injEq] at h
  obtain ⟨st, hst, rfl⟩ := h
  refine ⟨?_, rfl⟩
  refine foldlM_preserves (fun s : HiddenAdjust α => tr.mPrevHidWt.length ≤ s.prevWt.length) _
    ?_ _ _ st hst le_rfl
  intro s n s' hs hP
  unfold NNetTrainer.hiddenLayerAdjust at hs
  simp only [Option.bind_eq_bind, Option.bind_eq_some, Option.pure_def, Option.some.injEq] at hs
  obtain ⟨outErr, _, adjusted, hadj, rfl⟩ := hs
  refine le_trans hP ?_
  exact foldlM_preserves (fun c : ConnectAdjust α => s.prevWt.length ≤ c.prevWt.length) _
    (fun c j c' hc hQ => le_trans hQ (adjustNode_history _ _ _ _ c c' j hc)) _ _ adjusted hadj
    le_rfl

/-- One pass of the training loop, when it returns, leaves histories that are
not shorter. -/
theorem trainExample_history (m : Libm α) (st st' : NNetTrainer α × NeuralNet α) (index : Nat)
    (h : NNetTrainer.trainExample m st index = some st') :
    st.1.mPrevOutWt.length ≤ st'.1.mPrevOutWt.length ∧
      st.1.mPrevHidWt.length ≤ st'.1.mPrevHidWt.length := by
  unfold NNetTrainer.trainExample at h
  simp only [Option.bind_eq_bind, Option.bind_eq_some] at h
  obtain ⟨trainVec, _, responded, _, err, herr, outErrSig, _, hidErrSig, _, adjustedOut, hout,
    hhid⟩ := h
  have h1 := calcOutputWtAdjust_history _ _ _ _ hout
  have h2 := calcHiddenWtAdjust_history _ _ _ _ _ hhid
  refine ⟨?_, ?_⟩
  · rw [h2.2]
    exact h1.1
  · refine le_trans ?_ h2.1
    rw [h1.2]

/-- A call of trainNeuralNet, when it returns, leaves histories that are not
shorter. -/
theorem trainNeuralNet_history (m : Libm α) (tr tr' : NNetTrainer α) (net net' : NeuralNet α)
    (g g' : RandState) (h : tr.trainNeuralNet m net g = some (tr', net', g')) :
    tr.mPrevOutWt.length ≤ tr'.mPrevOutWt.length ∧
      tr.mPrevHidWt.length ≤ tr'.mPrevHidWt.length := by
  unfold NNetTrainer.trainNeuralNet at h
  by_cases hN : 0 < tr.mTrainInput.length
  · simp only [hN, if_true, Option.bind_eq_bind, Option.bind_eq_some, Option.pure_def,
      Option.some.injEq, Prod.mk.injEq] at h
    obtain ⟨st, hst, rfl, _, _⟩ := h
    refine foldlM_preserves
      (fun s : NNetTrainer α × NeuralNet α => tr.mPrevOutWt.length ≤ s.1.mPrevOutWt.length ∧
        tr.mPrevHidWt.length ≤ s.1.mPrevHidWt.length)
      _ ?_ _ (tr, net) st hst ⟨le_rfl, le_rfl⟩
    intro s i s' hs hP
    have := trainExample_history m s s' i hs
    exact ⟨le_trans hP.1 this.1, le_trans hP.2 this.2⟩
  · simp only [hN, if_false, Option.some.injEq, Prod.mk.injEq] at h
    obtain ⟨rfl, _, _⟩ := h
    exact ⟨le_rfl, le_rfl⟩

end HistoryLength

/-! ## One training example with momentum -/

section WeightCounts

variable {α : Type}

theorem sum_lengths_uniform (rows : List (List α)) (C : Nat)
    (h : ∀ row ∈ rows, row.length = C) : (rows.map List.length).sum = rows.length * C := by
  induction rows with
  | nil => simp
  | cons r rest ih =>
      have h1 := h r (List.mem_cons_self _ _)
      have h2 := ih (fun row hr => h row (List.mem_cons_of_mem _ hr))
      simp only [List.map_cons, List.sum_cons, List.length_cons, h1, h2, Nat.succ_mul]
      omega

theorem weightCount_eq (net : NeuralNet α) (s : Nat) (c : NNetWeightedConnect α)
    (hc : net.mLayers[s]? = some c) (C : Nat) (h : ∀ row ∈ c.mWeights, row.length = C) :
    net.weightCount s = c.mWeights.length * C := by
  unfold NeuralNet.weightCount NeuralNet.weightsAt
  simp only [hc]
  exact sum_lengths_uniform _ C h

end WeightCounts

section MomentumExample

variable {α : Type} [LinearOrderedField α]

theorem calcHiddenWtAdjust_momentum (tr : NNetTrainer α) (hm : 0 < tr.mMomentum)
    (hidErrSig : List (List α)) (inputVec : List α) (nb : NeuralNet α) (L : Nat)
    (hL : nb.mNumLayers = (L : Int)) (cnt : Nat → Nat)
    (H : ∀ n, n < L → ∃ c e, nb.mLayers[n]? = some c ∧ hidErrSig[L - 1 - n]? = some e ∧
      c.mNumOutNodes.toNat = c.mWeights.length ∧ c.mWeights.length ≤ e.length ∧
      (∀ row ∈ c.mWeights, row.length = (nb.adjustInput inputVec n).length) ∧
      (n ≠ 0 → n - 1 < nb.mActivations.length) ∧
      cnt n = c.mWeights.length * (nb.adjustInput inputVec n).length) :
    ∃ M P, tr.calcHiddenWtAdjust hidErrSig inputVec nb =
        some ({ tr with mPrevHidWt := P }, { nb with mLayers := M }) ∧
      M.length = nb.mLayers.length ∧
      (∀ j, L ≤ j → M[j]? = nb.mLayers[j]?) ∧
      (∀ n c, n < L → nb.mLayers[n]? = some c →
        ∃ W, M[n]? = some { c with mWeights := W } ∧ W.length = c.mWeights.length ∧
          (∀ row ∈ W, row.length = (nb.adjustInput inputVec n).length) ∧
          (∀ i j, i < c.mWeights.length → j < (nb.adjustInput inputVec n).length →
            (W.getD i []).getD j 0 = (c.mWeights.getD i []).getD j 0 +
              momentumDelta tr.mLearnConst tr.mMomentum
                ((hidErrSig.getD (L - 1 - n) []).getD i 0)
                ((nb.adjustInput inputVec n).getD j 0)
                tr.mPrevHidWt[flatOffset cnt L (n + 1) +
                  i * (nb.adjustInput inputVec n).length + j]? ∧
            P[flatOffset cnt L (n + 1) + i * (nb.adjustInput inputVec n).length + j]? =
              some (momentumDelta tr.mLearnConst tr.mMomentum
                ((hidErrSig.getD (L - 1 - n) []).getD i 0)
                ((nb.adjustInput inputVec n).getD j 0)
                tr.mPrevHidWt[flatOffset cnt L (n + 1) +
                  i * (nb.adjustInput inputVec n).length + j]?))) ∧
      P.length = max tr.mPrevHidWt.length (flatOffset cnt L 0) ∧
      (∀ p, flatOffset cnt L 0 ≤ p → P[p]? = tr.mPrevHidWt[p]?) := by
  obtain ⟨M, xv, P, hfold, hlen, hout, hin, hPl, hPk⟩ :=
    hiddenAdjust_momentum_loop tr hm hidErrSig inputVec nb L cnt H L 0 (by omega)
  refine ⟨M, P, ?_, hlen, fun j hj => hout j (Or.inr hj),
    fun n c hn hc => hin n c (by omega) hn hc, hPl, hPk⟩
  unfold NNetTrainer.calcHiddenWtAdjust
  have h1 : ((L : Int) - 1 + 1).toNat = L := by omega
  have h2 : nb.mNumLayers - 1 = (L : Int) - 1 := by omega
  simp only [h1, h2, List.range_eq_range', hfold, Option.bind_eq_bind, Option.some_bind,
    Option.pure_def]

/-- The two weight-adjustment routines with momentum on, run one after the
other on a well-formed network holding the caches of the forward pass on `x`:
every weight receives the delta `learnConst * delta_i * x_j`, plus momentum
times the stored delta when its history has an entry at the weight's flat
position, and the delta is stored at that position. -/
theorem adjust_momentum_spec (m : Libm α) (tr : NNetTrainer α) (hm : 0 < tr.mMomentum)
    (net : NeuralNet α) (hw : net.WellFormed)
    (x t : List α) (hc : net.CachesOf m x) (hx : (x.length : Int) = net.mNumInputs) :
    ∃ (M : List (NNetWeightedConnect α)) (p1 p2 : List α),
      ((tr.calcOutputWtAdjust (net.errorSignal m x t 0) net).bind fun a =>
        a.1.calcHiddenWtAdjust
          ((List.range net.mNumLayers.toNat).map (fun r => net.errorSignal m x t (r + 1))) x a.2)
        = some ({ tr with mPrevOutWt := p1, mPrevHidWt := p2 }, { net with mLayers := M }) ∧
      M.length = net.mLayers.length ∧
      (∀ (s : Nat) (c : NNetWeightedConnect α), net.mLayers[s]? = some c →
        ∃ c', M[s]? = some c' ∧ SameShape c c') ∧
      (∀ (c d : NNetWeightedConnect α), net.mLayers[net.mNumLayers.toNat]? = some c →
        M[net.mNumLayers.toNat]? = some d →
        ∀ i j, i < c.mWeights.length → j < (net.stageInput m x net.mNumLayers.toNat).length →
          (d.mWeights.getD i []).getD j 0 = (c.mWeights.getD i []).getD j 0 +
            momentumDelta tr.mLearnConst tr.mMomentum
              ((net.delta m x t net.mNumLayers.toNat).getD i 0)
              ((net.stageInput m x net.mNumLayers.toNat).getD j 0)
              tr.mPrevOutWt[i * (net.stageInput m x net.mNumLayers.toNat).length + j]? ∧
          p1[i * (net.stageInput m x net.mNumLayers.toNat).length + j]? =
            some (momentumDelta tr.mLearnConst tr.mMomentum
              ((net.delta m x t net.mNumLayers.toNat).getD i 0)
              ((net.stageInput m x net.mNumLayers.toNat).getD j 0)
              tr.mPrevOutWt[i * (net.stageInput m x net.mNumLayers.toNat).length + j]?)) ∧
      p1.length = max tr.mPrevOutWt.length (net.weightCount net.mNumLayers.toNat) ∧
      (∀ p, net.weightCount net.mNumLayers.toNat ≤ p → p1[p]? = tr.mPrevOutWt[p]?) ∧
      (∀ (s : Nat) (c d : NNetWeightedConnect α), s < net.mNumLayers.toNat →
        net.mLayers[s]? = some c → M[s]? = some d →
        ∀ i j, i < c.mWeights.length → j < (net.stageInput m x s).length →
          (d.mWeights.getD i []).getD j 0 = (c.mWeights.getD i []).getD j 0 +
            momentumDelta tr.mLearnConst tr.mMomentum
              ((net.delta m x t s).getD i 0) ((net.stageInput m x s).getD j 0)
              tr.mPrevHidWt[net.hiddenOffset (s + 1) +
                i * (net.stageInput m x s).length + j]? ∧
          p2[net.hiddenOffset (s + 1) + i * (net.stageInput m x s).length + j]? =
            some (momentumDelta tr.mLearnConst tr.mMomentum
              ((net.delta m x t s).getD i 0) ((net.stageInput m x s).getD j 0)
              tr.mPrevHidWt[net.hiddenOffset (s + 1) +
                i * (net.stageInput m x s).length + j]?)) ∧
      p2.length = max tr.mPrevHidWt.length (net.hiddenOffset 0) ∧
      (∀ p, net.hiddenOffset 0 ≤ p → p2[p]? = tr.mPrevHidWt[p]?) := by
  have hLpos := hw.layersPos
  obtain ⟨L, hL⟩ : ∃ L : Nat, net.mNumLayers = (L : Int) := ⟨net.mNumLayers.toNat, by omega⟩
  have hLn : net.mNumLayers.toNat = L := by omega
  have hL1 : 1 ≤ L := by omega
  have hlen : net.mLayers.length = L + 1 := by rw [hw.numConnect, hLn]
  rw [hLn]
  simp only [NeuralNet.hiddenOffset, hLn]
  -- shape facts for every connection
  have hshape : ∀ (s : Nat) (c : NNetWeightedConnect α), net.mLayers[s]? = some c →
      c.mNumOutNodes.toNat = c.mWeights.length ∧
      (∀ row ∈ c.mWeights, row.length = (net.stageInput m x s).length) ∧
      c.mWeights.length ≤ (net.errorSignal m x t (L - s)).length ∧
      net.adjustInput x s = net.stageInput m x s ∧
      net.weightCount s = c.mWeights.length * (net.stageInput m x s).length := by
    intro s c hcs
    have hs : s < net.mLayers.length := (List.getElem?_eq_some.mp hcs).1
    have hsz := hw.sized c (List.getElem?_mem hcs)
    have hin := stageInput_length m net hw x hx s c hcs
    have hcols : ∀ row ∈ c.mWeights, row.length = (net.stageInput m x s).length := by
      intro row hrow
      have := hsz.cols row hrow
      omega
    refine ⟨?_, hcols, ?_, adjustInput_eq_stageInput m net x hc s hs,
      weightCount_eq net s c hcs _ hcols⟩
    · have := hsz.rows
      omega
    · rw [errorSignal_length m net hw x t (L - s) (by omega), hLn]
      have : L - (L - s) = s := by omega
      rw [this]
      simp [NeuralNet.weightsAt, hcs]
  -- the output connection
  obtain ⟨cL, hcL, _⟩ := layer_exists net hw L (by omega)
  obtain ⟨hnL, hcolsL, herrL, hadjL0, hcntL⟩ := hshape L cL hcL
  have hadjL : net.getActivations [] ((L : Int) - 1) = net.stageInput m x L := by
    rw [← hadjL0]
    unfold NeuralNet.adjustInput
    rw [if_neg (by omega)]
  rw [Nat.sub_self] at herrL
  obtain ⟨W, p1, hO, hWl, hWr, hWv, hp1l, hp1v, hp1k⟩ := calcOutputWtAdjust_momentum tr hm
    (net.errorSignal m x t 0) net L hL cL hcL (net.stageInput m x L) hadjL hcolsL hnL herrL
  -- the hidden connections
  have hH : ∀ n, n < L → ∃ c e,
      (NeuralNet.mLayers { net with mLayers := net.mLayers.set L { cL with mWeights := W } })[n]?
        = some c ∧
      ((List.range L).map (fun r => net.errorSignal m x t (r + 1)))[L - 1 - n]? = some e ∧
      c.mNumOutNodes.toNat = c.mWeights.length ∧ c.mWeights.length ≤ e.length ∧
      (∀ row ∈ c.mWeights, row.length = (NeuralNet.adjustInput
        { net with mLayers := net.mLayers.set L { cL with mWeights := W } } x n).length) ∧
      (n ≠ 0 → n - 1 < (NeuralNet.mActivations
        { net with mLayers := net.mLayers.set L { cL with mWeights := W } }).length) ∧
      net.weightCount n = c.mWeights.length * (NeuralNet.adjustInput
        { net with mLayers := net.mLayers.set L { cL with mWeights := W } } x n).length := by
    intro n hn
    obtain ⟨c, hcn, _⟩ := layer_exists net hw n (by omega)
    obtain ⟨h1, h2, h3, h4, h5⟩ := hshape n c hcn
    have hadj : NeuralNet.adjustInput
        { net with mLayers := net.mLayers.set L { cL with mWeights := W } } x n
        = net.stageInput m x n := by
      rw [← h4]
      rfl
    refine ⟨c, net.errorSignal m x t (L - 1 - n + 1), ?_, ?_, h1, ?_, ?_, ?_, ?_⟩
    · show (net.mLayers.set L _)[n]? = some c
      rw [List.getElem?_set_ne (by omega)]
      exact hcn
    · rw [List.getElem?_map, List.getElem?_range (by omega)]
      rfl
    · have : L - 1 - n + 1 = L - n := by omega
      rw [this]
      exact h3
    · rw [hadj]
      exact h2
    · intro _
      show n - 1 < net.mActivations.length
      rw [hc.2, List.length_map, tracesFrom_length, hlen]
      omega
    · rw [hadj]
      exact h5
  obtain ⟨M, p2, hHid, hMl, hMout, hMin, hp2l, hp2k⟩ := calcHiddenWtAdjust_momentum
    { tr with mPrevOutWt := p1 } hm
    ((List.range L).map (fun r => net.errorSignal m x t (r + 1))) x
    { net with mLayers := net.mLayers.set L { cL with mWeights := W } } L hL net.weightCount hH
  have hdelta : ∀ s, s < L →
      ((List.range L).map (fun r => net.errorSignal m x t (r + 1))).getD (L - 1 - s) []
        = net.delta m x t s := by
    intro s hs
    rw [List.getD_eq_getElem?_getD, List.getElem?_map, List.getElem?_range (by omega)]
    have : L - 1 - s + 1 = L - s := by omega
    simp only [Option.map_some', Option.getD_some, NeuralNet.delta, hLn, this]
  have hdeltaL : net.delta m x t L = net.errorSignal m x t 0 := by
    simp only [NeuralNet.delta, hLn, Nat.sub_self]
  have hML : M[L]? = some { cL with mWeights := W } := by
    rw [hMout L le_rfl]
    show (net.mLayers.set L _)[L]? = _
    rw [List.getElem?_set_self (by omega)]
  have hnb : ∀ s, s < L → ∀ c, net.mLayers[s]? = some c →
      (NeuralNet.mLayers
        { net with mLayers := net.mLayers.set L { cL with mWeights := W } })[s]? = some c ∧
      NeuralNet.adjustInput
        { net with mLayers := net.mLayers.set L { cL with mWeights := W } } x s
        = net.stageInput m x s := by
    intro s hs c hcs
    refine ⟨?_, ?_⟩
    · show (net.mLayers.set L _)[s]? = some c
      rw [List.getElem?_set_ne (by omega)]
      exact hcs
    · rw [← adjustInput_eq_stageInput m net x hc s (by omega)]
      rfl
  refine ⟨M, p1, p2, ?_, ?_, ?_, ?_, ?_, ?_, ?_, hp2l, hp2k⟩
  · rw [hO]
    simp only [Option.some_bind]
    exact hHid
  · rw [hMl]
    show (net.mLayers.set L _).length = _
    simp
  · intro s c hcs
    have hs : s < L + 1 := by rw [← hlen]; exact (List.getElem?_eq_some.mp hcs).1
    by_cases hsL : s = L
    · subst hsL
      have hcc : cL = c := by
        rw [hcL] at hcs
        exact Option.some.inj hcs
      subst hcc
      refine ⟨{ cL with mWeights := W }, hML, ⟨W, rfl, hWl, ?_⟩⟩
      intro row hrow
      rw [hWr row hrow]
      exact stageInput_length m net hw x hx s cL hcL
    · have hslt : s < L := by omega
      obtain ⟨hcs', hadj⟩ := hnb s hslt c hcs
      obtain ⟨Ws, hMs, hWsl, hWsr, _⟩ := hMin s c hslt hcs'
      rw [hadj] at hWsr
      refine ⟨{ c with mWeights := Ws }, hMs, ⟨Ws, rfl, hWsl, ?_⟩⟩
      intro row hrow
      rw [hWsr row hrow]
      exact stageInput_length m net hw x hx s c hcs
  · intro c d hcs hd i j hi hj
    have hcc : cL = c := by
      rw [hcL] at hcs
      exact Option.some.inj hcs
    subst hcc
    have hdd : { cL with mWeights := W } = d := by
      rw [hML] at hd
      exact Option.some.inj hd
    subst hdd
    rw [hdeltaL]
    exact ⟨hWv i j hi hj, hp1v i j hi hj⟩
  · rw [hp1l, hcntL]
  · intro p hp
    rw [hcntL] at hp
    exact hp1k p hp
  · intro s c d hs hcs hd i j hi hj
    obtain ⟨hcs', hadj⟩ := hnb s hs c hcs
    obtain ⟨Ws, hMs, _, _, hval⟩ := hMin s c hs hcs'
    have hdd : { c with mWeights := Ws } = d := by
      rw [hMs] at hd
      exact Option.some.inj hd
    subst hdd
    rw [hadj, hdelta s hs] at hval
    exact hval i j hi hj

end MomentumExample

/-! ## The momentum history across training examples -/

section MomentumClaim

variable {α : Type} [LinearOrderedField α]

omit [LinearOrderedField α] in
theorem weightCount_sameShape (net : NeuralNet α) (M : List (NNetWeightedConnect α))
    (A U : List (List α)) (hlen : M.length = net.mLayers.length)
    (hM : ∀ (s : Nat) (c : NNetWeightedConnect α), net.mLayers[s]? = some c →
      ∃ c', M[s]? = some c' ∧ c'.mWeights.map List.length = c.mWeights.map List.length)
    (s : Nat) :
    NeuralNet.weightCount { net with mLayers := M, mActivations := A, mUnitInputs := U } s
      = net.weightCount s := by
  unfold NeuralNet.weightCount NeuralNet.weightsAt
  show ((match M[s]? with | some c => c.mWeights | none => []).map List.length).sum = _
  by_cases hs : s < net.mLayers.length
  · obtain ⟨c', h1, h2⟩ := hM s _ (List.getElem?_eq_getElem hs)
    simp only [h1, List.getElem?_eq_getElem hs, h2]
  · have h1 : net.mLayers[s]? = none := List.getElem?_eq_none (by omega)
    have h2 : M[s]? = none := List.getElem?_eq_none (by omega)
    simp only [h1, h2]

/-- One training example with momentum on, on a well-formed network with a
fitting training set: the step is defined and leaves a network of the same
shape; every weight of the output connection and of the hidden connections
receives `momentumDelta`, the delta `learnConst * delta_i * x_j` plus momentum
times the stored delta when the history has an entry at the weight's flat
row-major position, and the delta is stored at that position. -/
theorem trainExample_momentum (m : Libm α) (tr : NNetTrainer α) (net : NeuralNet α)
    (hw : net.WellFormed) (hf : tr.Fits net) (hm : 0 < tr.mMomentum) (index : Nat)
    (hi : index < tr.mTrainInput.length) :
    ∃ tr' net', NNetTrainer.trainExample m (tr, net) index = some (tr', net') ∧
      (net'.WellFormed ∧ tr'.Fits net' ∧ tr'.mLearnConst = tr.mLearnConst ∧
        tr'.mMomentum = tr.mMomentum ∧ tr'.mTrainInput = tr.mTrainInput ∧
        tr'.mTrainTarget = tr.mTrainTarget ∧ net'.mNumLayers = net.mNumLayers ∧
        (∀ s, net'.weightCount s = net.weightCount s)) ∧
      (∀ c, net.mLayers[net.mNumLayers.toNat]? = some c →
        ∃ d, net'.mLayers[net.mNumLayers.toNat]? = some d ∧
          ∀ i j : Nat, (i : Int) < c.mNumOutNodes → (j : Int) < c.mNumInNodes →
            (d.mWeights.getD i []).getD j 0 = (c.mWeights.getD i []).getD j 0 +
              momentumDelta tr.mLearnConst tr.mMomentum
                ((net.delta m (tr.mTrainInput.getD index []) (tr.mTrainTarget.getD index [])
                  net.mNumLayers.toNat).getD i 0)
                ((net.stageInput m (tr.mTrainInput.getD index []) net.mNumLayers.toNat).getD j 0)
                tr.mPrevOutWt[i * c.mNumInNodes.toNat + j]? ∧
            tr'.mPrevOutWt[i * c.mNumInNodes.toNat + j]? =
              some (momentumDelta tr.mLearnConst tr.mMomentum
                ((net.delta m (tr.mTrainInput.getD index []) (tr.mTrainTarget.getD index [])
                  net.mNumLayers.toNat).getD i 0)
                ((net.stageInput m (tr.mTrainInput.getD index []) net.mNumLayers.toNat).getD j 0)
                tr.mPrevOutWt[i * c.mNumInNodes.toNat + j]?)) ∧
      (tr'.mPrevOutWt.length = max tr.mPrevOutWt.length (net.weightCount net.mNumLayers.toNat) ∧
        ∀ p, net.weightCount net.mNumLayers.toNat ≤ p → tr'.mPrevOutWt[p]? = tr.mPrevOutWt[p]?) ∧
      (∀ s c, s < net.mNumLayers.toNat → net.mLayers[s]? = some c →
        ∃ d, net'.mLayers[s]? = some d ∧
          ∀ i j : Nat, (i : Int) < c.mNumOutNodes → (j : Int) < c.mNumInNodes →
            (d.mWeights.getD i []).getD j 0 = (c.mWeights.getD i []).getD j 0 +
              momentumDelta tr.mLearnConst tr.mMomentum
                ((net.delta m (tr.mTrainInput.getD index []) (tr.mTrainTarget.getD index [])
                  s).getD i 0)
                ((net.stageInput m (tr.mTrainInput.getD index []) s).getD j 0)
                tr.mPrevHidWt[net.hiddenOffset (s + 1) + i * c.mNumInNodes.toNat + j]? ∧
            tr'.mPrevHidWt[net.hiddenOffset (s + 1) + i * c.mNumInNodes.toNat + j]? =
              some (momentumDelta tr.mLearnConst tr.mMomentum
                ((net.delta m (tr.mTrainInput.getD index []) (tr.mTrainTarget.getD index [])
                  s).getD i 0)
                ((net.stageInput m (tr.mTrainInput.getD index []) s).getD j 0)
                tr.mPrevHidWt[net.hiddenOffset (s + 1) + i * c.mNumInNodes.toNat + j]?)) ∧
      (tr'.mPrevHidWt.length = max tr.mPrevHidWt.length (net.hiddenOffset 0) ∧
        ∀ p, net.hiddenOffset 0 ≤ p → tr'.mPrevHidWt[p]? = tr.mPrevHidWt[p]?) := by
  have hit : index < tr.mTrainTarget.length := by rw [hf.paired]; exact hi
  have hxget : tr.mTrainInput[index]? = some tr.mTrainInput[index] :=
    List.getElem?_eq_getElem hi
  have htget : tr.mTrainTarget[index]? = some tr.mTrainTarget[index] :=
    List.getElem?_eq_getElem hit
  have hxD : tr.mTrainInput.getD index [] = tr.mTrainInput[index] := by
    rw [List.getD_eq_getElem?_getD, hxget]; rfl
  have htD : tr.mTrainTarget.getD index [] = tr.mTrainTarget[index] := by
    rw [List.getD_eq_getElem?_getD, htget]; rfl
  rw [hxD, htD]
  generalize tr.mTrainInput[index] = x at hxget hxD
  generalize tr.mTrainTarget[index] = t at htget htD
  have hx : (x.length : Int) = net.mNumInputs := hf.inputs x (List.getElem?_mem hxget)
  have ht : net.mNumOutputs ≤ (t.length : Int) := hf.targets t (List.getElem?_mem htget)
  obtain ⟨hresp, hw1, hc1, hout, hhid⟩ := forward_error_signals m tr net hw x t index htget hx ht
  obtain ⟨_, hrlen⟩ := getResponse_spec m net hw x [] (by omega)
  have hrt : (net.responseSpec m x).length ≤ t.length := by omega
  have herr := calcNetworkError_eq tr (net.responseSpec m x) t index htget hrt
  have hE : ∀ k, (net.responded m x).errorSignal m x t k = net.errorSignal m x t k :=
    cachesOnly_errorSignal m net _ _ x t
  have hD : ∀ s, (net.responded m x).delta m x t s = net.delta m x t s :=
    cachesOnly_delta m net _ _ x t
  have hS : ∀ s, (net.responded m x).stageInput m x s = net.stageInput m x s :=
    cachesOnly_stageInput m net _ _ x
  obtain ⟨M, p1, p2, hadj, hMl, hMs, hOv, hp1l, hp1k, hHv, hp2l, hp2k⟩ := adjust_momentum_spec m
    { tr with mNetError := tr.mNetError + halfSquaredError t (net.responseSpec m x) } hm
    (net.responded m x) hw1 x t hc1 hx
  simp only [hE, hD, hS] at hadj hOv hHv
  have hMs' : ∀ (s : Nat) (c : NNetWeightedConnect α), net.mLayers[s]? = some c →
      ∃ c', M[s]? = some c' ∧ SameShape c c' := hMs
  have hC : ∀ (s : Nat) (c : NNetWeightedConnect α), net.mLayers[s]? = some c →
      c.mNumInNodes.toNat = (net.stageInput m x s).length ∧
      (c.mNumOutNodes.toNat = c.mWeights.length) := by
    intro s c hcs
    have h1 := stageInput_length m net hw x hx s c hcs
    have h2 := (hw.sized c (List.getElem?_mem hcs)).rows
    omega
  refine ⟨{ tr with mNetError := tr.mNetError + halfSquaredError t (net.responseSpec m x),
                    mPrevOutWt := p1, mPrevHidWt := p2 },
    { net.responded m x with mLayers := M }, ?_, ?_, ?_, ⟨hp1l, hp1k⟩, ?_, ⟨hp2l, hp2k⟩⟩
  · unfold NNetTrainer.trainExample
    simp only [vecAt_natCast, hxget, Option.bind_eq_bind, Option.some_bind, hresp, herr]
    rw [hout]
    simp only [Option.some_bind]
    rw [hhid]
    simp only [Option.some_bind]
    exact hadj
  · refine ⟨?_, ⟨hf.paired, hf.inputs, hf.targets⟩, rfl, rfl, rfl, rfl, rfl, ?_⟩
    · exact wellFormed_of_sameShape net hw M _ _ hMl hMs'
    · intro s
      refine weightCount_sameShape net M _ _ hMl ?_ s
      intro s' c hcs
      obtain ⟨c', h1, W, rfl, hWl, hWr⟩ := hMs' s' c hcs
      refine ⟨_, h1, ?_⟩
      show W.map List.length = c.mWeights.map List.length
      have hsz := hw.sized c (List.getElem?_mem hcs)
      apply List.ext_getElem?
      intro k
      simp only [List.getElem?_map]
      by_cases hk : k < W.length
      · have hk' : k < c.mWeights.length := by omega
        rw [List.getElem?_eq_getElem hk, List.getElem?_eq_getElem hk']
        simp only [Option.map_some', Option.some.injEq]
        have e1 := hWr _ (List.getElem_mem hk)
        have e2 := hsz.cols _ (List.getElem_mem hk')
        omega
      · rw [List.getElem?_eq_none (by omega), List.getElem?_eq_none (by omega)]
  · intro c hcs
    obtain ⟨d, hd, _⟩ := hMs' _ c hcs
    refine ⟨d, hd, ?_⟩
    intro i j hi hj
    obtain ⟨e1, e2⟩ := hC _ c hcs
    rw [e1]
    exact hOv c d hcs hd i j (show i < c.mWeights.length by omega)
      (show j < (net.stageInput m x net.mNumLayers.toNat).length by omega)
  · intro s c hs hcs
    obtain ⟨d, hd, _⟩ := hMs' _ c hcs
    refine ⟨d, hd, ?_⟩
    intro i j hi hj
    obtain ⟨e1, e2⟩ := hC _ c hcs
    rw [e1]
    exact hHv s c d hs hcs hd i j (show i < c.mWeights.length by omega)
      (show j < (net.stageInput m x s).length by omega)

/-- C32: with momentum above 0 each weight position has one history slot at
its flat row-major position: position `i * nIn + j` of the output history for
the weight of output node i and input node j of the output connection, and for
hidden connection s position `i * nIn + j` after the weights of the
connections s+1, ..., L-1 (the hidden connections are passed from the last back
to the first) of the hidden history.  Processing a training example on a
well-formed network applies to every weight the delta
`learnConst * delta_i * x_j` when the slot is still absent, and
`learnConst * delta_i * x_j + momentum * stored` when the slot holds `stored`,
and leaves that delta in the slot; the network keeps its shape and the trainer
its settings and training set, so the same holds for every later example, in
the same or in a later trainNeuralNet call.  No call of trainNeuralNet
shortens a history, and resetNetError and addNewTrainingSet leave both
histories as they are. -/
theorem momentum_history_slots (m : Libm α) :
    (∀ (learnConst momentum e x stored : α),
      momentumDelta learnConst momentum e x none = learnConst * e * x ∧
      momentumDelta learnConst momentum e x (some stored)
        = learnConst * e * x + momentum * stored) ∧
    (∀ (tr : NNetTrainer α) (net : NeuralNet α), net.WellFormed → tr.Fits net →
      0 < tr.mMomentum → ∀ index, index < tr.mTrainInput.length →
      ∃ tr' net', NNetTrainer.trainExample m (tr, net) index = some (tr', net') ∧
      (net'.WellFormed ∧ tr'.Fits net' ∧ tr'.mLearnConst = tr.mLearnConst ∧
        tr'.mMomentum = tr.mMomentum ∧ tr'.mTrainInput = tr.mTrainInput ∧
        tr'.mTrainTarget = tr.mTrainTarget ∧ net'.mNumLayers = net.mNumLayers ∧
        (∀ s, net'.weightCount s = net.weightCount s)) ∧
      (∀ c, net.mLayers[net.mNumLayers.toNat]? = some c →
        ∃ d, net'.mLayers[net.mNumLayers.toNat]? = some d ∧
          ∀ i j : Nat, (i : Int) < c.mNumOutNodes → (j : Int) < c.mNumInNodes →
            (d.mWeights.getD i []).getD j 0 = (c.mWeights.getD i []).getD j 0 +
              momentumDelta tr.mLearnConst tr.mMomentum
                ((net.delta m (tr.mTrainInput.getD index []) (tr.mTrainTarget.getD index [])
                  net.mNumLayers.toNat).getD i 0)
                ((net.stageInput m (tr.mTrainInput.getD index []) net.mNumLayers.toNat).getD j 0)
                tr.mPrevOutWt[i * c.mNumInNodes.toNat + j]? ∧
            tr'.mPrevOutWt[i * c.mNumInNodes.toNat + j]? =
              some (momentumDelta tr.mLearnConst tr.mMomentum
                ((net.delta m (tr.mTrainInput.getD index []) (tr.mTrainTarget.getD index [])
                  net.mNumLayers.toNat).getD i 0)
                ((net.stageInput m (tr.mTrainInput.getD index []) net.mNumLayers.toNat).getD j 0)
                tr.mPrevOutWt[i * c.mNumInNodes.toNat + j]?)) ∧
      (tr'.mPrevOutWt.length = max tr.mPrevOutWt.length (net.weightCount net.mNumLayers.toNat) ∧
        ∀ p, net.weightCount net.mNumLayers.toNat ≤ p → tr'.mPrevOutWt[p]? = tr.mPrevOutWt[p]?) ∧
      (∀ s c, s < net.mNumLayers.toNat → net.mLayers[s]? = some c →
        ∃ d, net'.mLayers[s]? = some d ∧
          ∀ i j : Nat, (i : Int) < c.mNumOutNodes → (j : Int) < c.mNumInNodes →
            (d.mWeights.getD i []).getD j 0 = (c.mWeights.getD i []).getD j 0 +
              momentumDelta tr.mLearnConst tr.mMomentum
                ((net.delta m (tr.mTrainInput.getD index []) (tr.mTrainTarget.getD index [])
                  s).getD i 0)
                ((net.stageInput m (tr.mTrainInput.getD index []) s).getD j 0)
                tr.mPrevHidWt[net.hiddenOffset (s + 1) + i * c.mNumInNodes.toNat + j]? ∧
            tr'.mPrevHidWt[net.hiddenOffset (s + 1) + i * c.mNumInNodes.toNat + j]? =
              some (momentumDelta tr.mLearnConst tr.mMomentum
                ((net.delta m (tr.mTrainInput.getD index []) (tr.mTrainTarget.getD index [])
                  s).getD i 0)
                ((net.stageInput m (tr.mTrainInput.getD index []) s).getD j 0)
                tr.mPrevHidWt[net.hiddenOffset (s + 1) + i * c.mNumInNodes.toNat + j]?)) ∧
      (tr'.mPrevHidWt.length = max tr.mPrevHidWt.length (net.hiddenOffset 0) ∧
        ∀ p, net.hiddenOffset 0 ≤ p → tr'.mPrevHidWt[p]? = tr.mPrevHidWt[p]?)) ∧
    (∀ (tr tr' : NNetTrainer α) (net net' : NeuralNet α) (g g' : RandState),
      tr.trainNeuralNet m net g = some (tr', net', g') →
        tr.mPrevOutWt.length ≤ tr'.mPrevOutWt.length ∧
        tr.mPrevHidWt.length ≤ tr'.mPrevHidWt.length) ∧
    (∀ tr : NNetTrainer α, tr.resetNetError.mPrevOutWt = tr.mPrevOutWt ∧
      tr.resetNetError.mPrevHidWt = tr.mPrevHidWt) ∧
    (∀ (tr : NNetTrainer α) (inVecs outVecs : List (List α)),
      (tr.addNewTrainingSet inVecs outVecs).mPrevOutWt = tr.mPrevOutWt ∧
      (tr.addNewTrainingSet inVecs outVecs).mPrevHidWt = tr.mPrevHidWt) := by
  refine ⟨fun _ _ _ _ _ => ⟨rfl, rfl⟩, ?_, ?_, fun _ => ⟨rfl, rfl⟩, fun _ _ _ => ⟨rfl, rfl⟩⟩
  · intro tr net hw hf hm index hi
    exact trainExample_momentum m tr net hw hf hm index hi
  · intro tr tr' net net' g g' h
    exact trainNeuralNet_history m tr tr' net net' g g' h

end MomentumClaim

theorem momentumTrainer_eq :
    momentumTrainer = { exampleTrainer with mMomentum := 1 / 2 } := by
  unfold momentumTrainer NNetTrainer.setMomentum
  rw [if_pos (by norm_num)]

/-- Witness for C32: the example trainer with momentum 1/2 and empty histories
processes its example twice on the example network.  The first pass stores the
plain deltas 1/2 * 72 * 6 = 216 and 1/2 * 72 * 14 = 504 for the output
connection and 1/2 * 144 * 1 = 72, 1/2 * (-144) * 1 = -72 for the hidden
connection; the second pass stores the new plain delta plus half the stored
one: 1/2 * 666216 * 294 + 1/2 * 216 = 97933860 in the first output slot and
1/2 * 289137744 * 1 + 1/2 * 72 = 144568908 in the first hidden slot. -/
theorem momentum_history_slots_witness :
    ∃ tr1 net1 tr2 net2,
      NNetTrainer.trainExample exampleLibm (momentumTrainer, exampleNet) 0 = some (tr1, net1) ∧
      NNetTrainer.trainExample exampleLibm (tr1, net1) 0 = some (tr2, net2) ∧
      tr1.mPrevOutWt = [216, 504] ∧ tr1.mPrevHidWt = [72, 72, -72, -72] ∧
      tr2.mPrevOutWt = [97933860, -91271340] ∧
      tr2.mPrevHidWt = [144568908, 144568908, 335106612, 335106612] := by
  have hmo : (0 : ℚ) < momentumTrainer.mMomentum := by
    rw [momentumTrainer_eq]
    show (0 : ℚ) < 1 / 2
    norm_num
  have hfit : momentumTrainer.Fits exampleNet := by
    rw [momentumTrainer_eq]
    exact ⟨exampleTrainer_fits.paired, exampleTrainer_fits.inputs, exampleTrainer_fits.targets⟩
  have hidx : 0 < momentumTrainer.mTrainInput.length := by
    rw [momentumTrainer_eq]
    decide
  obtain ⟨tr1, net1, h1, ⟨hw1, hf1, _, hmo1, hin1, _, _, _⟩, _⟩ :=
    (momentum_history_slots exampleLibm).2.1 momentumTrainer exampleNet exampleNet_wellFormed
      hfit hmo 0 hidx
  obtain ⟨tr2, net2, h2, _⟩ :=
    (momentum_history_slots exampleLibm).2.1 tr1 net1 hw1 hf1 (by rw [hmo1]; exact hmo) 0
      (by rw [hin1]; exact hidx)
  have e1 : (NNetTrainer.trainExample exampleLibm (momentumTrainer, exampleNet) 0).map
      (fun r => (r.1.mPrevOutWt, r.1.mPrevHidWt)) = some ([216, 504], [72, 72, -72, -72]) := by
    with_unfolding_all rfl
  have e2 : ((NNetTrainer.trainExample exampleLibm (momentumTrainer, exampleNet) 0).bind
      (fun r => NNetTrainer.trainExample exampleLibm r 0)).map
      (fun r => (r.1.mPrevOutWt, r.1.mPrevHidWt))
        = some ([97933860, -91271340], [144568908, 144568908, 335106612, 335106612]) := by
    with_unfolding_all rfl
  rw [h1] at e1 e2
  simp only [Option.some_bind] at e2
  rw [h2] at e2
  simp only [Option.map_some', Option.some.injEq, Prod.mk.injEq] at e1 e2
  exact ⟨tr1, net1, tr2, net2, h1, h2, e1.1, e1.2, e2.1, e2.2⟩
